import Mathlib

/-!
# The two-tier allocator of `alloc.h`

A shallow embedding of `lzstl::__malloc_alloc_template` (first tier, large
blocks) and `lzstl::__default_alloc_template` (second tier, free lists and
memory pool).

Conventions of the embedding.

* Addresses are natural numbers and the null pointer is `0`.  Pointer
  arithmetic (`start_free + total_bytes`, `chunk + n`) is plain addition:
  overflowing pointer arithmetic is undefined behaviour in C++.
* `size_t` arithmetic is reduced modulo `2 ^ 64` (`wrap`).
* The static members of the two class templates are the fields of
  `AllocState`.  The first word of a free block, `obj::free_list_link`, is the
  cell `link a` of the block's address `a`; cells of different addresses are
  independent.
* `std::malloc`, `std::realloc`, `std::free` and the user's out-of-memory
  handler are the environment.  The answers of the system allocator are an
  oracle `Sys`: the answer to the `i`-th allocation request (counted from 0)
  for `n` bytes is `sys i n`, and `0` is failure.  Every call into the
  environment is recorded in `AllocState.trace`.  The handler is a call-back
  that does not touch the allocator's own static members.
* `for(;;)` loops and the recursion of `chunk_alloc` take a fuel argument; fuel
  is used up only when the loop goes round again or the function calls itself.
-/

namespace lzstl

/-- The modulus of `size_t` arithmetic. -/
def SIZE_T_MOD : Nat := 2 ^ 64

/-- Reduction of a natural number to a `size_t` value. -/
def wrap (x : Nat) : Nat := x % SIZE_T_MOD

/-- The difference `a - b` of two `size_t` values, wrapping below zero. -/
def size_sub (a b : Nat) : Nat :=
  if b ≤ a then a - b else SIZE_T_MOD - (b - a)

/-- The difference `a - b` of two pointers converted to `size_t`. -/
def ptr_diff (a b : Nat) : Nat :=
  if b ≤ a then wrap (a - b) else wrap (SIZE_T_MOD - wrap (b - a))

/-- Calls into the environment, in the order in which they are made. -/
inductive Event where
  | malloc (n : Nat) (r : Nat)
  | realloc (p : Nat) (n : Nat) (r : Nat)
  | free (p : Nat)
  | handler (h : Nat)
  deriving DecidableEq, Repr

/-- The system allocator: call number and requested size to returned pointer. -/
abbrev Sys := Nat → Nat → Nat

/-- Static members of both allocator tiers, the link words and the call record. -/
structure AllocState where
  free_list : Nat → Nat
  start_free : Nat
  end_free : Nat
  heap_size : Nat
  oom_handler : Nat
  link : Nat → Nat
  trace : List Event

/-- Result of a call that may throw `std::bad_alloc` or loop. -/
inductive Outcome (α : Type) where
  | ret (v : α) (s : AllocState)
  | bad_alloc (s : AllocState)
  | out_of_fuel

/-- State in which a call ended, if it ended. -/
def Outcome.final {α : Type} : Outcome α → Option AllocState
  | Outcome.ret _ s => some s
  | Outcome.bad_alloc s => some s
  | Outcome.out_of_fuel => none

/-- Returned value of a call, if it returned. -/
def Outcome.value {α : Type} : Outcome α → Option α
  | Outcome.ret v _ => some v
  | Outcome.bad_alloc _ => none
  | Outcome.out_of_fuel => none

/-- Assignment to one cell of a map from naturals to naturals. -/
def store (f : Nat → Nat) (a v : Nat) : Nat → Nat :=
  fun x => if x = a then v else f x

/-- Whether an event is a request to the system allocator. -/
def Event.isRequest : Event → Bool
  | Event.malloc _ _ => true
  | Event.realloc _ _ _ => true
  | _ => false

/-- Whether an event is a call of the out-of-memory handler. -/
def Event.isHandler : Event → Bool
  | Event.handler _ => true
  | _ => false

/-- Number of requests made to the system allocator so far. -/
def sys_calls (t : List Event) : Nat := (t.filter Event.isRequest).length

/-- Number of calls of the out-of-memory handler so far. -/
def handler_calls (t : List Event) : Nat := (t.filter Event.isHandler).length

/-- The call `std::malloc(n)`. -/
def malloc (sys : Sys) (n : Nat) (s : AllocState) : Nat × AllocState :=
  let r := sys (sys_calls s.trace) n
  (r, { s with trace := s.trace ++ [Event.malloc n r] })

/-- The call `std::realloc(p, n)`. -/
def std_realloc (sys : Sys) (p n : Nat) (s : AllocState) : Nat × AllocState :=
  let r := sys (sys_calls s.trace) n
  (r, { s with trace := s.trace ++ [Event.realloc p n r] })

/-- The call `free(p)`. -/
def free (p : Nat) (s : AllocState) : AllocState :=
  { s with trace := s.trace ++ [Event.free p] }

/-- The call `(*my_malloc_oom_handler)()`. -/
def call_handler (h : Nat) (s : AllocState) : AllocState :=
  { s with trace := s.trace ++ [Event.handler h] }

/-- State at program start: static members zero-initialised, nothing called. -/
def initial (link0 : Nat → Nat) : AllocState :=
  { free_list := fun _ => 0
    start_free := 0
    end_free := 0
    heap_size := 0
    oom_handler := 0
    link := link0
    trace := [] }

namespace __malloc_alloc_template

/-- The loop of `oom_malloc` (alloc.h 118-142). -/
def oom_malloc (sys : Sys) : Nat → Nat → AllocState → Outcome Nat
  | fuel, n, s =>
    let my_malloc_oom_handler := s.oom_handler
    if my_malloc_oom_handler = 0 then Outcome.bad_alloc s
    else
      let s1 := call_handler my_malloc_oom_handler s
      let r := malloc sys n s1
      if r.1 ≠ 0 then Outcome.ret r.1 r.2
      else
        match fuel with
        | 0 => Outcome.out_of_fuel
        | fuel1 + 1 => oom_malloc sys fuel1 n r.2

/-- The loop of `oom_realloc` (alloc.h 144-160). -/
def oom_realloc (sys : Sys) : Nat → Nat → Nat → AllocState → Outcome Nat
  | fuel, p, n, s =>
    let my_alloc_oom_handler := s.oom_handler
    if my_alloc_oom_handler = 0 then Outcome.bad_alloc s
    else
      let s1 := call_handler my_alloc_oom_handler s
      let r := std_realloc sys p n s1
      if r.1 ≠ 0 then Outcome.ret r.1 r.2
      else
        match fuel with
        | 0 => Outcome.out_of_fuel
        | fuel1 + 1 => oom_realloc sys fuel1 p n r.2

/-- First-tier `allocate` (alloc.h 78-84). -/
def allocate (sys : Sys) (fuel : Nat) (n : Nat) (s : AllocState) : Outcome Nat :=
  let r := malloc sys n s
  if r.1 = 0 then oom_malloc sys fuel n r.2 else Outcome.ret r.1 r.2

/-- First-tier `deallocate` (alloc.h 86-92). -/
def deallocate (p : Nat) (_n : Nat) (s : AllocState) : AllocState :=
  free p s

/-- First-tier `realloc` (alloc.h 94-100). -/
def realloc (sys : Sys) (fuel : Nat) (p : Nat) (_old_sz : Nat) (new_sz : Nat)
    (s : AllocState) : Outcome Nat :=
  let r := std_realloc sys p new_sz s
  if r.1 = 0 then oom_realloc sys fuel p new_sz r.2 else Outcome.ret r.1 r.2

/-- The function `set_malloc_oom_handler` (alloc.h 105-113). -/
def set_malloc_oom_handler (f : Nat) (s : AllocState) : Nat × AllocState :=
  let old := s.oom_handler
  (old, { s with oom_handler := f })

end __malloc_alloc_template

namespace __default_alloc_template

/-- The enumerator `__ALIGN`. -/
def __ALIGN : Nat := 8

/-- The enumerator `__MAX_BYTES`. -/
def __MAX_BYTES : Nat := 128

/-- The enumerator `__NFREELISTS`. -/
def __NFREELISTS : Nat := __MAX_BYTES / __ALIGN

/-- The function `ROUND_UP` (alloc.h 174-177); `~(__ALIGN - 1)` is `2 ^ 64 - 8`. -/
def ROUND_UP (bytes : Nat) : Nat :=
  wrap (bytes + __ALIGN - 1) &&& (SIZE_T_MOD - __ALIGN)

/-- The function `FREELIST_INDEX` (alloc.h 194-197). -/
def FREELIST_INDEX (bytes : Nat) : Nat :=
  size_sub (wrap (bytes + __ALIGN - 1) / __ALIGN) 1

/-- The scan `for(i = size; i <= __MAX_BYTES; i += __ALIGN)` of `chunk_alloc`
(alloc.h 380-392): the first `i` whose free list is not empty.  The first
argument bounds the number of rounds; 17 rounds reach `i > 128` from any start. -/
def scan_free_lists (fl : Nat → Nat) : Nat → Nat → Option Nat
  | 0, _ => none
  | k + 1, i =>
    if i ≤ __MAX_BYTES then
      if fl (FREELIST_INDEX i) ≠ 0 then some i
      else scan_free_lists fl k (i + __ALIGN)
    else none

/-- The function `chunk_alloc` (alloc.h 322-401); the result is the returned
pointer together with the final value of the reference argument `nobjs`. -/
def chunk_alloc (sys : Sys) : Nat → Nat → Nat → AllocState → Outcome (Nat × Nat)
  | fuel, size, nobjs, s =>
    let total_bytes := wrap (size * nobjs)
    let bytes_left := ptr_diff s.end_free s.start_free
    if bytes_left ≥ total_bytes then
      Outcome.ret (s.start_free, nobjs) { s with start_free := s.start_free + total_bytes }
    else if bytes_left ≥ size then
      let nobjs1 := bytes_left / size
      let total_bytes1 := wrap (size * nobjs1)
      Outcome.ret (s.start_free, nobjs1) { s with start_free := s.start_free + total_bytes1 }
    else
      let bytes_to_get := wrap (2 * total_bytes + ROUND_UP (s.heap_size >>> 4))
      let s1 : AllocState :=
        if bytes_left > 0 then
          { s with
            link := store s.link s.start_free (s.free_list (FREELIST_INDEX bytes_left))
            free_list := store s.free_list (FREELIST_INDEX bytes_left) s.start_free }
        else s
      let r := malloc sys bytes_to_get s1
      let s2 : AllocState := { r.2 with start_free := r.1 }
      if r.1 = 0 then
        match scan_free_lists s2.free_list (__NFREELISTS + 1) size with
        | some i =>
          let p := s2.free_list (FREELIST_INDEX i)
          let s3 : AllocState :=
            { s2 with
              free_list := store s2.free_list (FREELIST_INDEX i) (s2.link p)
              start_free := p
              end_free := p + i }
          match fuel with
          | 0 => Outcome.out_of_fuel
          | fuel1 + 1 => chunk_alloc sys fuel1 size nobjs s3
        | none =>
          let s3 : AllocState := { s2 with end_free := 0 }
          match __malloc_alloc_template.allocate sys fuel bytes_to_get s3 with
          | Outcome.ret q s4 =>
            let s5 : AllocState :=
              { s4 with
                start_free := q
                heap_size := wrap (s4.heap_size + bytes_to_get)
                end_free := q + bytes_to_get }
            match fuel with
            | 0 => Outcome.out_of_fuel
            | fuel1 + 1 => chunk_alloc sys fuel1 size nobjs s5
          | Outcome.bad_alloc s4 => Outcome.bad_alloc s4
          | Outcome.out_of_fuel => Outcome.out_of_fuel
      else
        let s3 : AllocState :=
          { s2 with
            heap_size := wrap (s2.heap_size + bytes_to_get)
            end_free := s2.start_free + bytes_to_get }
        match fuel with
        | 0 => Outcome.out_of_fuel
        | fuel1 + 1 => chunk_alloc sys fuel1 size nobjs s3

/-- The linking loop `for(int i = 1;; ++i)` of `refill` (alloc.h 289-302).  It
ends after `nobjs - 1` rounds when `nobjs >= 2` and does not end when
`nobjs = 0`; the first argument bounds the number of rounds and is `nobjs` at
the call. -/
def link_blocks : Nat → Nat → Nat → Nat → Nat → (Nat → Nat) → Option (Nat → Nat)
  | 0, _, _, _, _, _ => none
  | k + 1, nobjs, n, i, next_obj, link =>
    let current_obj := next_obj
    let next_obj1 := next_obj + n
    if nobjs - 1 = i then some (store link current_obj 0)
    else link_blocks k nobjs n (i + 1) next_obj1 (store link current_obj next_obj1)

/-- The function `refill` (alloc.h 268-304). -/
def refill (sys : Sys) (fuel : Nat) (n : Nat) (s : AllocState) : Outcome Nat :=
  match chunk_alloc sys fuel n 20 s with
  | Outcome.ret (chunk, nobjs) s1 =>
    if nobjs = 1 then Outcome.ret chunk s1
    else
      let s2 : AllocState :=
        { s1 with free_list := store s1.free_list (FREELIST_INDEX n) (chunk + n) }
      match link_blocks nobjs nobjs n 1 (chunk + n) s2.link with
      | some l => Outcome.ret chunk { s2 with link := l }
      | none => Outcome.out_of_fuel
  | Outcome.bad_alloc s1 => Outcome.bad_alloc s1
  | Outcome.out_of_fuel => Outcome.out_of_fuel

/-- Second-tier `allocate` (alloc.h 210-239). -/
def allocate (sys : Sys) (fuel : Nat) (n : Nat) (s : AllocState) : Outcome Nat :=
  if n = 0 then Outcome.ret 0 s
  else if n > __MAX_BYTES then __malloc_alloc_template.allocate sys fuel n s
  else
    let result := s.free_list (FREELIST_INDEX n)
    if result = 0 then refill sys fuel (ROUND_UP n) s
    else
      Outcome.ret result
        { s with free_list := store s.free_list (FREELIST_INDEX n) (s.link result) }

/-- Second-tier `deallocate` (alloc.h 241-255). -/
def deallocate (p : Nat) (n : Nat) (s : AllocState) : AllocState :=
  if n = 0 then s
  else if n > __MAX_BYTES then __malloc_alloc_template.deallocate p n s
  else
    { s with
      link := store s.link p (s.free_list (FREELIST_INDEX n))
      free_list := store s.free_list (FREELIST_INDEX n) p }

/-- Second-tier `reallocate` (alloc.h 257-261). -/
def reallocate (sys : Sys) (fuel : Nat) (p : Nat) (old_sz : Nat) (new_sz : Nat)
    (s : AllocState) : Outcome Nat :=
  allocate sys fuel new_sz (deallocate p old_sz s)

/-- The loop `for (int i = 0; i < count; ++i) blocks[i] = alloc::allocate(n);`
of `test_level2_alloc` (main.cpp 59-61): the returned pointers in order. -/
def allocate_each (sys : Sys) (fuel : Nat) (n : Nat) : Nat → AllocState → Outcome (List Nat)
  | 0, s => Outcome.ret [] s
  | count + 1, s =>
    match allocate sys fuel n s with
    | Outcome.ret p s1 =>
      match allocate_each sys fuel n count s1 with
      | Outcome.ret ps s2 => Outcome.ret (p :: ps) s2
      | Outcome.bad_alloc s2 => Outcome.bad_alloc s2
      | Outcome.out_of_fuel => Outcome.out_of_fuel
    | Outcome.bad_alloc s1 => Outcome.bad_alloc s1
    | Outcome.out_of_fuel => Outcome.out_of_fuel

/-- The blocks of a free list in order, read from the head `p` along the link
words until the null link; the first argument bounds the length read. -/
def free_list_blocks (link : Nat → Nat) : Nat → Nat → List Nat
  | 0, _ => []
  | k + 1, p => if p = 0 then [] else p :: free_list_blocks link k (link p)

/-- The addresses `b, b + n, b + 2n, ...` of `count` consecutive blocks of `n`
bytes. -/
def block_run (b n : Nat) : Nat → List Nat
  | 0 => []
  | count + 1 => b :: block_run (b + n) n count

/-- State of `chunk_alloc` after the pool remainder has been put on its free
list (alloc.h 360-370). -/
def donate_remainder (s : AllocState) : AllocState :=
  if ptr_diff s.end_free s.start_free > 0 then
    { s with
      link := store s.link s.start_free
        (s.free_list (FREELIST_INDEX (ptr_diff s.end_free s.start_free)))
      free_list := store s.free_list (FREELIST_INDEX (ptr_diff s.end_free s.start_free))
        s.start_free }
  else s

/-- The growth target `bytes_to_get` of `chunk_alloc` (alloc.h 357). -/
def growth_target (size nobjs : Nat) (s : AllocState) : Nat :=
  wrap (2 * wrap (size * nobjs) + ROUND_UP (s.heap_size >>> 4))

/-- State of `chunk_alloc` after `start_free = (char*)std::malloc(bytes_to_get)`
(alloc.h 373). -/
def after_malloc (sys : Sys) (size nobjs : Nat) (s : AllocState) : AllocState :=
  { (malloc sys (growth_target size nobjs s) (donate_remainder s)).2 with
    start_free := (malloc sys (growth_target size nobjs s) (donate_remainder s)).1 }

/-- State of `chunk_alloc` after the head of the free list of block size `i`
has been made the pool (alloc.h 382-389). -/
def take_block (i : Nat) (s : AllocState) : AllocState :=
  { s with
    free_list := store s.free_list (FREELIST_INDEX i) (s.link (s.free_list (FREELIST_INDEX i)))
    start_free := s.free_list (FREELIST_INDEX i)
    end_free := s.free_list (FREELIST_INDEX i) + i }

/-- State of `chunk_alloc` after the new pool at `q` has been installed
(alloc.h 398-399). -/
def install_pool (q bytes_to_get : Nat) (s : AllocState) : AllocState :=
  { s with
    start_free := q
    heap_size := wrap (s.heap_size + bytes_to_get)
    end_free := q + bytes_to_get }

/-- The call of `chunk_alloc` to itself, `return chunk_alloc(size, nobjs)`. -/
def chunk_alloc_retry (sys : Sys) (fuel size nobjs : Nat) (s : AllocState) :
    Outcome (Nat × Nat) :=
  match fuel with
  | 0 => Outcome.out_of_fuel
  | fuel1 + 1 => chunk_alloc sys fuel1 size nobjs s

/-- The pool and `heap_size` are as the allocator leaves them: the bounds are
ordered, the bytes left and `heap_size` are multiples of 8 and `size_t`
values, and a null start goes with a null end. -/
def pool_ok (s : AllocState) : Prop :=
  s.start_free ≤ s.end_free ∧ (s.end_free - s.start_free) % 8 = 0 ∧
    s.end_free - s.start_free < 18446744073709551616 ∧
    s.heap_size % 8 = 0 ∧ s.heap_size < 18446744073709551616 ∧
    (s.start_free = 0 → s.end_free = 0)

/-- States reached from program start by calls of the public functions,
including calls that end with `bad_alloc`. -/
inductive Reachable (sys : Sys) : AllocState → Prop where
  | start (link0 : Nat → Nat) : Reachable sys (initial link0)
  | allocate (fuel n : Nat) (s s1 : AllocState) :
      Reachable sys s → (allocate sys fuel n s).final = some s1 → Reachable sys s1
  | deallocate (p n : Nat) (s : AllocState) :
      Reachable sys s → Reachable sys (deallocate p n s)
  | reallocate (fuel p old_sz new_sz : Nat) (s s1 : AllocState) :
      Reachable sys s → (reallocate sys fuel p old_sz new_sz s).final = some s1 →
        Reachable sys s1
  | set_malloc_oom_handler (f : Nat) (s : AllocState) :
      Reachable sys s → Reachable sys (__malloc_alloc_template.set_malloc_oom_handler f s).2

/-- Two byte ranges `[a, a + m)` and `[b, b + n)` have no byte in common. -/
def apart (a m b n : Nat) : Prop := a + m ≤ b ∨ b + n ≤ a

/-- The byte range `[a, a + m)` lies inside one of the regions, each given by
its base address and its length. -/
def within (a m : Nat) (regions : List (Nat × Nat)) : Prop :=
  ∃ r ∈ regions, r.1 ≤ a ∧ a + m ≤ r.1 + r.2

/-- Reading a free list: from `head` along the link words the blocks are the
addresses of the list in order, none of them null, and the last link is null. -/
def chain (link : Nat → Nat) : Nat → List Nat → Prop
  | head, [] => head = 0
  | head, a :: rest => head = a ∧ a ≠ 0 ∧ chain link (link a) rest

/-- The region, base and length, that a successful `std::malloc` handed over. -/
def event_region : Event → Option (Nat × Nat)
  | Event.malloc n r => if r = 0 then none else some (r, n)
  | _ => none

/-- The regions the system allocator handed over between the state `s` and the
later state `s1`. -/
def obtained (s s1 : AllocState) : List (Nat × Nat) :=
  (s1.trace.drop s.trace.length).filterMap event_region

/-- Bookkeeping of a run, not part of the program: `held` lists the small
blocks that callers have been given and have not given back, each with the
index of its free list; `owned` lists the regions that the memory pool has
obtained from the system allocator, each with its base and length. -/
structure Ledger where
  held : List (Nat × Nat)
  owned : List (Nat × Nat)

/-- The ledger after `allocate(n)` has returned `p`, the call having led from
`s` to `s1`: a small block is held by the caller, and what the system handed
over during a small request went to the pool. -/
def Ledger.after_allocate (g : Ledger) (n p : Nat) (s s1 : AllocState) : Ledger :=
  if 1 ≤ n ∧ n ≤ __MAX_BYTES then
    { held := (p, FREELIST_INDEX n) :: g.held, owned := obtained s s1 ++ g.owned }
  else g

/-- The ledger after `deallocate(p, n)`: a small block is no longer held. -/
def Ledger.after_deallocate (g : Ledger) (p n : Nat) : Ledger :=
  if 1 ≤ n ∧ n ≤ __MAX_BYTES then { g with held := g.held.erase (p, FREELIST_INDEX n) }
  else g

/-- The precondition of `deallocate(p, n)` for a small block: `p` is held and
came from an `allocate` of the same free list. -/
def may_deallocate (g : Ledger) (p n : Nat) : Prop :=
  1 ≤ n → n ≤ __MAX_BYTES → (p, FREELIST_INDEX n) ∈ g.held

/-- What is assumed of the system allocator at a small request that led from
`s` to `s1`: a region it handed over overlaps no region the pool already
owns. -/
def fresh_growth (n : Nat) (s s1 : AllocState) (g : Ledger) : Prop :=
  1 ≤ n → n ≤ __MAX_BYTES →
    ∀ r ∈ obtained s s1, ∀ r1 ∈ g.owned, apart r.1 r.2 r1.1 r1.2

/-- States reached from program start by calls of the public functions that
respect the precondition of `deallocate`, with the ledger of the run.
`reallocate` is `deallocate` followed by `allocate`. -/
inductive Run (sys : Sys) : AllocState → Ledger → Prop where
  | start (link0 : Nat → Nat) : Run sys (initial link0) ⟨[], []⟩
  | allocate_returns (fuel n p : Nat) (s s1 : AllocState) (g : Ledger) :
      Run sys s g → allocate sys fuel n s = Outcome.ret p s1 → fresh_growth n s s1 g →
        Run sys s1 (g.after_allocate n p s s1)
  | allocate_throws (fuel n : Nat) (s s1 : AllocState) (g : Ledger) :
      Run sys s g → allocate sys fuel n s = Outcome.bad_alloc s1 → Run sys s1 g
  | deallocate (p n : Nat) (s : AllocState) (g : Ledger) :
      Run sys s g → may_deallocate g p n →
        Run sys (deallocate p n s) (g.after_deallocate p n)
  | reallocate_returns (fuel p old_sz new_sz q : Nat) (s s1 : AllocState) (g : Ledger) :
      Run sys s g → may_deallocate g p old_sz →
        reallocate sys fuel p old_sz new_sz s = Outcome.ret q s1 →
        fresh_growth new_sz (deallocate p old_sz s) s1 (g.after_deallocate p old_sz) →
        Run sys s1
          ((g.after_deallocate p old_sz).after_allocate new_sz q (deallocate p old_sz s) s1)
  | reallocate_throws (fuel p old_sz new_sz : Nat) (s s1 : AllocState) (g : Ledger) :
      Run sys s g → may_deallocate g p old_sz →
        reallocate sys fuel p old_sz new_sz s = Outcome.bad_alloc s1 →
        Run sys s1 (g.after_deallocate p old_sz)
  | set_malloc_oom_handler (f : Nat) (s : AllocState) (g : Ledger) :
      Run sys s g → Run sys (__malloc_alloc_template.set_malloc_oom_handler f s).2 g

/-- The pieces of small-block memory at one moment: the blocks of the 16 free
lists, the blocks held by callers, and the pool range `[lo, hi)`. -/
structure Layout where
  lists : Nat → List Nat
  held : List (Nat × Nat)
  lo : Nat
  hi : Nat

/-- One piece of a layout: a block at address `a` on free list `c`, a block at
`a` of list `c` held by a caller, or the pool. -/
inductive Piece where
  | free (a c : Nat)
  | held (a c : Nat)
  | pool
  deriving DecidableEq

/-- Whether a piece occurs in a layout; the pool counts when it is not empty. -/
def Layout.present (L : Layout) : Piece → Prop
  | Piece.free a c => c < 16 ∧ a ∈ L.lists c
  | Piece.held a c => (a, c) ∈ L.held
  | Piece.pool => L.lo < L.hi

/-- First byte of a piece. -/
def Layout.addr (L : Layout) : Piece → Nat
  | Piece.free a _ => a
  | Piece.held a _ => a
  | Piece.pool => L.lo

/-- Number of bytes of a piece: `(c + 1) * 8` for a block of list `c`. -/
def Layout.len (L : Layout) : Piece → Nat
  | Piece.free _ c => (c + 1) * 8
  | Piece.held _ c => (c + 1) * 8
  | Piece.pool => L.hi - L.lo

/-- Every piece lies inside an owned region and no two pieces overlap. -/
def Layout.separate (L : Layout) (owned : List (Nat × Nat)) : Prop :=
  (∀ x, L.present x → within (L.addr x) (L.len x) owned) ∧
  (∀ x y, L.present x → L.present y → x ≠ y →
    apart (L.addr x) (L.len x) (L.addr y) (L.len y))

/-- The free lists read as the lists of the layout, no block is twice on a
list or twice held, held blocks belong to one of the 16 lists, no owned
region starts at null, and the pieces are separate. -/
def wellformed (link heads : Nat → Nat) (L : Layout) (owned : List (Nat × Nat)) : Prop :=
  (∀ c, c < 16 → chain link (heads c) (L.lists c)) ∧
  (∀ c, c < 16 → (L.lists c).Nodup) ∧
  (∀ x ∈ L.held, x.2 < 16) ∧ L.held.Nodup ∧
  (∀ r ∈ owned, r.1 ≠ 0) ∧ L.lo ≤ L.hi ∧ L.separate owned

/-- The invariant of a run: the pool is well formed and the state has a
well-formed layout with the held blocks and owned regions of the ledger. -/
def separated (s : AllocState) (g : Ledger) : Prop :=
  pool_ok s ∧
    ∃ lists, wellformed s.link s.free_list ⟨lists, g.held, s.start_free, s.end_free⟩ g.owned

/-- Bytes of the blocks on the free lists `0 .. k - 1`, a block of list `c`
counting its `(c + 1) * 8` bytes. -/
def free_bytes (lists : Nat → List Nat) : Nat → Nat
  | 0 => 0
  | k + 1 => free_bytes lists k + (lists k).length * ((k + 1) * 8)

/-- Bytes of the blocks held by callers, a block of list `c` counting its
`(c + 1) * 8` bytes, which is `ROUND_UP(n)` for the request `n` it answered. -/
def held_bytes (held : List (Nat × Nat)) : Nat :=
  (held.map (fun x => (x.2 + 1) * 8)).sum

/-- Bytes of the regions the pool has obtained from the system allocator. -/
def region_bytes (owned : List (Nat × Nat)) : Nat :=
  (owned.map (fun r => r.2)).sum

/-- Bytes of a layout: the bytes left in the pool, the blocks of the 16 free
lists and the blocks held by callers. -/
def Layout.bytes (L : Layout) : Nat :=
  (L.hi - L.lo) + free_bytes L.lists 16 + held_bytes L.held

/-- A well-formed layout whose pieces add up to the bytes of the owned
regions. -/
def accounted (link heads : Nat → Nat) (L : Layout) (owned : List (Nat × Nat)) : Prop :=
  wellformed link heads L owned ∧ L.bytes = region_bytes owned

/-- No two of the regions share a byte. -/
def disjoint_regions (owned : List (Nat × Nat)) : Prop :=
  owned.Pairwise (fun r r1 => apart r.1 r.2 r1.1 r1.2)

/-- The byte-conservation invariant of a run: the pool is well formed,
`heap_size` is the `size_t` value of the bytes obtained from the system
allocator, the regions obtained do not overlap, and the state has a
well-formed layout, with the held blocks and owned regions of the ledger,
whose pieces add up to the bytes obtained. -/
def conserved (s : AllocState) (g : Ledger) : Prop :=
  pool_ok s ∧ s.heap_size = wrap (region_bytes g.owned) ∧ disjoint_regions g.owned ∧
    ∃ lists, accounted s.link s.free_list ⟨lists, g.held, s.start_free, s.end_free⟩ g.owned

end __default_alloc_template

/-- State in which a call ended, or the given state if it did not end. -/
def Outcome.finalD {α : Type} (o : Outcome α) (d : AllocState) : AllocState :=
  o.final.getD d

/-- A system allocator that fails its first `k` calls and then answers `p`. -/
def fails_then (k p : Nat) : Sys := fun i _ => if i < k then 0 else p

/-- The initial state with all link words zero. -/
def state0 : AllocState := initial (fun _ => 0)

/-- The initial state after `set_malloc_oom_handler` has registered handler 7. -/
def state0_handler : AllocState :=
  (__malloc_alloc_template.set_malloc_oom_handler 7 state0).2

/-- A system allocator that never fails and answers the `i`-th request with
the address `4096 * (i + 1)`. -/
def fresh_sys : Sys := fun i _ => 4096 * (i + 1)

/-- The state after `allocate(8)` in the initial state: 19 blocks on the free
list of class 0 and 160 bytes in the pool. -/
def state_after_8 : AllocState := (__default_alloc_template.allocate fresh_sys 1 8 state0).finalD state0

/-- The state after `allocate(8); allocate(128)`: the pool holds 32 bytes. -/
def state_pool_32 : AllocState :=
  (__default_alloc_template.allocate fresh_sys 1 128 state_after_8).finalD state0

/-- The free-list bank, the pool bounds and `heap_size` of two states agree. -/
def same_bank (s s1 : AllocState) : Prop :=
  s1.free_list = s.free_list ∧ s1.start_free = s.start_free ∧
    s1.end_free = s.end_free ∧ s1.heap_size = s.heap_size

/-- Whether an event is a call of `std::realloc`. -/
def Event.isRealloc : Event → Bool
  | Event.realloc _ _ _ => true
  | _ => false

/-- The small-block `reallocate` as the specification words it:
`deallocate(ptr, old_n)` followed by `allocate(new_n)`. -/
def reallocate_as_specified (sys : Sys) (fuel : Nat) (p old_n new_n : Nat) (s : AllocState) :
    Outcome Nat :=
  let after_deallocate := __default_alloc_template.deallocate p old_n s
  __default_alloc_template.allocate sys fuel new_n after_deallocate

/-- The state after `allocate(200)` in the initial state, which returns 4096. -/
def state_large_200 : AllocState :=
  (__default_alloc_template.allocate fresh_sys 0 200 state0).finalD state0

/-- The state in which a small request `n` cannot be served without a handler:
its free list is empty, the pool holds fewer than `ROUND_UP(n)` bytes, every
free list of block size `ROUND_UP(n)..128` is empty, and the system allocator
fails both the pool's own growth request and the same request delegated to the
first tier. -/
def exhausted (sys : Sys) (n : Nat) (s : AllocState) : Prop :=
  s.free_list (__default_alloc_template.FREELIST_INDEX n) = 0 ∧
  ptr_diff s.end_free s.start_free < __default_alloc_template.ROUND_UP n ∧
  (∀ j, __default_alloc_template.ROUND_UP n ≤ j → j ≤ 128 →
    s.free_list (__default_alloc_template.FREELIST_INDEX j) = 0) ∧
  sys (sys_calls s.trace)
    (__default_alloc_template.growth_target (__default_alloc_template.ROUND_UP n) 20 s) = 0 ∧
  sys (sys_calls s.trace + 1)
    (__default_alloc_template.growth_target (__default_alloc_template.ROUND_UP n) 20 s) = 0

/-- The ledger after `allocate(8)` in the initial state: the caller holds the
block at 4096 of free list 0, and the pool owns the 320 bytes at 4096. -/
def ledger_after_8 : __default_alloc_template.Ledger :=
  { held := [(4096, 0)], owned := [(4096, 320)] }

/-- The state after `allocate(16); allocate(128); allocate(64)` from the
initial state: the pool is empty, the free list of block size 16 holds 19
blocks from 4112 on and that of block size 128 holds the block 4544. -/
def state_pool_0 : AllocState :=
  (__default_alloc_template.allocate fresh_sys 0 64
    ((__default_alloc_template.allocate fresh_sys 0 128
      ((__default_alloc_template.allocate fresh_sys 1 16 state0).finalD state0)).finalD
        state0)).finalD state0

/-- The state after `allocate(8); allocate(8)` from the initial state, which
returned 4096 and 4104. -/
def state_two_held : AllocState :=
  (__default_alloc_template.allocate fresh_sys 0 8 state_after_8).finalD state0

/-- The ledger after `allocate(8); allocate(8)` in the initial state. -/
def ledger_two_held : __default_alloc_template.Ledger :=
  { held := [(4104, 0), (4096, 0)], owned := [(4096, 320)] }

/-- A system allocator that answers its first request with the address 4096
and fails every later one. -/
def answers_once : Sys := fun i _ => if i = 0 then 4096 else 0

/-!
## The copy into uninitialised memory of `uninitialized.h`

Conventions of the embedding.

* Memory is a function from addresses to cells of a type `B`.  An object of a
  type `T` lies in `sizeof(T)` consecutive cells; how it does is the
  `ObjectRepr` of `T`.  With bytes as cells this is the object representation
  of C++; with `B = T` and one object per cell (`slot_repr`) a cell is an
  element slot.
* `uninitialized_copy` is a template over two iterator types.  An iterator is
  its position in its sequence: `++it` is `it + 1`, `first != last` compares
  positions, `distance(first, last)` is the number `last - first` of steps for
  both iterator categories (iterator.h 96-123), and `result + n` is the
  position `n` steps on.  What differs between iterator types is where the
  element of a position lies: `&*it` is the address map of the iterator type,
  applied to the position.  For a pointer into an array the address map is
  linear with step `sizeof(T)`, and with one object per cell a pointer is its
  own address (`id`); for the iterator of a linked structure it is any map.
* `type_traits<T>::is_POD_type` is the class `type_traits`.
* `construct(&*cur, *first)` builds an object of the destination's value type
  from a value of the source's: the conversion is the parameter `convert`.
* Copying, assigning and destroying a value does not throw.

## The dynamic array of `vector.h`

Conventions of the embedding.

* An iterator `T*` is the number of an element slot; `p + 1` is the next slot
  and the null pointer is `0`.  The contents of the slots are `vector.mem`.
  Slots never written hold whatever `mem` holds there.
* The allocator `Alloc` is the template parameter of `vector`:
  `alloc.allocate i bytes` is the answer to the `i`-th call
  `_alloc.allocate(bytes)` (counted from 0), the first slot of the new buffer,
  or `none` when the call throws `bad_alloc`; `alloc.deallocate p bytes mem`
  is the content of the slots after `_alloc.deallocate(p, bytes)` when it was
  `mem` before, since an allocator may write into a block that it is given
  back, as the second tier does with the link word (alloc.h 252).  Every call
  to the allocator is recorded in `vector.calls`.
* A parameter `const value_type& value` is a `Ref`: it is bound either to an
  object that is no element slot and that the call does not change, or to an
  element slot, and its value is the content of that slot at the moment the
  code reads it.
* `sizeof(value_type)` is the parameter `elem_bytes`.
* Destroying a value of `T` leaves the slot contents alone.
-/

/-- The flag `type_traits<T>::is_POD_type::value` (type_traits.h 50-58). -/
class type_traits (T : Type) where
  is_POD_type : Bool

/-- The specialisation `type_traits<int>` (type_traits.h): `int` is POD. -/
instance type_traits_int : type_traits Int := ⟨true⟩

/-- The specialisations `type_traits<unsigned int>` and
`type_traits<unsigned long>` (type_traits.h 132-161): both are POD. -/
instance type_traits_unsigned : type_traits Nat := ⟨true⟩

/-- How the values of a type `T` lie in memory cells of type `B`: the number
`sizeof(T)` of cells of one object, the content of the `i`-th cell of a value,
and the value that the cells `0 .. sizeof(T) - 1` hold. -/
structure ObjectRepr (B T : Type) where
  sizeof : Nat
  cells : T → Nat → B
  value : (Nat → B) → T

/-- One object per cell: the cells are the element slots themselves. -/
def slot_repr (T : Type) : ObjectRepr T T :=
  { sizeof := 1, cells := fun x _ => x, value := fun f => f 0 }

/-- The value `*p` of the object of type `T` at the address `p`. -/
def deref {B T : Type} (r : ObjectRepr B T) (mem : Nat → B) (p : Nat) : T :=
  r.value (fun i => mem (p + i))

/-- The function `construct(ptr, value)` (construct.h 13-18), the placement
`new (ptr) T(value)`: the object at `ptr` gets the cells of `value`. -/
def construct {B T : Type} (r : ObjectRepr B T) (ptr : Nat) (value : T) (mem : Nat → B) :
    Nat → B :=
  fun a => if ptr ≤ a ∧ a < ptr + r.sizeof then r.cells value (a - ptr) else mem a

/-- The assignment `*p = value` to an element slot, also the placement
`new (p) T(value)` of `construct` (construct.h 13-18) with one object per
cell. -/
def assign {T : Type} (mem : Nat → T) (p : Nat) (value : T) : Nat → T :=
  fun x => if x = p then value else mem x

/-- The call `std::memcpy(result, first, n)`: the `n` cells from the address
`first` on are copied to the cells from the address `result` on. -/
def memcpy {T : Type} (result first n : Nat) (mem : Nat → T) : Nat → T :=
  fun x => if result ≤ x ∧ x < result + n then mem (first + (x - result)) else mem x

/-- The loop of `__uninitialized_copy` (uninitialized.h 51-67),
`for(; first != last; ++first, ++cur) construct(&*cur, *first);`, with the
number of rounds `last - first` as first argument; `src` and `dst` are the
address maps of the two iterator types, `rs` and `rd` the representations of
their value types.  The result is the memory and the final `cur`. -/
def __uninitialized_copy {B S D : Type} (src dst : Nat → Nat) (rs : ObjectRepr B S)
    (rd : ObjectRepr B D) (convert : S → D) :
    Nat → Nat → Nat → (Nat → B) → (Nat → B) × Nat
  | 0, _, cur, mem => (mem, cur)
  | n + 1, first, cur, mem =>
    __uninitialized_copy src dst rs rd convert n (first + 1) (cur + 1)
      (construct rd (dst cur) (convert (deref rs mem (src first))) mem)

/-- The function template `uninitialized_copy` (uninitialized.h 33-49) for a
source iterator type with address map `src` and value type `S` and a
destination iterator type with address map `dst` and value type `D`.  The
branch is chosen by `type_traits` of the source's value type; the POD branch
copies `n * sizeof(S)` cells from `&*first` to `&*result`. -/
def uninitialized_copy {B S D : Type} [type_traits S] (src dst : Nat → Nat)
    (rs : ObjectRepr B S) (rd : ObjectRepr B D) (convert : S → D)
    (first last result : Nat) (mem : Nat → B) : (Nat → B) × Nat :=
  if type_traits.is_POD_type S then
    let n := last - first
    (memcpy (dst result) (src first) (wrap (n * rs.sizeof)) mem, result + n)
  else
    __uninitialized_copy src dst rs rd convert (last - first) first result mem

/-- Calls of a vector to its allocator. -/
inductive AllocCall where
  | allocate (bytes : Nat) (p : Nat)
  | allocate_throws (bytes : Nat)
  | deallocate (p : Nat) (bytes : Nat)
  deriving DecidableEq, Repr

/-- The allocator of a vector.  `allocate`: call number and byte count to the
first slot of the new buffer, or `none` for `bad_alloc`.  `deallocate`: the
block given back, the byte count passed and the slot contents before the call
to the slot contents after it. -/
structure Alloc (T : Type) where
  allocate : Nat → Nat → Option Nat
  deallocate : Nat → Nat → (Nat → T) → (Nat → T)

/-- An argument passed as `const value_type&`: a reference to an object that is
no element slot, given by its value, or a reference to the element slot `p`. -/
inductive Ref (T : Type) where
  | object (x : T)
  | slot (p : Nat)

/-- The value read through a reference when the slots hold `mem`. -/
def Ref.read {T : Type} (value : Ref T) (mem : Nat → T) : T :=
  match value with
  | Ref.object x => x
  | Ref.slot p => mem p

/-- Whether a recorded call is a call of `allocate`. -/
def AllocCall.isAllocate : AllocCall → Bool
  | AllocCall.allocate _ _ => true
  | AllocCall.allocate_throws _ => true
  | AllocCall.deallocate _ _ => false

/-- Number of calls of `allocate` so far. -/
def allocate_calls (calls : List AllocCall) : Nat := (calls.filter AllocCall.isAllocate).length

/-- The class template `vector<T, Alloc>` (vector.h 13-30): its three pointers,
the element slots and the record of allocator calls. -/
structure vector (T : Type) where
  _start : Nat
  _finish : Nat
  _end_of_storage : Nat
  mem : Nat → T
  calls : List AllocCall

/-- Result of a member function that may throw `bad_alloc`. -/
inductive Thrown (T : Type) (α : Type) where
  | ok (a : α) (v : vector T)
  | bad_alloc (v : vector T)

namespace vector

variable {T : Type}

/-- The default constructor `vector()` (vector.h 103). -/
def empty (mem : Nat → T) : vector T :=
  { _start := 0, _finish := 0, _end_of_storage := 0, mem := mem, calls := [] }

/-- The function `begin()` (vector.h 171). -/
def begin (v : vector T) : Nat := v._start

/-- The function `size()` (vector.h 177). -/
def size (v : vector T) : Nat := v._finish - v._start

/-- The function `capacity()` (vector.h 178). -/
def capacity (v : vector T) : Nat := v._end_of_storage - v._start

/-- The elements `begin()[0], ..., begin()[size() - 1]`. -/
def elements (v : vector T) : List T :=
  (List.range v.size).map (fun i => v.mem (v._start + i))

/-- The call `_alloc.allocate(bytes)`. -/
def allocate (alloc : Alloc T) (bytes : Nat) (v : vector T) : Thrown T Nat :=
  match alloc.allocate (allocate_calls v.calls) bytes with
  | some p => Thrown.ok p { v with calls := v.calls ++ [AllocCall.allocate bytes p] }
  | none => Thrown.bad_alloc { v with calls := v.calls ++ [AllocCall.allocate_throws bytes] }

/-- The function `_destroy_and_deallocate` (vector.h 50-57). -/
def _destroy_and_deallocate (alloc : Alloc T) (elem_bytes : Nat) (first last : Nat)
    (v : vector T) : vector T :=
  if first ≠ last then
    { v with
      mem := alloc.deallocate first (wrap ((last - first) * elem_bytes)) v.mem
      calls := v.calls ++ [AllocCall.deallocate first (wrap ((last - first) * elem_bytes))] }
  else v

/-- The function `_reallocate` (vector.h 60-86); its `uninitialized_copy` is
the instance for two pointers `T*`. -/
def _reallocate [type_traits T] (alloc : Alloc T) (elem_bytes : Nat) (new_capacity : Nat)
    (v : vector T) : Thrown T Unit :=
  if new_capacity ≤ v.capacity then Thrown.ok () v
  else
    match allocate alloc (wrap (new_capacity * elem_bytes)) v with
    | Thrown.bad_alloc v1 => Thrown.bad_alloc v1
    | Thrown.ok new_start v1 =>
      let copied := uninitialized_copy id id (slot_repr T) (slot_repr T) id
        v1._start v1._finish new_start v1.mem
      let new_finish := copied.2
      let v2 := _destroy_and_deallocate alloc elem_bytes v1._start v1._finish
        { v1 with mem := copied.1 }
      Thrown.ok ()
        { v2 with
          _start := new_start
          _finish := new_finish
          _end_of_storage := new_start + new_capacity }

/-- The function `_ensure_capacity` (vector.h 89-98). -/
def _ensure_capacity [type_traits T] (alloc : Alloc T) (elem_bytes : Nat) (n : Nat)
    (v : vector T) : Thrown T Unit :=
  if n > v.capacity then
    let new_cap := if v.capacity = 0 then 1 else wrap (v.capacity * 2)
    let new_cap1 := if new_cap < n then n else new_cap
    _reallocate alloc elem_bytes new_cap1 v
  else Thrown.ok () v

/-- The function `reserve` (vector.h 182-186). -/
def reserve [type_traits T] (alloc : Alloc T) (elem_bytes : Nat) (n : Nat) (v : vector T) :
    Thrown T Unit :=
  if n > v.capacity then _reallocate alloc elem_bytes n v else Thrown.ok () v

/-- The function `clear` (vector.h 206-210). -/
def clear (v : vector T) : vector T := { v with _finish := v._start }

/-- The function `push_back` (vector.h 228-234); `value` is read by
`construct(_finish, value)`, after `_ensure_capacity`. -/
def push_back [type_traits T] (alloc : Alloc T) (elem_bytes : Nat) (value : Ref T)
    (v : vector T) : Thrown T Unit :=
  match (if v._finish = v._end_of_storage then
      _ensure_capacity alloc elem_bytes (wrap (v.size + 1)) v else Thrown.ok () v) with
  | Thrown.bad_alloc v1 => Thrown.bad_alloc v1
  | Thrown.ok _ v1 =>
    Thrown.ok ()
      { v1 with mem := assign v1.mem v1._finish (value.read v1.mem), _finish := v1._finish + 1 }

/-- The function `pop_back` (vector.h 236-243). -/
def pop_back (v : vector T) : vector T :=
  if v._start ≠ v._finish then { v with _finish := v._finish - 1 } else v

/-- The loop `while(cur > pos) { *cur = *(cur - 1); --cur; }` of `insert`
(vector.h 261-265), by recursion on `cur`. -/
def insert_shift (pos : Nat) : Nat → (Nat → T) → (Nat → T)
  | 0, mem => mem
  | cur + 1, mem =>
    if cur + 1 > pos then insert_shift pos cur (assign mem (cur + 1) (mem cur)) else mem

/-- The function `insert(pos, value)` (vector.h 246-269); `value` is read by
`*pos = value`, after the elements have been moved. -/
def insert [type_traits T] (alloc : Alloc T) (elem_bytes : Nat) (pos : Nat) (value : Ref T)
    (v : vector T) : Thrown T Nat :=
  let idx := pos - v._start
  match (if v._finish = v._end_of_storage then
      _ensure_capacity alloc elem_bytes (wrap (v.size + 1)) v else Thrown.ok () v) with
  | Thrown.bad_alloc v1 => Thrown.bad_alloc v1
  | Thrown.ok _ v1 =>
    let pos1 := if v._finish = v._end_of_storage then v1._start + idx else pos
    let mem1 :=
      if v1._finish ≠ v1._start then assign v1.mem v1._finish (v1.mem (v1._finish - 1))
      else v1.mem
    let cur := v1._finish - 1
    let mem2 := insert_shift pos1 cur mem1
    Thrown.ok pos1
      { v1 with mem := assign mem2 pos1 (value.read mem2), _finish := v1._finish + 1 }

/-- The loop `while(cur + 1 != _finish) { *cur = *(cur + 1); ++cur; }` of
`erase` (vector.h 336-340); `none` when it has not ended within the fuel. -/
def erase_shift (finish : Nat) : Nat → Nat → (Nat → T) → Option (Nat → T)
  | fuel, cur, mem =>
    if cur + 1 ≠ finish then
      match fuel with
      | 0 => none
      | fuel1 + 1 => erase_shift finish fuel1 (cur + 1) (assign mem cur (mem (cur + 1)))
    else some mem

/-- The function `erase(pos)` (vector.h 331-345); `none` when its loop has not
ended within the fuel. -/
def erase (fuel : Nat) (pos : Nat) (v : vector T) : Option (Nat × vector T) :=
  match (if pos + 1 ≠ v._finish then erase_shift v._finish fuel pos v.mem else some v.mem) with
  | none => none
  | some mem1 => some (pos, { v with mem := mem1, _finish := v._finish - 1 })

/-- A vector as the member functions leave it: the three pointers in order
and `size_t` values, and either all null or none. -/
def valid (v : vector T) : Prop :=
  v._start ≤ v._finish ∧ v._finish ≤ v._end_of_storage ∧
    v._end_of_storage < 18446744073709551616 ∧ (v._start = 0 → v._end_of_storage = 0)

end vector

/-- An allocator for vectors of `int` that answers the `i`-th request with the
slot `1000 * (i + 1)` and leaves the slots of a block given back as they
are. -/
def fresh_alloc : Alloc Int :=
  { allocate := fun i _ => some (1000 * (i + 1)), deallocate := fun _ _ mem => mem }

/-- The vector after a member function has returned or thrown. -/
def Thrown.after {T α : Type} : Thrown T α → vector T
  | Thrown.ok _ v => v
  | Thrown.bad_alloc v => v

/-- The vector of `test_vector` (main.cpp 258-263) after `push_back(1)`,
`push_back(2)`, `push_back(3)` on a default-constructed vector of `int`. -/
def vec_1_2_3 : vector Int :=
  (vector.push_back fresh_alloc 4 (Ref.object 3)
    (vector.push_back fresh_alloc 4 (Ref.object 2)
      (vector.push_back fresh_alloc 4 (Ref.object 1)
        (vector.empty (fun _ => 0))).after).after).after

/-- The vector of `test_vector` after `insert(begin() + 1, 10)` (main.cpp 268). -/
def vec_1_10_2_3 : vector Int :=
  (vector.insert fresh_alloc 4 (vec_1_2_3.begin + 1) (Ref.object 10) vec_1_2_3).after

/-- The address map of a pointer into an array of objects of `s` cells, and of
every iterator type whose elements lie one after the other: the element `n`
steps on lies `n * s` cells further. -/
def contiguous (addr : Nat → Nat) (s : Nat) : Prop :=
  ∀ it n, addr (it + n) = addr it + n * s

/-- The value of an object depends on its own cells only. -/
def ObjectRepr.own_cells {B T : Type} (r : ObjectRepr B T) : Prop :=
  ∀ f g : Nat → B, (∀ c, c < r.sizeof → f c = g c) → r.value f = r.value g

/-- The cells of a value hold that value. -/
def ObjectRepr.faithful {B T : Type} (r : ObjectRepr B T) : Prop :=
  ∀ (x : T) (f : Nat → B), (∀ c, c < r.sizeof → f c = r.cells x c) → r.value f = x

/-- One single-element insertion, the returned iterator dropped: `push_back(x)`
when no index is given, `insert(begin() + k, x)` for the index `k`. -/
def vector.single_insertion {T : Type} [type_traits T] (alloc : Alloc T) (elem_bytes : Nat)
    (at_index : Option Nat) (x : Ref T) (v : vector T) : Thrown T Unit :=
  match at_index with
  | none => vector.push_back alloc elem_bytes x v
  | some k =>
    match vector.insert alloc elem_bytes (v.begin + k) x v with
    | Thrown.ok _ v1 => Thrown.ok () v1
    | Thrown.bad_alloc v1 => Thrown.bad_alloc v1

/-- The destructor `~vector()` (vector.h 135-138). -/
def vector.destructor {T : Type} (alloc : Alloc T) (elem_bytes : Nat) (v : vector T) :
    vector T :=
  vector._destroy_and_deallocate alloc elem_bytes v._start v._finish v

/-- The vector of `test_vector` after `erase(begin() + 2)` (main.cpp 276):
`[1, 10, 3]` in the buffer of four elements at slot 3000. -/
def vec_1_10_3 : vector Int :=
  ((vector.erase 1 (vec_1_10_2_3.begin + 2) vec_1_10_2_3).map (fun r => r.2)).getD
    vec_1_10_2_3

end lzstl

namespace lzstl
open __default_alloc_template

theorem SIZE_T_MOD_eq : SIZE_T_MOD = 18446744073709551616 := by
  unfold SIZE_T_MOD; norm_num

theorem wrap_of_lt {x : Nat} (h : x < 18446744073709551616) : wrap x = x := by
  unfold wrap; rw [SIZE_T_MOD_eq]; exact Nat.mod_eq_of_lt h

theorem wrap_lt (x : Nat) : wrap x < 18446744073709551616 := by
  unfold wrap; rw [SIZE_T_MOD_eq]; exact Nat.mod_lt _ (by norm_num)

theorem FREELIST_INDEX_eq {n : Nat} (h1 : 1 ≤ n) (h2 : n + 7 < 18446744073709551616) :
    FREELIST_INDEX n = (n + 7) / 8 - 1 := by
  unfold FREELIST_INDEX size_sub wrap __ALIGN
  rw [SIZE_T_MOD_eq]
  split <;> omega

theorem land_mask_eq (x : Nat) (h : x < 18446744073709551616) :
    x &&& 18446744073709551608 = x / 8 * 8 := by
  apply Nat.eq_of_testBit_eq
  intro i
  have hm : (18446744073709551608 : Nat) = (2 ^ 61 - 1) * 2 ^ 3 := by norm_num
  have hx : x / 8 * 8 = (x / 2 ^ 3) * 2 ^ 3 := by norm_num
  rw [Nat.testBit_land, hm, hx, Nat.mul_comm _ (2 ^ 3), Nat.mul_comm _ (2 ^ 3)]
  rw [Nat.testBit_mul_pow_two, Nat.testBit_mul_pow_two, Nat.testBit_two_pow_sub_one]
  by_cases h3 : 3 ≤ i
  · simp only [h3, decide_True, Bool.true_and]
    rw [← Nat.shiftRight_eq_div_pow, Nat.testBit_shiftRight]
    have e : 3 + (i - 3) = i := by omega
    rw [e]
    by_cases h61 : i - 3 < 61
    · simp [h61]
    · simp only [h61, decide_False, Bool.and_false]
      have : x < 2 ^ i := by
        have : (2:Nat) ^ 64 ≤ 2 ^ i := Nat.pow_le_pow_right (by norm_num) (by omega)
        omega
      exact (Nat.testBit_lt_two_pow this).symm
  · simp [h3]

theorem ROUND_UP_eq {n : Nat} (h : n + 7 < 18446744073709551616) :
    ROUND_UP n = (n + 7) / 8 * 8 := by
  unfold ROUND_UP __ALIGN
  have e1 : wrap (n + 8 - 1) = n + 7 := by
    rw [show n + 8 - 1 = n + 7 by omega]; exact wrap_of_lt h
  rw [e1, SIZE_T_MOD_eq]
  exact land_mask_eq _ h

theorem ceil_div_eight (n : Nat) : ⌈(n : ℚ) / 8⌉₊ = (n + 7) / 8 := by
  apply le_antisymm
  · apply Nat.ceil_le.mpr
    have h : n ≤ 8 * ((n + 7) / 8) := by omega
    have h' : (n : ℚ) ≤ 8 * (((n + 7) / 8 : ℕ) : ℚ) := by exact_mod_cast h
    linarith
  · have h := Nat.le_ceil ((n : ℚ) / 8)
    have h' : (n : ℚ) ≤ 8 * (⌈(n : ℚ) / 8⌉₊ : ℚ) := by linarith
    have h'' : n ≤ 8 * ⌈(n : ℚ) / 8⌉₊ := by exact_mod_cast h'
    omega

theorem sys_calls_malloc (t : List Event) (n r : Nat) :
    sys_calls (t ++ [Event.malloc n r]) = sys_calls t + 1 := by
  simp [sys_calls, Event.isRequest]

theorem sys_calls_handler (t : List Event) (h : Nat) :
    sys_calls (t ++ [Event.handler h]) = sys_calls t := by
  simp [sys_calls, Event.isRequest]

theorem handler_calls_malloc (t : List Event) (n r : Nat) :
    handler_calls (t ++ [Event.malloc n r]) = handler_calls t := by
  simp [handler_calls, Event.isHandler]

theorem handler_calls_handler (t : List Event) (h : Nat) :
    handler_calls (t ++ [Event.handler h]) = handler_calls t + 1 := by
  simp [handler_calls, Event.isHandler]

theorem store_same (f : Nat → Nat) (a v : Nat) : store f a v a = v := by
  simp [store]

theorem store_other (f : Nat → Nat) (a v x : Nat) (h : x ≠ a) : store f a v x = f x := by
  simp [store, h]

theorem store_store_old (f : Nat → Nat) (a v : Nat) : store (store f a v) a (f a) = f := by
  funext x
  by_cases h : x = a
  · subst h; simp [store]
  · simp [store, h]

theorem same_bank_refl (s : AllocState) : same_bank s s := ⟨rfl, rfl, rfl, rfl⟩

theorem same_bank_trans {a b c : AllocState} (h1 : same_bank a b) (h2 : same_bank b c) :
    same_bank a c :=
  ⟨h2.1.trans h1.1, h2.2.1.trans h1.2.1, h2.2.2.1.trans h1.2.2.1, h2.2.2.2.trans h1.2.2.2⟩

/-- Whatever `oom_malloc` does, it only appends to the call record. -/
theorem oom_malloc_frame (sys : Sys) (n : Nat) :
    ∀ (fuel : Nat) (s s1 : AllocState),
      (__malloc_alloc_template.oom_malloc sys fuel n s).final = some s1 →
        same_bank s s1 ∧ s1.link = s.link ∧ s1.oom_handler = s.oom_handler ∧
          ∃ rest, s1.trace = s.trace ++ rest := by
  intro fuel
  induction fuel with
  | zero =>
    intro s s1 h
    unfold __malloc_alloc_template.oom_malloc at h
    by_cases h0 : s.oom_handler = 0
    · simp only [h0, if_true, Outcome.final, Option.some.injEq] at h
      subst h
      exact ⟨same_bank_refl _, rfl, rfl, [], by simp⟩
    · simp only [h0, if_false] at h
      by_cases hr : (malloc sys n (call_handler s.oom_handler s)).1 = 0
      · simp [hr, Outcome.final] at h
      · simp only [ne_eq, hr, not_false_eq_true, if_true, Outcome.final, Option.some.injEq] at h
        subst h
        exact ⟨⟨rfl, rfl, rfl, rfl⟩, rfl, rfl, _, List.append_assoc _ _ _⟩
  | succ k ih =>
    intro s s1 h
    unfold __malloc_alloc_template.oom_malloc at h
    by_cases h0 : s.oom_handler = 0
    · simp only [h0, if_true, Outcome.final, Option.some.injEq] at h
      subst h
      exact ⟨same_bank_refl _, rfl, rfl, [], by simp⟩
    · simp only [h0, if_false] at h
      by_cases hr : (malloc sys n (call_handler s.oom_handler s)).1 = 0
      · simp only [ne_eq, hr, not_true_eq_false, if_false] at h
        obtain ⟨hb, hl, hh, rest, ht⟩ := ih _ _ h
        refine ⟨same_bank_trans ⟨rfl, rfl, rfl, rfl⟩ hb, hl, hh, ?_⟩
        refine ⟨[Event.handler s.oom_handler] ++
          ([Event.malloc n (sys (sys_calls (s.trace ++ [Event.handler s.oom_handler])) n)] ++ rest), ?_⟩
        rw [ht]
        simp [malloc, call_handler]
      · simp only [ne_eq, hr, not_false_eq_true, if_true, Outcome.final, Option.some.injEq] at h
        subst h
        exact ⟨⟨rfl, rfl, rfl, rfl⟩, rfl, rfl, _, List.append_assoc _ _ _⟩

/-- With a handler registered and `k` more failures ahead, `oom_malloc` calls
the handler `k + 1` times and returns the first successful answer. -/
theorem oom_malloc_retries (sys : Sys) (n p : Nat) (hp : p ≠ 0) :
    ∀ (k fuel : Nat) (s : AllocState), s.oom_handler ≠ 0 → k ≤ fuel →
      (∀ i, i < k → sys (sys_calls s.trace + i) n = 0) →
      sys (sys_calls s.trace + k) n = p →
      ∃ s1, __malloc_alloc_template.oom_malloc sys fuel n s = Outcome.ret p s1 ∧
        handler_calls s1.trace = handler_calls s.trace + (k + 1) ∧
        sys_calls s1.trace = sys_calls s.trace + (k + 1) ∧
        same_bank s s1 ∧ s1.link = s.link ∧ s1.oom_handler = s.oom_handler := by
  intro k
  induction k with
  | zero =>
    intro fuel s hh _ _ hk
    have hr : (malloc sys n (call_handler s.oom_handler s)).1 = p := by
      simpa [malloc, call_handler, sys_calls, Event.isRequest, List.filter_append] using hk
    refine ⟨(malloc sys n (call_handler s.oom_handler s)).2, ?_, ?_, ?_, ⟨rfl, rfl, rfl, rfl⟩, rfl, rfl⟩
    · unfold __malloc_alloc_template.oom_malloc
      simp [hh, hr, hp]
    · simp [malloc, call_handler, sys_calls, handler_calls, Event.isRequest, Event.isHandler,
        List.filter_append]
    · simp [malloc, call_handler, sys_calls, handler_calls, Event.isRequest, Event.isHandler,
        List.filter_append]
  | succ k ih =>
    intro fuel s hh hfuel hfail hk
    obtain ⟨fuel1, rfl⟩ : ∃ f, fuel = f + 1 := ⟨fuel - 1, by omega⟩
    have hr : (malloc sys n (call_handler s.oom_handler s)).1 = 0 := by
      have := hfail 0 (by omega)
      simpa [malloc, call_handler, sys_calls, Event.isRequest, List.filter_append] using this
    have ht : sys_calls (malloc sys n (call_handler s.oom_handler s)).2.trace
        = sys_calls s.trace + 1 := by
      simp [malloc, call_handler, sys_calls, handler_calls, Event.isRequest, Event.isHandler,
        List.filter_append]
    have hh2 : (malloc sys n (call_handler s.oom_handler s)).2.oom_handler ≠ 0 := hh
    obtain ⟨s1, e, c1, c2, hb, hl, ho⟩ := ih fuel1
      (malloc sys n (call_handler s.oom_handler s)).2 hh2 (by omega)
      (by
        intro i hi
        rw [ht, Nat.add_assoc, Nat.add_comm 1 i]
        exact hfail (i + 1) (by omega))
      (by rw [ht, Nat.add_assoc, Nat.add_comm 1 k]; exact hk)
    refine ⟨s1, ?_, ?_, ?_, same_bank_trans ⟨rfl, rfl, rfl, rfl⟩ hb, hl, ho⟩
    · rw [__malloc_alloc_template.oom_malloc]
      simp only [hh, if_false, hr, ne_eq, not_true_eq_false]
      exact e
    · rw [c1]
      simp [malloc, call_handler, sys_calls, handler_calls, Event.isRequest, Event.isHandler,
        List.filter_append]
      omega
    · rw [c2, ht]; omega

theorem ptr_diff_of_le {a b : Nat} (h : b ≤ a) (h2 : a - b < 18446744073709551616) :
    ptr_diff a b = a - b := by
  unfold ptr_diff
  simp [h, wrap_of_lt h2]

theorem ptr_diff_add (p n : Nat) (h : n < 18446744073709551616) : ptr_diff (p + n) p = n := by
  rw [ptr_diff_of_le (Nat.le_add_right p n)] <;> simp [h]

theorem pool_ok_bytes_left {s : AllocState} (h : pool_ok s) :
    ptr_diff s.end_free s.start_free = s.end_free - s.start_free :=
  ptr_diff_of_le h.1 h.2.2.1

theorem wrap_mod_eight (x : Nat) : wrap x % 8 = x % 8 := by
  unfold wrap; rw [SIZE_T_MOD_eq]; omega

theorem ROUND_UP_mod_eight (x : Nat) : ROUND_UP x % 8 = 0 := by
  unfold ROUND_UP __ALIGN
  rw [SIZE_T_MOD_eq]
  rw [land_mask_eq _ (wrap_lt _)]
  omega

theorem growth_target_mod_eight (size nobjs : Nat) (s : AllocState) (h : size % 8 = 0) :
    growth_target size nobjs s % 8 = 0 := by
  unfold growth_target
  rw [wrap_mod_eight]
  have h1 := ROUND_UP_mod_eight (s.heap_size >>> 4)
  have h2 : wrap (size * nobjs) % 8 = 0 := by
    rw [wrap_mod_eight, Nat.mul_mod, h]; simp
  omega

theorem chunk_alloc_sufficient (sys : Sys) (fuel size nobjs : Nat) (s : AllocState)
    (h : wrap (size * nobjs) ≤ ptr_diff s.end_free s.start_free) :
    chunk_alloc sys fuel size nobjs s =
      Outcome.ret (s.start_free, nobjs)
        { s with start_free := s.start_free + wrap (size * nobjs) } := by
  rw [chunk_alloc]
  simp only [ge_iff_le, h, if_true]

theorem chunk_alloc_some_blocks (sys : Sys) (fuel size nobjs : Nat) (s : AllocState)
    (h1 : ¬ wrap (size * nobjs) ≤ ptr_diff s.end_free s.start_free)
    (h2 : size ≤ ptr_diff s.end_free s.start_free) :
    chunk_alloc sys fuel size nobjs s =
      Outcome.ret (s.start_free, ptr_diff s.end_free s.start_free / size)
        { s with start_free :=
            (s.start_free + wrap (size * (ptr_diff s.end_free s.start_free / size))) } := by
  rw [chunk_alloc]
  simp only [ge_iff_le, h1, h2, if_true, if_false]
theorem scan_free_lists_some (fl : Nat → Nat) :
    ∀ (k i j : Nat), scan_free_lists fl k i = some j →
      i ≤ j ∧ j ≤ 128 ∧ j % 8 = i % 8 ∧ fl (FREELIST_INDEX j) ≠ 0 := by
  intro k
  induction k with
  | zero => intro i j h; simp [scan_free_lists] at h
  | succ k ih =>
    intro i j h
    rw [scan_free_lists] at h
    by_cases h1 : i ≤ __MAX_BYTES
    · simp only [h1, if_true] at h
      by_cases h2 : fl (FREELIST_INDEX i) = 0
      · simp only [ne_eq, h2, not_true_eq_false, if_false] at h
        obtain ⟨a, b, c, d⟩ := ih _ _ h
        unfold __ALIGN at a c
        exact ⟨by omega, b, by omega, d⟩
      · simp only [ne_eq, h2, not_false_eq_true, if_true, Option.some.injEq] at h
        subst h
        exact ⟨le_refl _, h1, rfl, h2⟩
    · simp [h1] at h

theorem oom_malloc_ret_ne_zero (sys : Sys) (n : Nat) :
    ∀ (fuel : Nat) (s s1 : AllocState) (q : Nat),
      __malloc_alloc_template.oom_malloc sys fuel n s = Outcome.ret q s1 → q ≠ 0 := by
  intro fuel
  induction fuel with
  | zero =>
    intro s s1 q h
    rw [__malloc_alloc_template.oom_malloc] at h
    by_cases h0 : s.oom_handler = 0
    · simp [h0] at h
    · by_cases hr : (malloc sys n (call_handler s.oom_handler s)).1 = 0
      · simp [h0, hr] at h
      · simp only [h0, if_false, ne_eq, hr, not_false_eq_true, if_true, Outcome.ret.injEq] at h
        rw [← h.1]; exact hr
  | succ k ih =>
    intro s s1 q h
    rw [__malloc_alloc_template.oom_malloc] at h
    by_cases h0 : s.oom_handler = 0
    · simp [h0] at h
    · by_cases hr : (malloc sys n (call_handler s.oom_handler s)).1 = 0
      · simp only [h0, if_false, ne_eq, hr, not_true_eq_false] at h
        exact ih _ _ _ h
      · simp only [h0, if_false, ne_eq, hr, not_false_eq_true, if_true, Outcome.ret.injEq] at h
        rw [← h.1]; exact hr

theorem first_tier_allocate_ret_ne_zero (sys : Sys) (fuel n q : Nat) (s s1 : AllocState)
    (h : __malloc_alloc_template.allocate sys fuel n s = Outcome.ret q s1) : q ≠ 0 := by
  unfold __malloc_alloc_template.allocate at h
  by_cases hr : (malloc sys n s).1 = 0
  · simp only [hr, if_true] at h
    exact oom_malloc_ret_ne_zero sys n fuel _ _ _ h
  · simp only [hr, if_false, Outcome.ret.injEq] at h
    rw [← h.1]; exact hr

theorem first_tier_allocate_frame (sys : Sys) (fuel n : Nat) (s s1 : AllocState)
    (h : (__malloc_alloc_template.allocate sys fuel n s).final = some s1) :
    same_bank s s1 ∧ s1.link = s.link ∧ s1.oom_handler = s.oom_handler ∧
      ∃ rest, s1.trace = s.trace ++ Event.malloc n (sys (sys_calls s.trace) n) :: rest := by
  unfold __malloc_alloc_template.allocate at h
  by_cases hr : (malloc sys n s).1 = 0
  · simp only [hr, if_true] at h
    obtain ⟨hb, hl, hh, rest, ht⟩ := oom_malloc_frame sys n fuel _ _ h
    refine ⟨same_bank_trans ⟨rfl, rfl, rfl, rfl⟩ hb, hl, hh, rest, ?_⟩
    rw [ht]
    simp [malloc]
  · simp only [hr, if_false, Outcome.final, Option.some.injEq] at h
    subst h
    exact ⟨⟨rfl, rfl, rfl, rfl⟩, rfl, rfl, [], by simp [malloc]⟩

theorem chunk_alloc_eq (sys : Sys) (fuel size nobjs : Nat) (s : AllocState) :
    chunk_alloc sys fuel size nobjs s =
      if wrap (size * nobjs) ≤ ptr_diff s.end_free s.start_free then
        Outcome.ret (s.start_free, nobjs)
          { s with start_free := s.start_free + wrap (size * nobjs) }
      else if size ≤ ptr_diff s.end_free s.start_free then
        Outcome.ret (s.start_free, ptr_diff s.end_free s.start_free / size)
          { s with start_free :=
              (s.start_free + wrap (size * (ptr_diff s.end_free s.start_free / size))) }
      else if (after_malloc sys size nobjs s).start_free = 0 then
        match scan_free_lists (after_malloc sys size nobjs s).free_list (__NFREELISTS + 1) size with
        | some i => chunk_alloc_retry sys fuel size nobjs (take_block i (after_malloc sys size nobjs s))
        | none =>
          match __malloc_alloc_template.allocate sys fuel (growth_target size nobjs s)
              { after_malloc sys size nobjs s with end_free := 0 } with
          | Outcome.ret q s4 =>
            chunk_alloc_retry sys fuel size nobjs (install_pool q (growth_target size nobjs s) s4)
          | Outcome.bad_alloc s4 => Outcome.bad_alloc s4
          | Outcome.out_of_fuel => Outcome.out_of_fuel
      else
        chunk_alloc_retry sys fuel size nobjs
          (install_pool (after_malloc sys size nobjs s).start_free (growth_target size nobjs s)
            (after_malloc sys size nobjs s)) := by
  rw [chunk_alloc]
  cases fuel <;> rfl
theorem donate_remainder_frame (s : AllocState) :
    (donate_remainder s).start_free = s.start_free ∧ (donate_remainder s).end_free = s.end_free ∧
    (donate_remainder s).heap_size = s.heap_size ∧
    (donate_remainder s).oom_handler = s.oom_handler ∧ (donate_remainder s).trace = s.trace := by
  unfold donate_remainder
  split <;> exact ⟨rfl, rfl, rfl, rfl, rfl⟩

theorem after_malloc_start (sys : Sys) (size nobjs : Nat) (s : AllocState) :
    (after_malloc sys size nobjs s).start_free =
      sys (sys_calls s.trace) (growth_target size nobjs s) := by
  simp [after_malloc, malloc, (donate_remainder_frame s).2.2.2.2]

theorem after_malloc_frame (sys : Sys) (size nobjs : Nat) (s : AllocState) :
    (after_malloc sys size nobjs s).end_free = s.end_free ∧
    (after_malloc sys size nobjs s).heap_size = s.heap_size ∧
    (after_malloc sys size nobjs s).oom_handler = s.oom_handler ∧
    (after_malloc sys size nobjs s).free_list = (donate_remainder s).free_list ∧
    (after_malloc sys size nobjs s).link = (donate_remainder s).link ∧
    (after_malloc sys size nobjs s).trace =
      s.trace ++ [Event.malloc (growth_target size nobjs s)
        (sys (sys_calls s.trace) (growth_target size nobjs s))] := by
  obtain ⟨_, h2, h3, h4, h5⟩ := donate_remainder_frame s
  simp [after_malloc, malloc, h2, h3, h4, h5]

theorem chunk_alloc_pool_ok_step (sys : Sys) (fuel size nobjs : Nat) (hsize : size % 8 = 0)
    (hrec : ∀ (s s1 : AllocState), pool_ok s →
      (chunk_alloc_retry sys fuel size nobjs s).final = some s1 → pool_ok s1) :
    ∀ (s s1 : AllocState), pool_ok s →
      (chunk_alloc sys fuel size nobjs s).final = some s1 → pool_ok s1 := by
  intro s s1 hs h
  have hbl := pool_ok_bytes_left hs
  obtain ⟨o1, o2, o3, o4, o5, o6⟩ := hs
  have hg8 := growth_target_mod_eight size nobjs s hsize
  have hglt : growth_target size nobjs s < 18446744073709551616 := wrap_lt _
  obtain ⟨f1, f2, f3, f4, f5, f6⟩ := after_malloc_frame sys size nobjs s
  rw [chunk_alloc_eq] at h
  by_cases c1 : wrap (size * nobjs) ≤ ptr_diff s.end_free s.start_free
  · simp only [c1, if_true, Outcome.final, Option.some.injEq] at h
    subst h
    have ht : wrap (size * nobjs) % 8 = 0 := by
      rw [wrap_mod_eight, Nat.mul_mod, hsize]; simp
    rw [hbl] at c1
    refine ⟨?_, ?_, ?_, o4, o5, ?_⟩ <;> simp only <;> omega
  · by_cases c2 : size ≤ ptr_diff s.end_free s.start_free
    · simp only [c1, c2, if_true, if_false, Outcome.final, Option.some.injEq] at h
      subst h
      have ht : wrap (size * (ptr_diff s.end_free s.start_free / size)) % 8 = 0 := by
        rw [wrap_mod_eight, Nat.mul_mod, hsize]; simp
      have hle : wrap (size * (ptr_diff s.end_free s.start_free / size))
          ≤ ptr_diff s.end_free s.start_free := by
        refine le_trans ?_ (Nat.mul_div_le _ size)
        unfold wrap
        exact Nat.mod_le _ _
      have hle2 := hle.trans (le_of_eq hbl)
      refine ⟨?_, ?_, ?_, o4, o5, ?_⟩ <;> simp only <;> omega
    · by_cases c3 : (after_malloc sys size nobjs s).start_free = 0
      · simp only [c1, c2, c3, if_true, if_false] at h
        rcases hscan : scan_free_lists (after_malloc sys size nobjs s).free_list
            (__NFREELISTS + 1) size with _ | i
        · simp only [hscan] at h
          split at h
          · rename_i q s4 hcall
            have hq := first_tier_allocate_ret_ne_zero sys fuel _ q _ s4 hcall
            have hfr := first_tier_allocate_frame sys fuel _ _ s4 (by rw [hcall]; rfl)
            obtain ⟨⟨_, _, _, b4⟩, _⟩ := hfr
            simp only at b4
            refine hrec _ s1 ?_ h
            refine ⟨?_, ?_, ?_, ?_, ?_, ?_⟩ <;> simp only [install_pool]
            · omega
            · omega
            · omega
            · rw [wrap_mod_eight, b4, f2]; omega
            · exact wrap_lt _
            · intro h0; exact absurd h0 hq
          · rename_i s4 hcall
            simp only [Outcome.final, Option.some.injEq] at h
            subst h
            have hfr := first_tier_allocate_frame sys fuel _ _ s4 (by rw [hcall]; rfl)
            obtain ⟨⟨_, b2, b3, b4⟩, _⟩ := hfr
            simp only at b2 b3 b4
            refine ⟨?_, ?_, ?_, ?_, ?_, ?_⟩
            · rw [b2, b3]
            · rw [b2, b3]
            · rw [b2, b3]; norm_num
            · rw [b4, f2]; exact o4
            · rw [b4, f2]; exact o5
            · intro _; exact b3
          · simp [Outcome.final] at h
        · simp only [hscan] at h
          obtain ⟨s1', s2', s3', s4'⟩ := scan_free_lists_some _ _ _ _ hscan
          refine hrec _ s1 ?_ h
          refine ⟨?_, ?_, ?_, ?_, ?_, ?_⟩ <;> simp only [take_block]
          · omega
          · omega
          · omega
          · rw [f2]; exact o4
          · rw [f2]; exact o5
          · intro h0; exact absurd h0 s4'
      · simp only [c1, c2, c3, if_false] at h
        refine hrec _ s1 ?_ h
        refine ⟨?_, ?_, ?_, ?_, ?_, ?_⟩ <;> simp only [install_pool]
        · omega
        · omega
        · omega
        · rw [wrap_mod_eight, f2]; omega
        · exact wrap_lt _
        · intro h0; exact absurd h0 c3

theorem chunk_alloc_pool_ok (sys : Sys) (size nobjs : Nat) (hsize : size % 8 = 0) :
    ∀ (fuel : Nat) (s s1 : AllocState), pool_ok s →
      (chunk_alloc sys fuel size nobjs s).final = some s1 → pool_ok s1 := by
  intro fuel
  induction fuel with
  | zero =>
    apply chunk_alloc_pool_ok_step sys 0 size nobjs hsize
    intro s s1 _ h
    simp [chunk_alloc_retry, Outcome.final] at h
  | succ k ih =>
    apply chunk_alloc_pool_ok_step sys (k + 1) size nobjs hsize
    intro s s1 hs h
    exact ih s s1 hs h

theorem block_run_eq_map (n : Nat) :
    ∀ (count b : Nat), block_run b n count = (List.range count).map (fun j => b + j * n) := by
  intro count
  induction count with
  | zero => intro b; rfl
  | succ k ih =>
    intro b
    rw [block_run, ih, List.range_succ_eq_map, List.map_cons, List.map_map]
    simp only [Nat.zero_mul, Nat.add_zero, List.cons.injEq, true_and]
    apply List.map_congr_left
    intro j _
    simp only [Function.comp, Nat.succ_eq_add_one]
    ring

theorem link_blocks_spec (nobjs n : Nat) (hn : 1 ≤ n) :
    ∀ (d k i next_obj : Nat) (link : Nat → Nat), next_obj ≠ 0 → nobjs - 1 = i + d → d + 1 ≤ k →
      ∃ l, link_blocks k nobjs n i next_obj link = some l ∧
        (∀ m, d + 2 ≤ m → free_list_blocks l m next_obj = block_run next_obj n (d + 1)) ∧
        (∀ x, x < next_obj → l x = link x) := by
  intro d
  induction d with
  | zero =>
    intro k i next_obj link hne hi hk
    obtain ⟨k1, rfl⟩ : ∃ k1, k = k1 + 1 := ⟨k - 1, by omega⟩
    refine ⟨store link next_obj 0, ?_, ?_, ?_⟩
    · rw [link_blocks]
      simp [hi]
    · intro m hm
      obtain ⟨m2, rfl⟩ : ∃ m2, m = m2 + 2 := ⟨m - 2, by omega⟩
      simp [free_list_blocks, block_run, hne, store_same]
    · intro x hx
      exact store_other _ _ _ _ (by omega)
  | succ d ih =>
    intro k i next_obj link hne hi hk
    obtain ⟨k1, rfl⟩ : ∃ k1, k = k1 + 1 := ⟨k - 1, by omega⟩
    have hi2 : ¬ nobjs - 1 = i := by omega
    obtain ⟨l, e, hw, hfr⟩ := ih k1 (i + 1) (next_obj + n)
      (store link next_obj (next_obj + n)) (by omega) (by omega) (by omega)
    refine ⟨l, ?_, ?_, ?_⟩
    · rw [link_blocks]
      simp only [hi2, if_false]
      exact e
    · intro m hm
      obtain ⟨m1, rfl⟩ : ∃ m1, m = m1 + 1 := ⟨m - 1, by omega⟩
      have hl : l next_obj = next_obj + n := by
        rw [hfr next_obj (by omega)]; exact store_same _ _ _
      rw [free_list_blocks, block_run]
      simp only [hne, if_false, hl]
      rw [hw m1 (by omega)]
    · intro x hx
      rw [hfr x (by omega)]
      exact store_other _ _ _ _ (by omega)

theorem refill_batch (sys : Sys) (fuel n b c : Nat) (s s1 : AllocState) (hn : 1 ≤ n)
    (hc : 2 ≤ c) (h : chunk_alloc sys fuel n 20 s = Outcome.ret (b, c) s1) :
    ∃ l, refill sys fuel n s = Outcome.ret b
        { s1 with free_list := store s1.free_list (FREELIST_INDEX n) (b + n), link := l } ∧
      (∀ m, c ≤ m → free_list_blocks l m (b + n) = block_run (b + n) n (c - 1)) ∧
      (∀ x, x < b + n → l x = s1.link x) := by
  obtain ⟨l, e, hw, hfr⟩ := link_blocks_spec c n hn (c - 2) c 1 (b + n) s1.link
    (by omega) (by omega) (by omega)
  refine ⟨l, ?_, ?_, hfr⟩
  · unfold refill
    rw [h]
    have hc1 : ¬ c = 1 := by omega
    simp only [hc1, if_false, e]
  · intro m hm
    rw [hw m (by omega)]
    congr 1
    omega

theorem refill_single (sys : Sys) (fuel n b : Nat) (s s1 : AllocState)
    (h : chunk_alloc sys fuel n 20 s = Outcome.ret (b, 1) s1) :
    refill sys fuel n s = Outcome.ret b s1 := by
  unfold refill
  rw [h]
  simp

theorem allocate_small_eq (sys : Sys) (fuel n : Nat) (s : AllocState)
    (h1 : 1 ≤ n) (h2 : n ≤ 128) :
    allocate sys fuel n s =
      if s.free_list (FREELIST_INDEX n) = 0 then refill sys fuel (ROUND_UP n) s
      else Outcome.ret (s.free_list (FREELIST_INDEX n))
        { s with free_list :=
            store s.free_list (FREELIST_INDEX n) (s.link (s.free_list (FREELIST_INDEX n))) } := by
  unfold allocate __MAX_BYTES
  have h0 : n ≠ 0 := by omega
  have h3 : ¬ n > 128 := by omega
  simp only [h0, h3, if_false]

theorem deallocate_small_eq (p n : Nat) (s : AllocState) (h1 : 1 ≤ n) (h2 : n ≤ 128) :
    deallocate p n s =
      { s with
        link := store s.link p (s.free_list (FREELIST_INDEX n))
        free_list := store s.free_list (FREELIST_INDEX n) p } := by
  unfold deallocate __MAX_BYTES
  have h0 : n ≠ 0 := by omega
  have h3 : ¬ n > 128 := by omega
  simp only [h0, h3, if_false]

theorem allocate_each_pops (sys : Sys) (fuel n : Nat) (h1 : 1 ≤ n) (h2 : n ≤ 128) :
    ∀ (k : Nat) (s : AllocState) (ps : List Nat),
      free_list_blocks s.link k (s.free_list (FREELIST_INDEX n)) = ps →
      ∃ s1, allocate_each sys fuel n ps.length s = Outcome.ret ps s1 ∧
        s1.trace = s.trace ∧ s1.start_free = s.start_free ∧ s1.end_free = s.end_free ∧
        s1.heap_size = s.heap_size := by
  intro k
  induction k with
  | zero =>
    intro s ps h
    rw [free_list_blocks] at h
    subst h
    exact ⟨s, rfl, rfl, rfl, rfl, rfl⟩
  | succ k ih =>
    intro s ps h
    rw [free_list_blocks] at h
    by_cases hp : s.free_list (FREELIST_INDEX n) = 0
    · simp only [hp, if_true] at h
      subst h
      exact ⟨s, rfl, rfl, rfl, rfl, rfl⟩
    · simp only [hp, if_false] at h
      subst h
      obtain ⟨s1, e, t1, t2, t3, t4⟩ := ih
        { s with free_list :=
            store s.free_list (FREELIST_INDEX n) (s.link (s.free_list (FREELIST_INDEX n))) }
        (free_list_blocks s.link k (s.link (s.free_list (FREELIST_INDEX n))))
        (by simp only [store_same])
      refine ⟨s1, ?_, t1, t2, t3, t4⟩
      simp only [List.length_cons]
      rw [allocate_each, allocate_small_eq sys fuel n s h1 h2]
      simp only [hp, if_false]
      rw [e]

theorem pool_ok_of_same {s s1 : AllocState} (h1 : s1.start_free = s.start_free)
    (h2 : s1.end_free = s.end_free) (h3 : s1.heap_size = s.heap_size) (h : pool_ok s) :
    pool_ok s1 := by
  unfold pool_ok at *
  rw [h1, h2, h3]
  exact h

theorem refill_pool_ok (sys : Sys) (fuel n : Nat) (hn : n % 8 = 0) (s s1 : AllocState)
    (hs : pool_ok s) (h : (refill sys fuel n s).final = some s1) : pool_ok s1 := by
  unfold refill at h
  split at h
  · rename_i chunk nobjs sc hca
    have hsc : pool_ok sc :=
      chunk_alloc_pool_ok sys n 20 hn fuel s sc hs (by rw [hca]; rfl)
    by_cases h1 : nobjs = 1
    · simp only [h1, if_true, Outcome.final, Option.some.injEq] at h
      subst h
      exact hsc
    · simp only [h1, if_false] at h
      split at h
      · simp only [Outcome.final, Option.some.injEq] at h
        subst h
        exact pool_ok_of_same rfl rfl rfl hsc
      · simp [Outcome.final] at h
  · rename_i sc hca
    simp only [Outcome.final, Option.some.injEq] at h
    subst h
    exact chunk_alloc_pool_ok sys n 20 hn fuel s _ hs (by rw [hca]; rfl)
  · simp [Outcome.final] at h

theorem allocate_pool_ok (sys : Sys) (fuel n : Nat) (s s1 : AllocState)
    (hs : pool_ok s) (h : (allocate sys fuel n s).final = some s1) : pool_ok s1 := by
  by_cases h0 : n = 0
  · subst h0
    simp only [allocate, if_true, Outcome.final, Option.some.injEq] at h
    subst h
    exact hs
  · by_cases h1 : n > 128
    · have hroute : allocate sys fuel n s = __malloc_alloc_template.allocate sys fuel n s := by
        unfold allocate __MAX_BYTES
        simp [h0, h1]
      rw [hroute] at h
      obtain ⟨⟨_, b2, b3, b4⟩, _⟩ := first_tier_allocate_frame sys fuel n s s1 h
      exact pool_ok_of_same b2 b3 b4 hs
    · rw [allocate_small_eq sys fuel n s (by omega) (by omega)] at h
      by_cases hp : s.free_list (FREELIST_INDEX n) = 0
      · simp only [hp, if_true] at h
        exact refill_pool_ok sys fuel _ (ROUND_UP_mod_eight n) s s1 hs h
      · simp only [hp, if_false, Outcome.final, Option.some.injEq] at h
        subst h
        exact pool_ok_of_same rfl rfl rfl hs

theorem deallocate_pool_ok (p n : Nat) (s : AllocState) (hs : pool_ok s) :
    pool_ok (deallocate p n s) := by
  unfold deallocate
  split
  · exact hs
  · split
    · exact pool_ok_of_same rfl rfl rfl hs
    · exact pool_ok_of_same rfl rfl rfl hs

theorem reachable_pool_ok (sys : Sys) (s : AllocState) (h : Reachable sys s) : pool_ok s := by
  induction h with
  | start link0 =>
    refine ⟨?_, ?_, ?_, ?_, ?_, ?_⟩ <;> simp [initial]
  | allocate fuel n s s1 _ hfin ih => exact allocate_pool_ok sys fuel n s s1 ih hfin
  | deallocate p n s _ ih => exact deallocate_pool_ok p n s ih
  | reallocate fuel p old_sz new_sz s s1 _ hfin ih =>
    exact allocate_pool_ok sys fuel new_sz _ s1 (deallocate_pool_ok p old_sz s ih) hfin
  | set_malloc_oom_handler f s _ ih => exact pool_ok_of_same rfl rfl rfl ih

/-- With a handler registered and `k` failures ahead, the first tier's
`allocate` calls the handler `k` times and returns the first successful answer. -/
theorem first_tier_allocate_retries (sys : Sys) (fuel n k p : Nat) (s : AllocState)
    (hh : s.oom_handler ≠ 0) (hfuel : k ≤ fuel)
    (hfail : ∀ i, i < k → sys (sys_calls s.trace + i) n = 0)
    (hok : sys (sys_calls s.trace + k) n = p) (hp : p ≠ 0) :
    ∃ s1, __malloc_alloc_template.allocate sys fuel n s = Outcome.ret p s1 ∧
      handler_calls s1.trace = handler_calls s.trace + k ∧
      sys_calls s1.trace = sys_calls s.trace + (k + 1) ∧ same_bank s s1 ∧
      s1.link = s.link ∧ s1.oom_handler = s.oom_handler := by
  unfold __malloc_alloc_template.allocate
  cases k with
  | zero =>
    have hr : (malloc sys n s).1 = p := by simpa [malloc] using hok
    refine ⟨(malloc sys n s).2, ?_, ?_, ?_, ⟨rfl, rfl, rfl, rfl⟩, rfl, rfl⟩
    · simp [hr, hp]
    · simp [malloc, handler_calls_malloc]
    · simp [malloc, sys_calls_malloc]
  | succ k =>
    have hr : (malloc sys n s).1 = 0 := by
      have := hfail 0 (by omega)
      simpa [malloc] using this
    have ht : sys_calls (malloc sys n s).2.trace = sys_calls s.trace + 1 := by
      simp [malloc, sys_calls_malloc]
    obtain ⟨s1, e, c1, c2, hb, hl, ho⟩ := oom_malloc_retries sys n p hp k fuel (malloc sys n s).2
      hh (by omega)
      (by
        intro i hi
        rw [ht, Nat.add_assoc, Nat.add_comm 1 i]
        exact hfail (i + 1) (by omega))
      (by rw [ht, Nat.add_assoc, Nat.add_comm 1 k]; exact hok)
    refine ⟨s1, ?_, ?_, ?_, same_bank_trans ⟨rfl, rfl, rfl, rfl⟩ hb, hl, ho⟩
    · simp only [hr, if_true]; exact e
    · rw [c1]; simp [malloc, handler_calls_malloc]
    · rw [c2, ht]; omega

theorem wrap_le (x : Nat) : wrap x ≤ x := by
  unfold wrap; exact Nat.mod_le _ _

theorem batch_bytes (size nobjs : Nat) (hsz : size ≤ 128) (hnb : nobjs ≤ 20) :
    wrap (size * nobjs) = size * nobjs ∧ size * nobjs ≤ 2560 := by
  have h : size * nobjs ≤ 128 * 20 := Nat.mul_le_mul hsz hnb
  exact ⟨wrap_of_lt (by omega), h⟩

theorem growth_target_lt (size nobjs : Nat) (s : AllocState) :
    growth_target size nobjs s < 18446744073709551616 := wrap_lt _

theorem growth_target_ge (size nobjs : Nat) (s : AllocState) (hsz : size ≤ 128)
    (hnb : nobjs ≤ 20) (hh : s.heap_size < 18446744073709551616) :
    growth_target size nobjs s = 2 * (size * nobjs) + ROUND_UP (s.heap_size >>> 4) ∧
      wrap (size * nobjs) ≤ growth_target size nobjs s := by
  obtain ⟨e, hle⟩ := batch_bytes size nobjs hsz hnb
  have hx : s.heap_size >>> 4 < 1152921504606846976 := by
    rw [Nat.shiftRight_eq_div_pow]
    have : (2 : Nat) ^ 4 = 16 := by norm_num
    rw [this]
    omega
  have hr : ROUND_UP (s.heap_size >>> 4) ≤ s.heap_size >>> 4 + 7 := by
    rw [ROUND_UP_eq (by omega)]
    omega
  unfold growth_target
  rw [e, wrap_of_lt (by omega)]
  exact ⟨rfl, by omega⟩

theorem chunk_alloc_grow (sys : Sys) (fuel size nobjs : Nat) (s : AllocState)
    (hsz : size ≤ 128) (hnb : nobjs ≤ 20) (hh : s.heap_size < 18446744073709551616)
    (c1 : ¬ wrap (size * nobjs) ≤ ptr_diff s.end_free s.start_free)
    (c2 : ¬ size ≤ ptr_diff s.end_free s.start_free)
    (hp : sys (sys_calls s.trace) (growth_target size nobjs s) ≠ 0) :
    chunk_alloc sys (fuel + 1) size nobjs s =
      Outcome.ret (sys (sys_calls s.trace) (growth_target size nobjs s), nobjs)
        { install_pool (sys (sys_calls s.trace) (growth_target size nobjs s))
            (growth_target size nobjs s) (after_malloc sys size nobjs s) with
          start_free :=
            (sys (sys_calls s.trace) (growth_target size nobjs s) + wrap (size * nobjs)) } := by
  have c3 : ¬ (after_malloc sys size nobjs s).start_free = 0 := by
    rw [after_malloc_start]; exact hp
  rw [chunk_alloc_eq]
  simp only [c1, c2, c3, if_false, chunk_alloc_retry]
  rw [after_malloc_start]
  rw [chunk_alloc_sufficient]
  · rfl
  · simp only [install_pool]
    rw [ptr_diff_add _ _ (growth_target_lt size nobjs s)]
    exact (growth_target_ge size nobjs s hsz hnb hh).2

theorem scan_free_lists_none (fl : Nat → Nat) :
    ∀ (k size : Nat), (∀ j, size ≤ j → j ≤ 128 → fl (FREELIST_INDEX j) = 0) →
      scan_free_lists fl k size = none := by
  intro k
  induction k with
  | zero => intro size _; rfl
  | succ k ih =>
    intro size h
    rw [scan_free_lists]
    by_cases h1 : size ≤ __MAX_BYTES
    · have h2 : fl (FREELIST_INDEX size) = 0 := h size (le_refl _) h1
      simp only [h1, if_true, ne_eq, h2, not_true_eq_false, if_false]
      exact ih _ (fun j hj hj2 => h j (by unfold __ALIGN at hj; omega) hj2)
    · simp [h1]

theorem donate_remainder_larger_lists (s : AllocState) (size : Nat) (hs : pool_ok s)
    (hsize : size % 8 = 0) (c2 : ¬ size ≤ ptr_diff s.end_free s.start_free)
    (j : Nat) (hj : size ≤ j) (hj2 : j ≤ 128) :
    (donate_remainder s).free_list (FREELIST_INDEX j) = s.free_list (FREELIST_INDEX j) := by
  have hbl := pool_ok_bytes_left hs
  obtain ⟨o1, o2, o3, o4, o5, o6⟩ := hs
  unfold donate_remainder
  split
  · rename_i hpos
    simp only
    apply store_other
    rw [hbl] at hpos c2 ⊢
    rw [FREELIST_INDEX_eq (by omega) (by omega), FREELIST_INDEX_eq (by omega) (by omega)]
    omega
  · rfl

theorem chunk_alloc_delegate (sys : Sys) (fuel size nobjs k p : Nat) (s : AllocState)
    (hs : pool_ok s) (hsize : size % 8 = 0) (hsz : size ≤ 128) (hnb : nobjs ≤ 20)
    (c1 : ¬ wrap (size * nobjs) ≤ ptr_diff s.end_free s.start_free)
    (c2 : ¬ size ≤ ptr_diff s.end_free s.start_free)
    (hlists : ∀ j, size ≤ j → j ≤ 128 → s.free_list (FREELIST_INDEX j) = 0)
    (hh : s.oom_handler ≠ 0) (hfuel : k + 1 ≤ fuel)
    (hfail : ∀ i, i < k + 1 → sys (sys_calls s.trace + i) (growth_target size nobjs s) = 0)
    (hok : sys (sys_calls s.trace + (k + 1)) (growth_target size nobjs s) = p) (hp : p ≠ 0) :
    ∃ s1, chunk_alloc sys fuel size nobjs s = Outcome.ret (p, nobjs) s1 ∧
      handler_calls s1.trace = handler_calls s.trace + k ∧
      sys_calls s1.trace = sys_calls s.trace + (k + 2) ∧
      s1.free_list = (donate_remainder s).free_list ∧ s1.link = (donate_remainder s).link ∧
      s1.start_free = p + size * nobjs ∧
      s1.end_free = p + growth_target size nobjs s ∧
      s1.heap_size = wrap (s.heap_size + growth_target size nobjs s) := by
  obtain ⟨f1, f2, f3, f4, f5, f6⟩ := after_malloc_frame sys size nobjs s
  have c3 : (after_malloc sys size nobjs s).start_free = 0 := by
    rw [after_malloc_start]; exact hfail 0 (by omega)
  have hscan : scan_free_lists (after_malloc sys size nobjs s).free_list
      (__NFREELISTS + 1) size = none := by
    apply scan_free_lists_none
    intro j hj hj2
    rw [f4, donate_remainder_larger_lists s size hs hsize c2 j hj hj2]
    exact hlists j hj hj2
  have htr : sys_calls (after_malloc sys size nobjs s).trace = sys_calls s.trace + 1 := by
    rw [f6]; exact sys_calls_malloc _ _ _
  obtain ⟨s4, e, t1, t2, ⟨b1, b2, b3, b4⟩, bl, bo⟩ := first_tier_allocate_retries sys fuel
    (growth_target size nobjs s) k p { after_malloc sys size nobjs s with end_free := 0 }
    (by simp only [f3]; exact hh) (by omega)
    (by
      intro i hi
      simp only [htr]
      rw [Nat.add_assoc, Nat.add_comm 1 i]
      exact hfail (i + 1) (by omega))
    (by
      simp only [htr]
      rw [Nat.add_assoc, Nat.add_comm 1 k]
      exact hok) hp
  obtain ⟨fuel1, rfl⟩ : ∃ f, fuel = f + 1 := ⟨fuel - 1, by omega⟩
  have hsuff := chunk_alloc_sufficient sys fuel1 size nobjs
    (install_pool p (growth_target size nobjs s) s4)
    (by
      simp only [install_pool]
      rw [ptr_diff_add _ _ (growth_target_lt size nobjs s)]
      exact (growth_target_ge size nobjs s hsz hnb hs.2.2.2.2.1).2)
  simp only at t1 t2 b1 b2 b3 b4 bl bo
  refine ⟨{ install_pool p (growth_target size nobjs s) s4 with
      start_free := (install_pool p (growth_target size nobjs s) s4).start_free +
        wrap (size * nobjs) }, ?_, ?_, ?_, ?_, ?_, ?_, ?_, ?_⟩
  · rw [chunk_alloc_eq, if_neg c1, if_neg c2, if_pos c3]
    simp only [hscan]
    rw [e]
    exact hsuff
  · simp only [install_pool]
    rw [t1]
    simp only [f6, handler_calls_malloc]
  · simp only [install_pool]
    rw [t2]
    simp only [htr]
    omega
  · simp only [install_pool]; rw [b1]; exact f4
  · simp only [install_pool]; rw [bl]; exact f5
  · simp only [install_pool]
    rw [(batch_bytes size nobjs hsz hnb).1]
  · rfl
  · simp only [install_pool]
    rw [b4]
    simp only [f2]

theorem ROUND_UP_small {n : Nat} (h1 : 1 ≤ n) (h2 : n ≤ 128) :
    ROUND_UP n % 8 = 0 ∧ n ≤ ROUND_UP n ∧ ROUND_UP n ≤ 128 ∧ 8 ≤ ROUND_UP n ∧
      ROUND_UP n < n + 8 ∧ FREELIST_INDEX (ROUND_UP n) = FREELIST_INDEX n := by
  have e := ROUND_UP_eq (show n + 7 < 18446744073709551616 by omega)
  have i1 := FREELIST_INDEX_eq h1 (show n + 7 < 18446744073709551616 by omega)
  have i2 := FREELIST_INDEX_eq (show 1 ≤ ROUND_UP n by omega)
    (show ROUND_UP n + 7 < 18446744073709551616 by omega)
  refine ⟨by omega, by omega, by omega, by omega, by omega, ?_⟩
  rw [i1, i2, e]
  omega

theorem small_growth_path (n : Nat) (s : AllocState) (h1 : 1 ≤ n) (h2 : n ≤ 128)
    (hpool : ptr_diff s.end_free s.start_free < ROUND_UP n) :
    ¬ wrap (ROUND_UP n * 20) ≤ ptr_diff s.end_free s.start_free ∧
      ¬ ROUND_UP n ≤ ptr_diff s.end_free s.start_free := by
  obtain ⟨_, _, r3, r4, _, _⟩ := ROUND_UP_small h1 h2
  rw [(batch_bytes (ROUND_UP n) 20 r3 (le_refl _)).1]
  constructor <;> omega

theorem block_run_length (n : Nat) : ∀ (count b : Nat), (block_run b n count).length = count := by
  intro count
  induction count with
  | zero => intro b; rfl
  | succ k ih => intro b; simp [block_run, ih]

theorem link_blocks_last (nobjs n : Nat) :
    ∀ (d k i next_obj : Nat) (link l : Nat → Nat), nobjs - 1 = i + d →
      link_blocks k nobjs n i next_obj link = some l → l (next_obj + d * n) = 0 := by
  intro d
  induction d with
  | zero =>
    intro k i next_obj link l hi h
    cases k with
    | zero => simp [link_blocks] at h
    | succ k1 =>
      rw [link_blocks] at h
      simp only [hi, Nat.add_zero, if_true, Option.some.injEq] at h
      subst h
      simp [store_same]
  | succ d ih =>
    intro k i next_obj link l hi h
    cases k with
    | zero => simp [link_blocks] at h
    | succ k1 =>
      rw [link_blocks] at h
      have hi2 : ¬ nobjs - 1 = i := by omega
      simp only [hi2, if_false] at h
      have := ih k1 (i + 1) (next_obj + n) _ l (by omega) h
      rw [← this]
      congr 1
      ring

theorem ROUND_UP_of_aligned {sz : Nat} (h8 : sz % 8 = 0) (h : sz ≤ 128) : ROUND_UP sz = sz := by
  rw [ROUND_UP_eq (by omega)]
  omega

/-- A refill that gets its full batch of 20 blocks at `b`: the call of
`allocate` that triggers it and the next 19 return the 20 blocks in order. -/
theorem allocate_each_batch (sys : Sys) (fuel sz b : Nat) (s sc : AllocState)
    (h8 : sz % 8 = 0) (hlo : 8 ≤ sz) (hhi : sz ≤ 128)
    (hempty : s.free_list (FREELIST_INDEX sz) = 0)
    (h : chunk_alloc sys fuel sz 20 s = Outcome.ret (b, 20) sc) :
    ∃ s1, allocate_each sys fuel sz 20 s = Outcome.ret (block_run b sz 20) s1 ∧
      s1.trace = sc.trace := by
  obtain ⟨l, e, hw, _⟩ := refill_batch sys fuel sz b 20 s sc (by omega) (by omega) h
  obtain ⟨s1, e1, t1, _⟩ := allocate_each_pops sys fuel sz (by omega) hhi 20
    { sc with free_list := store sc.free_list (FREELIST_INDEX sz) (b + sz), link := l }
    (block_run (b + sz) sz 19)
    (by
      simp only [store_same]
      exact hw 20 (le_refl _))
  rw [block_run_length] at e1
  refine ⟨s1, ?_, t1⟩
  rw [allocate_each, allocate_small_eq sys fuel sz s (by omega) hhi, if_pos hempty,
    ROUND_UP_of_aligned h8 hhi, e]
  simp only [e1]
  rfl

theorem chunk_alloc_from_pool (sys : Sys) (fuel size nobjs : Nat) (t sc : AllocState)
    (hpool : wrap (size * nobjs) ≤ ptr_diff t.end_free t.start_free ∨
      size ≤ ptr_diff t.end_free t.start_free)
    (h : (chunk_alloc sys fuel size nobjs t).final = some sc) :
    sc.free_list = t.free_list ∧ sc.link = t.link ∧ sc.trace = t.trace ∧
      sc.oom_handler = t.oom_handler := by
  by_cases c1 : wrap (size * nobjs) ≤ ptr_diff t.end_free t.start_free
  · rw [chunk_alloc_sufficient sys fuel size nobjs t c1] at h
    simp only [Outcome.final, Option.some.injEq] at h
    subst h
    exact ⟨rfl, rfl, rfl, rfl⟩
  · have c2 : size ≤ ptr_diff t.end_free t.start_free := by
      rcases hpool with h1 | h2
      · exact absurd h1 c1
      · exact h2
    rw [chunk_alloc_some_blocks sys fuel size nobjs t c1 c2] at h
    simp only [Outcome.final, Option.some.injEq] at h
    subst h
    exact ⟨rfl, rfl, rfl, rfl⟩

theorem chunk_alloc_retry_from_pool (sys : Sys) (fuel size nobjs : Nat) (t sc : AllocState)
    (hpool : wrap (size * nobjs) ≤ ptr_diff t.end_free t.start_free ∨
      size ≤ ptr_diff t.end_free t.start_free)
    (h : (chunk_alloc_retry sys fuel size nobjs t).final = some sc) :
    sc.free_list = t.free_list ∧ sc.link = t.link ∧ sc.trace = t.trace ∧
      sc.oom_handler = t.oom_handler := by
  cases fuel with
  | zero => simp [chunk_alloc_retry, Outcome.final] at h
  | succ f => exact chunk_alloc_from_pool sys f size nobjs t sc hpool h

theorem FREELIST_INDEX_lt_of_aligned {r j : Nat} (h8 : r % 8 = 0) (h0 : 0 < r) (hlt : r < j)
    (hj : j ≤ 128) : FREELIST_INDEX r < FREELIST_INDEX j := by
  rw [FREELIST_INDEX_eq (by omega) (by omega), FREELIST_INDEX_eq (by omega) (by omega)]
  omega

theorem donate_remainder_pos (s : AllocState) (h : 0 < ptr_diff s.end_free s.start_free) :
    (donate_remainder s).free_list (FREELIST_INDEX (ptr_diff s.end_free s.start_free)) =
        s.start_free ∧
      (donate_remainder s).link s.start_free =
        s.free_list (FREELIST_INDEX (ptr_diff s.end_free s.start_free)) := by
  unfold donate_remainder
  rw [if_pos h]
  exact ⟨store_same _ _ _, store_same _ _ _⟩

/-- On the growth path of `chunk_alloc` the donated remainder stays at the
head of its free list, and the link words stay as the donation left them. -/
theorem chunk_alloc_donation_kept (sys : Sys) (fuel size nobjs : Nat) (s sc : AllocState)
    (hs : pool_ok s) (hsize : size % 8 = 0) (hsz : size ≤ 128) (hnb : nobjs ≤ 20)
    (hpos : 0 < ptr_diff s.end_free s.start_free)
    (c1 : ¬ wrap (size * nobjs) ≤ ptr_diff s.end_free s.start_free)
    (c2 : ¬ size ≤ ptr_diff s.end_free s.start_free)
    (h : (chunk_alloc sys fuel size nobjs s).final = some sc) :
    sc.free_list (FREELIST_INDEX (ptr_diff s.end_free s.start_free)) = s.start_free ∧
      sc.link = (donate_remainder s).link := by
  have hbl := pool_ok_bytes_left hs
  have hheap := hs.2.2.2.2.1
  have hr8 : ptr_diff s.end_free s.start_free % 8 = 0 := by rw [hbl]; exact hs.2.1
  obtain ⟨d1, _⟩ := donate_remainder_pos s hpos
  obtain ⟨f1, f2, f3, f4, f5, f6⟩ := after_malloc_frame sys size nobjs s
  have hgrown : ∀ q, wrap (size * nobjs) ≤ ptr_diff (q + growth_target size nobjs s) q ∨
      size ≤ ptr_diff (q + growth_target size nobjs s) q := by
    intro q
    left
    rw [ptr_diff_add _ _ (growth_target_lt size nobjs s)]
    exact (growth_target_ge size nobjs s hsz hnb hheap).2
  rw [chunk_alloc_eq, if_neg c1, if_neg c2] at h
  by_cases c3 : (after_malloc sys size nobjs s).start_free = 0
  · rw [if_pos c3] at h
    rcases hscan : scan_free_lists (after_malloc sys size nobjs s).free_list
        (__NFREELISTS + 1) size with _ | i
    · simp only [hscan] at h
      split at h
      · rename_i q s4 hcall
        obtain ⟨⟨b1, _, _, _⟩, bl, _⟩ :=
          first_tier_allocate_frame sys fuel _ _ s4 (by rw [hcall]; rfl)
        simp only at b1 bl
        obtain ⟨g1, g2, _⟩ := chunk_alloc_retry_from_pool sys fuel size nobjs _ sc
          (by simp only [install_pool]; exact hgrown q) h
        simp only [install_pool] at g1 g2
        rw [g1, g2, b1, bl, f4, f5]
        exact ⟨d1, rfl⟩
      · rename_i s4 hcall
        simp only [Outcome.final, Option.some.injEq] at h
        subst h
        obtain ⟨⟨b1, _, _, _⟩, bl, _⟩ :=
          first_tier_allocate_frame sys fuel _ _ s4 (by rw [hcall]; rfl)
        simp only at b1 bl
        rw [b1, bl, f4, f5]
        exact ⟨d1, rfl⟩
      · simp [Outcome.final] at h
    · simp only [hscan] at h
      obtain ⟨s1', s2', _, _⟩ := scan_free_lists_some _ _ _ _ hscan
      obtain ⟨g1, g2, _⟩ := chunk_alloc_retry_from_pool sys fuel size nobjs _ sc
        (by
          right
          simp only [take_block]
          rw [ptr_diff_add _ _ (by omega)]
          exact s1') h
      simp only [take_block] at g1 g2
      rw [g1, g2, f5]
      refine ⟨?_, rfl⟩
      rw [store_other, f4]
      · exact d1
      · have := FREELIST_INDEX_lt_of_aligned hr8 hpos (show _ < i by omega) s2'
        omega
  · rw [if_neg c3] at h
    obtain ⟨g1, g2, _⟩ := chunk_alloc_retry_from_pool sys fuel size nobjs _ sc
      (by simp only [install_pool]; exact hgrown _) h
    simp only [install_pool] at g1 g2
    rw [g1, g2, f4, f5]
    exact ⟨d1, rfl⟩

theorem refill_other_lists (sys : Sys) (fuel n : Nat) (s s1 : AllocState)
    (h : (refill sys fuel n s).final = some s1) :
    ∃ sc, (chunk_alloc sys fuel n 20 s).final = some sc ∧ s1.trace = sc.trace ∧
      ∀ idx, idx ≠ FREELIST_INDEX n → s1.free_list idx = sc.free_list idx := by
  unfold refill at h
  split at h
  · rename_i chunk nobjs sc hca
    refine ⟨sc, by rw [hca]; rfl, ?_⟩
    by_cases h1 : nobjs = 1
    · simp only [h1, if_true, Outcome.final, Option.some.injEq] at h
      subst h
      exact ⟨rfl, fun _ _ => rfl⟩
    · simp only [h1, if_false] at h
      split at h
      · simp only [Outcome.final, Option.some.injEq] at h
        subst h
        exact ⟨rfl, fun idx hidx => store_other _ _ _ _ hidx⟩
      · simp [Outcome.final] at h
  · rename_i sc hca
    simp only [Outcome.final, Option.some.injEq] at h
    subst h
    exact ⟨_, by rw [hca]; rfl, rfl, fun _ _ => rfl⟩
  · simp [Outcome.final] at h

/-- The ways a call of `chunk_alloc` goes in a state with a well-formed pool:
it is served from the pool; or it calls itself once, in a state whose pool is
well formed, starts at a non-null address and serves the second call; or it
throws with an empty pool; or the handler loop of the first tier does not end
within the fuel. -/
theorem chunk_alloc_cases (sys : Sys) (fuel size nobjs : Nat) (s : AllocState)
    (hs : pool_ok s) (hsize : size % 8 = 0) (hsz : size ≤ 128) (hnb : nobjs ≤ 20) :
    (wrap (size * nobjs) ≤ ptr_diff s.end_free s.start_free ∨
      size ≤ ptr_diff s.end_free s.start_free) ∨
    (∃ t, chunk_alloc sys fuel size nobjs s = chunk_alloc_retry sys fuel size nobjs t ∧
      pool_ok t ∧ t.start_free ≠ 0 ∧
      (wrap (size * nobjs) ≤ ptr_diff t.end_free t.start_free ∨
        size ≤ ptr_diff t.end_free t.start_free)) ∨
    (∃ t, chunk_alloc sys fuel size nobjs s = Outcome.bad_alloc t ∧
      t.start_free = 0 ∧ t.end_free = 0 ∧ t.heap_size = s.heap_size) ∨
    chunk_alloc sys fuel size nobjs s = Outcome.out_of_fuel := by
  by_cases c1 : wrap (size * nobjs) ≤ ptr_diff s.end_free s.start_free
  · exact Or.inl (Or.inl c1)
  by_cases c2 : size ≤ ptr_diff s.end_free s.start_free
  · exact Or.inl (Or.inr c2)
  right
  obtain ⟨o1, o2, o3, o4, o5, o6⟩ := hs
  have hg8 := growth_target_mod_eight size nobjs s hsize
  have hglt := growth_target_lt size nobjs s
  obtain ⟨f1, f2, f3, f4, f5, f6⟩ := after_malloc_frame sys size nobjs s
  have hgrown : ∀ q (t : AllocState), t.heap_size = s.heap_size → q ≠ 0 →
      pool_ok (install_pool q (growth_target size nobjs s) t) ∧
      (install_pool q (growth_target size nobjs s) t).start_free ≠ 0 ∧
      (wrap (size * nobjs) ≤ ptr_diff (install_pool q (growth_target size nobjs s) t).end_free
          (install_pool q (growth_target size nobjs s) t).start_free ∨
        size ≤ ptr_diff (install_pool q (growth_target size nobjs s) t).end_free
          (install_pool q (growth_target size nobjs s) t).start_free) := by
    intro q t ht hq
    refine ⟨?_, hq, ?_⟩
    · refine ⟨?_, ?_, ?_, ?_, ?_, ?_⟩ <;> simp only [install_pool]
      · omega
      · omega
      · omega
      · rw [wrap_mod_eight, ht]; omega
      · exact wrap_lt _
      · intro h0; exact absurd h0 hq
    · left
      simp only [install_pool]
      rw [ptr_diff_add _ _ hglt]
      exact (growth_target_ge size nobjs s hsz hnb o5).2
  rw [chunk_alloc_eq, if_neg c1, if_neg c2]
  by_cases c3 : (after_malloc sys size nobjs s).start_free = 0
  · rw [if_pos c3]
    rcases hscan : scan_free_lists (after_malloc sys size nobjs s).free_list
        (__NFREELISTS + 1) size with _ | i
    · simp only
      rcases hcall : __malloc_alloc_template.allocate sys fuel (growth_target size nobjs s)
          { after_malloc sys size nobjs s with end_free := 0 } with ⟨q, s4⟩ | ⟨s4⟩ | _
      · left
        have hq := first_tier_allocate_ret_ne_zero sys fuel _ q _ s4 hcall
        obtain ⟨⟨_, _, _, b4⟩, _⟩ :=
          first_tier_allocate_frame sys fuel _ _ s4 (by rw [hcall]; rfl)
        simp only at b4
        exact ⟨_, rfl, hgrown q s4 (by rw [b4, f2]) hq⟩
      · right; left
        obtain ⟨⟨_, b2, b3, b4⟩, _⟩ :=
          first_tier_allocate_frame sys fuel _ _ s4 (by rw [hcall]; rfl)
        simp only at b2 b3 b4
        exact ⟨s4, rfl, by rw [b2, c3], b3, by rw [b4, f2]⟩
      · right; right; rfl
    · left
      simp only
      obtain ⟨s1', s2', s3', s4'⟩ := scan_free_lists_some _ _ _ _ hscan
      refine ⟨_, rfl, ?_, ?_, ?_⟩
      · refine ⟨?_, ?_, ?_, ?_, ?_, ?_⟩ <;> simp only [take_block]
        · omega
        · omega
        · omega
        · rw [f2]; exact o4
        · rw [f2]; exact o5
        · intro h0; exact absurd h0 s4'
      · exact s4'
      · right
        simp only [take_block]
        rw [ptr_diff_add _ _ (by omega)]
        exact s1'
  · rw [if_neg c3]
    left
    exact ⟨_, rfl, hgrown _ _ f2 c3⟩

theorem chunk_alloc_direct_ret (sys : Sys) (fuel size nobjs b c : Nat) (s sc : AllocState)
    (hpool : wrap (size * nobjs) ≤ ptr_diff s.end_free s.start_free ∨
      size ≤ ptr_diff s.end_free s.start_free)
    (h : chunk_alloc sys fuel size nobjs s = Outcome.ret (b, c) sc) : b = s.start_free := by
  by_cases c1 : wrap (size * nobjs) ≤ ptr_diff s.end_free s.start_free
  · rw [chunk_alloc_sufficient sys fuel size nobjs s c1] at h
    simp only [Outcome.ret.injEq, Prod.mk.injEq] at h
    exact h.1.1.symm
  · have c2 : size ≤ ptr_diff s.end_free s.start_free := by
      rcases hpool with h1 | h2
      · exact absurd h1 c1
      · exact h2
    rw [chunk_alloc_some_blocks sys fuel size nobjs s c1 c2] at h
    simp only [Outcome.ret.injEq, Prod.mk.injEq] at h
    exact h.1.1.symm

theorem chunk_alloc_ret_ne_zero (sys : Sys) (fuel size nobjs b c : Nat) (s sc : AllocState)
    (hs : pool_ok s) (hsize : size % 8 = 0) (hlo : 1 ≤ size) (hsz : size ≤ 128)
    (hnb1 : 1 ≤ nobjs) (hnb : nobjs ≤ 20)
    (h : chunk_alloc sys fuel size nobjs s = Outcome.ret (b, c) sc) : b ≠ 0 := by
  have hbytes := batch_bytes size nobjs hsz hnb
  have hone : 1 ≤ size * nobjs := Nat.mul_pos hlo hnb1
  rcases chunk_alloc_cases sys fuel size nobjs s hs hsize hsz hnb with
    hd | ⟨t, e, _, ht0, htd⟩ | ⟨t, e, _⟩ | e
  · rw [chunk_alloc_direct_ret sys fuel size nobjs b c s sc hd h]
    have hbl := pool_ok_bytes_left hs
    obtain ⟨o1, o2, o3, o4, o5, o6⟩ := hs
    rw [hbytes.1, hbl] at hd
    intro h0
    have := o6 h0
    omega
  · rw [e] at h
    cases fuel with
    | zero => simp [chunk_alloc_retry] at h
    | succ f =>
      rw [chunk_alloc_direct_ret sys f size nobjs b c t sc htd h]
      exact ht0
  · rw [e] at h; simp at h
  · rw [e] at h; simp at h

theorem allocate_small_ret_ne_zero (sys : Sys) (fuel n p : Nat) (s s1 : AllocState)
    (hs : pool_ok s) (h1 : 1 ≤ n) (h2 : n ≤ 128)
    (h : allocate sys fuel n s = Outcome.ret p s1) : p ≠ 0 := by
  rw [allocate_small_eq sys fuel n s h1 h2] at h
  by_cases hp : s.free_list (FREELIST_INDEX n) = 0
  · rw [if_pos hp] at h
    obtain ⟨r1, _, r3, r4, _, _⟩ := ROUND_UP_small h1 h2
    unfold refill at h
    split at h
    · rename_i chunk nobjs sc hca
      have hne := chunk_alloc_ret_ne_zero sys fuel (ROUND_UP n) 20 chunk nobjs s sc hs r1
        (by omega) r3 (by omega) (le_refl _) hca
      by_cases hn1 : nobjs = 1
      · simp only [hn1, if_true, Outcome.ret.injEq] at h
        rw [← h.1]; exact hne
      · simp only [hn1, if_false] at h
        split at h
        · simp only [Outcome.ret.injEq] at h
          rw [← h.1]; exact hne
        · simp at h
    · simp at h
    · simp at h
  · rw [if_neg hp] at h
    simp only [Outcome.ret.injEq] at h
    rw [← h.1]; exact hp

/-- The calls that `oom_malloc` adds to the record are handler calls and
`malloc` requests; `std::realloc` is not among them. -/
theorem oom_malloc_no_realloc (sys : Sys) (n : Nat) :
    ∀ (fuel : Nat) (s s1 : AllocState),
      (__malloc_alloc_template.oom_malloc sys fuel n s).final = some s1 →
        ∃ rest, s1.trace = s.trace ++ rest ∧ ∀ e, e ∈ rest → e.isRealloc = false := by
  intro fuel
  induction fuel with
  | zero =>
    intro s s1 h
    unfold __malloc_alloc_template.oom_malloc at h
    by_cases h0 : s.oom_handler = 0
    · simp only [h0, if_true, Outcome.final, Option.some.injEq] at h
      subst h
      exact ⟨[], by simp, by simp⟩
    · simp only [h0, if_false] at h
      by_cases hr : (malloc sys n (call_handler s.oom_handler s)).1 = 0
      · simp [hr, Outcome.final] at h
      · simp only [ne_eq, hr, not_false_eq_true, if_true, Outcome.final, Option.some.injEq] at h
        subst h
        refine ⟨_, List.append_assoc _ _ _, ?_⟩
        intro e he
        simp only [List.cons_append, List.nil_append, List.mem_cons, List.mem_singleton,
          List.not_mem_nil, or_false] at he
        rcases he with rfl | rfl <;> rfl
  | succ k ih =>
    intro s s1 h
    unfold __malloc_alloc_template.oom_malloc at h
    by_cases h0 : s.oom_handler = 0
    · simp only [h0, if_true, Outcome.final, Option.some.injEq] at h
      subst h
      exact ⟨[], by simp, by simp⟩
    · simp only [h0, if_false] at h
      by_cases hr : (malloc sys n (call_handler s.oom_handler s)).1 = 0
      · simp only [ne_eq, hr, not_true_eq_false, if_false] at h
        obtain ⟨rest, ht, hnone⟩ := ih _ _ h
        refine ⟨[Event.handler s.oom_handler] ++
          ([Event.malloc n (sys (sys_calls (s.trace ++ [Event.handler s.oom_handler])) n)] ++
            rest), ?_, ?_⟩
        · rw [ht]
          simp [malloc, call_handler]
        · intro e he
          simp only [List.cons_append, List.nil_append, List.mem_cons] at he
          rcases he with rfl | rfl | he
          · rfl
          · rfl
          · exact hnone e he
      · simp only [ne_eq, hr, not_false_eq_true, if_true, Outcome.final, Option.some.injEq] at h
        subst h
        refine ⟨_, List.append_assoc _ _ _, ?_⟩
        intro e he
        simp only [List.cons_append, List.nil_append, List.mem_cons, List.mem_singleton,
          List.not_mem_nil, or_false] at he
        rcases he with rfl | rfl <;> rfl

theorem first_tier_allocate_no_realloc (sys : Sys) (fuel n : Nat) (s s1 : AllocState)
    (h : (__malloc_alloc_template.allocate sys fuel n s).final = some s1) :
    ∃ rest, s1.trace = s.trace ++ Event.malloc n (sys (sys_calls s.trace) n) :: rest ∧
      ∀ e, e ∈ rest → e.isRealloc = false := by
  unfold __malloc_alloc_template.allocate at h
  by_cases hr : (malloc sys n s).1 = 0
  · simp only [hr, if_true] at h
    obtain ⟨rest, ht, hnone⟩ := oom_malloc_no_realloc sys n fuel _ _ h
    refine ⟨rest, ?_, hnone⟩
    rw [ht]
    simp [malloc]
  · simp only [hr, if_false, Outcome.final, Option.some.injEq] at h
    subst h
    exact ⟨[], by simp [malloc], by simp⟩

theorem allocate_large_eq (sys : Sys) (fuel n : Nat) (s : AllocState) (hn : n > 128) :
    allocate sys fuel n s = __malloc_alloc_template.allocate sys fuel n s := by
  unfold allocate __MAX_BYTES
  have h0 : n ≠ 0 := by omega
  simp [h0, hn]

theorem deallocate_large_eq (p n : Nat) (s : AllocState) (hn : n > 128) :
    deallocate p n s = { s with trace := s.trace ++ [Event.free p] } := by
  unfold deallocate __MAX_BYTES
  have h0 : n ≠ 0 := by omega
  simp [h0, hn, __malloc_alloc_template.deallocate, free]

theorem scan_free_lists_none_inv (fl : Nat → Nat) :
    ∀ (k i : Nat), i % 8 = 0 → 1 ≤ i → 128 < i + 8 * k → scan_free_lists fl k i = none →
      ∀ j, i ≤ j → j ≤ 128 → fl (FREELIST_INDEX j) = 0 := by
  intro k
  induction k with
  | zero => intro i _ _ hk _ j hj hj2; omega
  | succ k ih =>
    intro i hi8 hi1 hk h j hj hj2
    rw [scan_free_lists] at h
    have h1 : i ≤ __MAX_BYTES := by unfold __MAX_BYTES; omega
    simp only [h1, if_true] at h
    by_cases h2 : fl (FREELIST_INDEX i) = 0
    · simp only [ne_eq, h2, not_true_eq_false, if_false] at h
      unfold __ALIGN at h
      by_cases hji : j = i
      · rw [hji]; exact h2
      · have hnext := ih (i + 8) (by omega) (by omega) (by omega) h
        by_cases hj8 : i + 8 ≤ j
        · exact hnext j hj8 hj2
        · have e : FREELIST_INDEX j = FREELIST_INDEX (i + 8) := by
            rw [FREELIST_INDEX_eq (by omega) (by omega), FREELIST_INDEX_eq (by omega) (by omega)]
            omega
          rw [e]
          exact hnext (i + 8) (le_refl _) (by omega)
    · simp [h2] at h

theorem first_tier_allocate_no_handler (sys : Sys) (fuel n : Nat) (s : AllocState)
    (hh : s.oom_handler = 0) :
    (sys (sys_calls s.trace) n = 0 →
      __malloc_alloc_template.allocate sys fuel n s =
        Outcome.bad_alloc { s with trace := s.trace ++ [Event.malloc n 0] }) ∧
    (sys (sys_calls s.trace) n ≠ 0 →
      __malloc_alloc_template.allocate sys fuel n s =
        Outcome.ret (sys (sys_calls s.trace) n)
          { s with trace := s.trace ++ [Event.malloc n (sys (sys_calls s.trace) n)] }) := by
  constructor
  · intro hfail
    unfold __malloc_alloc_template.allocate
    have hr : (malloc sys n s).1 = 0 := hfail
    simp only [hr, if_true]
    unfold __malloc_alloc_template.oom_malloc
    have hh2 : (malloc sys n s).2.oom_handler = 0 := hh
    simp only [hh2, if_true]
    simp [malloc, hfail]
  · intro hok
    unfold __malloc_alloc_template.allocate
    have hr : ¬ (malloc sys n s).1 = 0 := hok
    simp only [hr, if_false]
    rfl

theorem chunk_alloc_direct_count (sys : Sys) (fuel size nobjs : Nat) (t : AllocState)
    (hlo : 1 ≤ size) (hnb : 1 ≤ nobjs)
    (hpool : wrap (size * nobjs) ≤ ptr_diff t.end_free t.start_free ∨
      size ≤ ptr_diff t.end_free t.start_free) :
    ∃ c sc, chunk_alloc sys fuel size nobjs t = Outcome.ret (t.start_free, c) sc ∧ 1 ≤ c := by
  by_cases c1 : wrap (size * nobjs) ≤ ptr_diff t.end_free t.start_free
  · exact ⟨_, _, chunk_alloc_sufficient sys fuel size nobjs t c1, hnb⟩
  · have c2 : size ≤ ptr_diff t.end_free t.start_free := by
      rcases hpool with h1 | h2
      · exact absurd h1 c1
      · exact h2
    refine ⟨_, _, chunk_alloc_some_blocks sys fuel size nobjs t c1 c2, ?_⟩
    exact (Nat.le_div_iff_mul_le (by omega)).mpr (by omega)

theorem refill_returns (sys : Sys) (fuel n b c : Nat) (s sc : AllocState) (hn : 1 ≤ n)
    (hc : 1 ≤ c) (h : chunk_alloc sys fuel n 20 s = Outcome.ret (b, c) sc) :
    ∃ s1, refill sys fuel n s = Outcome.ret b s1 := by
  by_cases h1 : c = 1
  · subst h1
    exact ⟨sc, refill_single sys fuel n b s sc h⟩
  · obtain ⟨l, e, _⟩ := refill_batch sys fuel n b c s sc hn (by omega) h
    exact ⟨_, e⟩

/-- With no handler registered and fuel for one self-call, `chunk_alloc`
throws exactly when the pool cannot serve one block, the larger free lists are
empty and both requests to the system allocator fail; otherwise it returns at
least one block. -/
theorem chunk_alloc_no_handler (sys : Sys) (fuel size : Nat) (s : AllocState)
    (hs : pool_ok s) (hsize : size % 8 = 0) (hlo : 8 ≤ size) (hsz : size ≤ 128)
    (hh : s.oom_handler = 0) (hfuel : 1 ≤ fuel) :
    ((¬ size ≤ ptr_diff s.end_free s.start_free ∧
        (∀ j, size ≤ j → j ≤ 128 → s.free_list (FREELIST_INDEX j) = 0) ∧
        sys (sys_calls s.trace) (growth_target size 20 s) = 0 ∧
        sys (sys_calls s.trace + 1) (growth_target size 20 s) = 0) →
      ∃ t, chunk_alloc sys fuel size 20 s = Outcome.bad_alloc t) ∧
    (¬ (¬ size ≤ ptr_diff s.end_free s.start_free ∧
        (∀ j, size ≤ j → j ≤ 128 → s.free_list (FREELIST_INDEX j) = 0) ∧
        sys (sys_calls s.trace) (growth_target size 20 s) = 0 ∧
        sys (sys_calls s.trace + 1) (growth_target size 20 s) = 0) →
      ∃ b c sc, chunk_alloc sys fuel size 20 s = Outcome.ret (b, c) sc ∧ 1 ≤ c) := by
  obtain ⟨fuel1, rfl⟩ : ∃ f, fuel = f + 1 := ⟨fuel - 1, by omega⟩
  have hbytes := (batch_bytes size 20 hsz (le_refl _)).1
  obtain ⟨f1, f2, f3, f4, f5, f6⟩ := after_malloc_frame sys size 20 s
  have hheap := hs.2.2.2.2.1
  have htr : sys_calls (after_malloc sys size 20 s).trace = sys_calls s.trace + 1 := by
    rw [f6]; exact sys_calls_malloc _ _ _
  have hgrown : ∀ q (t : AllocState),
      wrap (size * 20) ≤ ptr_diff (install_pool q (growth_target size 20 s) t).end_free
          (install_pool q (growth_target size 20 s) t).start_free ∨
        size ≤ ptr_diff (install_pool q (growth_target size 20 s) t).end_free
          (install_pool q (growth_target size 20 s) t).start_free := by
    intro q t
    left
    simp only [install_pool]
    rw [ptr_diff_add _ _ (growth_target_lt size 20 s)]
    exact (growth_target_ge size 20 s hsz (le_refl _) hheap).2
  by_cases c2 : size ≤ ptr_diff s.end_free s.start_free
  · refine ⟨fun h => absurd c2 h.1, fun _ => ?_⟩
    obtain ⟨c, sc, e, hc⟩ := chunk_alloc_direct_count sys (fuel1 + 1) size 20 s (by omega)
      (by omega) (Or.inr c2)
    exact ⟨_, c, sc, e, hc⟩
  have c1 : ¬ wrap (size * 20) ≤ ptr_diff s.end_free s.start_free := by
    rw [hbytes]; omega
  have hlists : ∀ j, size ≤ j → j ≤ 128 →
      (after_malloc sys size 20 s).free_list (FREELIST_INDEX j) =
        s.free_list (FREELIST_INDEX j) := by
    intro j hj hj2
    rw [f4]; exact donate_remainder_larger_lists s size hs hsize c2 j hj hj2
  by_cases c3 : (after_malloc sys size 20 s).start_free = 0
  · have hsys0 : sys (sys_calls s.trace) (growth_target size 20 s) = 0 := by
      rw [after_malloc_start] at c3; exact c3
    rcases hscan : scan_free_lists (after_malloc sys size 20 s).free_list
        (__NFREELISTS + 1) size with _ | i
    · have hempty : ∀ j, size ≤ j → j ≤ 128 → s.free_list (FREELIST_INDEX j) = 0 := by
        intro j hj hj2
        rw [← hlists j hj hj2]
        exact scan_free_lists_none_inv _ _ size hsize (by omega)
          (by unfold __NFREELISTS __MAX_BYTES __ALIGN; omega) hscan j hj hj2
      have hh2 : ({ after_malloc sys size 20 s with end_free := 0 } : AllocState).oom_handler
          = 0 := by
        simp only [f3]; exact hh
      obtain ⟨hbad, hgood⟩ := first_tier_allocate_no_handler sys (fuel1 + 1)
        (growth_target size 20 s) { after_malloc sys size 20 s with end_free := 0 } hh2
      simp only [htr] at hbad hgood
      by_cases hsys1 : sys (sys_calls s.trace + 1) (growth_target size 20 s) = 0
      · refine ⟨fun _ => ?_, fun h => absurd ⟨c2, hempty, hsys0, hsys1⟩ h⟩
        rw [chunk_alloc_eq, if_neg c1, if_neg c2, if_pos c3]
        simp only [hscan]
        rw [hbad hsys1]
        exact ⟨_, rfl⟩
      · refine ⟨fun h => absurd h.2.2.2 hsys1, fun _ => ?_⟩
        obtain ⟨c, sc, e, hc⟩ := chunk_alloc_direct_count sys fuel1 size 20
          (install_pool (sys (sys_calls s.trace + 1) (growth_target size 20 s))
            (growth_target size 20 s)
            { ({ after_malloc sys size 20 s with end_free := 0 } : AllocState) with
              trace := (after_malloc sys size 20 s).trace ++
                [Event.malloc (growth_target size 20 s)
                  (sys (sys_calls s.trace + 1) (growth_target size 20 s))] })
          (by omega) (by omega) (hgrown _ _)
        rw [chunk_alloc_eq, if_neg c1, if_neg c2, if_pos c3]
        simp only [hscan]
        rw [hgood hsys1]
        exact ⟨_, c, sc, e, hc⟩
    · obtain ⟨s1', s2', _, s4'⟩ := scan_free_lists_some _ _ _ _ hscan
      refine ⟨fun h => ?_, fun _ => ?_⟩
      · exfalso
        apply s4'
        rw [hlists i s1' s2']
        exact h.2.1 i s1' s2'
      · obtain ⟨c, sc, e, hc⟩ := chunk_alloc_direct_count sys fuel1 size 20
          (take_block i (after_malloc sys size 20 s)) (by omega) (by omega)
          (by
            right
            simp only [take_block]
            rw [ptr_diff_add _ _ (by omega)]
            exact s1')
        rw [chunk_alloc_eq, if_neg c1, if_neg c2, if_pos c3]
        simp only [hscan]
        exact ⟨_, c, sc, e, hc⟩
  · have hsys0 : sys (sys_calls s.trace) (growth_target size 20 s) ≠ 0 := by
      rw [after_malloc_start] at c3; exact c3
    refine ⟨fun h => absurd h.2.2.1 hsys0, fun _ => ?_⟩
    exact ⟨_, 20, _, chunk_alloc_grow sys fuel1 size 20 s hsz (le_refl _) hheap c1 c2 hsys0,
      by omega⟩



theorem chain_nil (link : Nat → Nat) (head : Nat) : chain link head [] ↔ head = 0 := by
  rw [chain]

theorem chain_cons (link : Nat → Nat) (head a : Nat) (rest : List Nat) :
    chain link head (a :: rest) ↔ head = a ∧ a ≠ 0 ∧ chain link (link a) rest := by
  rw [chain]

theorem chain_of_zero {link : Nat → Nat} {blocks : List Nat} (h : chain link 0 blocks) :
    blocks = [] := by
  cases blocks with
  | nil => rfl
  | cons a rest =>
    rw [chain_cons] at h
    exact absurd h.1.symm h.2.1

theorem chain_of_ne_zero {link : Nat → Nat} {head : Nat} {blocks : List Nat}
    (h : chain link head blocks) (hne : head ≠ 0) :
    ∃ rest, blocks = head :: rest ∧ chain link (link head) rest := by
  cases blocks with
  | nil =>
    rw [chain_nil] at h
    exact absurd h hne
  | cons a rest =>
    rw [chain_cons] at h
    obtain ⟨h1, _, h3⟩ := h
    subst h1
    exact ⟨rest, rfl, h3⟩

theorem chain_congr {link link1 : Nat → Nat} :
    ∀ (blocks : List Nat) (head : Nat), (∀ a ∈ blocks, link1 a = link a) →
      chain link head blocks → chain link1 head blocks := by
  intro blocks
  induction blocks with
  | nil =>
    intro head _ h
    rw [chain_nil] at *
    exact h
  | cons a rest ih =>
    intro head hl h
    rw [chain_cons] at *
    refine ⟨h.1, h.2.1, ?_⟩
    rw [hl a (List.mem_cons_self _ _)]
    exact ih _ (fun b hb => hl b (List.mem_cons_of_mem _ hb)) h.2.2

theorem chain_store {link : Nat → Nat} {head : Nat} {blocks : List Nat} (p v : Nat)
    (hp : p ∉ blocks) (h : chain link head blocks) : chain (store link p v) head blocks := by
  refine chain_congr blocks head ?_ h
  intro a ha
  exact store_other _ _ _ _ (fun e => hp (e ▸ ha))

theorem mem_block_run (n : Nat) (count b a : Nat) :
    a ∈ block_run b n count ↔ ∃ j, j < count ∧ a = b + j * n := by
  rw [block_run_eq_map]
  simp only [List.mem_map, List.mem_range]
  constructor
  · rintro ⟨j, hj, e⟩
    exact ⟨j, hj, e.symm⟩
  · rintro ⟨j, hj, e⟩
    exact ⟨j, hj, e.symm⟩

theorem block_run_nodup (n : Nat) (hn : 1 ≤ n) :
    ∀ (count b : Nat), (block_run b n count).Nodup := by
  intro count
  induction count with
  | zero => intro b; simp [block_run]
  | succ k ih =>
    intro b
    rw [block_run, List.nodup_cons]
    refine ⟨?_, ih _⟩
    rw [mem_block_run]
    rintro ⟨j, _, e⟩
    have : 0 ≤ j * n := Nat.zero_le _
    omega

theorem link_blocks_chain (nobjs n : Nat) (hn : 1 ≤ n) :
    ∀ (d k i next_obj : Nat) (link : Nat → Nat), next_obj ≠ 0 → nobjs - 1 = i + d → d + 1 ≤ k →
      ∃ l, link_blocks k nobjs n i next_obj link = some l ∧
        chain l next_obj (block_run next_obj n (d + 1)) ∧
        (∀ x, x ∉ block_run next_obj n (d + 1) → l x = link x) := by
  intro d
  induction d with
  | zero =>
    intro k i next_obj link hne hi hk
    obtain ⟨k1, rfl⟩ : ∃ k1, k = k1 + 1 := ⟨k - 1, by omega⟩
    refine ⟨store link next_obj 0, ?_, ?_, ?_⟩
    · rw [link_blocks]
      simp [hi]
    · simp only [block_run, chain_cons, chain_nil, store_same]
      exact ⟨trivial, hne, trivial⟩
    · intro x hx
      simp only [block_run, List.mem_cons, List.mem_nil_iff, or_false, List.not_mem_nil] at hx
      exact store_other _ _ _ _ hx
  | succ d ih =>
    intro k i next_obj link hne hi hk
    obtain ⟨k1, rfl⟩ : ∃ k1, k = k1 + 1 := ⟨k - 1, by omega⟩
    have hi2 : ¬ nobjs - 1 = i := by omega
    obtain ⟨l, e, hw, hfr⟩ := ih k1 (i + 1) (next_obj + n)
      (store link next_obj (next_obj + n)) (by omega) (by omega) (by omega)
    have hnot : next_obj ∉ block_run (next_obj + n) n (d + 1) := by
      rw [mem_block_run]
      rintro ⟨j, _, e1⟩
      omega
    refine ⟨l, ?_, ?_, ?_⟩
    · rw [link_blocks]
      simp only [hi2, if_false]
      exact e
    · rw [block_run, chain_cons]
      refine ⟨rfl, hne, ?_⟩
      rw [hfr next_obj hnot, store_same]
      exact hw
    · intro x hx
      rw [block_run, List.mem_cons, not_or] at hx
      rw [hfr x hx.2]
      exact store_other _ _ _ _ hx.1

theorem obtained_of_trace {s s1 : AllocState} {suffix : List Event}
    (h : s1.trace = s.trace ++ suffix) : obtained s s1 = suffix.filterMap event_region := by
  unfold obtained
  rw [h, List.drop_left]

theorem oom_malloc_obtained (sys : Sys) (n : Nat) :
    ∀ (fuel : Nat) (s s1 : AllocState) (q : Nat),
      __malloc_alloc_template.oom_malloc sys fuel n s = Outcome.ret q s1 →
        ∃ suffix, s1.trace = s.trace ++ suffix ∧ (q, n) ∈ suffix.filterMap event_region := by
  have hstep : ∀ (s : AllocState), (malloc sys n (call_handler s.oom_handler s)).1 ≠ 0 →
      ∃ suffix, (malloc sys n (call_handler s.oom_handler s)).2.trace = s.trace ++ suffix ∧
        ((malloc sys n (call_handler s.oom_handler s)).1, n) ∈ suffix.filterMap event_region := by
    intro s hr
    refine ⟨[Event.handler s.oom_handler,
      Event.malloc n (malloc sys n (call_handler s.oom_handler s)).1], ?_, ?_⟩
    · simp [malloc, call_handler]
    · simp only [List.filterMap_cons, event_region, hr, if_false, List.filterMap_nil,
        List.mem_singleton]
  intro fuel
  induction fuel with
  | zero =>
    intro s s1 q h
    rw [__malloc_alloc_template.oom_malloc] at h
    by_cases h0 : s.oom_handler = 0
    · simp [h0] at h
    · by_cases hr : (malloc sys n (call_handler s.oom_handler s)).1 = 0
      · simp [h0, hr] at h
      · simp only [h0, if_false, ne_eq, hr, not_false_eq_true, if_true, Outcome.ret.injEq] at h
        rw [← h.1, ← h.2]
        exact hstep s hr
  | succ k ih =>
    intro s s1 q h
    rw [__malloc_alloc_template.oom_malloc] at h
    by_cases h0 : s.oom_handler = 0
    · simp [h0] at h
    · by_cases hr : (malloc sys n (call_handler s.oom_handler s)).1 = 0
      · simp only [h0, if_false, ne_eq, hr, not_true_eq_false] at h
        obtain ⟨suffix, e1, e2⟩ := ih _ _ _ h
        refine ⟨[Event.handler s.oom_handler, Event.malloc n 0] ++ suffix, ?_, ?_⟩
        · rw [e1]
          simp [malloc, call_handler] at hr ⊢
          exact hr
        · rw [List.filterMap_append]
          exact List.mem_append_right _ e2
      · simp only [h0, if_false, ne_eq, hr, not_false_eq_true, if_true, Outcome.ret.injEq] at h
        rw [← h.1, ← h.2]
        exact hstep s hr

theorem first_tier_allocate_obtained (sys : Sys) (fuel n q : Nat) (s s1 : AllocState)
    (h : __malloc_alloc_template.allocate sys fuel n s = Outcome.ret q s1) :
    ∃ suffix, s1.trace = s.trace ++ suffix ∧ (q, n) ∈ suffix.filterMap event_region := by
  unfold __malloc_alloc_template.allocate at h
  by_cases hr : (malloc sys n s).1 = 0
  · simp only [hr, if_true] at h
    obtain ⟨suffix, e1, e2⟩ := oom_malloc_obtained sys n fuel _ _ _ h
    refine ⟨[Event.malloc n 0] ++ suffix, ?_, ?_⟩
    · rw [e1]
      simp [malloc] at hr ⊢
      exact hr
    · rw [List.filterMap_append]
      exact List.mem_append_right _ e2
  · simp only [hr, if_false, Outcome.ret.injEq] at h
    rw [← h.1, ← h.2]
    refine ⟨[Event.malloc n (malloc sys n s).1], ?_, ?_⟩
    · simp [malloc]
    · simp only [List.filterMap_cons, event_region, hr, if_false, List.filterMap_nil,
        List.mem_singleton]

theorem separate_transfer (O N : Layout) (owned owned1 : List (Nat × Nat))
    (parent : Piece → Piece) (hO : O.separate owned) (hsub : ∀ r ∈ owned, r ∈ owned1)
    (hpar : ∀ x, N.present x → O.present (parent x) ∧ O.addr (parent x) ≤ N.addr x ∧
      N.addr x + N.len x ≤ O.addr (parent x) + O.len (parent x))
    (hsame : ∀ x y, N.present x → N.present y → x ≠ y → parent x = parent y →
      apart (N.addr x) (N.len x) (N.addr y) (N.len y)) : N.separate owned1 := by
  refine ⟨?_, ?_⟩
  · intro x hx
    obtain ⟨h1, h2, h3⟩ := hpar x hx
    obtain ⟨r, hr, h4, h5⟩ := hO.1 _ h1
    exact ⟨r, hsub r hr, by omega, by omega⟩
  · intro x y hx hy hne
    by_cases e : parent x = parent y
    · exact hsame x y hx hy hne e
    · obtain ⟨h1, h2, h3⟩ := hpar x hx
      obtain ⟨k1, k2, k3⟩ := hpar y hy
      have := hO.2 _ _ h1 k1 e
      unfold apart at *
      omega

theorem mem_update_lists (lists : Nat → List Nat) (c0 : Nat) (blocks : List Nat) (c b : Nat) :
    b ∈ Function.update lists c0 blocks c ↔ (c = c0 ∧ b ∈ blocks) ∨ (c ≠ c0 ∧ b ∈ lists c) := by
  by_cases e : c = c0
  · subst e
    simp
  · simp [Function.update_noteq e, e]

theorem wellformed_pop (link heads : Nat → Nat) (lists : Nat → List Nat)
    (held owned : List (Nat × Nat)) (lo hi c0 a : Nat) (rest : List Nat)
    (h : wellformed link heads ⟨lists, held, lo, hi⟩ owned) (hc : c0 < 16)
    (hl : lists c0 = a :: rest) :
    wellformed link (store heads c0 (link a))
      ⟨Function.update lists c0 rest, (a, c0) :: held, lo, hi⟩ owned := by
  obtain ⟨hch, hnd, hcl, hhn, hown, hle, hsep⟩ := h
  simp only at hch hnd hcl hhn hle
  have hc0 := hch c0 hc
  simp only [hl, chain_cons] at hc0
  have hnd0 := hnd c0 hc
  simp only [hl, List.nodup_cons] at hnd0
  have hfree : Layout.present ⟨lists, held, lo, hi⟩ (Piece.free a c0) :=
    ⟨hc, by show a ∈ lists c0; rw [hl]; exact List.mem_cons_self _ _⟩
  have hnotheld : (a, c0) ∉ held := by
    intro hm
    have := hsep.2 (Piece.free a c0) (Piece.held a c0) hfree hm (by simp)
    simp only [Layout.addr, Layout.len, apart] at this
    omega
  refine ⟨?_, ?_, ?_, ?_, hown, hle, ?_⟩
  · intro c hc1
    by_cases e : c = c0
    · subst e
      simp only [store_same, Function.update_same]
      exact hc0.2.2
    · simp only [store_other _ _ _ _ e, Function.update_noteq e]
      exact hch c hc1
  · intro c hc1
    by_cases e : c = c0
    · subst e
      simp only [Function.update_same]
      exact hnd0.2
    · simp only [Function.update_noteq e]
      exact hnd c hc1
  · intro x hx
    rcases List.mem_cons.1 hx with rfl | hx
    · exact hc
    · exact hcl x hx
  · exact List.nodup_cons.2 ⟨hnotheld, hhn⟩
  · refine separate_transfer ⟨lists, held, lo, hi⟩ _ owned owned
      (fun x => if x = Piece.held a c0 then Piece.free a c0 else x) hsep (fun _ hr => hr) ?_ ?_
    · intro x hx
      by_cases e : x = Piece.held a c0
      · subst e
        simp only [if_true]
        exact ⟨hfree, le_refl _, le_refl _⟩
      · simp only [e, if_false]
        refine ⟨?_, ?_, ?_⟩
        · cases x with
          | free b c =>
            obtain ⟨h1, h2⟩ := hx
            refine ⟨h1, ?_⟩
            rcases (mem_update_lists _ _ _ _ _).1 h2 with ⟨e1, h3⟩ | ⟨_, h3⟩
            · subst e1
              show b ∈ lists c
              rw [hl]
              exact List.mem_cons_of_mem _ h3
            · exact h3
          | held b c =>
            rcases List.mem_cons.1 hx with h1 | h1
            · simp only [Prod.mk.injEq] at h1
              exact absurd (by rw [h1.1, h1.2]) e
            · exact h1
          | pool => exact hx
        · cases x <;> exact le_refl _
        · cases x <;> exact le_refl _
    · intro x y hx hy hne hxy
      exfalso
      by_cases e : x = Piece.held a c0
      · by_cases e1 : y = Piece.held a c0
        · exact hne (e.trans e1.symm)
        · simp only [e, e1, if_true, if_false] at hxy
          subst hxy
          exact hnd0.1 (((mem_update_lists _ _ _ _ _).1 hy.2).elim (fun k => k.2)
            (fun k => absurd rfl k.1))
      · by_cases e1 : y = Piece.held a c0
        · simp only [e, e1, if_true, if_false] at hxy
          subst hxy
          exact hnd0.1 (((mem_update_lists _ _ _ _ _).1 hx.2).elim (fun k => k.2)
            (fun k => absurd rfl k.1))
        · simp only [e, e1, if_false] at hxy
          exact hne hxy

theorem wellformed_push (link heads : Nat → Nat) (lists : Nat → List Nat)
    (held owned : List (Nat × Nat)) (lo hi c0 p : Nat)
    (h : wellformed link heads ⟨lists, held, lo, hi⟩ owned) (hp : (p, c0) ∈ held) :
    wellformed (store link p (heads c0)) (store heads c0 p)
      ⟨Function.update lists c0 (p :: lists c0), held.erase (p, c0), lo, hi⟩ owned := by
  obtain ⟨hch, hnd, hcl, hhn, hown, hle, hsep⟩ := h
  simp only at hch hnd hcl hhn hle
  have hc : c0 < 16 := hcl _ hp
  have hheld : Layout.present ⟨lists, held, lo, hi⟩ (Piece.held p c0) := hp
  have hp0 : p ≠ 0 := by
    obtain ⟨r, hr, h1, _⟩ := hsep.1 _ hheld
    have := hown r hr
    simp only [Layout.addr] at h1
    omega
  have hnot : ∀ c, c < 16 → p ∉ lists c := by
    intro c hc1 hm
    have := hsep.2 (Piece.free p c) (Piece.held p c0) ⟨hc1, hm⟩ hheld (by simp)
    simp only [Layout.addr, Layout.len, apart] at this
    omega
  refine ⟨?_, ?_, ?_, ?_, hown, hle, ?_⟩
  · intro c hc1
    by_cases e : c = c0
    · subst e
      simp only [store_same, Function.update_same, chain_cons]
      exact ⟨trivial, hp0, chain_store _ _ (hnot c hc1) (hch c hc1)⟩
    · simp only [store_other _ _ _ _ e, Function.update_noteq e]
      exact chain_store _ _ (hnot c hc1) (hch c hc1)
  · intro c hc1
    by_cases e : c = c0
    · subst e
      simp only [Function.update_same]
      exact List.nodup_cons.2 ⟨hnot c hc1, hnd c hc1⟩
    · simp only [Function.update_noteq e]
      exact hnd c hc1
  · intro x hx
    exact hcl x (List.mem_of_mem_erase hx)
  · exact hhn.erase _
  · refine separate_transfer ⟨lists, held, lo, hi⟩ _ owned owned
      (fun x => if x = Piece.free p c0 then Piece.held p c0 else x) hsep (fun _ hr => hr) ?_ ?_
    · intro x hx
      by_cases e : x = Piece.free p c0
      · subst e
        simp only [if_true]
        exact ⟨hheld, le_refl _, le_refl _⟩
      · simp only [e, if_false]
        refine ⟨?_, ?_, ?_⟩
        · cases x with
          | free b c =>
            obtain ⟨h1, h2⟩ := hx
            refine ⟨h1, ?_⟩
            rcases (mem_update_lists _ _ _ _ _).1 h2 with ⟨e1, h3⟩ | ⟨_, h3⟩
            · subst e1
              rcases List.mem_cons.1 h3 with h4 | h4
              · exact absurd (by rw [h4]) e
              · exact h4
            · exact h3
          | held b c => exact List.mem_of_mem_erase hx
          | pool => exact hx
        · cases x <;> exact le_refl _
        · cases x <;> exact le_refl _
    · intro x y hx hy hne hxy
      exfalso
      have hgone : ¬ Layout.present
          ⟨Function.update lists c0 (p :: lists c0), held.erase (p, c0), lo, hi⟩
          (Piece.held p c0) := by
        intro hm
        exact ((hhn.mem_erase_iff).1 hm).1 rfl
      by_cases e : x = Piece.free p c0
      · by_cases e1 : y = Piece.free p c0
        · exact hne (e.trans e1.symm)
        · simp only [e, e1, if_true, if_false] at hxy
          subst hxy
          exact hgone hy
      · by_cases e1 : y = Piece.free p c0
        · simp only [e, e1, if_true, if_false] at hxy
          subst hxy
          exact hgone hx
        · simp only [e, e1, if_false] at hxy
          exact hne hxy

theorem wellformed_take (link heads : Nat → Nat) (lists : Nat → List Nat)
    (held owned : List (Nat × Nat)) (lo hi c0 a : Nat) (rest : List Nat)
    (h : wellformed link heads ⟨lists, held, lo, hi⟩ owned) (hc : c0 < 16)
    (hl : lists c0 = a :: rest) :
    wellformed link (store heads c0 (link a))
      ⟨Function.update lists c0 rest, held, a, a + (c0 + 1) * 8⟩ owned := by
  obtain ⟨hch, hnd, hcl, hhn, hown, hle, hsep⟩ := h
  simp only at hch hnd hcl hhn hle
  have hc0 := hch c0 hc
  simp only [hl, chain_cons] at hc0
  have hnd0 := hnd c0 hc
  simp only [hl, List.nodup_cons] at hnd0
  have hfree : Layout.present ⟨lists, held, lo, hi⟩ (Piece.free a c0) :=
    ⟨hc, by show a ∈ lists c0; rw [hl]; exact List.mem_cons_self _ _⟩
  refine ⟨?_, ?_, hcl, hhn, hown, Nat.le_add_right _ _, ?_⟩
  · intro c hc1
    by_cases e : c = c0
    · subst e
      simp only [store_same, Function.update_same]
      exact hc0.2.2
    · simp only [store_other _ _ _ _ e, Function.update_noteq e]
      exact hch c hc1
  · intro c hc1
    by_cases e : c = c0
    · subst e
      simp only [Function.update_same]
      exact hnd0.2
    · simp only [Function.update_noteq e]
      exact hnd c hc1
  · refine separate_transfer ⟨lists, held, lo, hi⟩ _ owned owned
      (fun x => if x = Piece.pool then Piece.free a c0 else x) hsep (fun _ hr => hr) ?_ ?_
    · intro x hx
      by_cases e : x = Piece.pool
      · subst e
        simp only [if_true]
        refine ⟨hfree, le_refl _, ?_⟩
        simp only [Layout.addr, Layout.len]
        omega
      · simp only [e, if_false]
        refine ⟨?_, ?_, ?_⟩
        · cases x with
          | free b c =>
            obtain ⟨h1, h2⟩ := hx
            refine ⟨h1, ?_⟩
            rcases (mem_update_lists _ _ _ _ _).1 h2 with ⟨e1, h3⟩ | ⟨_, h3⟩
            · subst e1
              show b ∈ lists c
              rw [hl]
              exact List.mem_cons_of_mem _ h3
            · exact h3
          | held b c => exact hx
          | pool => exact absurd rfl e
        · cases x <;> first | exact le_refl _ | exact absurd rfl e
        · cases x <;> first | exact le_refl _ | exact absurd rfl e
    · intro x y hx hy hne hxy
      exfalso
      by_cases e : x = Piece.pool
      · by_cases e1 : y = Piece.pool
        · exact hne (e.trans e1.symm)
        · simp only [e, e1, if_true, if_false] at hxy
          subst hxy
          exact hnd0.1 (((mem_update_lists _ _ _ _ _).1 hy.2).elim (fun k => k.2)
            (fun k => absurd rfl k.1))
      · by_cases e1 : y = Piece.pool
        · simp only [e, e1, if_true, if_false] at hxy
          subst hxy
          exact hnd0.1 (((mem_update_lists _ _ _ _ _).1 hx.2).elim (fun k => k.2)
            (fun k => absurd rfl k.1))
        · simp only [e, e1, if_false] at hxy
          exact hne hxy

theorem wellformed_donate (link heads : Nat → Nat) (lists : Nat → List Nat)
    (held owned : List (Nat × Nat)) (lo hi c0 : Nat)
    (h : wellformed link heads ⟨lists, held, lo, hi⟩ owned) (hc : c0 < 16)
    (hr : hi - lo = (c0 + 1) * 8) :
    wellformed (store link lo (heads c0)) (store heads c0 lo)
      ⟨Function.update lists c0 (lo :: lists c0), held, hi, hi⟩ owned := by
  obtain ⟨hch, hnd, hcl, hhn, hown, hle, hsep⟩ := h
  simp only at hch hnd hcl hhn hle
  have hpool : Layout.present ⟨lists, held, lo, hi⟩ Piece.pool := by
    show lo < hi
    omega
  have hp0 : lo ≠ 0 := by
    obtain ⟨r, hr, h1, _⟩ := hsep.1 _ hpool
    have := hown r hr
    simp only [Layout.addr] at h1
    omega
  have hnot : ∀ c, c < 16 → lo ∉ lists c := by
    intro c hc1 hm
    have := hsep.2 (Piece.free lo c) Piece.pool ⟨hc1, hm⟩ hpool (by simp)
    simp only [Layout.addr, Layout.len, apart] at this
    omega
  refine ⟨?_, ?_, hcl, hhn, hown, le_refl _, ?_⟩
  · intro c hc1
    by_cases e : c = c0
    · subst e
      simp only [store_same, Function.update_same, chain_cons]
      exact ⟨trivial, hp0, chain_store _ _ (hnot c hc1) (hch c hc1)⟩
    · simp only [store_other _ _ _ _ e, Function.update_noteq e]
      exact chain_store _ _ (hnot c hc1) (hch c hc1)
  · intro c hc1
    by_cases e : c = c0
    · subst e
      simp only [Function.update_same]
      exact List.nodup_cons.2 ⟨hnot c hc1, hnd c hc1⟩
    · simp only [Function.update_noteq e]
      exact hnd c hc1
  · have hgone : ¬ Layout.present
        ⟨Function.update lists c0 (lo :: lists c0), held, hi, hi⟩ Piece.pool := by
      intro hm
      exact absurd hm (lt_irrefl _)
    refine separate_transfer ⟨lists, held, lo, hi⟩ _ owned owned
      (fun x => if x = Piece.free lo c0 then Piece.pool else x) hsep (fun _ hr => hr) ?_ ?_
    · intro x hx
      by_cases e : x = Piece.free lo c0
      · subst e
        simp only [if_true]
        refine ⟨hpool, le_refl _, ?_⟩
        simp only [Layout.addr, Layout.len]
        omega
      · simp only [e, if_false]
        refine ⟨?_, ?_, ?_⟩
        · cases x with
          | free b c =>
            obtain ⟨h1, h2⟩ := hx
            refine ⟨h1, ?_⟩
            rcases (mem_update_lists _ _ _ _ _).1 h2 with ⟨e1, h3⟩ | ⟨_, h3⟩
            · subst e1
              rcases List.mem_cons.1 h3 with h4 | h4
              · exact absurd (by rw [h4]) e
              · exact h4
            · exact h3
          | held b c => exact hx
          | pool => exact absurd hx hgone
        · cases x <;> first | exact le_refl _ | exact absurd hx hgone
        · cases x <;> first | exact le_refl _ | exact absurd hx hgone
    · intro x y hx hy hne hxy
      exfalso
      by_cases e : x = Piece.free lo c0
      · by_cases e1 : y = Piece.free lo c0
        · exact hne (e.trans e1.symm)
        · simp only [e, e1, if_true, if_false] at hxy
          subst hxy
          exact hgone hy
      · by_cases e1 : y = Piece.free lo c0
        · simp only [e, e1, if_true, if_false] at hxy
          subst hxy
          exact hgone hx
        · simp only [e, e1, if_false] at hxy
          exact hne hxy

theorem wellformed_shrink (link heads : Nat → Nat) (lists : Nat → List Nat)
    (held owned : List (Nat × Nat)) (lo hi lo1 hi1 : Nat)
    (h : wellformed link heads ⟨lists, held, lo, hi⟩ owned) (hle1 : lo1 ≤ hi1)
    (hin : lo1 < hi1 → lo ≤ lo1 ∧ hi1 ≤ hi) :
    wellformed link heads ⟨lists, held, lo1, hi1⟩ owned := by
  obtain ⟨hch, hnd, hcl, hhn, hown, hle, hsep⟩ := h
  refine ⟨hch, hnd, hcl, hhn, hown, hle1, ?_⟩
  refine separate_transfer ⟨lists, held, lo, hi⟩ _ owned owned (fun x => x) hsep
    (fun _ hr => hr) ?_ ?_
  · intro x hx
    cases x with
    | free b c => exact ⟨hx, le_refl _, le_refl _⟩
    | held b c => exact ⟨hx, le_refl _, le_refl _⟩
    | pool =>
      have hx1 : lo1 < hi1 := hx
      obtain ⟨k1, k2⟩ := hin hx1
      refine ⟨?_, ?_, ?_⟩
      · show lo < hi
        omega
      · exact k1
      · simp only [Layout.addr, Layout.len]
        omega
  · intro x y _ _ hne hxy
    exact absurd hxy hne

theorem wellformed_new_pool (link heads : Nat → Nat) (lists : Nat → List Nat)
    (held owned : List (Nat × Nat)) (lo hi q len : Nat)
    (h : wellformed link heads ⟨lists, held, lo, hi⟩ owned) (hq : q ≠ 0)
    (hfresh : ∀ r ∈ owned, apart q len r.1 r.2) :
    wellformed link heads ⟨lists, held, q, q + len⟩ ((q, len) :: owned) := by
  obtain ⟨hch, hnd, hcl, hhn, hown, hle, hsep⟩ := h
  refine ⟨hch, hnd, hcl, hhn, ?_, Nat.le_add_right _ _, ?_, ?_⟩
  · intro r hr
    rcases List.mem_cons.1 hr with rfl | hr
    · exact hq
    · exact hown r hr
  · intro x hx
    have hold : ∀ y, Layout.present ⟨lists, held, lo, hi⟩ y →
        within (Layout.addr ⟨lists, held, lo, hi⟩ y) (Layout.len ⟨lists, held, lo, hi⟩ y)
          ((q, len) :: owned) := by
      intro y hy
      obtain ⟨r, hr, k1, k2⟩ := hsep.1 y hy
      exact ⟨r, List.mem_cons_of_mem _ hr, k1, k2⟩
    cases x with
    | free b c => exact hold (Piece.free b c) hx
    | held b c => exact hold (Piece.held b c) hx
    | pool =>
      refine ⟨(q, len), List.mem_cons_self _ _, le_refl _, ?_⟩
      simp only [Layout.addr, Layout.len]
      omega
  · have hkey : ∀ y, y ≠ Piece.pool → Layout.present ⟨lists, held, lo, hi⟩ y →
        apart q len (Layout.addr ⟨lists, held, lo, hi⟩ y)
          (Layout.len ⟨lists, held, lo, hi⟩ y) := by
      intro y _ hy
      obtain ⟨r, hr, k1, k2⟩ := hsep.1 y hy
      have := hfresh r hr
      unfold apart at *
      omega
    intro x y hx hy hne
    cases x with
    | free b c =>
      cases y with
      | free b1 c1 => exact hsep.2 (Piece.free b c) (Piece.free b1 c1) hx hy hne
      | held b1 c1 => exact hsep.2 (Piece.free b c) (Piece.held b1 c1) hx hy hne
      | pool =>
        have := hkey (Piece.free b c) (by simp) hx
        simp only [Layout.addr, Layout.len, apart] at this ⊢
        omega
    | held b c =>
      cases y with
      | free b1 c1 => exact hsep.2 (Piece.held b c) (Piece.free b1 c1) hx hy hne
      | held b1 c1 => exact hsep.2 (Piece.held b c) (Piece.held b1 c1) hx hy hne
      | pool =>
        have := hkey (Piece.held b c) (by simp) hx
        simp only [Layout.addr, Layout.len, apart] at this ⊢
        omega
    | pool =>
      cases y with
      | free b1 c1 =>
        have := hkey (Piece.free b1 c1) (by simp) hy
        simp only [Layout.addr, Layout.len, apart] at this ⊢
        omega
      | held b1 c1 =>
        have := hkey (Piece.held b1 c1) (by simp) hy
        simp only [Layout.addr, Layout.len, apart] at this ⊢
        omega
      | pool => exact absurd rfl hne

theorem wellformed_refill (link link1 heads : Nat → Nat) (lists : Nat → List Nat)
    (held owned : List (Nat × Nat)) (b hi c0 n cnt head1 : Nat)
    (h : wellformed link heads ⟨lists, held, b, hi⟩ owned) (hc : c0 < 16)
    (hn : n = (c0 + 1) * 8) (hl : lists c0 = []) (hcnt : 1 ≤ cnt) (hfit : b + cnt * n ≤ hi)
    (hchain : chain link1 head1 (block_run (b + n) n (cnt - 1)))
    (hframe : ∀ x, x ∉ block_run (b + n) n (cnt - 1) → link1 x = link x) :
    wellformed link1 (store heads c0 head1)
      ⟨Function.update lists c0 (block_run (b + n) n (cnt - 1)), (b, c0) :: held,
        b + cnt * n, hi⟩ owned := by
  obtain ⟨hch, hnd, hcl, hhn, hown, hle, hsep⟩ := h
  simp only at hch hnd hcl hhn hle
  have hn8 : 8 ≤ n := by omega
  have hcn : n ≤ cnt * n := Nat.le_mul_of_pos_left n hcnt
  have hpool : Layout.present ⟨lists, held, b, hi⟩ Piece.pool := by
    show b < hi
    omega
  have hrun : ∀ x, x ∈ block_run (b + n) n (cnt - 1) →
      ∃ j, x = b + n + j * n ∧ j * n + n + n ≤ cnt * n := by
    intro x hx
    obtain ⟨j, hj, e⟩ := (mem_block_run _ _ _ _).1 hx
    refine ⟨j, e, ?_⟩
    have h2 : (j + 2) * n ≤ cnt * n := Nat.mul_le_mul_right n (by omega)
    rw [Nat.add_mul] at h2
    omega
  have hnotfree : ∀ c, c < 16 → ∀ a ∈ lists c, a ∉ block_run (b + n) n (cnt - 1) := by
    intro c hc1 a ha hm
    obtain ⟨j, e, hj⟩ := hrun a hm
    have := hsep.2 (Piece.free a c) Piece.pool ⟨hc1, ha⟩ hpool (by simp)
    simp only [Layout.addr, Layout.len, apart] at this
    omega
  have hnotheld : (b, c0) ∉ held := by
    intro hm
    have := hsep.2 (Piece.held b c0) Piece.pool hm hpool (by simp)
    simp only [Layout.addr, Layout.len, apart] at this
    omega
  refine ⟨?_, ?_, ?_, ?_, hown, hfit, ?_⟩
  · intro c hc1
    by_cases e : c = c0
    · subst e
      simp only [store_same, Function.update_same]
      exact hchain
    · simp only [store_other _ _ _ _ e, Function.update_noteq e]
      exact chain_congr _ _ (fun a ha => hframe a (hnotfree c hc1 a ha)) (hch c hc1)
  · intro c hc1
    by_cases e : c = c0
    · subst e
      simp only [Function.update_same]
      exact block_run_nodup n (by omega) _ _
    · simp only [Function.update_noteq e]
      exact hnd c hc1
  · intro x hx
    rcases List.mem_cons.1 hx with rfl | hx
    · exact hc
    · exact hcl x hx
  · exact List.nodup_cons.2 ⟨hnotheld, hhn⟩
  · have hfree0 : ∀ a, Layout.present
        ⟨Function.update lists c0 (block_run (b + n) n (cnt - 1)), (b, c0) :: held,
          b + cnt * n, hi⟩ (Piece.free a c0) →
        ∃ j, a = b + n + j * n ∧ j * n + n + n ≤ cnt * n := by
      intro a ha
      apply hrun
      rcases (mem_update_lists _ _ _ _ _).1 ha.2 with ⟨_, h3⟩ | ⟨h3, _⟩
      · exact h3
      · exact absurd rfl h3
    refine separate_transfer ⟨lists, held, b, hi⟩ _ owned owned
      (fun x => match x with
        | Piece.free a c => if c = c0 then Piece.pool else Piece.free a c
        | Piece.held a c => if a = b ∧ c = c0 then Piece.pool else Piece.held a c
        | Piece.pool => Piece.pool) hsep (fun _ hr => hr) ?_ ?_
    · intro x hx
      cases x with
      | free a c =>
        by_cases e : c = c0
        · subst e
          obtain ⟨j, e1, hj⟩ := hfree0 a hx
          simp only [if_true]
          refine ⟨hpool, ?_, ?_⟩
          · simp only [Layout.addr]
            omega
          · simp only [Layout.addr, Layout.len]
            omega
        · simp only [e, if_false]
          refine ⟨⟨hx.1, ?_⟩, le_refl _, le_refl _⟩
          rcases (mem_update_lists _ _ _ _ _).1 hx.2 with ⟨e1, _⟩ | ⟨_, h3⟩
          · exact absurd e1 e
          · exact h3
      | held a c =>
        by_cases e : a = b ∧ c = c0
        · obtain ⟨e1, e2⟩ := e
          subst e1 e2
          simp only [and_self, if_true]
          refine ⟨hpool, le_refl _, ?_⟩
          simp only [Layout.addr, Layout.len]
          omega
        · simp only [e, if_false]
          refine ⟨?_, le_refl _, le_refl _⟩
          rcases List.mem_cons.1 hx with h1 | h1
          · simp only [Prod.mk.injEq] at h1
            exact absurd h1 e
          · exact h1
      | pool =>
        have hx1 : b + cnt * n < hi := hx
        refine ⟨hpool, ?_, ?_⟩
        · simp only [Layout.addr]
          omega
        · simp only [Layout.addr, Layout.len]
          omega
    · intro x y hx hy hne hxy
      cases x with
      | free a c =>
        cases y with
        | free a1 c1 =>
          by_cases e : c = c0
          · by_cases e1 : c1 = c0
            · subst e e1
              obtain ⟨j, k1, k2⟩ := hfree0 a hx
              obtain ⟨j1, k3, k4⟩ := hfree0 a1 hy
              have hjj : j ≠ j1 := by
                intro hj
                apply hne
                rw [k1, k3, hj]
              simp only [Layout.addr, Layout.len, apart]
              rcases Nat.lt_or_gt_of_ne hjj with hlt | hlt
              · have h2 : (j + 1) * n ≤ j1 * n := Nat.mul_le_mul_right n hlt
                rw [Nat.add_mul] at h2
                omega
              · have h2 : (j1 + 1) * n ≤ j * n := Nat.mul_le_mul_right n hlt
                rw [Nat.add_mul] at h2
                omega
            · simp [e, e1] at hxy
          · by_cases e1 : c1 = c0
            · simp [e, e1] at hxy
            · simp only [e, e1, if_false] at hxy
              exact absurd hxy hne
        | held a1 c1 =>
          by_cases e : c = c0
          · by_cases e1 : a1 = b ∧ c1 = c0
            · obtain ⟨e2, e3⟩ := e1
              subst e e2 e3
              obtain ⟨j, k1, k2⟩ := hfree0 a hx
              simp only [Layout.addr, Layout.len, apart]
              omega
            · simp [e, e1] at hxy
          · by_cases e1 : a1 = b ∧ c1 = c0
            · simp [e, e1] at hxy
            · simp [e, e1] at hxy
        | pool =>
          by_cases e : c = c0
          · subst e
            obtain ⟨j, k1, k2⟩ := hfree0 a hx
            simp only [Layout.addr, Layout.len, apart]
            omega
          · simp [e] at hxy
      | held a c =>
        cases y with
        | free a1 c1 =>
          by_cases e : c1 = c0
          · by_cases e1 : a = b ∧ c = c0
            · obtain ⟨e2, e3⟩ := e1
              subst e e2 e3
              obtain ⟨j, k1, k2⟩ := hfree0 a1 hy
              simp only [Layout.addr, Layout.len, apart]
              omega
            · simp [e, e1] at hxy
          · by_cases e1 : a = b ∧ c = c0
            · simp [e, e1] at hxy
            · simp [e, e1] at hxy
        | held a1 c1 =>
          by_cases e : a = b ∧ c = c0
          · by_cases e1 : a1 = b ∧ c1 = c0
            · exfalso
              apply hne
              rw [e.1, e.2, e1.1, e1.2]
            · simp [e, e1] at hxy
          · by_cases e1 : a1 = b ∧ c1 = c0
            · simp [e, e1] at hxy
            · simp only [e, e1, if_false] at hxy
              exact absurd hxy hne
        | pool =>
          by_cases e : a = b ∧ c = c0
          · obtain ⟨e2, e3⟩ := e
            subst e2 e3
            simp only [Layout.addr, Layout.len, apart]
            omega
          · simp [e] at hxy
      | pool =>
        cases y with
        | free a1 c1 =>
          by_cases e : c1 = c0
          · subst e
            obtain ⟨j, k1, k2⟩ := hfree0 a1 hy
            simp only [Layout.addr, Layout.len, apart]
            omega
          · simp [e] at hxy
        | held a1 c1 =>
          by_cases e : a1 = b ∧ c1 = c0
          · obtain ⟨e2, e3⟩ := e
            subst e2 e3
            simp only [Layout.addr, Layout.len, apart]
            omega
          · simp [e] at hxy
        | pool => exact absurd rfl hne

theorem wellformed_owned_mono (link heads : Nat → Nat) (L : Layout)
    (owned owned1 : List (Nat × Nat)) (h : wellformed link heads L owned)
    (hsub : ∀ r ∈ owned, r ∈ owned1) (hne : ∀ r ∈ owned1, r.1 ≠ 0) :
    wellformed link heads L owned1 := by
  obtain ⟨hch, hnd, hcl, hhn, _, hle, hsep⟩ := h
  refine ⟨hch, hnd, hcl, hhn, hne, hle, ?_, hsep.2⟩
  intro x hx
  obtain ⟨r, hr, k⟩ := hsep.1 x hx
  exact ⟨r, hsub r hr, k⟩

theorem event_region_ne_zero (e : Event) (r : Nat × Nat) (h : event_region e = some r) :
    r.1 ≠ 0 := by
  cases e with
  | malloc n q =>
    unfold event_region at h
    by_cases hq : q = 0
    · simp [hq] at h
    · simp only [hq, if_false, Option.some.injEq] at h
      rw [← h]
      exact hq
  | realloc p n q => simp [event_region] at h
  | free p => simp [event_region] at h
  | handler k => simp [event_region] at h

theorem obtained_ne_zero (s s1 : AllocState) : ∀ r ∈ obtained s s1, r.1 ≠ 0 := by
  intro r hr
  unfold obtained at hr
  obtain ⟨e, _, he⟩ := List.mem_filterMap.1 hr
  exact event_region_ne_zero e r he

theorem chunk_alloc_carve (sys : Sys) (fuel n b cnt : Nat) (t s1 : AllocState)
    (hle : t.start_free ≤ t.end_free) (hlt : t.end_free - t.start_free < 18446744073709551616)
    (hlo : 1 ≤ n) (hhi : n ≤ 128)
    (hpool : wrap (n * 20) ≤ ptr_diff t.end_free t.start_free ∨
      n ≤ ptr_diff t.end_free t.start_free)
    (h : chunk_alloc sys fuel n 20 t = Outcome.ret (b, cnt) s1) :
    b = t.start_free ∧ 1 ≤ cnt ∧ b + cnt * n ≤ t.end_free ∧ s1.start_free = b + cnt * n ∧
      s1.end_free = t.end_free ∧ s1.link = t.link ∧ s1.free_list = t.free_list ∧
      s1.trace = t.trace ∧ s1.heap_size = t.heap_size := by
  have hbl := ptr_diff_of_le hle hlt
  have hbb := (batch_bytes n 20 hhi (le_refl _)).1
  by_cases c1 : wrap (n * 20) ≤ ptr_diff t.end_free t.start_free
  · rw [chunk_alloc_sufficient sys fuel n 20 t c1] at h
    simp only [Outcome.ret.injEq, Prod.mk.injEq] at h
    obtain ⟨⟨h1, h2⟩, h3⟩ := h
    subst h1 h2 h3
    rw [hbb, hbl] at c1
    rw [hbb, Nat.mul_comm n 20]
    refine ⟨rfl, by omega, by omega, rfl, rfl, rfl, rfl, rfl, rfl⟩
  · have c2 : n ≤ ptr_diff t.end_free t.start_free := by
      rcases hpool with k | k
      · exact absurd k c1
      · exact k
    rw [chunk_alloc_some_blocks sys fuel n 20 t c1 c2] at h
    simp only [Outcome.ret.injEq, Prod.mk.injEq] at h
    obtain ⟨⟨h1, h2⟩, h3⟩ := h
    subst h1 h2 h3
    rw [hbl] at c2 ⊢
    have hmd : n * ((t.end_free - t.start_free) / n) ≤ t.end_free - t.start_free :=
      Nat.mul_div_le _ _
    have hpos : 1 ≤ (t.end_free - t.start_free) / n := Nat.div_pos c2 (by omega)
    rw [wrap_of_lt (by omega), Nat.mul_comm n]
    rw [Nat.mul_comm n] at hmd
    refine ⟨rfl, hpos, by omega, rfl, rfl, rfl, rfl, rfl, rfl⟩

theorem chunk_alloc_retry_wellformed (sys : Sys) (fuel n : Nat) (t : AllocState)
    (held owned : List (Nat × Nat)) (lists : Nat → List Nat)
    (hlo : 1 ≤ n) (hhi : n ≤ 128)
    (hpool : wrap (n * 20) ≤ ptr_diff t.end_free t.start_free ∨
      n ≤ ptr_diff t.end_free t.start_free)
    (hlt : t.end_free - t.start_free < 18446744073709551616)
    (hw : wellformed t.link t.free_list ⟨lists, held, t.start_free, t.end_free⟩ owned) :
    (∀ b cnt s1, chunk_alloc_retry sys fuel n 20 t = Outcome.ret (b, cnt) s1 →
      1 ≤ cnt ∧ b + cnt * n ≤ s1.end_free ∧ s1.start_free = b + cnt * n ∧
        s1.trace = t.trace ∧
        wellformed s1.link s1.free_list ⟨lists, held, b, s1.end_free⟩ owned) ∧
    (∀ s1, chunk_alloc_retry sys fuel n 20 t ≠ Outcome.bad_alloc s1) := by
  have hle : t.start_free ≤ t.end_free := hw.2.2.2.2.2.1
  cases fuel with
  | zero =>
    refine ⟨?_, ?_⟩
    · intro b cnt s1 h
      simp [chunk_alloc_retry] at h
    · intro s1 h
      simp [chunk_alloc_retry] at h
  | succ k =>
    refine ⟨?_, ?_⟩
    · intro b cnt s1 h
      obtain ⟨k1, k2, k3, k4, k5, k6, k7, k8, _⟩ :=
        chunk_alloc_carve sys k n b cnt t s1 hle hlt hlo hhi hpool h
      refine ⟨k2, by rw [k5]; exact k3, k4, k8, ?_⟩
      rw [k6, k7, k5, k1]
      exact hw
    · intro s1 h
      simp only [chunk_alloc_retry] at h
      by_cases c1 : wrap (n * 20) ≤ ptr_diff t.end_free t.start_free
      · rw [chunk_alloc_sufficient sys k n 20 t c1] at h
        cases h
      · have c2 : n ≤ ptr_diff t.end_free t.start_free := by
          rcases hpool with k | k
          · exact absurd k c1
          · exact k
        rw [chunk_alloc_some_blocks sys k n 20 t c1 c2] at h
        cases h

theorem donate_remainder_wellformed (s : AllocState) (held owned : List (Nat × Nat))
    (lists : Nat → List Nat) (c0 n : Nat) (hs : pool_ok s) (hc : c0 < 16)
    (hn : n = (c0 + 1) * 8) (hl : lists c0 = [])
    (c2 : ¬ n ≤ ptr_diff s.end_free s.start_free)
    (hw : wellformed s.link s.free_list ⟨lists, held, s.start_free, s.end_free⟩ owned) :
    ∃ lists1, lists1 c0 = [] ∧
      wellformed (donate_remainder s).link (donate_remainder s).free_list
        ⟨lists1, held, s.end_free, s.end_free⟩ owned := by
  have hbl := pool_ok_bytes_left hs
  obtain ⟨o1, o2, o3, o4, o5, o6⟩ := hs
  rw [hbl] at c2
  by_cases hpos : ptr_diff s.end_free s.start_free > 0
  · have hidx : FREELIST_INDEX (ptr_diff s.end_free s.start_free) =
        (s.end_free - s.start_free) / 8 - 1 := by
      rw [hbl, FREELIST_INDEX_eq (by omega) (by omega)]
      omega
    rw [hbl] at hpos
    have hd : donate_remainder s =
        { s with
          link := store s.link s.start_free
            (s.free_list ((s.end_free - s.start_free) / 8 - 1))
          free_list := store s.free_list ((s.end_free - s.start_free) / 8 - 1)
            s.start_free } := by
      unfold donate_remainder
      rw [hidx, hbl, if_pos hpos]
    refine ⟨Function.update lists ((s.end_free - s.start_free) / 8 - 1)
      (s.start_free :: lists ((s.end_free - s.start_free) / 8 - 1)), ?_, ?_⟩
    · rw [Function.update_noteq (by omega)]
      exact hl
    · rw [hd]
      exact wellformed_donate s.link s.free_list lists held owned s.start_free s.end_free _
        hw (by omega) (by omega)
  · have hz : s.end_free - s.start_free = 0 := by omega
    have hd : donate_remainder s = s := by
      unfold donate_remainder
      rw [if_neg hpos]
    refine ⟨lists, hl, ?_⟩
    rw [hd]
    exact wellformed_shrink _ _ _ _ _ _ _ _ _ hw (le_refl _) (fun k => absurd k (lt_irrefl _))

theorem wellformed_obtained (link heads : Nat → Nat) (L : Layout) (owned : List (Nat × Nat))
    (s s1 : AllocState) (h : wellformed link heads L owned) :
    wellformed link heads L (obtained s s1 ++ owned) := by
  refine wellformed_owned_mono link heads L owned _ h (fun r hr => List.mem_append_right _ hr) ?_
  intro r hr
  rcases List.mem_append.1 hr with k | k
  · exact obtained_ne_zero s s1 r k
  · exact h.2.2.2.2.1 r k

theorem chunk_alloc_retry_no_throw (sys : Sys) (fuel n : Nat) (t s1 : AllocState)
    (hpool : wrap (n * 20) ≤ ptr_diff t.end_free t.start_free ∨
      n ≤ ptr_diff t.end_free t.start_free) :
    chunk_alloc_retry sys fuel n 20 t ≠ Outcome.bad_alloc s1 := by
  intro h
  cases fuel with
  | zero => simp [chunk_alloc_retry] at h
  | succ k =>
    simp only [chunk_alloc_retry] at h
    by_cases c1 : wrap (n * 20) ≤ ptr_diff t.end_free t.start_free
    · rw [chunk_alloc_sufficient sys k n 20 t c1] at h
      cases h
    · have c2 : n ≤ ptr_diff t.end_free t.start_free := by
        rcases hpool with k | k
        · exact absurd k c1
        · exact k
      rw [chunk_alloc_some_blocks sys k n 20 t c1 c2] at h
      cases h

theorem chunk_alloc_wellformed (sys : Sys) (fuel c0 n : Nat) (s : AllocState)
    (held owned : List (Nat × Nat)) (lists : Nat → List Nat)
    (hs : pool_ok s) (hc : c0 < 16) (hn : n = (c0 + 1) * 8) (hl : lists c0 = [])
    (hw : wellformed s.link s.free_list ⟨lists, held, s.start_free, s.end_free⟩ owned) :
    (∀ b cnt s1, chunk_alloc sys fuel n 20 s = Outcome.ret (b, cnt) s1 →
      (∀ r ∈ obtained s s1, ∀ r1 ∈ owned, apart r.1 r.2 r1.1 r1.2) →
      1 ≤ cnt ∧ b + cnt * n ≤ s1.end_free ∧ s1.start_free = b + cnt * n ∧
        ∃ lists1, lists1 c0 = [] ∧
          wellformed s1.link s1.free_list ⟨lists1, held, b, s1.end_free⟩
            (obtained s s1 ++ owned)) ∧
    (∀ s1, chunk_alloc sys fuel n 20 s = Outcome.bad_alloc s1 →
      ∃ lists1, wellformed s1.link s1.free_list
        ⟨lists1, held, s1.start_free, s1.end_free⟩ owned) := by
  have hn8 : n % 8 = 0 := by omega
  have hlo : 1 ≤ n := by omega
  have hhi : n ≤ 128 := by omega
  have hbl := pool_ok_bytes_left hs
  have hs0 := hs
  obtain ⟨o1, o2, o3, o4, o5, o6⟩ := hs
  have hglt := growth_target_lt n 20 s
  by_cases hdir : wrap (n * 20) ≤ ptr_diff s.end_free s.start_free ∨
      n ≤ ptr_diff s.end_free s.start_free
  · obtain ⟨R1, R2⟩ :=
      chunk_alloc_retry_wellformed sys (fuel + 1) n s held owned lists hlo hhi hdir o3 hw
    refine ⟨?_, ?_⟩
    · intro b cnt s1 h _
      obtain ⟨k1, k2, k3, _, k5⟩ := R1 b cnt s1 h
      exact ⟨k1, k2, k3, lists, hl, wellformed_obtained _ _ _ _ s s1 k5⟩
    · intro s1 h
      exact absurd h (R2 s1)
  · have c1 : ¬ wrap (n * 20) ≤ ptr_diff s.end_free s.start_free := fun k => hdir (Or.inl k)
    have c2 : ¬ n ≤ ptr_diff s.end_free s.start_free := fun k => hdir (Or.inr k)
    obtain ⟨listsD, hlD, hwD⟩ :=
      donate_remainder_wellformed s held owned lists c0 n hs0 hc hn hl c2 hw
    obtain ⟨f1, f2, f3, f4, f5, f6⟩ := after_malloc_frame sys n 20 s
    have hgrow : ∀ (q : Nat) (t0 : AllocState) (suffix : List Event), q ≠ 0 →
        t0.link = (donate_remainder s).link → t0.free_list = (donate_remainder s).free_list →
        t0.trace = s.trace ++ suffix →
        (q, growth_target n 20 s) ∈ suffix.filterMap event_region →
        (∀ b cnt s1, chunk_alloc_retry sys fuel n 20
            (install_pool q (growth_target n 20 s) t0) = Outcome.ret (b, cnt) s1 →
          (∀ r ∈ obtained s s1, ∀ r1 ∈ owned, apart r.1 r.2 r1.1 r1.2) →
          1 ≤ cnt ∧ b + cnt * n ≤ s1.end_free ∧ s1.start_free = b + cnt * n ∧
            ∃ lists1, lists1 c0 = [] ∧
              wellformed s1.link s1.free_list ⟨lists1, held, b, s1.end_free⟩
                (obtained s s1 ++ owned)) ∧
        (∀ s1, chunk_alloc_retry sys fuel n 20
            (install_pool q (growth_target n 20 s) t0) = Outcome.bad_alloc s1 →
          ∃ lists1, wellformed s1.link s1.free_list
            ⟨lists1, held, s1.start_free, s1.end_free⟩ owned) := by
      intro q t0 suffix hq e1 e2 e3 hmem
      have hpool : wrap (n * 20) ≤
            ptr_diff (install_pool q (growth_target n 20 s) t0).end_free
              (install_pool q (growth_target n 20 s) t0).start_free ∨
          n ≤ ptr_diff (install_pool q (growth_target n 20 s) t0).end_free
              (install_pool q (growth_target n 20 s) t0).start_free := by
        left
        simp only [install_pool]
        rw [ptr_diff_add _ _ hglt]
        exact (growth_target_ge n 20 s hhi (le_refl _) o5).2
      refine ⟨?_, ?_⟩
      · intro b cnt s1 h hfresh
        have htr : s1.trace = s.trace ++ suffix := by
          rw [(chunk_alloc_retry_from_pool sys fuel n 20 _ s1 hpool (by rw [h]; rfl)).2.2.1]
          exact e3
        have hobt : (q, growth_target n 20 s) ∈ obtained s s1 := by
          rw [obtained_of_trace htr]
          exact hmem
        have hw1 := wellformed_new_pool _ _ _ _ _ _ _ q (growth_target n 20 s) hwD hq
          (fun r hr => hfresh _ hobt r hr)
        have hw2 : wellformed (install_pool q (growth_target n 20 s) t0).link
            (install_pool q (growth_target n 20 s) t0).free_list
            ⟨listsD, held, (install_pool q (growth_target n 20 s) t0).start_free,
              (install_pool q (growth_target n 20 s) t0).end_free⟩
            (obtained s s1 ++ owned) := by
          simp only [install_pool]
          rw [e1, e2]
          refine wellformed_owned_mono _ _ _ _ _ hw1 ?_ ?_
          · intro r hr
            rcases List.mem_cons.1 hr with rfl | hr
            · exact List.mem_append_left _ hobt
            · exact List.mem_append_right _ hr
          · intro r hr
            rcases List.mem_append.1 hr with k | k
            · exact obtained_ne_zero s s1 r k
            · exact hw.2.2.2.2.1 r k
        obtain ⟨k1, k2, k3, _, k5⟩ :=
          (chunk_alloc_retry_wellformed sys fuel n _ held _ listsD hlo hhi hpool
            (by simp only [install_pool]; omega) hw2).1 b cnt s1 h
        exact ⟨k1, k2, k3, listsD, hlD, k5⟩
      · intro s1 h
        exact absurd h (chunk_alloc_retry_no_throw sys fuel n _ s1 hpool)
    rw [chunk_alloc_eq, if_neg c1, if_neg c2]
    by_cases c3 : (after_malloc sys n 20 s).start_free = 0
    · rw [if_pos c3]
      rcases hscan : scan_free_lists (after_malloc sys n 20 s).free_list
          (__NFREELISTS + 1) n with _ | i
      · simp only
        rcases hcall : __malloc_alloc_template.allocate sys fuel (growth_target n 20 s)
            { after_malloc sys n 20 s with end_free := 0 } with ⟨q, s4⟩ | ⟨s4⟩ | _
        · simp only
          have hq := first_tier_allocate_ret_ne_zero sys fuel _ q _ s4 hcall
          obtain ⟨_, b5, _, _⟩ :=
            first_tier_allocate_frame sys fuel _ _ s4 (by rw [hcall]; rfl)
          obtain ⟨⟨b1, _, _, _⟩, _⟩ :=
            first_tier_allocate_frame sys fuel _ _ s4 (by rw [hcall]; rfl)
          simp only at b1 b5
          obtain ⟨suffix, t1, t2⟩ := first_tier_allocate_obtained sys fuel _ q _ s4 hcall
          simp only at t1
          refine hgrow q s4 ([Event.malloc (growth_target n 20 s)
            (sys (sys_calls s.trace) (growth_target n 20 s))] ++ suffix) hq
            (by rw [b5, f5]) (by rw [b1, f4]) (by rw [t1, f6, List.append_assoc]) ?_
          rw [List.filterMap_append]
          exact List.mem_append_right _ t2
        · dsimp only
          refine ⟨(fun b cnt s1 h => nomatch h), ?_⟩
          intro s1 h
          simp only [Outcome.bad_alloc.injEq] at h
          subst h
          obtain ⟨⟨b1, b2, b3, _⟩, b5, _, _⟩ :=
            first_tier_allocate_frame sys fuel _ _ s4 (by rw [hcall]; rfl)
          simp only at b1 b2 b3 b5
          refine ⟨listsD, ?_⟩
          rw [b1, b2, b3, b5, c3, f4, f5]
          exact wellformed_shrink _ _ _ _ _ _ _ _ _ hwD (le_refl _)
            (fun k => absurd k (lt_irrefl _))
        · dsimp only
          exact ⟨(fun b cnt s1 h => nomatch h), (fun s1 h => nomatch h)⟩
      · simp only
        obtain ⟨s1', s2', s3', s4'⟩ := scan_free_lists_some _ _ _ _ hscan
        have hidx : FREELIST_INDEX i = i / 8 - 1 := by
          rw [FREELIST_INDEX_eq (by omega) (by omega)]
          omega
        have hci : i / 8 - 1 < 16 := by omega
        rw [f4] at s4'
        obtain ⟨rest, hlist, _⟩ := chain_of_ne_zero (hwD.1 (FREELIST_INDEX i) (by omega)) s4'
        simp only at hlist
        have hne : FREELIST_INDEX i ≠ c0 := by
          intro e
          rw [e, hlD] at hlist
          cases hlist
        have hwT := wellformed_take _ _ _ _ _ _ _ (FREELIST_INDEX i) _ rest hwD (by omega) hlist
        have hsz : (FREELIST_INDEX i + 1) * 8 = i := by omega
        rw [hsz] at hwT
        have hpool : wrap (n * 20) ≤
              ptr_diff (take_block i (after_malloc sys n 20 s)).end_free
                (take_block i (after_malloc sys n 20 s)).start_free ∨
            n ≤ ptr_diff (take_block i (after_malloc sys n 20 s)).end_free
                (take_block i (after_malloc sys n 20 s)).start_free := by
          right
          simp only [take_block]
          rw [ptr_diff_add _ _ (by omega)]
          exact s1'
        have hw2 : wellformed (take_block i (after_malloc sys n 20 s)).link
            (take_block i (after_malloc sys n 20 s)).free_list
            ⟨Function.update listsD (FREELIST_INDEX i) rest, held,
              (take_block i (after_malloc sys n 20 s)).start_free,
              (take_block i (after_malloc sys n 20 s)).end_free⟩ owned := by
          simp only [take_block]
          rw [f4, f5]
          exact hwT
        refine ⟨?_, ?_⟩
        · intro b cnt s1 h _
          obtain ⟨k1, k2, k3, _, k5⟩ :=
            (chunk_alloc_retry_wellformed sys fuel n _ held _ _ hlo hhi hpool
              (by simp only [take_block]; omega) hw2).1 b cnt s1 h
          refine ⟨k1, k2, k3, _, ?_, wellformed_obtained _ _ _ _ s s1 k5⟩
          rw [Function.update_noteq (Ne.symm hne)]
          exact hlD
        · intro s1 h
          exact absurd h (chunk_alloc_retry_no_throw sys fuel n _ s1 hpool)
    · rw [if_neg c3]
      refine hgrow _ (after_malloc sys n 20 s)
        [Event.malloc (growth_target n 20 s) (sys (sys_calls s.trace) (growth_target n 20 s))]
        c3 f5 f4 f6 ?_
      rw [after_malloc_start] at c3 ⊢
      simp only [List.filterMap_cons, event_region, c3, if_false, List.filterMap_nil,
        List.mem_singleton]

theorem store_self (f : Nat → Nat) (a : Nat) : store f a (f a) = f := by
  funext x
  unfold store
  by_cases e : x = a
  · simp [e]
  · simp [e]

theorem separated_of_frame {s s1 : AllocState} {g : Ledger} (hb : same_bank s s1)
    (hl : s1.link = s.link) (h : separated s g) : separated s1 g := by
  obtain ⟨b1, b2, b3, b4⟩ := hb
  obtain ⟨hp, lists, hw⟩ := h
  refine ⟨pool_ok_of_same b2 b3 b4 hp, lists, ?_⟩
  rw [hl, b1, b2, b3]
  exact hw

theorem small_class (n : Nat) (h1 : 1 ≤ n) (h2 : n ≤ 128) :
    FREELIST_INDEX n < 16 ∧ ROUND_UP n = (FREELIST_INDEX n + 1) * 8 := by
  rw [FREELIST_INDEX_eq h1 (by omega), ROUND_UP_eq (by omega)]
  omega

theorem allocate_small_separated (sys : Sys) (fuel n p : Nat) (s s1 : AllocState)
    (g : Ledger) (h1 : 1 ≤ n) (h2 : n ≤ 128) (hsep : separated s g)
    (h : allocate sys fuel n s = Outcome.ret p s1)
    (hfresh : ∀ r ∈ obtained s s1, ∀ r1 ∈ g.owned, apart r.1 r.2 r1.1 r1.2) :
    separated s1 ⟨(p, FREELIST_INDEX n) :: g.held, obtained s s1 ++ g.owned⟩ := by
  have hp1 : pool_ok s1 := allocate_pool_ok sys fuel n s s1 hsep.1 (by rw [h]; rfl)
  obtain ⟨hp, lists, hw⟩ := hsep
  obtain ⟨hc, hru⟩ := small_class n h1 h2
  have hfi := (ROUND_UP_small h1 h2).2.2.2.2.2
  refine ⟨hp1, ?_⟩
  rw [allocate_small_eq sys fuel n s h1 h2] at h
  by_cases hz : s.free_list (FREELIST_INDEX n) = 0
  · rw [if_pos hz] at h
    have hl : lists (FREELIST_INDEX n) = [] := by
      have := hw.1 _ hc
      rw [hz] at this
      exact chain_of_zero this
    obtain ⟨R1, _⟩ := chunk_alloc_wellformed sys fuel (FREELIST_INDEX n) (ROUND_UP n) s
      g.held g.owned lists hp hc hru hl hw
    unfold refill at h
    split at h
    · rename_i chunk nobjs sc hca
      by_cases hone : nobjs = 1
      · simp only [hone, if_true, Outcome.ret.injEq] at h
        obtain ⟨e1, e2⟩ := h
        subst e1 e2 hone
        obtain ⟨k1, k2, k3, lists1, k4, k5⟩ := R1 _ _ _ hca hfresh
        have hhead : chain sc.link (sc.free_list (FREELIST_INDEX n))
            (block_run (chunk + ROUND_UP n) (ROUND_UP n) (1 - 1)) := by
          have := k5.1 _ hc
          simp only [k4] at this
          exact this
        have := wellformed_refill sc.link sc.link sc.free_list lists1 g.held _ chunk
          sc.end_free (FREELIST_INDEX n) (ROUND_UP n) 1 (sc.free_list (FREELIST_INDEX n))
          k5 hc hru k4 (le_refl _) k2 hhead (fun _ _ => rfl)
        rw [store_self, ← k3] at this
        exact ⟨_, this⟩
      · simp only [hone, if_false] at h
        obtain ⟨k1, k2, k3, lists1, k4, k5⟩ : 1 ≤ nobjs ∧
            chunk + nobjs * ROUND_UP n ≤ sc.end_free ∧
            sc.start_free = chunk + nobjs * ROUND_UP n ∧
            ∃ lists1, lists1 (FREELIST_INDEX n) = [] ∧
              wellformed sc.link sc.free_list ⟨lists1, g.held, chunk, sc.end_free⟩
                (obtained s s1 ++ g.owned) := by
          split at h
          · simp only [Outcome.ret.injEq] at h
            obtain ⟨_, e2⟩ := h
            subst e2
            exact R1 _ _ _ hca hfresh
          · cases h
        have hb0 : chunk ≠ 0 :=
          chunk_alloc_ret_ne_zero sys fuel (ROUND_UP n) 20 chunk nobjs s sc hp (by omega)
            (by omega) (by omega) (by omega) (le_refl _) hca
        obtain ⟨l, e, hchain, hframe⟩ := link_blocks_chain nobjs (ROUND_UP n) (by omega)
          (nobjs - 2) nobjs 1 (chunk + ROUND_UP n) sc.link (by omega) (by omega) (by omega)
        have hd : nobjs - 2 + 1 = nobjs - 1 := by omega
        rw [hd] at hchain hframe
        simp only [e, Outcome.ret.injEq] at h
        obtain ⟨e1, e2⟩ := h
        subst e1
        have := wellformed_refill sc.link l sc.free_list lists1 g.held _ chunk
          sc.end_free (FREELIST_INDEX n) (ROUND_UP n) nobjs (chunk + ROUND_UP n)
          k5 hc hru k4 k1 k2 hchain hframe
        rw [← k3] at this
        subst e2
        rw [hfi]
        exact ⟨_, this⟩
    · cases h
    · cases h
  · rw [if_neg hz] at h
    simp only [Outcome.ret.injEq] at h
    obtain ⟨e1, e2⟩ := h
    obtain ⟨rest, hlist, _⟩ := chain_of_ne_zero (hw.1 _ hc) hz
    simp only at hlist
    have := wellformed_pop _ _ _ _ _ _ _ _ _ rest hw hc hlist
    have := wellformed_obtained _ _ _ _ s s1 this
    subst e1 e2
    exact ⟨_, this⟩

theorem allocate_throws_separated (sys : Sys) (fuel n : Nat) (s s1 : AllocState)
    (g : Ledger) (hsep : separated s g)
    (h : allocate sys fuel n s = Outcome.bad_alloc s1) : separated s1 g := by
  have hp1 : pool_ok s1 := allocate_pool_ok sys fuel n s s1 hsep.1 (by rw [h]; rfl)
  by_cases h0 : n = 0
  · subst h0
    simp [allocate] at h
  by_cases hbig : n > 128
  · rw [allocate_large_eq sys fuel n s hbig] at h
    obtain ⟨hb, hl, _, _⟩ := first_tier_allocate_frame sys fuel n s s1 (by rw [h]; rfl)
    exact separated_of_frame hb hl hsep
  have h1 : 1 ≤ n := by omega
  have h2 : n ≤ 128 := by omega
  obtain ⟨hp, lists, hw⟩ := hsep
  obtain ⟨hc, hru⟩ := small_class n h1 h2
  refine ⟨hp1, ?_⟩
  rw [allocate_small_eq sys fuel n s h1 h2] at h
  by_cases hz : s.free_list (FREELIST_INDEX n) = 0
  · rw [if_pos hz] at h
    have hl : lists (FREELIST_INDEX n) = [] := by
      have := hw.1 _ hc
      rw [hz] at this
      exact chain_of_zero this
    obtain ⟨_, R2⟩ := chunk_alloc_wellformed sys fuel (FREELIST_INDEX n) (ROUND_UP n) s
      g.held g.owned lists hp hc hru hl hw
    unfold refill at h
    split at h
    · rename_i chunk nobjs sc hca
      by_cases hone : nobjs = 1
      · simp [hone] at h
      · simp only [hone, if_false] at h
        split at h
        · cases h
        · cases h
    · rename_i sc hca
      simp only [Outcome.bad_alloc.injEq] at h
      subst h
      exact R2 _ hca
    · cases h
  · rw [if_neg hz] at h
    cases h

theorem allocate_returns_separated (sys : Sys) (fuel n p : Nat) (s s1 : AllocState)
    (g : Ledger) (hsep : separated s g) (h : allocate sys fuel n s = Outcome.ret p s1)
    (hfresh : fresh_growth n s s1 g) : separated s1 (g.after_allocate n p s s1) := by
  by_cases h0 : n = 0
  · subst h0
    simp only [allocate, if_true, Outcome.ret.injEq] at h
    rw [← h.2]
    simp only [Ledger.after_allocate]
    rw [if_neg (by omega)]
    exact hsep
  by_cases hbig : n > 128
  · rw [allocate_large_eq sys fuel n s hbig] at h
    obtain ⟨hb, hl, _, _⟩ := first_tier_allocate_frame sys fuel n s s1 (by rw [h]; rfl)
    simp only [Ledger.after_allocate, __MAX_BYTES]
    rw [if_neg (by omega)]
    exact separated_of_frame hb hl hsep
  have h1 : 1 ≤ n := by omega
  have h2 : n ≤ 128 := by omega
  simp only [Ledger.after_allocate, __MAX_BYTES]
  rw [if_pos ⟨h1, h2⟩]
  exact allocate_small_separated sys fuel n p s s1 g h1 h2 hsep h (hfresh h1 h2)

theorem deallocate_separated (p n : Nat) (s : AllocState) (g : Ledger)
    (hsep : separated s g) (hpre : may_deallocate g p n) :
    separated (deallocate p n s) (g.after_deallocate p n) := by
  by_cases h0 : n = 0
  · subst h0
    simp only [deallocate, if_true, Ledger.after_deallocate]
    rw [if_neg (by omega)]
    exact hsep
  by_cases hbig : n > 128
  · rw [deallocate_large_eq p n s hbig]
    simp only [Ledger.after_deallocate, __MAX_BYTES]
    rw [if_neg (by omega)]
    exact separated_of_frame ⟨rfl, rfl, rfl, rfl⟩ rfl hsep
  have h1 : 1 ≤ n := by omega
  have h2 : n ≤ 128 := by omega
  have hp1 := deallocate_pool_ok p n s hsep.1
  obtain ⟨_, lists, hw⟩ := hsep
  refine ⟨hp1, ?_⟩
  rw [deallocate_small_eq p n s h1 h2]
  simp only [Ledger.after_deallocate, __MAX_BYTES]
  rw [if_pos ⟨h1, h2⟩]
  exact ⟨_, wellformed_push _ _ _ _ _ _ _ _ _ hw (hpre h1 h2)⟩

theorem initial_separated (link0 : Nat → Nat) : separated (initial link0) ⟨[], []⟩ := by
  refine ⟨?_, fun _ => [], ?_⟩
  · unfold pool_ok initial
    simp
  · refine ⟨?_, ?_, ?_, ?_, ?_, ?_, ?_, ?_⟩
    · intro c _
      simp [chain_nil, initial]
    · intro c _
      exact List.nodup_nil
    · intro x hx
      cases hx
    · exact List.nodup_nil
    · intro r hr
      cases hr
    · exact le_refl _
    · intro x hx
      cases x with
      | free a c => exact absurd hx.2 (List.not_mem_nil _)
      | held a c => exact absurd hx (List.not_mem_nil _)
      | pool => exact absurd hx (lt_irrefl _)
    · intro x y hx _ _
      cases x with
      | free a c => exact absurd hx.2 (List.not_mem_nil _)
      | held a c => exact absurd hx (List.not_mem_nil _)
      | pool => exact absurd hx (lt_irrefl _)

theorem run_separated (sys : Sys) (s : AllocState) (g : Ledger) (h : Run sys s g) :
    separated s g := by
  induction h with
  | start link0 => exact initial_separated link0
  | allocate_returns fuel n p s s1 g _ hcall hfresh ih =>
    exact allocate_returns_separated sys fuel n p s s1 g ih hcall hfresh
  | allocate_throws fuel n s s1 g _ hcall ih =>
    exact allocate_throws_separated sys fuel n s s1 g ih hcall
  | deallocate p n s g _ hpre ih => exact deallocate_separated p n s g ih hpre
  | reallocate_returns fuel p old_sz new_sz q s s1 g _ hpre hcall hfresh ih =>
    exact allocate_returns_separated sys fuel new_sz q _ s1 _
      (deallocate_separated p old_sz s g ih hpre) hcall hfresh
  | reallocate_throws fuel p old_sz new_sz s s1 g _ hpre hcall ih =>
    exact allocate_throws_separated sys fuel new_sz _ s1 _
      (deallocate_separated p old_sz s g ih hpre) hcall
  | set_malloc_oom_handler f s g _ ih =>
    exact separated_of_frame ⟨rfl, rfl, rfl, rfl⟩ rfl ih

theorem shiftRight_four (x : Nat) : x >>> 4 = x / 16 := by
  rw [Nat.shiftRight_eq_div_pow]

theorem growth_target_exact (size nobjs : Nat) (s : AllocState)
    (hfit : 2 * (size * nobjs) + ROUND_UP (s.heap_size / 16) < 18446744073709551616) :
    growth_target size nobjs s = 2 * (size * nobjs) + ROUND_UP (s.heap_size / 16) ∧
      wrap (size * nobjs) = size * nobjs ∧ size * nobjs ≤ growth_target size nobjs s := by
  have h1 : wrap (size * nobjs) = size * nobjs := wrap_of_lt (by omega)
  have h2 : growth_target size nobjs s = 2 * (size * nobjs) + ROUND_UP (s.heap_size / 16) := by
    unfold growth_target
    rw [h1, shiftRight_four, wrap_of_lt hfit]
  exact ⟨h2, h1, by omega⟩

theorem chunk_alloc_some_exact (sys : Sys) (fuel s c : Nat) (st : AllocState)
    (hle : st.start_free ≤ st.end_free)
    (hsz : st.end_free - st.start_free < 18446744073709551616)
    (hfit : s * c < 18446744073709551616)
    (hlo : s ≤ st.end_free - st.start_free) (hhi : st.end_free - st.start_free < s * c) :
    ∃ s1, chunk_alloc sys fuel s c st =
        Outcome.ret (st.start_free, (st.end_free - st.start_free) / s) s1 ∧
      s1.start_free = st.start_free + s * ((st.end_free - st.start_free) / s) ∧
      s1.end_free = st.end_free ∧
      s1.end_free - s1.start_free = (st.end_free - st.start_free) % s ∧
      s1.end_free - s1.start_free < s ∧
      1 ≤ (st.end_free - st.start_free) / s ∧ (st.end_free - st.start_free) / s < c ∧
      s1.heap_size = st.heap_size ∧ s1.free_list = st.free_list ∧ s1.link = st.link ∧
      s1.trace = st.trace := by
  have hw : wrap (s * c) = s * c := wrap_of_lt hfit
  have hbl := ptr_diff_of_le hle hsz
  have hmd : s * ((st.end_free - st.start_free) / s) ≤ st.end_free - st.start_free :=
    Nat.mul_div_le _ _
  have hw2 : wrap (s * ((st.end_free - st.start_free) / s)) =
      s * ((st.end_free - st.start_free) / s) := wrap_of_lt (by omega)
  have hdm := Nat.div_add_mod (st.end_free - st.start_free) s
  have hcall := chunk_alloc_some_blocks sys fuel s c st (by rw [hw, hbl]; omega)
    (by rw [hbl]; exact hlo)
  rw [hbl, hw2] at hcall
  refine ⟨_, hcall, rfl, rfl, ?_, ?_, ?_, ?_, rfl, rfl, rfl, rfl⟩
  · simp only
    omega
  · rcases Nat.eq_zero_or_pos s with h0 | hpos
    · subst h0
      simp at hhi
    · have := Nat.mod_lt (st.end_free - st.start_free) hpos
      simp only
      omega
  · rcases Nat.eq_zero_or_pos s with h0 | hpos
    · subst h0
      simp at hhi
    · exact Nat.div_pos hlo hpos
  · rcases Nat.eq_zero_or_pos s with h0 | hpos
    · subst h0
      simp at hhi
    · exact (Nat.div_lt_iff_lt_mul hpos).2 (by rw [Nat.mul_comm]; exact hhi)


theorem chunk_alloc_growth_exact (sys : Sys) (fuel s c b : Nat) (st : AllocState)
    (hc : 1 ≤ c) (hle : st.start_free ≤ st.end_free)
    (hneed : st.end_free - st.start_free < s)
    (hfit : 2 * (s * c) + ROUND_UP (st.heap_size / 16) < 18446744073709551616)
    (hb : sys (sys_calls st.trace) (2 * (s * c) + ROUND_UP (st.heap_size / 16)) = b)
    (hb0 : b ≠ 0) :
    ∃ s1, chunk_alloc sys (fuel + 1) s c st = Outcome.ret (b, c) s1 ∧
      s1.trace = st.trace ++
        [Event.malloc (2 * (s * c) + ROUND_UP (st.heap_size / 16)) b] ∧
      s1.heap_size = wrap (st.heap_size + (2 * (s * c) + ROUND_UP (st.heap_size / 16))) ∧
      s1.start_free = b + s * c ∧
      s1.end_free = b + (2 * (s * c) + ROUND_UP (st.heap_size / 16)) := by
  obtain ⟨g1, g2, g3⟩ := growth_target_exact s c st hfit
  have hsc : s ≤ s * c := Nat.le_mul_of_pos_right s hc
  have hbl := ptr_diff_of_le hle (by omega)
  have c1 : ¬ wrap (s * c) ≤ ptr_diff st.end_free st.start_free := by
    rw [g2, hbl]; omega
  have c2 : ¬ s ≤ ptr_diff st.end_free st.start_free := by
    rw [hbl]; omega
  rw [← g1] at hb ⊢
  have c3 : ¬ (after_malloc sys s c st).start_free = 0 := by
    rw [after_malloc_start, hb]; exact hb0
  obtain ⟨f1, f2, f3, f4, f5, f6⟩ := after_malloc_frame sys s c st
  rw [chunk_alloc_eq]
  simp only [c1, c2, c3, if_false, chunk_alloc_retry]
  rw [after_malloc_start, hb]
  rw [chunk_alloc_sufficient]
  · refine ⟨_, rfl, ?_, ?_, ?_, ?_⟩
    · simp only [install_pool]
      rw [f6, hb]
    · simp only [install_pool]
      rw [f2]
    · simp only [install_pool]
      rw [g2]
    · simp only [install_pool]
  · simp only [install_pool]
    rw [ptr_diff_add _ _ (growth_target_lt s c st), g2]
    exact g3

theorem chunk_alloc_request (sys : Sys) (fuel s c : Nat) (st s1 : AllocState)
    (hc : 1 ≤ c) (hle : st.start_free ≤ st.end_free)
    (hneed : st.end_free - st.start_free < s)
    (hfit : 2 * (s * c) + ROUND_UP (st.heap_size / 16) < 18446744073709551616)
    (h : (chunk_alloc sys fuel s c st).final = some s1) :
    ∃ rest, s1.trace = st.trace ++
      Event.malloc (2 * (s * c) + ROUND_UP (st.heap_size / 16))
        (sys (sys_calls st.trace) (2 * (s * c) + ROUND_UP (st.heap_size / 16))) :: rest := by
  obtain ⟨g1, g2, g3⟩ := growth_target_exact s c st hfit
  have hsc : s ≤ s * c := Nat.le_mul_of_pos_right s hc
  have hbl := ptr_diff_of_le hle (by omega)
  have c1 : ¬ wrap (s * c) ≤ ptr_diff st.end_free st.start_free := by
    rw [g2, hbl]; omega
  have c2 : ¬ s ≤ ptr_diff st.end_free st.start_free := by
    rw [hbl]; omega
  rw [← g1]
  obtain ⟨f1, f2, f3, f4, f5, f6⟩ := after_malloc_frame sys s c st
  have hgrown : ∀ (q : Nat) (t0 : AllocState),
      wrap (s * c) ≤ ptr_diff (install_pool q (growth_target s c st) t0).end_free
          (install_pool q (growth_target s c st) t0).start_free ∨
        s ≤ ptr_diff (install_pool q (growth_target s c st) t0).end_free
          (install_pool q (growth_target s c st) t0).start_free := by
    intro q t0
    left
    simp only [install_pool]
    rw [ptr_diff_add _ _ (growth_target_lt s c st), g2]
    exact g3
  rw [chunk_alloc_eq, if_neg c1, if_neg c2] at h
  by_cases c3 : (after_malloc sys s c st).start_free = 0
  · rw [if_pos c3] at h
    rcases hscan : scan_free_lists (after_malloc sys s c st).free_list
        (__NFREELISTS + 1) s with _ | i
    · simp only [hscan] at h
      split at h
      · rename_i q s4 hcall
        obtain ⟨_, _, _, rest, ht⟩ :=
          first_tier_allocate_frame sys fuel _ _ s4 (by rw [hcall]; rfl)
        simp only at ht
        have := (chunk_alloc_retry_from_pool sys fuel s c _ s1 (hgrown q s4) h).2.2.1
        simp only [install_pool] at this
        rw [this, ht, f6, List.append_assoc]
        exact ⟨_, rfl⟩
      · rename_i s4 hcall
        simp only [Outcome.final, Option.some.injEq] at h
        subst h
        obtain ⟨_, _, _, rest, ht⟩ :=
          first_tier_allocate_frame sys fuel _ _ s4 (by rw [hcall]; rfl)
        simp only at ht
        rw [ht, f6, List.append_assoc]
        exact ⟨_, rfl⟩
      · simp [Outcome.final] at h
    · simp only [hscan] at h
      obtain ⟨s1', s2', _, _⟩ := scan_free_lists_some _ _ _ _ hscan
      have hpool : wrap (s * c) ≤ ptr_diff (take_block i (after_malloc sys s c st)).end_free
            (take_block i (after_malloc sys s c st)).start_free ∨
          s ≤ ptr_diff (take_block i (after_malloc sys s c st)).end_free
            (take_block i (after_malloc sys s c st)).start_free := by
        right
        simp only [take_block]
        rw [ptr_diff_add _ _ (by omega)]
        exact s1'
      have := (chunk_alloc_retry_from_pool sys fuel s c _ s1 hpool h).2.2.1
      simp only [take_block] at this
      rw [this, f6]
      exact ⟨_, rfl⟩
  · rw [if_neg c3] at h
    have := (chunk_alloc_retry_from_pool sys fuel s c _ s1 (hgrown _ _) h).2.2.1
    simp only [install_pool] at this
    rw [this, f6]
    exact ⟨_, rfl⟩

theorem allocate_8_initial (sys : Sys) (link0 : Nat → Nat) (hb0 : sys 0 320 ≠ 0) :
    ∃ s1, allocate sys 1 8 (initial link0) = Outcome.ret (sys 0 320) s1 ∧
      s1.trace = [Event.malloc 320 (sys 0 320)] ∧ s1.heap_size = 320 ∧
      s1.start_free = sys 0 320 + 160 ∧ s1.end_free = sys 0 320 + 320 := by
  have hr0 : ROUND_UP ((initial link0).heap_size / 16) = 0 := by
    show ROUND_UP (0 / 16) = 0
    rw [ROUND_UP_eq (by norm_num)]
  have hr8 : ROUND_UP 8 = 8 := by
    rw [ROUND_UP_eq (by norm_num)]
  obtain ⟨sc, hcall, k1, k2, k3, k4⟩ := chunk_alloc_growth_exact sys 0 8 20 (sys 0 320)
    (initial link0) (by norm_num) (le_refl _) (by show 0 - 0 < 8; norm_num)
    (by rw [hr0]; norm_num) (by rw [hr0]; rfl) hb0
  rw [hr0] at k1 k2 k4
  obtain ⟨l, hre, _, _⟩ := refill_batch sys 1 8 (sys 0 320) 20 (initial link0) sc
    (by norm_num) (by norm_num) hcall
  have hz : (initial link0).free_list (FREELIST_INDEX 8) = 0 := rfl
  rw [allocate_small_eq sys 1 8 _ (by norm_num) (by norm_num), if_pos hz, hr8, hre]
  refine ⟨_, rfl, ?_, ?_, ?_, ?_⟩
  · show sc.trace = _
    rw [k1]
    rfl
  · show sc.heap_size = _
    rw [k2]
    rfl
  · exact k3
  · exact k4

theorem scan_free_lists_first (fl : Nat → Nat) :
    ∀ (m k i : Nat), m < k → i + 8 * m ≤ 128 →
      (∀ m1, m1 < m → fl (FREELIST_INDEX (i + 8 * m1)) = 0) →
      fl (FREELIST_INDEX (i + 8 * m)) ≠ 0 → scan_free_lists fl k i = some (i + 8 * m) := by
  intro m
  induction m with
  | zero =>
    intro k i hk hi _ hne
    obtain ⟨k1, rfl⟩ : ∃ k1, k = k1 + 1 := ⟨k - 1, by omega⟩
    rw [scan_free_lists]
    have h1 : i ≤ __MAX_BYTES := by unfold __MAX_BYTES; omega
    simp only [Nat.mul_zero, Nat.add_zero] at hne ⊢
    simp only [h1, if_true, ne_eq, hne, not_false_eq_true]
  | succ m ih =>
    intro k i hk hi hzero hne
    obtain ⟨k1, rfl⟩ : ∃ k1, k = k1 + 1 := ⟨k - 1, by omega⟩
    rw [scan_free_lists]
    have h1 : i ≤ __MAX_BYTES := by unfold __MAX_BYTES; omega
    have h2 : fl (FREELIST_INDEX i) = 0 := by
      have := hzero 0 (by omega)
      simpa using this
    simp only [h1, if_true, ne_eq, h2, not_true_eq_false, if_false]
    have e : i + 8 * (m + 1) = i + __ALIGN + 8 * m := by unfold __ALIGN; omega
    rw [e] at hne ⊢
    refine ih k1 (i + __ALIGN) (by omega) (by unfold __ALIGN; omega) ?_ hne
    intro m1 hm1
    have := hzero (m1 + 1) (by omega)
    have e2 : i + 8 * (m1 + 1) = i + __ALIGN + 8 * m1 := by unfold __ALIGN; omega
    rw [e2] at this
    exact this

theorem donate_remainder_link (s : AllocState) (a : Nat)
    (h : s.end_free = s.start_free ∨ a ≠ s.start_free) :
    (donate_remainder s).link a = s.link a := by
  unfold donate_remainder
  split
  · rename_i hpos
    rcases h with h | h
    · rw [h] at hpos
      unfold ptr_diff wrap at hpos
      simp at hpos
    · exact store_other _ _ _ _ h
  · rfl

theorem chunk_alloc_take_exact (sys : Sys) (fuel s c i : Nat) (st : AllocState)
    (hs8 : s % 8 = 0) (hs1 : 1 ≤ s) (hc : 1 ≤ c) (hcc : c < 2147483648)
    (hpool : pool_ok st) (hneed : st.end_free - st.start_free < s)
    (hfail : sys (sys_calls st.trace) (growth_target s c st) = 0)
    (hi : s ≤ i) (hi2 : i ≤ 128) (hi8 : i % 8 = 0)
    (hne : st.free_list (FREELIST_INDEX i) ≠ 0)
    (hmin : ∀ j, s ≤ j → j < i → j % 8 = 0 → st.free_list (FREELIST_INDEX j) = 0) :
    ∃ s1, chunk_alloc sys (fuel + 1) s c st =
        Outcome.ret (st.free_list (FREELIST_INDEX i), min c (i / s)) s1 ∧
      s1.free_list (FREELIST_INDEX i) =
        (donate_remainder st).link (st.free_list (FREELIST_INDEX i)) ∧
      (∀ j, j ≠ FREELIST_INDEX i → s1.free_list j = (donate_remainder st).free_list j) ∧
      s1.link = (donate_remainder st).link ∧
      s1.start_free = st.free_list (FREELIST_INDEX i) + min c (i / s) * s ∧
      s1.end_free = st.free_list (FREELIST_INDEX i) + i ∧
      s1.heap_size = st.heap_size ∧
      s1.trace = st.trace ++ [Event.malloc (growth_target s c st) 0] := by
  have hbl := pool_ok_bytes_left hpool
  have hsc : s ≤ s * c := Nat.le_mul_of_pos_right s hc
  have hscu : s * c ≤ 128 * 2147483648 := Nat.mul_le_mul (by omega) (by omega)
  have hw : wrap (s * c) = s * c := wrap_of_lt (by omega)
  have c1 : ¬ wrap (s * c) ≤ ptr_diff st.end_free st.start_free := by
    rw [hw, hbl]; omega
  have c2 : ¬ s ≤ ptr_diff st.end_free st.start_free := by
    rw [hbl]; omega
  obtain ⟨f1, f2, f3, f4, f5, f6⟩ := after_malloc_frame sys s c st
  have c3 : (after_malloc sys s c st).start_free = 0 := by
    rw [after_malloc_start]; exact hfail
  have hlarge : ∀ j, s ≤ j → j ≤ 128 →
      (after_malloc sys s c st).free_list (FREELIST_INDEX j) = st.free_list (FREELIST_INDEX j) := by
    intro j hj hj2
    rw [f4]
    exact donate_remainder_larger_lists st s hpool hs8 c2 j hj hj2
  obtain ⟨m, hm⟩ : ∃ m, i = s + 8 * m := ⟨(i - s) / 8, by omega⟩
  have hscan : scan_free_lists (after_malloc sys s c st).free_list (__NFREELISTS + 1) s =
      some i := by
    rw [hm]
    apply scan_free_lists_first
    · unfold __NFREELISTS __MAX_BYTES __ALIGN
      omega
    · omega
    · intro m1 hm1
      rw [hlarge _ (by omega) (by omega)]
      exact hmin _ (by omega) (by omega) (by omega)
    · rw [← hm, hlarge i hi hi2]
      exact hne
  rw [chunk_alloc_eq, if_neg c1, if_neg c2, if_pos c3]
  simp only [hscan, chunk_alloc_retry]
  have hhead : (after_malloc sys s c st).free_list (FREELIST_INDEX i) =
      st.free_list (FREELIST_INDEX i) := hlarge i hi hi2
  have hpd : ptr_diff (take_block i (after_malloc sys s c st)).end_free
      (take_block i (after_malloc sys s c st)).start_free = i := by
    simp only [take_block]
    exact ptr_diff_add _ _ (by omega)
  have hpos : 0 < s := by omega
  by_cases hall : s * c ≤ i
  · have hmin1 : min c (i / s) = c := by
      apply Nat.min_eq_left
      exact (Nat.le_div_iff_mul_le hpos).2 (by rw [Nat.mul_comm]; exact hall)
    rw [chunk_alloc_sufficient sys fuel s c _ (by rw [hpd, hw]; exact hall)]
    rw [hmin1, hw]
    simp only [take_block, hhead, f2, f5, f6, hfail]
    refine ⟨_, rfl, ?_, ?_, rfl, ?_, rfl, rfl, rfl⟩
    · simp only [store_same]
    · intro j hj
      simp only [store_other _ _ _ _ hj]
      rw [f4]
    · simp only
      rw [Nat.mul_comm]
  · have hmin1 : min c (i / s) = i / s := by
      apply Nat.min_eq_right
      exact Nat.le_of_lt ((Nat.div_lt_iff_lt_mul hpos).2 (by rw [Nat.mul_comm]; omega))
    have hmd : s * (i / s) ≤ i := Nat.mul_div_le _ _
    rw [chunk_alloc_some_blocks sys fuel s c _ (by rw [hpd, hw]; exact hall)
      (by rw [hpd]; exact hi)]
    rw [hpd, hmin1, wrap_of_lt (by omega)]
    simp only [take_block, hhead, f2, f5, f6, hfail]
    refine ⟨_, rfl, ?_, ?_, rfl, ?_, rfl, rfl, rfl⟩
    · simp only [store_same]
    · intro j hj
      simp only [store_other _ _ _ _ hj]
      rw [f4]
    · simp only
      rw [Nat.mul_comm]

theorem ROUND_UP_le (x : Nat) (h : x + 7 < 18446744073709551616) : ROUND_UP x ≤ x + 7 := by
  rw [ROUND_UP_eq h]
  exact Nat.div_mul_le_self _ _

theorem growth_target_int (s c : Nat) (st : AllocState) (hs2 : s ≤ 128)
    (hcc : c < 2147483648) (hh : st.heap_size < 18446744073709551616) :
    2 * (s * c) + ROUND_UP (st.heap_size / 16) < 18446744073709551616 := by
  have hscu : s * c ≤ 128 * 2147483648 := Nat.mul_le_mul hs2 (by omega)
  have := ROUND_UP_le (st.heap_size / 16) (by omega)
  omega

theorem chunk_alloc_carve_general (sys : Sys) (fuel s c b c1 : Nat) (t s1 : AllocState)
    (hle : t.start_free ≤ t.end_free) (hlt : t.end_free - t.start_free < 18446744073709551616)
    (hs1 : 1 ≤ s) (hc : 1 ≤ c) (hfit : s * c < 18446744073709551616)
    (hpool : wrap (s * c) ≤ ptr_diff t.end_free t.start_free ∨
      s ≤ ptr_diff t.end_free t.start_free)
    (h : chunk_alloc sys fuel s c t = Outcome.ret (b, c1) s1) :
    b = t.start_free ∧ 1 ≤ c1 ∧ c1 ≤ c ∧ b + s * c1 ≤ t.end_free ∧
      s1.start_free = b + s * c1 ∧ s1.end_free = t.end_free ∧ s1.link = t.link ∧
      s1.free_list = t.free_list ∧ s1.trace = t.trace ∧ s1.heap_size = t.heap_size := by
  have hbl := ptr_diff_of_le hle hlt
  have hw : wrap (s * c) = s * c := wrap_of_lt hfit
  by_cases c1' : wrap (s * c) ≤ ptr_diff t.end_free t.start_free
  · rw [chunk_alloc_sufficient sys fuel s c t c1'] at h
    simp only [Outcome.ret.injEq, Prod.mk.injEq] at h
    obtain ⟨⟨k1, k2⟩, k3⟩ := h
    subst k1 k2 k3
    rw [hw, hbl] at c1'
    rw [hw]
    refine ⟨rfl, hc, le_refl _, by omega, rfl, rfl, rfl, rfl, rfl, rfl⟩
  · have c2 : s ≤ ptr_diff t.end_free t.start_free := by
      rcases hpool with k | k
      · exact absurd k c1'
      · exact k
    rw [chunk_alloc_some_blocks sys fuel s c t c1' c2] at h
    simp only [Outcome.ret.injEq, Prod.mk.injEq] at h
    obtain ⟨⟨k1, k2⟩, k3⟩ := h
    subst k1 k2 k3
    rw [hbl] at c2 c1' ⊢
    rw [hw] at c1'
    have hmd : s * ((t.end_free - t.start_free) / s) ≤ t.end_free - t.start_free :=
      Nat.mul_div_le _ _
    have hpos : 1 ≤ (t.end_free - t.start_free) / s := Nat.div_pos c2 (by omega)
    have hlt2 : (t.end_free - t.start_free) / s < c :=
      (Nat.div_lt_iff_lt_mul (by omega)).2 (by rw [Nat.mul_comm]; omega)
    rw [wrap_of_lt (by omega)]
    refine ⟨rfl, hpos, by omega, by omega, rfl, rfl, rfl, rfl, rfl, rfl⟩

theorem chunk_alloc_cases_int (sys : Sys) (fuel s c : Nat) (st : AllocState)
    (hs : pool_ok st) (hs8 : s % 8 = 0) (hs2 : s ≤ 128) (hcc : c < 2147483648)
    (hnd : ¬ (wrap (s * c) ≤ ptr_diff st.end_free st.start_free ∨
      s ≤ ptr_diff st.end_free st.start_free)) :
    (∃ t, chunk_alloc sys fuel s c st = chunk_alloc_retry sys fuel s c t ∧
      pool_ok t ∧ t.start_free ≠ 0 ∧
      ((∃ q t0, q ≠ 0 ∧ t = install_pool q (growth_target s c st) t0 ∧
          wrap (s * c) ≤ ptr_diff t.end_free t.start_free) ∨
        (∃ i, (after_malloc sys s c st).start_free = 0 ∧
          t = take_block i (after_malloc sys s c st) ∧
          s ≤ ptr_diff t.end_free t.start_free))) ∨
    (∃ t, chunk_alloc sys fuel s c st = Outcome.bad_alloc t ∧
      t.start_free = 0 ∧ t.end_free = 0 ∧ t.heap_size = st.heap_size ∧
      (after_malloc sys s c st).start_free = 0 ∧
      __malloc_alloc_template.allocate sys fuel (growth_target s c st)
        { after_malloc sys s c st with end_free := 0 } = Outcome.bad_alloc t) ∨
    (chunk_alloc sys fuel s c st = Outcome.out_of_fuel ∧
      (after_malloc sys s c st).start_free = 0 ∧
      __malloc_alloc_template.allocate sys fuel (growth_target s c st)
        { after_malloc sys s c st with end_free := 0 } = Outcome.out_of_fuel) := by
  have c1 : ¬ wrap (s * c) ≤ ptr_diff st.end_free st.start_free := fun k => hnd (Or.inl k)
  have c2 : ¬ s ≤ ptr_diff st.end_free st.start_free := fun k => hnd (Or.inr k)
  obtain ⟨o1, o2, o3, o4, o5, o6⟩ := hs
  have hg8 := growth_target_mod_eight s c st hs8
  have hglt := growth_target_lt s c st
  obtain ⟨g1, g2, g3⟩ := growth_target_exact s c st (growth_target_int s c st hs2 hcc o5)
  obtain ⟨f1, f2, f3, f4, f5, f6⟩ := after_malloc_frame sys s c st
  have hgrown : ∀ q (t : AllocState), t.heap_size = st.heap_size → q ≠ 0 →
      pool_ok (install_pool q (growth_target s c st) t) ∧
      (install_pool q (growth_target s c st) t).start_free ≠ 0 ∧
      wrap (s * c) ≤ ptr_diff (install_pool q (growth_target s c st) t).end_free
          (install_pool q (growth_target s c st) t).start_free := by
    intro q t ht hq
    refine ⟨?_, hq, ?_⟩
    · refine ⟨?_, ?_, ?_, ?_, ?_, ?_⟩ <;> simp only [install_pool]
      · omega
      · omega
      · omega
      · rw [wrap_mod_eight, ht]; omega
      · exact wrap_lt _
      · intro h0; exact absurd h0 hq
    · simp only [install_pool]
      rw [ptr_diff_add _ _ hglt, g2]
      exact g3
  rw [chunk_alloc_eq, if_neg c1, if_neg c2]
  by_cases c3 : (after_malloc sys s c st).start_free = 0
  · rw [if_pos c3]
    rcases hscan : scan_free_lists (after_malloc sys s c st).free_list
        (__NFREELISTS + 1) s with _ | i
    · simp only
      rcases hcall : __malloc_alloc_template.allocate sys fuel (growth_target s c st)
          { after_malloc sys s c st with end_free := 0 } with ⟨q, s4⟩ | ⟨s4⟩ | _
      · left
        have hq := first_tier_allocate_ret_ne_zero sys fuel _ q _ s4 hcall
        obtain ⟨⟨_, _, _, b4⟩, _⟩ :=
          first_tier_allocate_frame sys fuel _ _ s4 (by rw [hcall]; rfl)
        simp only at b4
        obtain ⟨k1, k2, k3⟩ := hgrown q s4 (by rw [b4, f2]) hq
        exact ⟨_, rfl, k1, k2, Or.inl ⟨q, s4, hq, rfl, k3⟩⟩
      · right; left
        obtain ⟨⟨_, b2, b3, b4⟩, _⟩ :=
          first_tier_allocate_frame sys fuel _ _ s4 (by rw [hcall]; rfl)
        simp only at b2 b3 b4
        exact ⟨s4, rfl, by rw [b2, c3], b3, by rw [b4, f2], c3, rfl⟩
      · right; right
        exact ⟨rfl, c3, rfl⟩
    · left
      simp only
      obtain ⟨s1', s2', s3', s4'⟩ := scan_free_lists_some _ _ _ _ hscan
      refine ⟨_, rfl, ?_, ?_, ?_⟩
      · refine ⟨?_, ?_, ?_, ?_, ?_, ?_⟩ <;> simp only [take_block]
        · omega
        · omega
        · omega
        · rw [f2]; exact o4
        · rw [f2]; exact o5
        · intro h0; exact absurd h0 s4'
      · exact s4'
      · right
        refine ⟨i, c3, rfl, ?_⟩
        simp only [take_block]
        rw [ptr_diff_add _ _ (by omega)]
        exact s1'
  · rw [if_neg c3]
    left
    obtain ⟨k1, k2, k3⟩ := hgrown _ _ f2 c3
    exact ⟨_, rfl, k1, k2, Or.inl ⟨_, _, c3, rfl, k3⟩⟩

theorem retry_target_direct {s c : Nat} {st t : AllocState} {sys : Sys}
    (h : (∃ q t0, q ≠ 0 ∧ t = install_pool q (growth_target s c st) t0 ∧
          wrap (s * c) ≤ ptr_diff t.end_free t.start_free) ∨
        (∃ i, (after_malloc sys s c st).start_free = 0 ∧
          t = take_block i (after_malloc sys s c st) ∧
          s ≤ ptr_diff t.end_free t.start_free)) :
    wrap (s * c) ≤ ptr_diff t.end_free t.start_free ∨ s ≤ ptr_diff t.end_free t.start_free := by
  rcases h with ⟨_, _, _, _, k⟩ | ⟨_, _, _, k⟩
  · exact Or.inl k
  · exact Or.inr k

theorem chunk_alloc_direct_any_fuel (sys : Sys) (s c : Nat) (t : AllocState)
    (hpool : wrap (s * c) ≤ ptr_diff t.end_free t.start_free ∨
      s ≤ ptr_diff t.end_free t.start_free) :
    ∃ r s1, ∀ f, chunk_alloc sys f s c t = Outcome.ret r s1 := by
  by_cases c1 : wrap (s * c) ≤ ptr_diff t.end_free t.start_free
  · exact ⟨_, _, fun f => chunk_alloc_sufficient sys f s c t c1⟩
  · have c2 : s ≤ ptr_diff t.end_free t.start_free := by
      rcases hpool with k | k
      · exact absurd k c1
      · exact k
    exact ⟨_, _, fun f => chunk_alloc_some_blocks sys f s c t c1 c2⟩

theorem oom_malloc_fuel_mono (sys : Sys) (n : Nat) :
    ∀ (f : Nat) (s : AllocState) (f1 : Nat), f ≤ f1 →
      __malloc_alloc_template.oom_malloc sys f n s ≠ Outcome.out_of_fuel →
      __malloc_alloc_template.oom_malloc sys f1 n s =
        __malloc_alloc_template.oom_malloc sys f n s := by
  intro f
  induction f with
  | zero =>
    intro s f1 _ hne
    rw [__malloc_alloc_template.oom_malloc] at hne
    conv_lhs => rw [__malloc_alloc_template.oom_malloc]
    conv_rhs => rw [__malloc_alloc_template.oom_malloc]
    by_cases h0 : s.oom_handler = 0
    · simp [h0]
    · by_cases hr : (malloc sys n (call_handler s.oom_handler s)).1 = 0
      · simp [h0, hr] at hne
      · simp [h0, hr]
  | succ k ih =>
    intro s f1 hle hne
    obtain ⟨k1, rfl⟩ : ∃ k1, f1 = k1 + 1 := ⟨f1 - 1, by omega⟩
    rw [__malloc_alloc_template.oom_malloc] at hne
    conv_lhs => rw [__malloc_alloc_template.oom_malloc]
    conv_rhs => rw [__malloc_alloc_template.oom_malloc]
    by_cases h0 : s.oom_handler = 0
    · simp [h0]
    · by_cases hr : (malloc sys n (call_handler s.oom_handler s)).1 = 0
      · simp only [h0, if_false, ne_eq, hr, not_true_eq_false] at hne ⊢
        exact ih _ k1 (by omega) hne
      · simp [h0, hr]

theorem first_tier_allocate_fuel_mono (sys : Sys) (n f f1 : Nat) (s : AllocState)
    (hle : f ≤ f1)
    (hne : __malloc_alloc_template.allocate sys f n s ≠ Outcome.out_of_fuel) :
    __malloc_alloc_template.allocate sys f1 n s =
      __malloc_alloc_template.allocate sys f n s := by
  unfold __malloc_alloc_template.allocate at hne ⊢
  by_cases hr : (malloc sys n s).1 = 0
  · simp only [hr, if_true] at hne ⊢
    exact oom_malloc_fuel_mono sys n f _ f1 hle hne
  · simp only [hr, if_false]

theorem chunk_alloc_retry_fuel (sys : Sys) (s c f f1 : Nat) (t : AllocState)
    (hf : 1 ≤ f) (hf1 : 1 ≤ f1)
    (hpool : wrap (s * c) ≤ ptr_diff t.end_free t.start_free ∨
      s ≤ ptr_diff t.end_free t.start_free) :
    chunk_alloc_retry sys f1 s c t = chunk_alloc_retry sys f s c t ∧
      chunk_alloc_retry sys f s c t ≠ Outcome.out_of_fuel := by
  obtain ⟨k, rfl⟩ : ∃ k, f = k + 1 := ⟨f - 1, by omega⟩
  obtain ⟨k1, rfl⟩ : ∃ k1, f1 = k1 + 1 := ⟨f1 - 1, by omega⟩
  obtain ⟨r, s1, h⟩ := chunk_alloc_direct_any_fuel sys s c t hpool
  simp only [chunk_alloc_retry, h]
  exact ⟨trivial, fun e => nomatch e⟩

theorem chunk_alloc_fuel_mono (sys : Sys) (f f1 s c : Nat) (st : AllocState)
    (hh : st.heap_size < 18446744073709551616) (hs2 : s ≤ 128) (hcc : c < 2147483648)
    (hf : 1 ≤ f) (hle : f ≤ f1)
    (hne : chunk_alloc sys f s c st ≠ Outcome.out_of_fuel) :
    chunk_alloc sys f1 s c st = chunk_alloc sys f s c st := by
  by_cases hd : wrap (s * c) ≤ ptr_diff st.end_free st.start_free ∨
      s ≤ ptr_diff st.end_free st.start_free
  · obtain ⟨r, s1, h⟩ := chunk_alloc_direct_any_fuel sys s c st hd
    rw [h, h]
  · have c1 : ¬ wrap (s * c) ≤ ptr_diff st.end_free st.start_free := fun k => hd (Or.inl k)
    have c2 : ¬ s ≤ ptr_diff st.end_free st.start_free := fun k => hd (Or.inr k)
    obtain ⟨g1, g2, g3⟩ := growth_target_exact s c st (growth_target_int s c st hs2 hcc hh)
    have hglt := growth_target_lt s c st
    have hgrown : ∀ (q : Nat) (t0 : AllocState),
        wrap (s * c) ≤ ptr_diff (install_pool q (growth_target s c st) t0).end_free
            (install_pool q (growth_target s c st) t0).start_free ∨
          s ≤ ptr_diff (install_pool q (growth_target s c st) t0).end_free
            (install_pool q (growth_target s c st) t0).start_free := by
      intro q t0
      left
      simp only [install_pool]
      rw [ptr_diff_add _ _ hglt, g2]
      exact g3
    rw [chunk_alloc_eq, if_neg c1, if_neg c2] at hne
    rw [chunk_alloc_eq sys f1, chunk_alloc_eq sys f, if_neg c1, if_neg c2, if_neg c1, if_neg c2]
    by_cases c3 : (after_malloc sys s c st).start_free = 0
    · rw [if_pos c3] at hne
      rw [if_pos c3, if_pos c3]
      rcases hscan : scan_free_lists (after_malloc sys s c st).free_list
          (__NFREELISTS + 1) s with _ | i
      · simp only [hscan] at hne
        dsimp only
        rcases hcall : __malloc_alloc_template.allocate sys f (growth_target s c st)
            { after_malloc sys s c st with end_free := 0 } with ⟨q, s4⟩ | ⟨s4⟩ | _
        · have e1 := first_tier_allocate_fuel_mono sys (growth_target s c st) f f1
            { after_malloc sys s c st with end_free := 0 } hle
            (by rw [hcall]; exact fun e => nomatch e)
          rw [e1, hcall]
          dsimp only
          exact (chunk_alloc_retry_fuel sys s c f f1 _ hf (by omega) (hgrown q s4)).1
        · have e1 := first_tier_allocate_fuel_mono sys (growth_target s c st) f f1
            { after_malloc sys s c st with end_free := 0 } hle
            (by rw [hcall]; exact fun e => nomatch e)
          rw [e1, hcall]
        · rw [hcall] at hne
          exact absurd rfl hne
      · dsimp only
        obtain ⟨s1', s2', _, _⟩ := scan_free_lists_some _ _ _ _ hscan
        refine (chunk_alloc_retry_fuel sys s c f f1 _ hf (by omega) ?_).1
        right
        simp only [take_block]
        rw [ptr_diff_add _ _ (by omega)]
        exact s1'
    · rw [if_neg c3, if_neg c3]
      exact (chunk_alloc_retry_fuel sys s c f f1 _ hf (by omega) (hgrown _ _)).1


theorem free_bytes_update_ge (lists : Nat → List Nat) (c : Nat) (blocks : List Nat) :
    ∀ k, k ≤ c → free_bytes (Function.update lists c blocks) k = free_bytes lists k := by
  intro k
  induction k with
  | zero => intro _; rfl
  | succ k ih =>
    intro hk
    simp only [free_bytes]
    rw [ih (by omega), Function.update_noteq (by omega)]

theorem free_bytes_update (lists : Nat → List Nat) (c : Nat) (blocks : List Nat) :
    ∀ k, c < k →
      free_bytes (Function.update lists c blocks) k + (lists c).length * ((c + 1) * 8) =
        free_bytes lists k + blocks.length * ((c + 1) * 8) := by
  intro k
  induction k with
  | zero => intro h; omega
  | succ k ih =>
    intro hk
    simp only [free_bytes]
    by_cases e : c = k
    · subst e
      rw [free_bytes_update_ge lists c blocks c (le_refl _), Function.update_same]
      omega
    · rw [Function.update_noteq (Ne.symm e)]
      have := ih (by omega)
      omega

theorem held_bytes_cons (x : Nat × Nat) (held : List (Nat × Nat)) :
    held_bytes (x :: held) = (x.2 + 1) * 8 + held_bytes held := by
  simp [held_bytes]

theorem held_bytes_erase (x : Nat × Nat) :
    ∀ (held : List (Nat × Nat)), x ∈ held →
      held_bytes (held.erase x) + (x.2 + 1) * 8 = held_bytes held := by
  intro held
  induction held with
  | nil => intro h; cases h
  | cons y rest ih =>
    intro h
    by_cases e : y = x
    · subst e
      rw [List.erase_cons_head, held_bytes_cons]
      omega
    · have hx : x ∈ rest := by
        rcases List.mem_cons.1 h with k | k
        · exact absurd k.symm e
        · exact k
      rw [List.erase_cons_tail (by simpa using e), held_bytes_cons, held_bytes_cons]
      have := ih hx
      omega

theorem region_bytes_cons (r : Nat × Nat) (owned : List (Nat × Nat)) :
    region_bytes (r :: owned) = r.2 + region_bytes owned := by
  simp [region_bytes]

theorem wrap_wrap_add (a b : Nat) : wrap (wrap a + b) = wrap (a + b) := by
  unfold wrap
  rw [Nat.mod_add_mod]

theorem accounted_pop (link heads : Nat → Nat) (lists : Nat → List Nat)
    (held owned : List (Nat × Nat)) (lo hi c0 a : Nat) (rest : List Nat)
    (h : accounted link heads ⟨lists, held, lo, hi⟩ owned) (hc : c0 < 16)
    (hl : lists c0 = a :: rest) :
    accounted link (store heads c0 (link a))
      ⟨Function.update lists c0 rest, (a, c0) :: held, lo, hi⟩ owned := by
  refine ⟨wellformed_pop link heads lists held owned lo hi c0 a rest h.1 hc hl, ?_⟩
  have hb := h.2
  have hu := free_bytes_update lists c0 rest 16 hc
  simp only [Layout.bytes] at hb ⊢
  rw [held_bytes_cons]
  rw [hl, List.length_cons, Nat.succ_mul rest.length ((c0 + 1) * 8)] at hu
  simp only
  omega

theorem accounted_push (link heads : Nat → Nat) (lists : Nat → List Nat)
    (held owned : List (Nat × Nat)) (lo hi c0 p : Nat)
    (h : accounted link heads ⟨lists, held, lo, hi⟩ owned) (hp : (p, c0) ∈ held) :
    accounted (store link p (heads c0)) (store heads c0 p)
      ⟨Function.update lists c0 (p :: lists c0), held.erase (p, c0), lo, hi⟩ owned := by
  refine ⟨wellformed_push link heads lists held owned lo hi c0 p h.1 hp, ?_⟩
  have hb := h.2
  have hc : c0 < 16 := h.1.2.2.1 _ hp
  have hu := free_bytes_update lists c0 (p :: lists c0) 16 hc
  have he := held_bytes_erase (p, c0) held hp
  simp only [Layout.bytes] at hb ⊢
  rw [List.length_cons, Nat.succ_mul (lists c0).length ((c0 + 1) * 8)] at hu
  simp only at he
  omega

theorem accounted_take (link heads : Nat → Nat) (lists : Nat → List Nat)
    (held owned : List (Nat × Nat)) (lo c0 a : Nat) (rest : List Nat)
    (h : accounted link heads ⟨lists, held, lo, lo⟩ owned) (hc : c0 < 16)
    (hl : lists c0 = a :: rest) :
    accounted link (store heads c0 (link a))
      ⟨Function.update lists c0 rest, held, a, a + (c0 + 1) * 8⟩ owned := by
  refine ⟨wellformed_take link heads lists held owned lo lo c0 a rest h.1 hc hl, ?_⟩
  have hb := h.2
  have hu := free_bytes_update lists c0 rest 16 hc
  simp only [Layout.bytes] at hb ⊢
  rw [hl, List.length_cons, Nat.succ_mul rest.length ((c0 + 1) * 8)] at hu
  omega

theorem accounted_donate (link heads : Nat → Nat) (lists : Nat → List Nat)
    (held owned : List (Nat × Nat)) (lo hi c0 : Nat)
    (h : accounted link heads ⟨lists, held, lo, hi⟩ owned) (hc : c0 < 16)
    (hr : hi - lo = (c0 + 1) * 8) :
    accounted (store link lo (heads c0)) (store heads c0 lo)
      ⟨Function.update lists c0 (lo :: lists c0), held, hi, hi⟩ owned := by
  refine ⟨wellformed_donate link heads lists held owned lo hi c0 h.1 hc hr, ?_⟩
  have hb := h.2
  have hu := free_bytes_update lists c0 (lo :: lists c0) 16 hc
  simp only [Layout.bytes] at hb ⊢
  rw [List.length_cons, Nat.succ_mul (lists c0).length ((c0 + 1) * 8)] at hu
  omega

theorem accounted_shrink (link heads : Nat → Nat) (lists : Nat → List Nat)
    (held owned : List (Nat × Nat)) (lo hi lo1 : Nat)
    (h : accounted link heads ⟨lists, held, lo, hi⟩ owned) (hz : hi - lo = 0) :
    accounted link heads ⟨lists, held, lo1, lo1⟩ owned := by
  refine ⟨wellformed_shrink link heads lists held owned lo hi lo1 lo1 h.1 (le_refl _)
    (fun k => absurd k (lt_irrefl _)), ?_⟩
  have hb := h.2
  simp only [Layout.bytes] at hb ⊢
  omega

theorem accounted_new_pool (link heads : Nat → Nat) (lists : Nat → List Nat)
    (held owned : List (Nat × Nat)) (lo q len : Nat)
    (h : accounted link heads ⟨lists, held, lo, lo⟩ owned) (hq : q ≠ 0)
    (hfresh : ∀ r ∈ owned, apart q len r.1 r.2) :
    accounted link heads ⟨lists, held, q, q + len⟩ ((q, len) :: owned) := by
  refine ⟨wellformed_new_pool link heads lists held owned lo lo q len h.1 hq hfresh, ?_⟩
  have hb := h.2
  simp only [Layout.bytes] at hb ⊢
  rw [region_bytes_cons]
  simp only
  omega

theorem accounted_refill (link link1 heads : Nat → Nat) (lists : Nat → List Nat)
    (held owned : List (Nat × Nat)) (b hi c0 n cnt head1 : Nat)
    (h : accounted link heads ⟨lists, held, b, hi⟩ owned) (hc : c0 < 16)
    (hn : n = (c0 + 1) * 8) (hl : lists c0 = []) (hcnt : 1 ≤ cnt) (hfit : b + cnt * n ≤ hi)
    (hchain : chain link1 head1 (block_run (b + n) n (cnt - 1)))
    (hframe : ∀ x, x ∉ block_run (b + n) n (cnt - 1) → link1 x = link x) :
    accounted link1 (store heads c0 head1)
      ⟨Function.update lists c0 (block_run (b + n) n (cnt - 1)), (b, c0) :: held,
        b + cnt * n, hi⟩ owned := by
  refine ⟨wellformed_refill link link1 heads lists held owned b hi c0 n cnt head1 h.1 hc hn hl
    hcnt hfit hchain hframe, ?_⟩
  have hb := h.2
  have hu := free_bytes_update lists c0 (block_run (b + n) n (cnt - 1)) 16 hc
  simp only [Layout.bytes] at hb ⊢
  rw [held_bytes_cons]
  rw [hl, block_run_length, ← hn] at hu
  simp only [List.length_nil, Nat.zero_mul, Nat.add_zero] at hu
  have hm : cnt * n = (cnt - 1) * n + n := by
    obtain ⟨k, rfl⟩ : ∃ k, cnt = k + 1 := ⟨cnt - 1, by omega⟩
    rw [Nat.add_sub_cancel, Nat.succ_mul]
  simp only
  rw [← hn]
  omega

theorem oom_malloc_obtained_exact (sys : Sys) (n : Nat) :
    ∀ (fuel : Nat) (s s1 : AllocState) (q : Nat),
      __malloc_alloc_template.oom_malloc sys fuel n s = Outcome.ret q s1 →
        ∃ suffix, s1.trace = s.trace ++ suffix ∧ suffix.filterMap event_region = [(q, n)] := by
  have hstep : ∀ (s : AllocState), (malloc sys n (call_handler s.oom_handler s)).1 ≠ 0 →
      ∃ suffix, (malloc sys n (call_handler s.oom_handler s)).2.trace = s.trace ++ suffix ∧
        suffix.filterMap event_region =
          [((malloc sys n (call_handler s.oom_handler s)).1, n)] := by
    intro s hr
    refine ⟨[Event.handler s.oom_handler,
      Event.malloc n (malloc sys n (call_handler s.oom_handler s)).1], ?_, ?_⟩
    · simp [malloc, call_handler]
    · simp only [List.filterMap_cons, event_region, hr, if_false, List.filterMap_nil]
  intro fuel
  induction fuel with
  | zero =>
    intro s s1 q h
    rw [__malloc_alloc_template.oom_malloc] at h
    by_cases h0 : s.oom_handler = 0
    · simp [h0] at h
    · by_cases hr : (malloc sys n (call_handler s.oom_handler s)).1 = 0
      · simp [h0, hr] at h
      · simp only [h0, if_false, ne_eq, hr, not_false_eq_true, if_true, Outcome.ret.injEq] at h
        rw [← h.1, ← h.2]
        exact hstep s hr
  | succ k ih =>
    intro s s1 q h
    rw [__malloc_alloc_template.oom_malloc] at h
    by_cases h0 : s.oom_handler = 0
    · simp [h0] at h
    · by_cases hr : (malloc sys n (call_handler s.oom_handler s)).1 = 0
      · simp only [h0, if_false, ne_eq, hr, not_true_eq_false] at h
        obtain ⟨suffix, e1, e2⟩ := ih _ _ _ h
        refine ⟨[Event.handler s.oom_handler, Event.malloc n 0] ++ suffix, ?_, ?_⟩
        · rw [e1]
          simp [malloc, call_handler] at hr ⊢
          exact hr
        · rw [List.filterMap_append, e2]
          simp [event_region]
      · simp only [h0, if_false, ne_eq, hr, not_false_eq_true, if_true, Outcome.ret.injEq] at h
        rw [← h.1, ← h.2]
        exact hstep s hr

theorem first_tier_allocate_obtained_exact (sys : Sys) (fuel n q : Nat) (s s1 : AllocState)
    (h : __malloc_alloc_template.allocate sys fuel n s = Outcome.ret q s1) :
    ∃ suffix, s1.trace = s.trace ++ suffix ∧ suffix.filterMap event_region = [(q, n)] := by
  unfold __malloc_alloc_template.allocate at h
  by_cases hr : (malloc sys n s).1 = 0
  · simp only [hr, if_true] at h
    obtain ⟨suffix, e1, e2⟩ := oom_malloc_obtained_exact sys n fuel _ _ _ h
    refine ⟨[Event.malloc n 0] ++ suffix, ?_, ?_⟩
    · rw [e1]
      simp [malloc] at hr ⊢
      exact hr
    · rw [List.filterMap_append, e2]
      simp [event_region]
  · simp only [hr, if_false, Outcome.ret.injEq] at h
    rw [← h.1, ← h.2]
    refine ⟨[Event.malloc n (malloc sys n s).1], ?_, ?_⟩
    · simp [malloc]
    · simp only [List.filterMap_cons, event_region, hr, if_false, List.filterMap_nil]

theorem obtained_nil_of_trace {s s1 : AllocState} (h : s1.trace = s.trace) :
    obtained s s1 = [] := by
  unfold obtained
  rw [h, List.drop_length]
  rfl

theorem donate_remainder_accounted (s : AllocState) (held owned : List (Nat × Nat))
    (lists : Nat → List Nat) (c0 n : Nat) (hs : pool_ok s) (hc : c0 < 16)
    (hn : n = (c0 + 1) * 8) (hl : lists c0 = [])
    (c2 : ¬ n ≤ ptr_diff s.end_free s.start_free)
    (hw : accounted s.link s.free_list ⟨lists, held, s.start_free, s.end_free⟩ owned) :
    ∃ lists1, lists1 c0 = [] ∧
      accounted (donate_remainder s).link (donate_remainder s).free_list
        ⟨lists1, held, s.end_free, s.end_free⟩ owned := by
  have hbl := pool_ok_bytes_left hs
  obtain ⟨o1, o2, o3, o4, o5, o6⟩ := hs
  rw [hbl] at c2
  by_cases hpos : ptr_diff s.end_free s.start_free > 0
  · have hidx : FREELIST_INDEX (ptr_diff s.end_free s.start_free) =
        (s.end_free - s.start_free) / 8 - 1 := by
      rw [hbl, FREELIST_INDEX_eq (by omega) (by omega)]
      omega
    rw [hbl] at hpos
    have hd : donate_remainder s =
        { s with
          link := store s.link s.start_free
            (s.free_list ((s.end_free - s.start_free) / 8 - 1))
          free_list := store s.free_list ((s.end_free - s.start_free) / 8 - 1)
            s.start_free } := by
      unfold donate_remainder
      rw [hidx, hbl, if_pos hpos]
    refine ⟨Function.update lists ((s.end_free - s.start_free) / 8 - 1)
      (s.start_free :: lists ((s.end_free - s.start_free) / 8 - 1)), ?_, ?_⟩
    · rw [Function.update_noteq (by omega)]
      exact hl
    · rw [hd]
      exact accounted_donate s.link s.free_list lists held owned s.start_free s.end_free _
        hw (by omega) (by omega)
  · have hz : s.end_free - s.start_free = 0 := by omega
    have hd : donate_remainder s = s := by
      unfold donate_remainder
      rw [if_neg hpos]
    refine ⟨lists, hl, ?_⟩
    rw [hd]
    exact accounted_shrink _ _ _ _ _ _ _ _ hw hz

theorem chunk_alloc_retry_accounted (sys : Sys) (fuel n : Nat) (t : AllocState)
    (held owned : List (Nat × Nat)) (lists : Nat → List Nat)
    (hlo : 1 ≤ n) (hhi : n ≤ 128)
    (hpool : wrap (n * 20) ≤ ptr_diff t.end_free t.start_free ∨
      n ≤ ptr_diff t.end_free t.start_free)
    (hlt : t.end_free - t.start_free < 18446744073709551616)
    (hw : accounted t.link t.free_list ⟨lists, held, t.start_free, t.end_free⟩ owned) :
    ∀ b cnt s1, chunk_alloc_retry sys fuel n 20 t = Outcome.ret (b, cnt) s1 →
      1 ≤ cnt ∧ b + cnt * n ≤ s1.end_free ∧ s1.start_free = b + cnt * n ∧
        s1.trace = t.trace ∧ s1.heap_size = t.heap_size ∧
        accounted s1.link s1.free_list ⟨lists, held, b, s1.end_free⟩ owned := by
  have hle : t.start_free ≤ t.end_free := hw.1.2.2.2.2.2.1
  cases fuel with
  | zero =>
    intro b cnt s1 h
    simp [chunk_alloc_retry] at h
  | succ k =>
    intro b cnt s1 h
    obtain ⟨k1, k2, k3, k4, k5, k6, k7, k8, k9⟩ :=
      chunk_alloc_carve sys k n b cnt t s1 hle hlt hlo hhi hpool h
    refine ⟨k2, by rw [k5]; exact k3, k4, k8, k9, ?_⟩
    rw [k6, k7, k5, k1]
    exact hw

theorem chunk_alloc_accounted (sys : Sys) (fuel c0 n : Nat) (s : AllocState)
    (held owned : List (Nat × Nat)) (lists : Nat → List Nat)
    (hs : pool_ok s) (hc : c0 < 16) (hn : n = (c0 + 1) * 8) (hl : lists c0 = [])
    (hw : accounted s.link s.free_list ⟨lists, held, s.start_free, s.end_free⟩ owned) :
    (∀ b cnt s1, chunk_alloc sys fuel n 20 s = Outcome.ret (b, cnt) s1 →
      (∀ r ∈ obtained s s1, ∀ r1 ∈ owned, apart r.1 r.2 r1.1 r1.2) →
      1 ≤ cnt ∧ b + cnt * n ≤ s1.end_free ∧ s1.start_free = b + cnt * n ∧
        s1.heap_size = wrap (s.heap_size + region_bytes (obtained s s1)) ∧
        (obtained s s1 = [] ∨ ∃ q, obtained s s1 = [(q, growth_target n 20 s)]) ∧
        ∃ lists1, lists1 c0 = [] ∧
          accounted s1.link s1.free_list ⟨lists1, held, b, s1.end_free⟩
            (obtained s s1 ++ owned)) ∧
    (∀ s1, chunk_alloc sys fuel n 20 s = Outcome.bad_alloc s1 →
      s1.heap_size = s.heap_size ∧
      ∃ lists1, accounted s1.link s1.free_list
        ⟨lists1, held, s1.start_free, s1.end_free⟩ owned) := by
  have hn8 : n % 8 = 0 := by omega
  have hlo : 1 ≤ n := by omega
  have hhi : n ≤ 128 := by omega
  have hbl := pool_ok_bytes_left hs
  have hs0 := hs
  obtain ⟨o1, o2, o3, o4, o5, o6⟩ := hs
  have hglt := growth_target_lt n 20 s
  have hheap0 : s.heap_size = wrap (s.heap_size + region_bytes []) := by
    rw [wrap_of_lt (by simpa [region_bytes] using o5)]
    simp [region_bytes]
  by_cases hdir : wrap (n * 20) ≤ ptr_diff s.end_free s.start_free ∨
      n ≤ ptr_diff s.end_free s.start_free
  · have R1 :=
      chunk_alloc_retry_accounted sys (fuel + 1) n s held owned lists hlo hhi hdir o3 hw
    refine ⟨?_, ?_⟩
    · intro b cnt s1 h _
      obtain ⟨k1, k2, k3, k4, k5, k6⟩ := R1 b cnt s1 h
      have hobt := obtained_nil_of_trace k4
      rw [hobt]
      exact ⟨k1, k2, k3, by rw [k5]; exact hheap0, Or.inl rfl, lists, hl, k6⟩
    · intro s1 h
      exact absurd h (chunk_alloc_retry_no_throw sys (fuel + 1) n s s1 hdir)
  · have c1 : ¬ wrap (n * 20) ≤ ptr_diff s.end_free s.start_free := fun k => hdir (Or.inl k)
    have c2 : ¬ n ≤ ptr_diff s.end_free s.start_free := fun k => hdir (Or.inr k)
    obtain ⟨listsD, hlD, hwD⟩ :=
      donate_remainder_accounted s held owned lists c0 n hs0 hc hn hl c2 hw
    obtain ⟨f1, f2, f3, f4, f5, f6⟩ := after_malloc_frame sys n 20 s
    have hgrow : ∀ (q : Nat) (t0 : AllocState) (suffix : List Event), q ≠ 0 →
        t0.link = (donate_remainder s).link → t0.free_list = (donate_remainder s).free_list →
        t0.heap_size = s.heap_size →
        t0.trace = s.trace ++ suffix →
        suffix.filterMap event_region = [(q, growth_target n 20 s)] →
        (∀ b cnt s1, chunk_alloc_retry sys fuel n 20
            (install_pool q (growth_target n 20 s) t0) = Outcome.ret (b, cnt) s1 →
          (∀ r ∈ obtained s s1, ∀ r1 ∈ owned, apart r.1 r.2 r1.1 r1.2) →
          1 ≤ cnt ∧ b + cnt * n ≤ s1.end_free ∧ s1.start_free = b + cnt * n ∧
            s1.heap_size = wrap (s.heap_size + region_bytes (obtained s s1)) ∧
            (obtained s s1 = [] ∨ ∃ q, obtained s s1 = [(q, growth_target n 20 s)]) ∧
            ∃ lists1, lists1 c0 = [] ∧
              accounted s1.link s1.free_list ⟨lists1, held, b, s1.end_free⟩
                (obtained s s1 ++ owned)) ∧
        (∀ s1, chunk_alloc_retry sys fuel n 20
            (install_pool q (growth_target n 20 s) t0) = Outcome.bad_alloc s1 →
          s1.heap_size = s.heap_size ∧
          ∃ lists1, accounted s1.link s1.free_list
            ⟨lists1, held, s1.start_free, s1.end_free⟩ owned) := by
      intro q t0 suffix hq e1 e2 eh e3 hmem
      have hpool : wrap (n * 20) ≤
            ptr_diff (install_pool q (growth_target n 20 s) t0).end_free
              (install_pool q (growth_target n 20 s) t0).start_free ∨
          n ≤ ptr_diff (install_pool q (growth_target n 20 s) t0).end_free
              (install_pool q (growth_target n 20 s) t0).start_free := by
        left
        simp only [install_pool]
        rw [ptr_diff_add _ _ hglt]
        exact (growth_target_ge n 20 s hhi (le_refl _) o5).2
      refine ⟨?_, ?_⟩
      · intro b cnt s1 h hfresh
        have htr : s1.trace = s.trace ++ suffix := by
          rw [(chunk_alloc_retry_from_pool sys fuel n 20 _ s1 hpool (by rw [h]; rfl)).2.2.1]
          exact e3
        have hobt : obtained s s1 = [(q, growth_target n 20 s)] := by
          rw [obtained_of_trace htr]
          exact hmem
        have hw1 := accounted_new_pool _ _ _ _ _ _ q (growth_target n 20 s) hwD hq
          (fun r hr => hfresh _ (by rw [hobt]; exact List.mem_singleton.2 rfl) r hr)
        have hw2 : accounted (install_pool q (growth_target n 20 s) t0).link
            (install_pool q (growth_target n 20 s) t0).free_list
            ⟨listsD, held, (install_pool q (growth_target n 20 s) t0).start_free,
              (install_pool q (growth_target n 20 s) t0).end_free⟩
            (obtained s s1 ++ owned) := by
          simp only [install_pool]
          rw [e1, e2, hobt]
          exact hw1
        obtain ⟨k1, k2, k3, _, k5, k6⟩ :=
          chunk_alloc_retry_accounted sys fuel n _ held _ listsD hlo hhi hpool
            (by simp only [install_pool]; omega) hw2 b cnt s1 h
        refine ⟨k1, k2, k3, ?_, Or.inr ⟨q, hobt⟩, listsD, hlD, k6⟩
        rw [k5, hobt]
        simp only [install_pool, region_bytes, List.map_cons, List.map_nil, List.sum_cons,
          List.sum_nil, Nat.add_zero]
        rw [eh]
      · intro s1 h
        exact absurd h (chunk_alloc_retry_no_throw sys fuel n _ s1 hpool)
    rw [chunk_alloc_eq, if_neg c1, if_neg c2]
    by_cases c3 : (after_malloc sys n 20 s).start_free = 0
    · rw [if_pos c3]
      have c3' := c3
      rw [after_malloc_start] at c3'
      rcases hscan : scan_free_lists (after_malloc sys n 20 s).free_list
          (__NFREELISTS + 1) n with _ | i
      · simp only
        rcases hcall : __malloc_alloc_template.allocate sys fuel (growth_target n 20 s)
            { after_malloc sys n 20 s with end_free := 0 } with ⟨q, s4⟩ | ⟨s4⟩ | _
        · simp only
          have hq := first_tier_allocate_ret_ne_zero sys fuel _ q _ s4 hcall
          obtain ⟨⟨b1, _, _, b4⟩, b5, _, _⟩ :=
            first_tier_allocate_frame sys fuel _ _ s4 (by rw [hcall]; rfl)
          simp only at b1 b4 b5
          obtain ⟨suffix, t1, t2⟩ := first_tier_allocate_obtained_exact sys fuel _ q _ s4 hcall
          simp only at t1
          refine hgrow q s4 ([Event.malloc (growth_target n 20 s)
            (sys (sys_calls s.trace) (growth_target n 20 s))] ++ suffix) hq
            (by rw [b5, f5]) (by rw [b1, f4]) (by rw [b4, f2])
            (by rw [t1, f6, List.append_assoc]) ?_
          rw [List.filterMap_append, t2]
          simp [event_region, c3']
        · dsimp only
          refine ⟨(fun b cnt s1 h => nomatch h), ?_⟩
          intro s1 h
          simp only [Outcome.bad_alloc.injEq] at h
          subst h
          obtain ⟨⟨b1, b2, b3, b4⟩, b5, _, _⟩ :=
            first_tier_allocate_frame sys fuel _ _ s4 (by rw [hcall]; rfl)
          simp only at b1 b2 b3 b4 b5
          refine ⟨by rw [b4, f2], listsD, ?_⟩
          rw [b1, b2, b3, b5, c3, f4, f5]
          exact accounted_shrink _ _ _ _ _ _ _ _ hwD (Nat.sub_self _)
        · dsimp only
          exact ⟨(fun b cnt s1 h => nomatch h), (fun s1 h => nomatch h)⟩
      · simp only
        obtain ⟨s1', s2', s3', s4'⟩ := scan_free_lists_some _ _ _ _ hscan
        have hidx : FREELIST_INDEX i = i / 8 - 1 := by
          rw [FREELIST_INDEX_eq (by omega) (by omega)]
          omega
        have hci : i / 8 - 1 < 16 := by omega
        rw [f4] at s4'
        obtain ⟨rest, hlist, _⟩ := chain_of_ne_zero (hwD.1.1 (FREELIST_INDEX i) (by omega)) s4'
        simp only at hlist
        have hne : FREELIST_INDEX i ≠ c0 := by
          intro e
          rw [e, hlD] at hlist
          cases hlist
        have hwT := accounted_take _ _ _ _ _ _ (FREELIST_INDEX i) _ rest hwD (by omega) hlist
        have hsz : (FREELIST_INDEX i + 1) * 8 = i := by omega
        rw [hsz] at hwT
        have hpool : wrap (n * 20) ≤
              ptr_diff (take_block i (after_malloc sys n 20 s)).end_free
                (take_block i (after_malloc sys n 20 s)).start_free ∨
            n ≤ ptr_diff (take_block i (after_malloc sys n 20 s)).end_free
                (take_block i (after_malloc sys n 20 s)).start_free := by
          right
          simp only [take_block]
          rw [ptr_diff_add _ _ (by omega)]
          exact s1'
        have hw2 : accounted (take_block i (after_malloc sys n 20 s)).link
            (take_block i (after_malloc sys n 20 s)).free_list
            ⟨Function.update listsD (FREELIST_INDEX i) rest, held,
              (take_block i (after_malloc sys n 20 s)).start_free,
              (take_block i (after_malloc sys n 20 s)).end_free⟩ owned := by
          simp only [take_block]
          rw [f4, f5]
          exact hwT
        refine ⟨?_, ?_⟩
        · intro b cnt s1 h _
          obtain ⟨k1, k2, k3, k4, k5, k6⟩ :=
            chunk_alloc_retry_accounted sys fuel n _ held _ _ hlo hhi hpool
              (by simp only [take_block]; omega) hw2 b cnt s1 h
          have htr : s1.trace = s.trace ++ [Event.malloc (growth_target n 20 s)
              (sys (sys_calls s.trace) (growth_target n 20 s))] := by
            rw [k4]
            simp only [take_block]
            exact f6
          have hobt : obtained s s1 = [] := by
            rw [obtained_of_trace htr]
            simp [event_region, c3']
          rw [hobt]
          refine ⟨k1, k2, k3, ?_, Or.inl rfl, _, ?_, k6⟩
          · rw [k5]
            simp only [take_block]
            rw [f2]
            exact hheap0
          · rw [Function.update_noteq (Ne.symm hne)]
            exact hlD
        · intro s1 h
          exact absurd h (chunk_alloc_retry_no_throw sys fuel n _ s1 hpool)
    · rw [if_neg c3]
      refine hgrow _ (after_malloc sys n 20 s)
        [Event.malloc (growth_target n 20 s) (sys (sys_calls s.trace) (growth_target n 20 s))]
        c3 f5 f4 f2 f6 ?_
      rw [after_malloc_start] at c3 ⊢
      simp only [List.filterMap_cons, event_region, c3, if_false, List.filterMap_nil]

theorem region_bytes_append (a b : List (Nat × Nat)) :
    region_bytes (a ++ b) = region_bytes a + region_bytes b := by
  simp [region_bytes]

theorem growth_ledger (heap heap1 : Nat) (obt owned : List (Nat × Nat))
    (hheap : heap = wrap (region_bytes owned)) (hd : disjoint_regions owned)
    (hfresh : ∀ r ∈ obt, ∀ r1 ∈ owned, apart r.1 r.2 r1.1 r1.2)
    (hcase : obt = [] ∨ ∃ q len, obt = [(q, len)])
    (h1 : heap1 = wrap (heap + region_bytes obt)) :
    heap1 = wrap (region_bytes (obt ++ owned)) ∧ disjoint_regions (obt ++ owned) := by
  refine ⟨?_, ?_⟩
  · rw [h1, hheap, wrap_wrap_add, region_bytes_append, Nat.add_comm]
  · rcases hcase with e | ⟨q, len, e⟩
    · rw [e]
      exact hd
    · rw [e]
      unfold disjoint_regions
      rw [List.singleton_append, List.pairwise_cons]
      refine ⟨?_, hd⟩
      intro r1 hr1
      exact hfresh (q, len) (by rw [e]; exact List.mem_singleton.2 rfl) r1 hr1

theorem conserved_of_frame {s s1 : AllocState} {g : Ledger} (hb : same_bank s s1)
    (hl : s1.link = s.link) (h : conserved s g) : conserved s1 g := by
  obtain ⟨b1, b2, b3, b4⟩ := hb
  obtain ⟨hp, hh, hd, lists, hw⟩ := h
  refine ⟨pool_ok_of_same b2 b3 b4 hp, by rw [b4]; exact hh, hd, lists, ?_⟩
  rw [hl, b1, b2, b3]
  exact hw

theorem allocate_small_conserved (sys : Sys) (fuel n p : Nat) (s s1 : AllocState)
    (g : Ledger) (h1 : 1 ≤ n) (h2 : n ≤ 128) (hsep : conserved s g)
    (h : allocate sys fuel n s = Outcome.ret p s1)
    (hfresh : ∀ r ∈ obtained s s1, ∀ r1 ∈ g.owned, apart r.1 r.2 r1.1 r1.2) :
    conserved s1 ⟨(p, FREELIST_INDEX n) :: g.held, obtained s s1 ++ g.owned⟩ := by
  have hp1 : pool_ok s1 := allocate_pool_ok sys fuel n s s1 hsep.1 (by rw [h]; rfl)
  obtain ⟨hp, hheap, hdis, lists, hw⟩ := hsep
  obtain ⟨hc, hru⟩ := small_class n h1 h2
  have hfi := (ROUND_UP_small h1 h2).2.2.2.2.2
  rw [allocate_small_eq sys fuel n s h1 h2] at h
  by_cases hz : s.free_list (FREELIST_INDEX n) = 0
  · rw [if_pos hz] at h
    have hl : lists (FREELIST_INDEX n) = [] := by
      have := hw.1.1 _ hc
      rw [hz] at this
      exact chain_of_zero this
    obtain ⟨R1, _⟩ := chunk_alloc_accounted sys fuel (FREELIST_INDEX n) (ROUND_UP n) s
      g.held g.owned lists hp hc hru hl hw
    unfold refill at h
    split at h
    · rename_i chunk nobjs sc hca
      by_cases hone : nobjs = 1
      · simp only [hone, if_true, Outcome.ret.injEq] at h
        obtain ⟨e1, e2⟩ := h
        subst e1 e2 hone
        obtain ⟨k1, k2, k3, kh, kc, lists1, k4, k5⟩ := R1 _ _ _ hca hfresh
        obtain ⟨g1, g2⟩ := growth_ledger s.heap_size sc.heap_size (obtained s sc) g.owned
          hheap hdis hfresh (by
            rcases kc with e | ⟨q, e⟩
            · exact Or.inl e
            · exact Or.inr ⟨q, _, e⟩) kh
        refine ⟨hp1, g1, g2, ?_⟩
        have hhead : chain sc.link (sc.free_list (FREELIST_INDEX n))
            (block_run (chunk + ROUND_UP n) (ROUND_UP n) (1 - 1)) := by
          have := k5.1.1 _ hc
          simp only [k4] at this
          exact this
        have := accounted_refill sc.link sc.link sc.free_list lists1 g.held _ chunk
          sc.end_free (FREELIST_INDEX n) (ROUND_UP n) 1 (sc.free_list (FREELIST_INDEX n))
          k5 hc hru k4 (le_refl _) k2 hhead (fun _ _ => rfl)
        rw [store_self, ← k3] at this
        exact ⟨_, this⟩
      · simp only [hone, if_false] at h
        obtain ⟨k1, k2, k3, kh, kc, lists1, k4, k5⟩ : 1 ≤ nobjs ∧
            chunk + nobjs * ROUND_UP n ≤ sc.end_free ∧
            sc.start_free = chunk + nobjs * ROUND_UP n ∧
            sc.heap_size = wrap (s.heap_size + region_bytes (obtained s s1)) ∧
            (obtained s s1 = [] ∨
              ∃ q, obtained s s1 = [(q, growth_target (ROUND_UP n) 20 s)]) ∧
            ∃ lists1, lists1 (FREELIST_INDEX n) = [] ∧
              accounted sc.link sc.free_list ⟨lists1, g.held, chunk, sc.end_free⟩
                (obtained s s1 ++ g.owned) := by
          split at h
          · simp only [Outcome.ret.injEq] at h
            obtain ⟨_, e2⟩ := h
            subst e2
            exact R1 _ _ _ hca hfresh
          · cases h
        have hb0 : chunk ≠ 0 :=
          chunk_alloc_ret_ne_zero sys fuel (ROUND_UP n) 20 chunk nobjs s sc hp (by omega)
            (by omega) (by omega) (by omega) (le_refl _) hca
        obtain ⟨l, e, hchain, hframe⟩ := link_blocks_chain nobjs (ROUND_UP n) (by omega)
          (nobjs - 2) nobjs 1 (chunk + ROUND_UP n) sc.link (by omega) (by omega) (by omega)
        have hd : nobjs - 2 + 1 = nobjs - 1 := by omega
        rw [hd] at hchain hframe
        simp only [e, Outcome.ret.injEq] at h
        obtain ⟨e1, e2⟩ := h
        subst e1
        have := accounted_refill sc.link l sc.free_list lists1 g.held _ chunk
          sc.end_free (FREELIST_INDEX n) (ROUND_UP n) nobjs (chunk + ROUND_UP n)
          k5 hc hru k4 k1 k2 hchain hframe
        rw [← k3] at this
        obtain ⟨g1, g2⟩ := growth_ledger s.heap_size sc.heap_size (obtained s s1) g.owned
          hheap hdis hfresh (by
            rcases kc with e | ⟨q, e⟩
            · exact Or.inl e
            · exact Or.inr ⟨q, _, e⟩) kh
        subst e2
        refine ⟨hp1, g1, g2, ?_⟩
        rw [hfi]
        exact ⟨_, this⟩
    · cases h
    · cases h
  · rw [if_neg hz] at h
    simp only [Outcome.ret.injEq] at h
    obtain ⟨e1, e2⟩ := h
    obtain ⟨rest, hlist, _⟩ := chain_of_ne_zero (hw.1.1 _ hc) hz
    simp only at hlist
    have := accounted_pop _ _ _ _ _ _ _ _ _ rest hw hc hlist
    subst e1 e2
    have hobt : obtained s
        { s with free_list := (store s.free_list (FREELIST_INDEX n)
            (s.link (s.free_list (FREELIST_INDEX n)))) } = [] :=
      obtained_nil_of_trace rfl
    rw [hobt]
    exact ⟨hp1, hheap, hdis, _, this⟩

theorem allocate_throws_conserved (sys : Sys) (fuel n : Nat) (s s1 : AllocState)
    (g : Ledger) (hsep : conserved s g)
    (h : allocate sys fuel n s = Outcome.bad_alloc s1) : conserved s1 g := by
  have hp1 : pool_ok s1 := allocate_pool_ok sys fuel n s s1 hsep.1 (by rw [h]; rfl)
  by_cases h0 : n = 0
  · subst h0
    simp [allocate] at h
  by_cases hbig : n > 128
  · rw [allocate_large_eq sys fuel n s hbig] at h
    obtain ⟨hb, hl, _, _⟩ := first_tier_allocate_frame sys fuel n s s1 (by rw [h]; rfl)
    exact conserved_of_frame hb hl hsep
  have h1 : 1 ≤ n := by omega
  have h2 : n ≤ 128 := by omega
  obtain ⟨hp, hheap, hdis, lists, hw⟩ := hsep
  obtain ⟨hc, hru⟩ := small_class n h1 h2
  rw [allocate_small_eq sys fuel n s h1 h2] at h
  by_cases hz : s.free_list (FREELIST_INDEX n) = 0
  · rw [if_pos hz] at h
    have hl : lists (FREELIST_INDEX n) = [] := by
      have := hw.1.1 _ hc
      rw [hz] at this
      exact chain_of_zero this
    obtain ⟨_, R2⟩ := chunk_alloc_accounted sys fuel (FREELIST_INDEX n) (ROUND_UP n) s
      g.held g.owned lists hp hc hru hl hw
    unfold refill at h
    split at h
    · rename_i chunk nobjs sc hca
      by_cases hone : nobjs = 1
      · simp [hone] at h
      · simp only [hone, if_false] at h
        split at h
        · cases h
        · cases h
    · rename_i sc hca
      simp only [Outcome.bad_alloc.injEq] at h
      subst h
      obtain ⟨e, r⟩ := R2 _ hca
      exact ⟨hp1, by rw [e]; exact hheap, hdis, r⟩
    · cases h
  · rw [if_neg hz] at h
    cases h

theorem allocate_returns_conserved (sys : Sys) (fuel n p : Nat) (s s1 : AllocState)
    (g : Ledger) (hsep : conserved s g) (h : allocate sys fuel n s = Outcome.ret p s1)
    (hfresh : fresh_growth n s s1 g) : conserved s1 (g.after_allocate n p s s1) := by
  by_cases h0 : n = 0
  · subst h0
    simp only [allocate, if_true, Outcome.ret.injEq] at h
    rw [← h.2]
    simp only [Ledger.after_allocate]
    rw [if_neg (by omega)]
    exact hsep
  by_cases hbig : n > 128
  · rw [allocate_large_eq sys fuel n s hbig] at h
    obtain ⟨hb, hl, _, _⟩ := first_tier_allocate_frame sys fuel n s s1 (by rw [h]; rfl)
    simp only [Ledger.after_allocate, __MAX_BYTES]
    rw [if_neg (by omega)]
    exact conserved_of_frame hb hl hsep
  have h1 : 1 ≤ n := by omega
  have h2 : n ≤ 128 := by omega
  simp only [Ledger.after_allocate, __MAX_BYTES]
  rw [if_pos ⟨h1, h2⟩]
  exact allocate_small_conserved sys fuel n p s s1 g h1 h2 hsep h (hfresh h1 h2)

theorem deallocate_conserved (p n : Nat) (s : AllocState) (g : Ledger)
    (hsep : conserved s g) (hpre : may_deallocate g p n) :
    conserved (deallocate p n s) (g.after_deallocate p n) := by
  by_cases h0 : n = 0
  · subst h0
    simp only [deallocate, if_true, Ledger.after_deallocate]
    rw [if_neg (by omega)]
    exact hsep
  by_cases hbig : n > 128
  · rw [deallocate_large_eq p n s hbig]
    simp only [Ledger.after_deallocate, __MAX_BYTES]
    rw [if_neg (by omega)]
    exact conserved_of_frame ⟨rfl, rfl, rfl, rfl⟩ rfl hsep
  have h1 : 1 ≤ n := by omega
  have h2 : n ≤ 128 := by omega
  have hp1 := deallocate_pool_ok p n s hsep.1
  obtain ⟨_, hheap, hdis, lists, hw⟩ := hsep
  have hd := deallocate_small_eq p n s h1 h2
  refine ⟨hp1, ?_, ?_, ?_⟩
  · rw [hd]
    simp only [Ledger.after_deallocate, __MAX_BYTES]
    rw [if_pos ⟨h1, h2⟩]
    exact hheap
  · simp only [Ledger.after_deallocate, __MAX_BYTES]
    rw [if_pos ⟨h1, h2⟩]
    exact hdis
  · rw [hd]
    simp only [Ledger.after_deallocate, __MAX_BYTES]
    rw [if_pos ⟨h1, h2⟩]
    exact ⟨_, accounted_push _ _ _ _ _ _ _ _ _ hw (hpre h1 h2)⟩

theorem initial_conserved (link0 : Nat → Nat) : conserved (initial link0) ⟨[], []⟩ := by
  obtain ⟨hp, lists, hw⟩ := initial_separated link0
  refine ⟨hp, rfl, List.Pairwise.nil, fun _ => [], ?_, ?_⟩
  · obtain ⟨w1, w2, w3, w4, w5, w6, w7⟩ := hw
    refine ⟨?_, ?_, w3, w4, w5, w6, ?_, ?_⟩
    · intro c _
      simp [chain_nil, initial]
    · intro c _
      exact List.nodup_nil
    · intro x hx
      cases x with
      | free a c => exact absurd hx.2 (List.not_mem_nil _)
      | held a c => exact absurd hx (List.not_mem_nil _)
      | pool => exact absurd hx (lt_irrefl _)
    · intro x y hx _ _
      cases x with
      | free a c => exact absurd hx.2 (List.not_mem_nil _)
      | held a c => exact absurd hx (List.not_mem_nil _)
      | pool => exact absurd hx (lt_irrefl _)
  · rfl

theorem run_conserved (sys : Sys) (s : AllocState) (g : Ledger) (h : Run sys s g) :
    conserved s g := by
  induction h with
  | start link0 => exact initial_conserved link0
  | allocate_returns fuel n p s s1 g _ hcall hfresh ih =>
    exact allocate_returns_conserved sys fuel n p s s1 g ih hcall hfresh
  | allocate_throws fuel n s s1 g _ hcall ih =>
    exact allocate_throws_conserved sys fuel n s s1 g ih hcall
  | deallocate p n s g _ hpre ih => exact deallocate_conserved p n s g ih hpre
  | reallocate_returns fuel p old_sz new_sz q s s1 g _ hpre hcall hfresh ih =>
    exact allocate_returns_conserved sys fuel new_sz q _ s1 _
      (deallocate_conserved p old_sz s g ih hpre) hcall hfresh
  | reallocate_throws fuel p old_sz new_sz s s1 g _ hpre hcall ih =>
    exact allocate_throws_conserved sys fuel new_sz _ s1 _
      (deallocate_conserved p old_sz s g ih hpre) hcall
  | set_malloc_oom_handler f s g _ ih =>
    exact conserved_of_frame ⟨rfl, rfl, rfl, rfl⟩ rfl ih

theorem disjoint_regions_cover (bound : Nat) :
    ∀ (owned : List (Nat × Nat)), disjoint_regions owned →
      (∀ r ∈ owned, r.1 ≠ 0 ∧ r.1 + r.2 ≤ bound) →
      ∃ U : Finset Nat, U.card = region_bytes owned ∧ U ⊆ Finset.Ico 1 bound ∧
        ∀ x ∈ U, ∃ r ∈ owned, r.1 ≤ x ∧ x < r.1 + r.2 := by
  intro owned
  induction owned with
  | nil =>
    intro _ _
    exact ⟨∅, rfl, Finset.empty_subset _, fun x hx => absurd hx (Finset.not_mem_empty x)⟩
  | cons r rest ih =>
    intro hd hin
    unfold disjoint_regions at hd
    rw [List.pairwise_cons] at hd
    obtain ⟨U, hcard, hsub, hcov⟩ := ih hd.2 (fun r1 hr1 => hin r1 (List.mem_cons_of_mem _ hr1))
    obtain ⟨hr0, hrb⟩ := hin r (List.mem_cons_self _ _)
    have hdisj : Disjoint (Finset.Ico r.1 (r.1 + r.2)) U := by
      rw [Finset.disjoint_left]
      intro x hx hxU
      obtain ⟨r1, hr1, l1, l2⟩ := hcov x hxU
      rw [Finset.mem_Ico] at hx
      have := hd.1 r1 hr1
      unfold apart at this
      omega
    refine ⟨Finset.Ico r.1 (r.1 + r.2) ∪ U, ?_, ?_, ?_⟩
    · rw [Finset.card_union_of_disjoint hdisj, Nat.card_Ico, hcard, region_bytes_cons]
      omega
    · intro x hx
      rcases Finset.mem_union.1 hx with k | k
      · rw [Finset.mem_Ico] at k ⊢
        omega
      · exact hsub k
    · intro x hx
      rcases Finset.mem_union.1 hx with k | k
      · rw [Finset.mem_Ico] at k
        exact ⟨r, List.mem_cons_self _ _, k.1, k.2⟩
      · obtain ⟨r1, hr1, l⟩ := hcov x k
        exact ⟨r1, List.mem_cons_of_mem _ hr1, l⟩

theorem region_bytes_lt (bound : Nat) (owned : List (Nat × Nat)) (hd : disjoint_regions owned)
    (hin : ∀ r ∈ owned, r.1 ≠ 0 ∧ r.1 + r.2 ≤ bound) (hb : 1 ≤ bound) :
    region_bytes owned < bound := by
  obtain ⟨U, hcard, hsub, _⟩ := disjoint_regions_cover bound owned hd hin
  have := Finset.card_le_card hsub
  rw [Nat.card_Ico, hcard] at this
  omega

theorem region_bytes_le_append (a b : List (Nat × Nat)) :
    region_bytes b ≤ region_bytes (a ++ b) := by
  rw [region_bytes_append]
  omega

theorem chunk_alloc_retry_never_throws (sys : Sys) (fuel s c : Nat) (t s1 : AllocState)
    (hpool : wrap (s * c) ≤ ptr_diff t.end_free t.start_free ∨
      s ≤ ptr_diff t.end_free t.start_free) :
    chunk_alloc_retry sys fuel s c t ≠ Outcome.bad_alloc s1 := by
  intro h
  obtain ⟨r, s2, hret⟩ := chunk_alloc_direct_any_fuel sys s c t hpool
  cases fuel with
  | zero => simp [chunk_alloc_retry] at h
  | succ k =>
    simp only [chunk_alloc_retry, hret] at h
    cases h

theorem chunk_alloc_throws_state (sys : Sys) (fuel s c : Nat) (st s1 : AllocState)
    (hs : pool_ok st) (hs8 : s % 8 = 0) (hs1 : 8 ≤ s) (hs2 : s ≤ 128)
    (hcc : c < 2147483648)
    (h : chunk_alloc sys fuel s c st = Outcome.bad_alloc s1) :
    ¬ s ≤ ptr_diff st.end_free st.start_free ∧
    s1.start_free = 0 ∧ s1.end_free = 0 ∧ s1.heap_size = st.heap_size ∧
    s1.free_list = (donate_remainder st).free_list ∧
    s1.link = (donate_remainder st).link ∧
    (∀ j, s ≤ j → j ≤ 128 →
      st.free_list (FREELIST_INDEX j) = 0 ∧ s1.free_list (FREELIST_INDEX j) = 0) ∧
    (∃ rest, s1.trace = st.trace ++ Event.malloc (growth_target s c st) 0 :: rest) := by
  by_cases c1 : wrap (s * c) ≤ ptr_diff st.end_free st.start_free
  · rw [chunk_alloc_sufficient sys fuel s c st c1] at h
    cases h
  by_cases c2 : s ≤ ptr_diff st.end_free st.start_free
  · rw [chunk_alloc_some_blocks sys fuel s c st c1 c2] at h
    cases h
  obtain ⟨f1, f2, f3, f4, f5, f6⟩ := after_malloc_frame sys s c st
  obtain ⟨g1, g2, g3⟩ := growth_target_exact s c st
    (growth_target_int s c st hs2 hcc hs.2.2.2.2.1)
  have hglt := growth_target_lt s c st
  have hgrown : ∀ (q : Nat) (t0 : AllocState),
      wrap (s * c) ≤ ptr_diff (install_pool q (growth_target s c st) t0).end_free
          (install_pool q (growth_target s c st) t0).start_free ∨
        s ≤ ptr_diff (install_pool q (growth_target s c st) t0).end_free
          (install_pool q (growth_target s c st) t0).start_free := by
    intro q t0
    left
    simp only [install_pool]
    rw [ptr_diff_add _ _ hglt, g2]
    exact g3
  rw [chunk_alloc_eq, if_neg c1, if_neg c2] at h
  by_cases c3 : (after_malloc sys s c st).start_free = 0
  · rw [if_pos c3] at h
    rcases hscan : scan_free_lists (after_malloc sys s c st).free_list
        (__NFREELISTS + 1) s with _ | i
    · simp only [hscan] at h
      have hzero := scan_free_lists_none_inv _ (__NFREELISTS + 1) s hs8 (by omega)
        (by unfold __NFREELISTS __MAX_BYTES __ALIGN; omega) hscan
      split at h
      · exact absurd h (chunk_alloc_retry_never_throws sys fuel s c _ s1 (hgrown _ _))
      · rename_i s4 hcall
        simp only [Outcome.bad_alloc.injEq] at h
        subst h
        obtain ⟨⟨b1, b2, b3, b4⟩, b5, _, rest, b6⟩ :=
          first_tier_allocate_frame sys fuel _ _ s4 (by rw [hcall]; rfl)
        simp only at b1 b2 b3 b4 b5 b6
        refine ⟨c2, by rw [b2, c3], b3, by rw [b4, f2], by rw [b1, f4], by rw [b5, f5], ?_, ?_⟩
        · intro j hj hj2
          have hj0 := hzero j hj hj2
          rw [f4, donate_remainder_larger_lists st s hs hs8 c2 j hj hj2] at hj0
          refine ⟨hj0, ?_⟩
          rw [b1, f4, donate_remainder_larger_lists st s hs hs8 c2 j hj hj2]
          exact hj0
        · rw [after_malloc_start] at c3
          rw [b6, f6, c3, List.append_assoc]
          exact ⟨_, rfl⟩
      · cases h
    · simp only [hscan] at h
      obtain ⟨s1', s2', _, _⟩ := scan_free_lists_some _ _ _ _ hscan
      refine absurd h (chunk_alloc_retry_never_throws sys fuel s c _ s1 ?_)
      right
      simp only [take_block]
      rw [ptr_diff_add _ _ (by omega)]
      exact s1'
  · rw [if_neg c3] at h
    exact absurd h (chunk_alloc_retry_never_throws sys fuel s c _ s1 (hgrown _ _))

theorem allocate_throws_state (sys : Sys) (fuel n : Nat) (s s1 : AllocState)
    (hs : pool_ok s) (h1 : 1 ≤ n) (h2 : n ≤ 128)
    (h : allocate sys fuel n s = Outcome.bad_alloc s1) :
    s.free_list (FREELIST_INDEX n) = 0 ∧
    ¬ ROUND_UP n ≤ ptr_diff s.end_free s.start_free ∧
    s1.start_free = 0 ∧ s1.end_free = 0 ∧ s1.heap_size = s.heap_size ∧
    s1.free_list = (donate_remainder s).free_list ∧
    s1.link = (donate_remainder s).link ∧
    (∀ j, ROUND_UP n ≤ j → j ≤ 128 →
      s.free_list (FREELIST_INDEX j) = 0 ∧ s1.free_list (FREELIST_INDEX j) = 0) ∧
    (∃ rest, s1.trace = s.trace ++
      Event.malloc (growth_target (ROUND_UP n) 20 s) 0 :: rest) := by
  obtain ⟨r1, _, r3, r4, _, _⟩ := ROUND_UP_small h1 h2
  rw [allocate_small_eq sys fuel n s h1 h2] at h
  by_cases hz : s.free_list (FREELIST_INDEX n) = 0
  · rw [if_pos hz] at h
    unfold refill at h
    split at h
    · rename_i chunk nobjs sc hca
      by_cases hone : nobjs = 1
      · simp [hone] at h
      · simp only [hone, if_false] at h
        split at h
        · cases h
        · cases h
    · rename_i sc hca
      simp only [Outcome.bad_alloc.injEq] at h
      subst h
      exact ⟨hz, chunk_alloc_throws_state sys fuel (ROUND_UP n) 20 s _ hs r1 r4 r3
        (by norm_num) hca⟩
    · cases h
  · rw [if_neg hz] at h
    cases h

theorem donate_remainder_bank (s : AllocState) :
    (ptr_diff s.end_free s.start_free = 0 →
      (donate_remainder s).free_list = s.free_list ∧ (donate_remainder s).link = s.link) ∧
    (0 < ptr_diff s.end_free s.start_free →
      (donate_remainder s).free_list =
        store s.free_list (FREELIST_INDEX (ptr_diff s.end_free s.start_free)) s.start_free ∧
      (donate_remainder s).link =
        store s.link s.start_free
          (s.free_list (FREELIST_INDEX (ptr_diff s.end_free s.start_free)))) := by
  unfold donate_remainder
  refine ⟨?_, ?_⟩
  · intro h0
    rw [if_neg (by omega)]
    exact ⟨rfl, rfl⟩
  · intro hpos
    rw [if_pos hpos]
    exact ⟨rfl, rfl⟩

theorem allocate_answered (sys : Sys) (fuel m : Nat) (s : AllocState) (hs : pool_ok s)
    (hm : 1 ≤ m) (hsys : sys (sys_calls s.trace)
      (if 128 < m then m else growth_target (ROUND_UP m) 20 s) ≠ 0) :
    ∃ p s2, allocate sys (fuel + 1) m s = Outcome.ret p s2 ∧ p ≠ 0 := by
  by_cases hbig : m > 128
  · rw [allocate_large_eq sys (fuel + 1) m s hbig]
    unfold __malloc_alloc_template.allocate
    have hr : ¬ (malloc sys m s).1 = 0 := by
      rw [if_pos hbig] at hsys
      exact hsys
    simp only [hr, if_false]
    exact ⟨_, _, rfl, hr⟩
  · have h2 : m ≤ 128 := by omega
    rw [if_neg (by omega)] at hsys
    obtain ⟨r1, _, r3, r4, _, _⟩ := ROUND_UP_small hm h2
    have hret : ∃ p s2, allocate sys (fuel + 1) m s = Outcome.ret p s2 := by
      rw [allocate_small_eq sys (fuel + 1) m s hm h2]
      by_cases hz : s.free_list (FREELIST_INDEX m) = 0
      · rw [if_pos hz]
        have hbl := pool_ok_bytes_left hs
        by_cases hd : wrap (ROUND_UP m * 20) ≤ ptr_diff s.end_free s.start_free ∨
            ROUND_UP m ≤ ptr_diff s.end_free s.start_free
        · obtain ⟨c, sc, hc, hc1⟩ :=
            chunk_alloc_direct_count sys (fuel + 1) (ROUND_UP m) 20 s (by omega) (by norm_num) hd
          obtain ⟨s2, e⟩ := refill_returns sys (fuel + 1) (ROUND_UP m) _ c s sc (by omega) hc1 hc
          exact ⟨_, _, e⟩
        · have hneed : s.end_free - s.start_free < ROUND_UP m := by
            rw [← hbl]
            exact Nat.lt_of_not_le (fun k => hd (Or.inr k))
          have hfit := growth_target_int (ROUND_UP m) 20 s r3 (by norm_num) hs.2.2.2.2.1
          rw [(growth_target_exact (ROUND_UP m) 20 s hfit).1] at hsys
          obtain ⟨sc, hc, _⟩ := chunk_alloc_growth_exact sys fuel (ROUND_UP m) 20 _ s
            (by norm_num) hs.1 hneed hfit rfl hsys
          obtain ⟨s2, e⟩ := refill_returns sys (fuel + 1) (ROUND_UP m) _ 20 s sc (by omega)
            (by norm_num) hc
          exact ⟨_, _, e⟩
      · rw [if_neg hz]
        exact ⟨_, _, rfl⟩
    obtain ⟨p, s2, e⟩ := hret
    exact ⟨p, s2, e, allocate_small_ret_ne_zero sys (fuel + 1) m p s s2 hs hm h2 e⟩

theorem chunk_alloc_keeps_empty_head (sys : Sys) (fuel n b c : Nat) (s sc : AllocState)
    (hs : pool_ok s) (hn8 : n % 8 = 0) (hhi : n ≤ 128)
    (hz : s.free_list (FREELIST_INDEX n) = 0)
    (h : chunk_alloc sys fuel n 20 s = Outcome.ret (b, c) sc) :
    sc.free_list (FREELIST_INDEX n) = 0 := by
  by_cases hdir : wrap (n * 20) ≤ ptr_diff s.end_free s.start_free ∨
      n ≤ ptr_diff s.end_free s.start_free
  · rw [(chunk_alloc_from_pool sys fuel n 20 s sc hdir (by rw [h]; rfl)).1]
    exact hz
  · have c1 : ¬ wrap (n * 20) ≤ ptr_diff s.end_free s.start_free := fun k => hdir (Or.inl k)
    have c2 : ¬ n ≤ ptr_diff s.end_free s.start_free := fun k => hdir (Or.inr k)
    obtain ⟨f1, f2, f3, f4, f5, f6⟩ := after_malloc_frame sys n 20 s
    have hglt := growth_target_lt n 20 s
    have hdz : (donate_remainder s).free_list (FREELIST_INDEX n) = 0 := by
      rw [donate_remainder_larger_lists s n hs hn8 c2 n (le_refl _) hhi]
      exact hz
    have hgrow : ∀ (q : Nat) (t0 : AllocState),
        t0.free_list = (donate_remainder s).free_list →
        chunk_alloc_retry sys fuel n 20 (install_pool q (growth_target n 20 s) t0) =
          Outcome.ret (b, c) sc → sc.free_list (FREELIST_INDEX n) = 0 := by
      intro q t0 e h1
      have hpool : wrap (n * 20) ≤
            ptr_diff (install_pool q (growth_target n 20 s) t0).end_free
              (install_pool q (growth_target n 20 s) t0).start_free ∨
          n ≤ ptr_diff (install_pool q (growth_target n 20 s) t0).end_free
              (install_pool q (growth_target n 20 s) t0).start_free := by
        left
        simp only [install_pool]
        rw [ptr_diff_add _ _ hglt]
        exact (growth_target_ge n 20 s hhi (le_refl _) hs.2.2.2.2.1).2
      rw [(chunk_alloc_retry_from_pool sys fuel n 20 _ sc hpool (by rw [h1]; rfl)).1]
      simp only [install_pool]
      rw [e]
      exact hdz
    rw [chunk_alloc_eq, if_neg c1, if_neg c2] at h
    by_cases c3 : (after_malloc sys n 20 s).start_free = 0
    · rw [if_pos c3] at h
      rcases hscan : scan_free_lists (after_malloc sys n 20 s).free_list
          (__NFREELISTS + 1) n with _ | i
      · simp only [hscan] at h
        split at h
        · rename_i q s4 hcall
          obtain ⟨⟨b1, _, _, _⟩, _⟩ :=
            first_tier_allocate_frame sys fuel _ _ s4 (by rw [hcall]; rfl)
          simp only at b1
          exact hgrow q s4 (by rw [b1, f4]) h
        · cases h
        · cases h
      · simp only [hscan] at h
        obtain ⟨s1', s2', s3', s4'⟩ := scan_free_lists_some _ _ _ _ hscan
        have hpool : wrap (n * 20) ≤
              ptr_diff (take_block i (after_malloc sys n 20 s)).end_free
                (take_block i (after_malloc sys n 20 s)).start_free ∨
            n ≤ ptr_diff (take_block i (after_malloc sys n 20 s)).end_free
                (take_block i (after_malloc sys n 20 s)).start_free := by
          right
          simp only [take_block]
          rw [ptr_diff_add _ _ (by omega)]
          exact s1'
        rw [(chunk_alloc_retry_from_pool sys fuel n 20 _ sc hpool (by rw [h]; rfl)).1]
        have hne : FREELIST_INDEX n ≠ FREELIST_INDEX i := by
          intro e
          rw [← e, f4] at s4'
          exact s4' hdz
        simp only [take_block]
        unfold store
        rw [if_neg hne, f4]
        exact hdz
    · rw [if_neg c3] at h
      exact hgrow _ _ f4 h

theorem conserved_heap_exact (s : AllocState) (g : Ledger) (h : conserved s g)
    (hfit : ∀ r ∈ g.owned, r.1 + r.2 ≤ 18446744073709551616) :
    s.heap_size = region_bytes g.owned := by
  obtain ⟨_, hheap, hdis, lists, hw, _⟩ := h
  have hlt := region_bytes_lt 18446744073709551616 g.owned hdis
    (fun r hr => ⟨hw.2.2.2.2.1 r hr, hfit r hr⟩) (by norm_num)
  rw [hheap, wrap_of_lt hlt]

theorem after_allocate_owned (g : Ledger) (n p : Nat) (s s1 : AllocState) :
    region_bytes g.owned ≤ region_bytes (g.after_allocate n p s s1).owned ∧
    ∀ r ∈ g.owned, r ∈ (g.after_allocate n p s s1).owned := by
  unfold Ledger.after_allocate
  split
  · exact ⟨region_bytes_le_append _ _, fun r hr => List.mem_append_right _ hr⟩
  · exact ⟨le_refl _, fun r hr => hr⟩

theorem deallocate_heap_size (p n : Nat) (s : AllocState) :
    (deallocate p n s).heap_size = s.heap_size := by
  unfold deallocate
  split
  · rfl
  · split
    · rfl
    · rfl

namespace vector

variable {T : Type}

theorem assign_same (mem : Nat → T) (p : Nat) (x : T) : assign mem p x p = x := by
  simp [assign]

theorem assign_other (mem : Nat → T) (p : Nat) (x : T) (a : Nat) (h : a ≠ p) :
    assign mem p x a = mem a := by
  simp [assign, h]

theorem elements_getElem? (v : vector T) (i : Nat) :
    v.elements[i]? = if i < v.size then some (v.mem (v._start + i)) else none := by
  unfold elements
  by_cases h : i < v.size
  · simp [h, List.getElem?_range h]
  · simp [h]
    omega

end vector

namespace vector

variable {T : Type}

theorem erase_shift_spec (finish : Nat) :
    ∀ (d fuel cur : Nat) (mem : Nat → T), cur + 1 + d = finish → d ≤ fuel →
      ∃ m, erase_shift finish fuel cur mem = some m ∧
        (∀ x, cur ≤ x ∧ x + 1 < finish → m x = mem (x + 1)) ∧
        (∀ x, ¬ (cur ≤ x ∧ x + 1 < finish) → m x = mem x) := by
  intro d
  induction d with
  | zero =>
    intro fuel cur mem hd _
    refine ⟨mem, ?_, fun x hx => by omega, fun x _ => rfl⟩
    unfold erase_shift
    have : ¬ cur + 1 ≠ finish := by omega
    rw [if_neg this]
  | succ d ih =>
    intro fuel cur mem hd hfuel
    obtain ⟨fuel1, rfl⟩ : ∃ f, fuel = f + 1 := ⟨fuel - 1, by omega⟩
    obtain ⟨m, e, m1, m2⟩ := ih fuel1 (cur + 1) (assign mem cur (mem (cur + 1)))
      (by omega) (by omega)
    refine ⟨m, ?_, ?_, ?_⟩
    · unfold erase_shift
      have : cur + 1 ≠ finish := by omega
      rw [if_pos this]
      exact e
    · intro x hx
      by_cases hxc : x = cur
      · subst hxc
        rw [m2 x (by omega), assign_same]
      · rw [m1 x (by omega), assign_other _ _ _ _ (by omega)]
    · intro x hx
      rw [m2 x (by omega), assign_other _ _ _ _ (by omega)]

end vector

namespace vector

variable {T : Type}

theorem __uninitialized_copy_end {B S D : Type} (src dst : Nat → Nat) (rs : ObjectRepr B S)
    (rd : ObjectRepr B D) (convert : S → D) :
    ∀ (n first cur : Nat) (mem : Nat → B),
      (__uninitialized_copy src dst rs rd convert n first cur mem).2 = cur + n := by
  intro n
  induction n with
  | zero => intro first cur mem; rfl
  | succ k ih =>
    intro first cur mem
    rw [__uninitialized_copy, ih]
    omega

theorem uninitialized_copy_end {B S D : Type} [type_traits S] (src dst : Nat → Nat)
    (rs : ObjectRepr B S) (rd : ObjectRepr B D) (convert : S → D)
    (first last result : Nat) (mem : Nat → B) :
    (uninitialized_copy src dst rs rd convert first last result mem).2 =
      result + (last - first) := by
  unfold uninitialized_copy
  split
  · rfl
  · exact __uninitialized_copy_end _ _ _ _ _ _ _ _ _

theorem make_room [type_traits T] (alloc : Alloc T) (elem_bytes : Nat) (v : vector T)
    (hord : v._start ≤ v._finish ∧ v._finish ≤ v._end_of_storage)
    (hcap : 2 * v.capacity < 18446744073709551616)
    (hans : v._finish = v._end_of_storage →
      ∃ p, alloc.allocate (allocate_calls v.calls)
        (wrap ((if v.capacity = 0 then 1 else 2 * v.capacity) * elem_bytes)) = some p) :
    ∃ v1, (if v._finish = v._end_of_storage then
        _ensure_capacity alloc elem_bytes (wrap (v.size + 1)) v else Thrown.ok () v) =
          Thrown.ok () v1 ∧
      v1._start ≤ v1._finish ∧ v1._finish + 1 ≤ v1._end_of_storage ∧
      v1._finish - v1._start = v.size ∧
      v1.capacity =
        (if v.size = v.capacity then (if v.capacity = 0 then 1 else 2 * v.capacity)
          else v.capacity) := by
  obtain ⟨h1, h2⟩ := hord
  by_cases hfull : v._finish = v._end_of_storage
  · obtain ⟨p, hp⟩ := hans hfull
    have hsc : v.size = v.capacity := by unfold size capacity; rw [hfull]
    have hs1 : wrap (v.size + 1) = v.size + 1 := wrap_of_lt (by rw [hsc]; omega)
    have hw2 : wrap (v.capacity * 2) = 2 * v.capacity := by
      rw [Nat.mul_comm]
      exact wrap_of_lt hcap
    have hn : wrap (v.size + 1) > v.capacity := by rw [hs1, hsc]; omega
    have hnew : (if (if v.capacity = 0 then 1 else wrap (v.capacity * 2)) < wrap (v.size + 1)
        then wrap (v.size + 1) else (if v.capacity = 0 then 1 else wrap (v.capacity * 2))) =
        (if v.capacity = 0 then 1 else 2 * v.capacity) := by
      rw [hs1, hw2, hsc]
      by_cases h0 : v.capacity = 0
      · simp [h0]
      · simp only [h0, if_false]
        rw [if_neg (by omega)]
    have hgt : ¬ (if v.capacity = 0 then 1 else 2 * v.capacity) ≤ v.capacity := by
      by_cases h0 : v.capacity = 0
      · simp [h0]
      · simp only [h0, if_false]
        omega
    rw [if_pos hfull, if_pos hsc]
    unfold _ensure_capacity
    rw [if_pos hn]
    simp only [hnew]
    unfold _reallocate
    rw [if_neg hgt]
    unfold allocate
    simp only [hp]
    have hle : v.size + 1 ≤ (if v.capacity = 0 then 1 else 2 * v.capacity) := by
      rw [hsc]
      by_cases h0 : v.capacity = 0
      · simp [h0]
      · simp only [h0, if_false]
        omega
    unfold size at hle
    refine ⟨_, rfl, ?_, ?_, ?_, ?_⟩
    · simp only [uninitialized_copy_end]
      omega
    · simp only [uninitialized_copy_end]
      omega
    · simp only [uninitialized_copy_end, size]
      omega
    · simp only [capacity]
      omega
  · have hne : v.size ≠ v.capacity := by
      unfold size capacity
      omega
    rw [if_neg hfull, if_neg hne]
    refine ⟨v, rfl, h1, by omega, rfl, rfl⟩

theorem push_back_capacity [type_traits T] (alloc : Alloc T) (elem_bytes : Nat) (x : Ref T)
    (v : vector T) (hord : v._start ≤ v._finish ∧ v._finish ≤ v._end_of_storage)
    (hcap : 2 * v.capacity < 18446744073709551616)
    (hans : v._finish = v._end_of_storage →
      ∃ p, alloc.allocate (allocate_calls v.calls)
        (wrap ((if v.capacity = 0 then 1 else 2 * v.capacity) * elem_bytes)) = some p) :
    ∃ v1, push_back alloc elem_bytes x v = Thrown.ok () v1 ∧ v1.size = v.size + 1 ∧
      v1.capacity =
        (if v.size = v.capacity then (if v.capacity = 0 then 1 else 2 * v.capacity)
          else v.capacity) ∧
      v1._start ≤ v1._finish ∧ v1._finish ≤ v1._end_of_storage := by
  obtain ⟨v1, e, k1, k2, k3, k4⟩ := make_room alloc elem_bytes v hord hcap hans
  unfold push_back
  rw [e]
  refine ⟨_, rfl, ?_, ?_, ?_, ?_⟩
  · simp only [size] at k3 ⊢
    omega
  · simp only [capacity] at k4 ⊢
    exact k4
  · simp only
    omega
  · simp only
    omega

theorem insert_capacity [type_traits T] (alloc : Alloc T) (elem_bytes pos : Nat) (x : Ref T)
    (v : vector T) (hord : v._start ≤ v._finish ∧ v._finish ≤ v._end_of_storage)
    (hcap : 2 * v.capacity < 18446744073709551616)
    (hans : v._finish = v._end_of_storage →
      ∃ p, alloc.allocate (allocate_calls v.calls)
        (wrap ((if v.capacity = 0 then 1 else 2 * v.capacity) * elem_bytes)) = some p) :
    ∃ q v1, insert alloc elem_bytes pos x v = Thrown.ok q v1 ∧ v1.size = v.size + 1 ∧
      v1.capacity =
        (if v.size = v.capacity then (if v.capacity = 0 then 1 else 2 * v.capacity)
          else v.capacity) ∧
      v1._start ≤ v1._finish ∧ v1._finish ≤ v1._end_of_storage := by
  obtain ⟨v1, e, k1, k2, k3, k4⟩ := make_room alloc elem_bytes v hord hcap hans
  unfold insert
  simp only [e]
  refine ⟨_, _, rfl, ?_, ?_, ?_, ?_⟩
  · simp only [size] at k3 ⊢
    omega
  · simp only [capacity] at k4 ⊢
    exact k4
  · simp only
    omega
  · simp only
    omega

theorem single_insertion_capacity [type_traits T] (alloc : Alloc T) (elem_bytes : Nat)
    (at_index : Option Nat) (x : Ref T) (v : vector T)
    (hord : v._start ≤ v._finish ∧ v._finish ≤ v._end_of_storage)
    (hcap : 2 * v.capacity < 18446744073709551616)
    (hans : ∀ i b, alloc.allocate i b ≠ none) :
    ∃ v1, single_insertion alloc elem_bytes at_index x v = Thrown.ok () v1 ∧
      v1.size = v.size + 1 ∧
      v1.capacity =
        (if v.size = v.capacity then (if v.capacity = 0 then 1 else 2 * v.capacity)
          else v.capacity) ∧
      v1._start ≤ v1._finish ∧ v1._finish ≤ v1._end_of_storage := by
  have hans1 : v._finish = v._end_of_storage →
      ∃ p, alloc.allocate (allocate_calls v.calls)
        (wrap ((if v.capacity = 0 then 1 else 2 * v.capacity) * elem_bytes)) = some p := by
    intro _
    exact Option.ne_none_iff_exists'.1 (hans _ _)
  cases at_index with
  | none => exact push_back_capacity alloc elem_bytes x v hord hcap hans1
  | some k =>
    obtain ⟨q, v1, e, k1⟩ := insert_capacity alloc elem_bytes (v.begin + k) x v hord hcap hans1
    refine ⟨v1, ?_, k1⟩
    simp only [single_insertion, e]

end vector

theorem slot_repr_own_cells (T : Type) : (slot_repr T).own_cells := by
  intro f g h
  exact h 0 Nat.one_pos

theorem slot_repr_faithful (T : Type) : (slot_repr T).faithful := by
  intro x f h
  exact h 0 Nat.one_pos

theorem contiguous_id : contiguous id 1 := by
  intro it n
  simp

/-- C1: for every request size `n` in 1..128, `FREELIST_INDEX n` is
`ceil(n/8) - 1`, lies below 16, and is `i` exactly for the sizes
`8i+1 .. 8i+8`. -/
theorem C1_freelist_index_exact (n : Nat) (h1 : 1 ≤ n) (h2 : n ≤ 128) :
    FREELIST_INDEX n = ⌈(n : ℚ) / 8⌉₊ - 1 ∧ FREELIST_INDEX n < 16 ∧
      ∀ i, i < 16 → (FREELIST_INDEX n = i ↔ 8 * i + 1 ≤ n ∧ n ≤ 8 * i + 8) := by
  have e := FREELIST_INDEX_eq h1 (show n + 7 < 18446744073709551616 by omega)
  rw [ceil_div_eight, e]
  refine ⟨rfl, by omega, ?_⟩
  intro i _
  omega

/-- C1 at the request size 13: class 1, the class of the sizes 9..16. -/
theorem C1_freelist_index_exact_witness :
    FREELIST_INDEX 13 = ⌈((13 : ℕ) : ℚ) / 8⌉₊ - 1 ∧ FREELIST_INDEX 13 < 16 ∧
      ∀ i, i < 16 → (FREELIST_INDEX 13 = i ↔ 8 * i + 1 ≤ 13 ∧ 13 ≤ 8 * i + 8) :=
  C1_freelist_index_exact 13 (by decide) (by decide)

/-- C3: zero-size requests are no-ops.  In every state `allocate(0)` returns
the null pointer and `deallocate(p, 0)` returns, for every `p`; both leave the
whole state as it was: the 16 free lists, the pool bounds, `heap_size`, and the
call record, so that no call to the system allocator is made. -/
theorem C3_zero_size_noop (sys : Sys) (fuel p : Nat) (s : AllocState) :
    allocate sys fuel 0 s = Outcome.ret 0 s ∧ deallocate p 0 s = s := by
  constructor <;> rfl

/-- C4: for `n > 128`, `allocate(n)` is the first tier's `allocate`: its first
step asks the system allocator for exactly `n` bytes, and when that request is
answered with a non-null pointer this pointer is returned with no further call;
`deallocate(p, n)` passes `p` to `free`.  In every state in which either call
ends, the free lists, the pool bounds and `heap_size` are as before. -/
theorem C4_large_block_path (sys : Sys) (fuel n p : Nat) (s : AllocState) (hn : n > 128) :
    allocate sys fuel n s = __malloc_alloc_template.allocate sys fuel n s ∧
    (∀ s1, (allocate sys fuel n s).final = some s1 →
      same_bank s s1 ∧
        ∃ rest, s1.trace = s.trace ++ Event.malloc n (sys (sys_calls s.trace) n) :: rest) ∧
    (sys (sys_calls s.trace) n ≠ 0 →
      allocate sys fuel n s = Outcome.ret (sys (sys_calls s.trace) n)
        { s with trace := s.trace ++ [Event.malloc n (sys (sys_calls s.trace) n)] }) ∧
    deallocate p n s = { s with trace := s.trace ++ [Event.free p] } := by
  have hroute : allocate sys fuel n s = __malloc_alloc_template.allocate sys fuel n s := by
    unfold allocate __MAX_BYTES
    have h0 : n ≠ 0 := by omega
    simp [h0, hn]
  refine ⟨hroute, ?_, ?_, ?_⟩
  · intro s1 h
    rw [hroute] at h
    unfold __malloc_alloc_template.allocate at h
    by_cases hr : (malloc sys n s).1 = 0
    · simp only [hr, if_true] at h
      obtain ⟨hb, _, _, rest, ht⟩ := oom_malloc_frame sys n fuel _ _ h
      refine ⟨same_bank_trans ⟨rfl, rfl, rfl, rfl⟩ hb, rest, ?_⟩
      rw [ht]
      simp [malloc]
    · simp only [hr, if_false, Outcome.final, Option.some.injEq] at h
      subst h
      exact ⟨⟨rfl, rfl, rfl, rfl⟩, [], by simp [malloc]⟩
  · intro hr
    rw [hroute]
    unfold __malloc_alloc_template.allocate
    have : (malloc sys n s).1 ≠ 0 := hr
    simp only [this, if_false]
    rfl
  · unfold deallocate __MAX_BYTES
    have h0 : n ≠ 0 := by omega
    simp [h0, hn, __malloc_alloc_template.deallocate, free]

/-- C5: for `n > 128`, with a handler registered and a system allocator whose
next `k` answers are failures and whose answer after them is `p`, non-null,
`allocate(n)` returns `p`, having called the handler exactly `k` times and the
system allocator exactly `k + 1` times (any fuel of at least `k` is enough). -/
theorem C5_large_oom_retry (sys : Sys) (fuel n k p : Nat) (s : AllocState)
    (hn : n > 128) (hh : s.oom_handler ≠ 0) (hfuel : k ≤ fuel)
    (hfail : ∀ i, i < k → sys (sys_calls s.trace + i) n = 0)
    (hok : sys (sys_calls s.trace + k) n = p) (hp : p ≠ 0) :
    ∃ s1, allocate sys fuel n s = Outcome.ret p s1 ∧
      handler_calls s1.trace = handler_calls s.trace + k ∧
      sys_calls s1.trace = sys_calls s.trace + (k + 1) ∧ same_bank s s1 := by
  have hroute : allocate sys fuel n s = __malloc_alloc_template.allocate sys fuel n s := by
    unfold allocate __MAX_BYTES
    have h0 : n ≠ 0 := by omega
    simp [h0, hn]
  rw [hroute]
  obtain ⟨s1, e, c1, c2, hb, _⟩ := first_tier_allocate_retries sys fuel n k p s hh hfuel hfail hok hp
  exact ⟨s1, e, c1, c2, hb⟩

/-- C6: for `n > 128` with no handler registered, when the system allocator's
answer to the first request is a failure, `allocate(n)` throws `bad_alloc`
at once: the one failed request is the only new entry of the call record and
nothing else of the state changes. -/
theorem C6_large_oom_no_handler (sys : Sys) (fuel n : Nat) (s : AllocState)
    (hn : n > 128) (hh : s.oom_handler = 0) (hfail : sys (sys_calls s.trace) n = 0) :
    allocate sys fuel n s = Outcome.bad_alloc { s with trace := s.trace ++ [Event.malloc n 0] } := by
  unfold allocate __MAX_BYTES
  have h0 : n ≠ 0 := by omega
  simp only [h0, if_false, hn, if_true]
  unfold __malloc_alloc_template.allocate
  have hr : (malloc sys n s).1 = 0 := hfail
  simp only [hr, if_true]
  unfold __malloc_alloc_template.oom_malloc
  have hh2 : (malloc sys n s).2.oom_handler = 0 := hh
  simp only [hh2, if_true]
  simp [malloc, hfail]

/-- C8: `set_malloc_oom_handler(f)` returns the handler that was in the slot,
which is null in the initial state, and leaves `f` in the slot; so setting
`h1` and then `h2` returns `h1`, and setting the returned value again gives
back the state before the first call. -/
theorem C8_set_handler_swap (f h1 h2 : Nat) (s : AllocState) (link0 : Nat → Nat) :
    (__malloc_alloc_template.set_malloc_oom_handler f s).1 = s.oom_handler ∧
    (__malloc_alloc_template.set_malloc_oom_handler f s).2.oom_handler = f ∧
    (__malloc_alloc_template.set_malloc_oom_handler f (initial link0)).1 = 0 ∧
    (__malloc_alloc_template.set_malloc_oom_handler h2
      (__malloc_alloc_template.set_malloc_oom_handler h1 s).2).1 = h1 ∧
    (__malloc_alloc_template.set_malloc_oom_handler
      (__malloc_alloc_template.set_malloc_oom_handler f s).1
      (__malloc_alloc_template.set_malloc_oom_handler f s).2).2 = s :=
  ⟨rfl, rfl, rfl, rfl, rfl⟩

/-- C2: for `n`, `m`, `n2` in 1..128 of one size class and every state in which
`allocate(n)` returns `p`, the state being reachable or `p` being non-null
(in a reachable state `p` is never null): after `deallocate(p, m)` the next
`allocate(n2)` returns `p` again, with no call to the system allocator, and
the free-list heads, pool bounds and `heap_size` are as they were after the
first `allocate`. -/
theorem C2_lifo_reuse (sys : Sys) (fuel fuel2 n m n2 p : Nat) (s s1 : AllocState)
    (hn : 1 ≤ n ∧ n ≤ 128) (hm : 1 ≤ m ∧ m ≤ 128) (hn2 : 1 ≤ n2 ∧ n2 ≤ 128)
    (hcm : FREELIST_INDEX m = FREELIST_INDEX n) (hcn : FREELIST_INDEX n2 = FREELIST_INDEX n)
    (halloc : allocate sys fuel n s = Outcome.ret p s1) (hstate : Reachable sys s ∨ p ≠ 0) :
    ∃ s2, allocate sys fuel2 n2 (deallocate p m s1) = Outcome.ret p s2 ∧
      s2.trace = s1.trace ∧ same_bank s1 s2 := by
  have hp : p ≠ 0 := by
    rcases hstate with hr | hp
    · exact allocate_small_ret_ne_zero sys fuel n p s s1 (reachable_pool_ok sys s hr)
        hn.1 hn.2 halloc
    · exact hp
  have e : FREELIST_INDEX n2 = FREELIST_INDEX m := by rw [hcm, hcn]
  rw [deallocate_small_eq p m s1 hm.1 hm.2, allocate_small_eq sys fuel2 n2 _ hn2.1 hn2.2, e]
  have hhead : store s1.free_list (FREELIST_INDEX m) p (FREELIST_INDEX m) ≠ 0 := by
    rw [store_same]; exact hp
  refine ⟨{ s1 with
      link := store s1.link p (s1.free_list (FREELIST_INDEX m))
      free_list := s1.free_list }, ?_, rfl, rfl, rfl, rfl, rfl⟩
  rw [if_neg hhead]
  congr 1
  · exact store_same _ _ _
  · congr 1
    show store (store s1.free_list (FREELIST_INDEX m) p) (FREELIST_INDEX m)
      (store s1.link p (s1.free_list (FREELIST_INDEX m))
        (store s1.free_list (FREELIST_INDEX m) p (FREELIST_INDEX m))) = s1.free_list
    rw [store_same, store_same, store_store_old]

set_option smartUnfolding false in
/-- C2 on the test of main.cpp: from the initial state `allocate(3)` returns
4096, and after `deallocate(4096, 8)` the call `allocate(8)` returns 4096. -/
theorem C2_lifo_reuse_witness :
    ∃ s2, allocate (fails_then 0 4096) 0 8
        (deallocate 4096 8 ((allocate (fails_then 0 4096) 1 3 state0).finalD state0)) =
          Outcome.ret 4096 s2 ∧
      s2.trace = ((allocate (fails_then 0 4096) 1 3 state0).finalD state0).trace ∧
      same_bank ((allocate (fails_then 0 4096) 1 3 state0).finalD state0) s2 :=
  C2_lifo_reuse (fails_then 0 4096) 1 0 3 8 8 4096 state0
    ((allocate (fails_then 0 4096) 1 3 state0).finalD state0)
    (by decide) (by decide) (by decide) (by decide) (by decide) (by rfl)
    (Or.inl (Reachable.start _))

/-- C4 at `allocate(150)` and `deallocate(4096, 150)` in the initial state. -/
theorem C4_large_block_path_witness :
    150 > 128 ∧
    allocate (fails_then 0 4096) 0 150 state0 =
      Outcome.ret (fails_then 0 4096 (sys_calls state0.trace) 150)
        { state0 with trace := state0.trace ++
            [Event.malloc 150 (fails_then 0 4096 (sys_calls state0.trace) 150)] } ∧
    deallocate 4096 150 state0 = { state0 with trace := state0.trace ++ [Event.free 4096] } :=
  ⟨by decide,
    (C4_large_block_path (fails_then 0 4096) 0 150 4096 state0 (by decide)).2.2.1 (by decide),
    (C4_large_block_path (fails_then 0 4096) 0 150 4096 state0 (by decide)).2.2.2⟩

/-- C5 at `allocate(200)` with handler 7 registered and a system allocator
that fails twice and then answers 4096. -/
theorem C5_large_oom_retry_witness :
    ∃ s1, allocate (fails_then 2 4096) 2 200 state0_handler = Outcome.ret 4096 s1 ∧
      handler_calls s1.trace = handler_calls state0_handler.trace + 2 ∧
      sys_calls s1.trace = sys_calls state0_handler.trace + (2 + 1) ∧
      same_bank state0_handler s1 :=
  C5_large_oom_retry (fails_then 2 4096) 2 200 2 4096 state0_handler
    (by decide) (by decide) (by decide) (by decide) (by decide) (by decide)

/-- C6 at `allocate(200)` in the initial state with a system allocator whose
first answer is a failure. -/
theorem C6_large_oom_no_handler_witness :
    allocate (fails_then 1 4096) 0 200 state0 =
      Outcome.bad_alloc { state0 with trace := state0.trace ++ [Event.malloc 200 0] } :=
  C6_large_oom_no_handler (fails_then 1 4096) 0 200 state0 (by decide) (by decide) (by decide)

set_option smartUnfolding false in
/-- C7, the claim as stated fails: from the initial state with handler 7
registered and a system allocator that fails its first call (`k = 1`) and then
answers 4096, `allocate(8)` has to grow the pool and returns 4096 after two
requests to the system allocator, and the handler has not been called. -/
theorem C7_counterexample :
    state0_handler.oom_handler ≠ 0 ∧
    state0_handler.free_list (FREELIST_INDEX 8) = 0 ∧
    ptr_diff state0_handler.end_free state0_handler.start_free < ROUND_UP 8 ∧
    fails_then 1 4096 0 (growth_target (ROUND_UP 8) 20 state0_handler) = 0 ∧
    fails_then 1 4096 1 (growth_target (ROUND_UP 8) 20 state0_handler) = 4096 ∧
    (allocate (fails_then 1 4096) 1 8 state0_handler).value = some 4096 ∧
    ((allocate (fails_then 1 4096) 1 8 state0_handler).finalD state0).trace =
      [Event.malloc 320 0, Event.malloc 320 4096] ∧
    handler_calls ((allocate (fails_then 1 4096) 1 8 state0_handler).finalD state0).trace = 0 := by
  decide

/-- C7, amended: for a small request `1 <= n <= 128` that has to grow the pool
in a reachable state (free list of `class(n)` empty, fewer than `ROUND_UP(n)`
bytes in the pool, every free list of block size `>= ROUND_UP(n)` empty), with
a handler registered and a system allocator whose next `k >= 1` answers are
failures and whose answer after them is `p`, non-null: `allocate(n)` returns
`p` after exactly `k + 1` requests to the system allocator and exactly `k - 1`
calls of the handler, since the first failed request is the pool's own
`malloc`, which is not followed by a handler call. -/
theorem C7_small_oom_retry (sys : Sys) (fuel n k p : Nat) (s : AllocState)
    (hr : Reachable sys s) (hn : 1 ≤ n ∧ n ≤ 128)
    (hempty : s.free_list (FREELIST_INDEX n) = 0)
    (hpool : ptr_diff s.end_free s.start_free < ROUND_UP n)
    (hlists : ∀ j, ROUND_UP n ≤ j → j ≤ 128 → s.free_list (FREELIST_INDEX j) = 0)
    (hk : 1 ≤ k) (hh : s.oom_handler ≠ 0) (hfuel : k ≤ fuel)
    (hfail : ∀ i, i < k → sys (sys_calls s.trace + i) (growth_target (ROUND_UP n) 20 s) = 0)
    (hok : sys (sys_calls s.trace + k) (growth_target (ROUND_UP n) 20 s) = p) (hp : p ≠ 0) :
    ∃ s1, allocate sys fuel n s = Outcome.ret p s1 ∧
      handler_calls s1.trace = handler_calls s.trace + (k - 1) ∧
      sys_calls s1.trace = sys_calls s.trace + (k + 1) := by
  obtain ⟨k1, rfl⟩ : ∃ k1, k = k1 + 1 := ⟨k - 1, by omega⟩
  obtain ⟨r1, _, r3, r4, _, _⟩ := ROUND_UP_small hn.1 hn.2
  obtain ⟨c1, c2⟩ := small_growth_path n s hn.1 hn.2 hpool
  obtain ⟨sc, e, t1, t2, _⟩ := chunk_alloc_delegate sys fuel (ROUND_UP n) 20 k1 p s
    (reachable_pool_ok sys s hr) r1 r3 (le_refl _) c1 c2 hlists hh hfuel hfail hok hp
  obtain ⟨l, e2, _⟩ := refill_batch sys fuel (ROUND_UP n) p 20 s sc (by omega) (by omega) e
  refine ⟨{ sc with
      free_list := store sc.free_list (FREELIST_INDEX (ROUND_UP n)) (p + ROUND_UP n)
      link := l }, ?_, ?_, ?_⟩
  · rw [allocate_small_eq sys fuel n s hn.1 hn.2, if_pos hempty]
    exact e2
  · simp only [t1]; omega
  · simp only [t2]

/-- C7 as amended, at `allocate(8)` in the initial state with handler 7
registered and a system allocator that fails twice and then answers 4096: one
handler call and three requests. -/
theorem C7_small_oom_retry_witness :
    ∃ s1, allocate (fails_then 2 4096) 2 8 state0_handler = Outcome.ret 4096 s1 ∧
      handler_calls s1.trace = handler_calls state0_handler.trace + (2 - 1) ∧
      sys_calls s1.trace = sys_calls state0_handler.trace + (2 + 1) :=
  C7_small_oom_retry (fails_then 2 4096) 2 8 2 4096 state0_handler
    (Reachable.set_malloc_oom_handler 7 state0 (Reachable.start _))
    (by decide) (by decide) (by decide) (fun _ _ _ => rfl) (by decide) (by decide) (by decide)
    (by decide) (by decide) (by decide)

/-- C9: for a class size `sz` (a multiple of 8 in 8..128) whose free list is
empty.  (1) When `chunk_alloc` supplies `c >= 2` blocks at `b`, `refill`
returns `b` and leaves the free list of `sz` as exactly
`b + sz, b + 2 sz, ..., b + (c - 1) sz`, in this order, the link of the last
block being null.  (2) When the pool holds at least `20 * sz` bytes, 20
consecutive calls `allocate(sz)` return `start, start + sz, ..., start + 19 sz`
with no request to the system allocator.  (3) When the pool is empty and the
system allocator answers the growth request with `b`, non-null, they return
`b, b + sz, ..., b + 19 sz` with exactly one request. -/
theorem C9_refill_batch (sys : Sys) (fuel sz : Nat) (s : AllocState)
    (hsz : sz % 8 = 0 ∧ 8 ≤ sz ∧ sz ≤ 128) (hempty : s.free_list (FREELIST_INDEX sz) = 0) :
    (∀ b c sc, chunk_alloc sys fuel sz 20 s = Outcome.ret (b, c) sc → 2 ≤ c →
      ∃ s1, refill sys fuel sz s = Outcome.ret b s1 ∧
        (∀ m, c ≤ m → free_list_blocks s1.link m (s1.free_list (FREELIST_INDEX sz)) =
          (List.range (c - 1)).map (fun j => b + (j + 1) * sz)) ∧
        s1.link (b + (c - 1) * sz) = 0) ∧
    (20 * sz ≤ ptr_diff s.end_free s.start_free →
      ∃ s1, allocate_each sys fuel sz 20 s =
          Outcome.ret ((List.range 20).map (fun j => s.start_free + j * sz)) s1 ∧
        sys_calls s1.trace = sys_calls s.trace) ∧
    (∀ b, ptr_diff s.end_free s.start_free = 0 → s.heap_size < 18446744073709551616 →
      sys (sys_calls s.trace) (growth_target sz 20 s) = b → b ≠ 0 → 1 ≤ fuel →
      ∃ s1, allocate_each sys fuel sz 20 s =
          Outcome.ret ((List.range 20).map (fun j => b + j * sz)) s1 ∧
        sys_calls s1.trace = sys_calls s.trace + 1) := by
  obtain ⟨h8, hlo, hhi⟩ := hsz
  have hbytes := (batch_bytes sz 20 hhi (le_refl _)).1
  refine ⟨?_, ?_, ?_⟩
  · intro b c sc h hc
    obtain ⟨l, e, hw, _⟩ := refill_batch sys fuel sz b c s sc (by omega) hc h
    have hlast : l (b + sz + (c - 2) * sz) = 0 := by
      have hlb : ∃ l2, link_blocks c c sz 1 (b + sz) sc.link = some l2 ∧
          refill sys fuel sz s = Outcome.ret b
            { sc with free_list := store sc.free_list (FREELIST_INDEX sz) (b + sz), link := l2 } := by
        obtain ⟨l2, e2, _⟩ := link_blocks_spec c sz (by omega) (c - 2) c 1 (b + sz) sc.link
          (by omega) (by omega) (by omega)
        refine ⟨l2, e2, ?_⟩
        unfold refill
        rw [h]
        have hc1 : ¬ c = 1 := by omega
        simp only [hc1, if_false, e2]
      obtain ⟨l2, e2, e3⟩ := hlb
      rw [e] at e3
      simp only [Outcome.ret.injEq, true_and] at e3
      have hl : l = l2 := congrArg AllocState.link e3
      rw [hl]
      exact link_blocks_last c sz (c - 2) c 1 (b + sz) sc.link l2 (by omega) e2
    refine ⟨_, e, ?_, ?_⟩
    · intro m hm
      simp only [store_same]
      rw [hw m hm, block_run_eq_map]
      apply List.map_congr_left
      intro j _
      ring
    · simp only
      rw [← hlast]
      congr 1
      obtain ⟨c2, rfl⟩ : ∃ c2, c = c2 + 2 := ⟨c - 2, by omega⟩
      simp only [Nat.add_sub_cancel]
      have : c2 + 2 - 1 = c2 + 1 := by omega
      rw [this]
      ring
  · intro hpool
    have hsuff := chunk_alloc_sufficient sys fuel sz 20 s (by rw [hbytes]; omega)
    obtain ⟨s1, e, t⟩ := allocate_each_batch sys fuel sz s.start_free s _ h8 hlo hhi hempty hsuff
    refine ⟨s1, ?_, ?_⟩
    · rw [e, block_run_eq_map]
    · rw [t]
  · intro b hpool hheap hb hb0 hfuel
    obtain ⟨fuel1, rfl⟩ : ∃ f, fuel = f + 1 := ⟨fuel - 1, by omega⟩
    have hgrow := chunk_alloc_grow sys fuel1 sz 20 s hhi (le_refl _) hheap
      (by rw [hbytes, hpool]; omega) (by rw [hpool]; omega) (by rw [hb]; exact hb0)
    rw [hb] at hgrow
    obtain ⟨s1, e, t⟩ := allocate_each_batch sys (fuel1 + 1) sz b s _ h8 hlo hhi hempty hgrow
    refine ⟨s1, ?_, ?_⟩
    · rw [e, block_run_eq_map]
    · rw [t]
      simp only [install_pool, (after_malloc_frame sys sz 20 s).2.2.2.2.2]
      exact sys_calls_malloc _ _ _

set_option smartUnfolding false in
/-- C9 on the test of main.cpp: in the initial state, with a system allocator
that answers 4096, `refill(8)` threads 19 blocks and 20 calls `allocate(8)`
return `4096, 4104, ..., 4248` with one request; and in the state after
`allocate(16)`, whose pool holds 320 bytes, 20 calls `allocate(8)` are served
from the pool with no request. -/
theorem C9_refill_batch_witness :
    (∃ s1, refill (fails_then 0 4096) 1 8 state0 = Outcome.ret 4096 s1 ∧
      (∀ m, 20 ≤ m → free_list_blocks s1.link m (s1.free_list (FREELIST_INDEX 8)) =
        (List.range (20 - 1)).map (fun j => 4096 + (j + 1) * 8)) ∧
      s1.link (4096 + (20 - 1) * 8) = 0) ∧
    (∃ s1, allocate_each (fails_then 0 4096) 1 8 20 state0 =
        Outcome.ret ((List.range 20).map (fun j => 4096 + j * 8)) s1 ∧
      sys_calls s1.trace = sys_calls state0.trace + 1) ∧
    (∃ s1, allocate_each (fails_then 0 4096) 0 8 20
          ((allocate (fails_then 0 4096) 1 16 state0).finalD state0) =
        Outcome.ret ((List.range 20).map (fun j =>
          ((allocate (fails_then 0 4096) 1 16 state0).finalD state0).start_free + j * 8)) s1 ∧
      sys_calls s1.trace =
        sys_calls ((allocate (fails_then 0 4096) 1 16 state0).finalD state0).trace) :=
  ⟨(C9_refill_batch (fails_then 0 4096) 1 8 state0 (by decide) (by decide)).1 4096 20
      ((chunk_alloc (fails_then 0 4096) 1 8 20 state0).finalD state0) (by rfl) (by decide),
    (C9_refill_batch (fails_then 0 4096) 1 8 state0 (by decide) (by decide)).2.2 4096
      (by decide) (by decide) (by decide) (by decide) (by decide),
    (C9_refill_batch (fails_then 0 4096) 0 8
      ((allocate (fails_then 0 4096) 1 16 state0).finalD state0) (by decide) (by decide)).2.1
      (by decide)⟩

/-- C10: in every reachable state in which the pool holds `r` bytes with
`0 < r < ROUND_UP(n)`, for a small request `n` whose free list is empty.
(1) `r` is the block size of its own class.  (2) `chunk_alloc`, called by
`refill` for this request, puts the remainder at the pool start on the head of
the free list of that class, linked to the former head.  (3) In every state in
which `allocate(n)` ends, the old pool start is the head of that list, and a
following `allocate(r)` returns it with no call to the system allocator.
(4) `allocate(n)` does return when the system allocator answers the growth
request (fuel 1 is enough). -/
theorem C10_remainder_reclaimed (sys : Sys) (fuel fuel2 n : Nat) (s : AllocState)
    (hr : Reachable sys s) (hn : 1 ≤ n ∧ n ≤ 128)
    (hempty : s.free_list (FREELIST_INDEX n) = 0)
    (hpos : 0 < ptr_diff s.end_free s.start_free)
    (hlt : ptr_diff s.end_free s.start_free < ROUND_UP n) :
    (FREELIST_INDEX (ptr_diff s.end_free s.start_free) + 1) * 8 =
      ptr_diff s.end_free s.start_free ∧
    (∀ sc, (chunk_alloc sys fuel (ROUND_UP n) 20 s).final = some sc →
      sc.free_list (FREELIST_INDEX (ptr_diff s.end_free s.start_free)) = s.start_free ∧
      sc.link s.start_free =
        s.free_list (FREELIST_INDEX (ptr_diff s.end_free s.start_free))) ∧
    (∀ s1, (allocate sys fuel n s).final = some s1 →
      s1.free_list (FREELIST_INDEX (ptr_diff s.end_free s.start_free)) = s.start_free ∧
      ∃ s2, allocate sys fuel2 (ptr_diff s.end_free s.start_free) s1 =
          Outcome.ret s.start_free s2 ∧ s2.trace = s1.trace) ∧
    (1 ≤ fuel → sys (sys_calls s.trace) (growth_target (ROUND_UP n) 20 s) ≠ 0 →
      ∃ p s1, allocate sys fuel n s = Outcome.ret p s1) := by
  have hs := reachable_pool_ok sys s hr
  have hbl := pool_ok_bytes_left hs
  obtain ⟨r1, _, r3, r4, _, r6⟩ := ROUND_UP_small hn.1 hn.2
  obtain ⟨c1, c2⟩ := small_growth_path n s hn.1 hn.2 hlt
  have hr8 : ptr_diff s.end_free s.start_free % 8 = 0 := by rw [hbl]; exact hs.2.1
  have hstart : s.start_free ≠ 0 := by
    intro h0
    have := hs.2.2.2.2.2 h0
    rw [hbl, h0, this] at hpos
    omega
  have hkept : ∀ sc, (chunk_alloc sys fuel (ROUND_UP n) 20 s).final = some sc →
      sc.free_list (FREELIST_INDEX (ptr_diff s.end_free s.start_free)) = s.start_free ∧
      sc.link s.start_free =
        s.free_list (FREELIST_INDEX (ptr_diff s.end_free s.start_free)) := by
    intro sc h
    obtain ⟨k1, k2⟩ := chunk_alloc_donation_kept sys fuel (ROUND_UP n) 20 s sc hs r1 r3
      (le_refl _) hpos c1 c2 h
    exact ⟨k1, by rw [k2]; exact (donate_remainder_pos s hpos).2⟩
  refine ⟨?_, hkept, ?_, ?_⟩
  · rw [FREELIST_INDEX_eq (by omega) (by omega)]
    omega
  · intro s1 h
    rw [allocate_small_eq sys fuel n s hn.1 hn.2, if_pos hempty] at h
    obtain ⟨sc, hsc, _, hother⟩ := refill_other_lists sys fuel (ROUND_UP n) s s1 h
    have hidx : FREELIST_INDEX (ptr_diff s.end_free s.start_free) ≠
        FREELIST_INDEX (ROUND_UP n) := by
      have := FREELIST_INDEX_lt_of_aligned hr8 hpos hlt r3
      omega
    have hhead : s1.free_list (FREELIST_INDEX (ptr_diff s.end_free s.start_free)) =
        s.start_free := by
      rw [hother _ hidx]; exact (hkept sc hsc).1
    refine ⟨hhead, ?_⟩
    rw [allocate_small_eq sys fuel2 _ s1 (by omega) (by omega), hhead, if_neg hstart]
    exact ⟨_, rfl, rfl⟩
  · intro hfuel hsys
    obtain ⟨fuel1, rfl⟩ : ∃ f, fuel = f + 1 := ⟨fuel - 1, by omega⟩
    have hgrow := chunk_alloc_grow sys fuel1 (ROUND_UP n) 20 s r3 (le_refl _)
      hs.2.2.2.2.1 c1 c2 hsys
    obtain ⟨l, e, _⟩ := refill_batch sys (fuel1 + 1) (ROUND_UP n) _ 20 s _ (by omega)
      (by omega) hgrow
    rw [allocate_small_eq sys (fuel1 + 1) n s hn.1 hn.2, if_pos hempty, e]
    exact ⟨_, _, rfl⟩

set_option smartUnfolding false in
/-- C10 after `allocate(8); allocate(128)` from the initial state, which leaves
32 bytes in the pool at 4384: `allocate(64)` puts them on the free list of
class 3 and returns, and `allocate(32)` then returns 4384. -/
theorem C10_remainder_reclaimed_witness :
    (FREELIST_INDEX 32 + 1) * 8 = 32 ∧
    ((allocate fresh_sys 1 64 state_pool_32).finalD state0).free_list (FREELIST_INDEX 32) = 4384 ∧
    (∃ s2, allocate fresh_sys 0 32 ((allocate fresh_sys 1 64 state_pool_32).finalD state0) =
        Outcome.ret 4384 s2 ∧
      s2.trace = ((allocate fresh_sys 1 64 state_pool_32).finalD state0).trace) ∧
    (∃ p s1, allocate fresh_sys 1 64 state_pool_32 = Outcome.ret p s1) :=
  have hreach : Reachable fresh_sys state_pool_32 :=
    Reachable.allocate 1 128 state_after_8 state_pool_32
      (Reachable.allocate 1 8 state0 state_after_8 (Reachable.start _) (by rfl)) (by rfl)
  have h := C10_remainder_reclaimed fresh_sys 1 0 64 state_pool_32 hreach
    (by decide) (by decide) (by decide) (by decide)
  ⟨h.1, (h.2.2.1 _ (by rfl)).1, (h.2.2.1 _ (by rfl)).2, h.2.2.2 (by decide) (by decide)⟩

/-- C11, what the code does: for `old_n, new_n > 128` the public
`reallocate(p, old_n, new_n)` first hands `p` to `free` and then asks `malloc`
for `new_n` bytes; in every state in which it ends, the calls it has added to
the record start with `free(p)`, `malloc(new_n)` and contain no call of
`std::realloc`, so nothing of the old block is carried over. -/
theorem C11_reallocate_large_frees_first (sys : Sys) (fuel p old_n new_n : Nat)
    (s s1 : AllocState) (ho : old_n > 128) (hn : new_n > 128)
    (h : (reallocate sys fuel p old_n new_n s).final = some s1) :
    ∃ rest, s1.trace =
        s.trace ++ Event.free p ::
          Event.malloc new_n (sys (sys_calls (s.trace ++ [Event.free p])) new_n) :: rest ∧
      ∀ e, e ∈ rest → e.isRealloc = false := by
  unfold reallocate at h
  rw [deallocate_large_eq p old_n s ho, allocate_large_eq sys fuel new_n _ hn] at h
  obtain ⟨rest, ht, hnone⟩ := first_tier_allocate_no_realloc sys fuel new_n _ s1 h
  refine ⟨rest, ?_, hnone⟩
  rw [ht]
  simp

set_option smartUnfolding false in
/-- C11 on the test of main.cpp: `reallocate(p, 200, 300)` for the block
`p = 4096` got from `allocate(200)` returns the new block 8192 after
`free(4096)` and `malloc(300)`. -/
theorem C11_reallocate_large_frees_first_witness :
    (reallocate fresh_sys 0 4096 200 300 state_large_200).value = some 8192 ∧
    ((reallocate fresh_sys 0 4096 200 300 state_large_200).finalD state0).trace =
      [Event.malloc 200 4096, Event.free 4096, Event.malloc 300 8192] ∧
    ∃ rest, ((reallocate fresh_sys 0 4096 200 300 state_large_200).finalD state0).trace =
        state_large_200.trace ++ Event.free 4096 ::
          Event.malloc 300
            (fresh_sys (sys_calls (state_large_200.trace ++ [Event.free 4096])) 300) :: rest ∧
      ∀ e, e ∈ rest → e.isRealloc = false :=
  ⟨by decide, by decide,
    C11_reallocate_large_frees_first fresh_sys 0 4096 200 300 state_large_200 _
      (by decide) (by decide) (by rfl)⟩

/-- C12: `reallocate(p, old_n, new_n)` is `deallocate(p, old_n)` followed by
`allocate(new_n)`, with the same result and the same final state, for every
`p`, `old_n`, `new_n`; and when `old_n` and `new_n` are in 1..128 and of one
size class, for a non-null `p` it returns `p` itself with no call to the
system allocator and leaves the free-list heads, the pool bounds and
`heap_size` as they were before the call. -/
theorem C12_reallocate_refines (sys : Sys) (fuel p old_n new_n : Nat) (s : AllocState) :
    reallocate sys fuel p old_n new_n s = reallocate_as_specified sys fuel p old_n new_n s ∧
    (1 ≤ old_n → old_n ≤ 128 → 1 ≤ new_n → new_n ≤ 128 →
      FREELIST_INDEX new_n = FREELIST_INDEX old_n → p ≠ 0 →
      ∃ s1, reallocate sys fuel p old_n new_n s = Outcome.ret p s1 ∧
        same_bank s s1 ∧ s1.trace = s.trace) := by
  refine ⟨rfl, ?_⟩
  intro ho1 ho2 hn1 hn2 hc hp
  unfold reallocate
  rw [deallocate_small_eq p old_n s ho1 ho2, allocate_small_eq sys fuel new_n _ hn1 hn2, hc]
  have hhead : store s.free_list (FREELIST_INDEX old_n) p (FREELIST_INDEX old_n) ≠ 0 := by
    rw [store_same]; exact hp
  refine ⟨{ s with link := store s.link p (s.free_list (FREELIST_INDEX old_n)) }, ?_,
    ⟨rfl, rfl, rfl, rfl⟩, rfl⟩
  rw [if_neg hhead]
  congr 1
  · exact store_same _ _ _
  · congr 1
    show store (store s.free_list (FREELIST_INDEX old_n) p) (FREELIST_INDEX old_n)
      (store s.link p (s.free_list (FREELIST_INDEX old_n))
        (store s.free_list (FREELIST_INDEX old_n) p (FREELIST_INDEX old_n))) = s.free_list
    rw [store_same, store_same, store_store_old]

/-- C12 at `reallocate(4096, 3, 8)` in the initial state. -/
theorem C12_reallocate_refines_witness :
    ∃ s1, reallocate fresh_sys 0 4096 3 8 state0 = Outcome.ret 4096 s1 ∧
      same_bank state0 s1 ∧ s1.trace = state0.trace :=
  (C12_reallocate_refines fresh_sys 0 4096 3 8 state0).2
    (by decide) (by decide) (by decide) (by decide) (by decide) (by decide)

/-- C13: for `1 <= n <= 128`, in every state in which the free list of
`class(n)` has the non-null head `h`, whose link is `t`: `allocate(n)` returns
`h`, makes `t` the head of that list, adds nothing to the call record, and
leaves every other free list, the link words, the pool bounds and `heap_size`
unchanged. -/
theorem C13_allocate_pops_head (sys : Sys) (fuel n h t : Nat) (s : AllocState)
    (hn : 1 ≤ n ∧ n ≤ 128) (hhead : s.free_list (FREELIST_INDEX n) = h) (hne : h ≠ 0)
    (hlink : s.link h = t) :
    ∃ s1, allocate sys fuel n s = Outcome.ret h s1 ∧
      s1.free_list (FREELIST_INDEX n) = t ∧
      (∀ i, i ≠ FREELIST_INDEX n → s1.free_list i = s.free_list i) ∧
      s1.trace = s.trace ∧ s1.link = s.link ∧ s1.start_free = s.start_free ∧
      s1.end_free = s.end_free ∧ s1.heap_size = s.heap_size := by
  rw [allocate_small_eq sys fuel n s hn.1 hn.2, hhead, if_neg hne, hlink]
  exact ⟨_, rfl, store_same _ _ _, fun i hi => store_other _ _ _ _ hi, rfl, rfl, rfl, rfl, rfl⟩

set_option smartUnfolding false in
/-- C13 in the state after `allocate(8)`, where the free list of class 0 starts
with 4104, linked to 4112. -/
theorem C13_allocate_pops_head_witness :
    ∃ s1, allocate fresh_sys 0 5 state_after_8 = Outcome.ret 4104 s1 ∧
      s1.free_list (FREELIST_INDEX 5) = 4112 ∧
      (∀ i, i ≠ FREELIST_INDEX 5 → s1.free_list i = state_after_8.free_list i) ∧
      s1.trace = state_after_8.trace ∧ s1.link = state_after_8.link ∧
      s1.start_free = state_after_8.start_free ∧
      s1.end_free = state_after_8.end_free ∧ s1.heap_size = state_after_8.heap_size :=
  C13_allocate_pops_head fresh_sys 0 5 4104 4112 state_after_8 (by decide) (by decide)
    (by decide) (by decide)

/-- C14: for `1 <= n <= 128` and every `p`, `deallocate(p, n)` makes `p` the
head of the free list of `class(n)` and the former head of that list the link
of `p`; the other free lists, the pool bounds and `heap_size` are unchanged,
and the call record is unchanged, so that nothing goes back to the system
allocator. -/
theorem C14_deallocate_pushes (p n : Nat) (s : AllocState) (hn : 1 ≤ n ∧ n ≤ 128) :
    (deallocate p n s).free_list (FREELIST_INDEX n) = p ∧
    (deallocate p n s).link p = s.free_list (FREELIST_INDEX n) ∧
    (∀ i, i ≠ FREELIST_INDEX n → (deallocate p n s).free_list i = s.free_list i) ∧
    (∀ a, a ≠ p → (deallocate p n s).link a = s.link a) ∧
    (deallocate p n s).start_free = s.start_free ∧
    (deallocate p n s).end_free = s.end_free ∧
    (deallocate p n s).heap_size = s.heap_size ∧
    (deallocate p n s).trace = s.trace := by
  rw [deallocate_small_eq p n s hn.1 hn.2]
  exact ⟨store_same _ _ _, store_same _ _ _, fun i hi => store_other _ _ _ _ hi,
    fun a ha => store_other _ _ _ _ ha, rfl, rfl, rfl, rfl⟩

/-- C14 at `deallocate(4096, 8)` in the state after `allocate(8)`. -/
theorem C14_deallocate_pushes_witness :
    (deallocate 4096 8 state_after_8).free_list (FREELIST_INDEX 8) = 4096 ∧
    (deallocate 4096 8 state_after_8).link 4096 = state_after_8.free_list (FREELIST_INDEX 8) ∧
    (deallocate 4096 8 state_after_8).trace = state_after_8.trace :=
  have h := C14_deallocate_pushes 4096 8 state_after_8 (by decide)
  ⟨h.1, h.2.1, h.2.2.2.2.2.2.2⟩

/-- C16: for `1 <= n <= 128`, `ROUND_UP(n)` is `(n + 7) & ~7` in 64-bit
arithmetic, a multiple of 8, at least `n` and at most every multiple of 8 that
is at least `n`; it is `(FREELIST_INDEX(n) + 1) * 8`; `ROUND_UP` is idempotent
and `FREELIST_INDEX(ROUND_UP(n)) = FREELIST_INDEX(n)`. -/
theorem C16_round_up (n : Nat) (h1 : 1 ≤ n) (h2 : n ≤ 128) :
    ROUND_UP n = (n + 7) &&& (2 ^ 64 - 8) ∧
    ROUND_UP n % 8 = 0 ∧ n ≤ ROUND_UP n ∧
    (∀ m, m % 8 = 0 → n ≤ m → ROUND_UP n ≤ m) ∧
    ROUND_UP n = (FREELIST_INDEX n + 1) * 8 ∧
    ROUND_UP (ROUND_UP n) = ROUND_UP n ∧
    FREELIST_INDEX (ROUND_UP n) = FREELIST_INDEX n := by
  have e := ROUND_UP_eq (show n + 7 < 18446744073709551616 by omega)
  have i1 := FREELIST_INDEX_eq h1 (show n + 7 < 18446744073709551616 by omega)
  obtain ⟨r1, r2, r3, r4, r5, r6⟩ := ROUND_UP_small h1 h2
  refine ⟨?_, r1, r2, ?_, ?_, ROUND_UP_of_aligned r1 r3, r6⟩
  · rw [e, ← land_mask_eq (n + 7) (by omega)]
    norm_num
  · intro m hm hnm
    omega
  · rw [i1, e]
    omega

/-- C16 at `n = 13`: `ROUND_UP(13) = 16`. -/
theorem C16_round_up_witness :
    ROUND_UP 13 = 16 ∧ ROUND_UP 13 = (FREELIST_INDEX 13 + 1) * 8 ∧
    ROUND_UP (ROUND_UP 13) = ROUND_UP 13 :=
  have h := C16_round_up 13 (by decide) (by decide)
  ⟨by decide, h.2.2.2.2.1, h.2.2.2.2.2.1⟩

/-- C15: with no handler registered, in every reachable state and for every
`1 <= n <= 128` (fuel for one self-call of `chunk_alloc`): `allocate(n)` throws
`bad_alloc` if and only if the free list of `class(n)` is empty, the pool
holds fewer than `ROUND_UP(n)` bytes, every free list of block size
`ROUND_UP(n)..128` is empty, the pool's own growth request fails, and the same
request delegated to the first tier fails too; in every other case it returns
a non-null block. -/
theorem C15_small_oom_iff (sys : Sys) (fuel n : Nat) (s : AllocState)
    (hr : Reachable sys s) (hh : s.oom_handler = 0) (hn : 1 ≤ n ∧ n ≤ 128)
    (hfuel : 1 ≤ fuel) :
    ((∃ s1, allocate sys fuel n s = Outcome.bad_alloc s1) ↔ exhausted sys n s) ∧
    (¬ exhausted sys n s → ∃ p s1, allocate sys fuel n s = Outcome.ret p s1 ∧ p ≠ 0) := by
  have hs := reachable_pool_ok sys s hr
  obtain ⟨r1, _, r3, r4, _, r6⟩ := ROUND_UP_small hn.1 hn.2
  obtain ⟨hbad, hgood⟩ := chunk_alloc_no_handler sys fuel (ROUND_UP n) s hs r1 r4 r3 hh hfuel
  have hthrow : exhausted sys n s → ∃ s1, allocate sys fuel n s = Outcome.bad_alloc s1 := by
    intro hex
    obtain ⟨e1, e2, e3, e4, e5⟩ := hex
    obtain ⟨t, ht⟩ := hbad ⟨by omega, e3, e4, e5⟩
    refine ⟨t, ?_⟩
    rw [allocate_small_eq sys fuel n s hn.1 hn.2, if_pos e1]
    unfold refill
    rw [ht]
  have hret : ¬ exhausted sys n s → ∃ p s1, allocate sys fuel n s = Outcome.ret p s1 ∧ p ≠ 0 := by
    intro hex
    have hsome : ∃ p s1, allocate sys fuel n s = Outcome.ret p s1 := by
      rw [allocate_small_eq sys fuel n s hn.1 hn.2]
      by_cases hp : s.free_list (FREELIST_INDEX n) = 0
      · rw [if_pos hp]
        obtain ⟨b, c, sc, e, hc⟩ := hgood (by
          intro hc
          apply hex
          exact ⟨hp, by omega, hc.2.1, hc.2.2.1, hc.2.2.2⟩)
        obtain ⟨s1, e1⟩ := refill_returns sys fuel (ROUND_UP n) b c s sc (by omega) hc e
        exact ⟨b, s1, e1⟩
      · rw [if_neg hp]
        exact ⟨_, _, rfl⟩
    obtain ⟨p, s1, e⟩ := hsome
    exact ⟨p, s1, e, allocate_small_ret_ne_zero sys fuel n p s s1 hs hn.1 hn.2 e⟩
  refine ⟨⟨?_, hthrow⟩, hret⟩
  rintro ⟨s1, e⟩
  by_contra hex
  obtain ⟨p, s2, e2, _⟩ := hret hex
  rw [e] at e2
  simp at e2

/-- C15 in the initial state: with a system allocator that fails twice,
`allocate(8)` throws; with one that fails once, it returns 4096. -/
theorem C15_small_oom_iff_witness :
    (∃ s1, allocate (fails_then 2 4096) 1 8 state0 = Outcome.bad_alloc s1) ∧
    (∃ p s1, allocate (fails_then 1 4096) 1 8 state0 = Outcome.ret p s1 ∧ p ≠ 0) :=
  ⟨(C15_small_oom_iff (fails_then 2 4096) 1 8 state0 (Reachable.start _) (by decide)
      (by decide) (by decide)).1.mpr
      ⟨by decide, by decide, fun _ _ _ => rfl, by decide, by decide⟩,
    (C15_small_oom_iff (fails_then 1 4096) 1 8 state0 (Reachable.start _) (by decide)
      (by decide) (by decide)).2
      (fun h => absurd h.2.2.2.2 (by decide))⟩

/-- C17: in every state reached by calls of the public functions that respect
the precondition of `deallocate`, the system allocator having handed the pool
regions that do not overlap, the 16 free lists read as lists of blocks such
that every block `a` on free list `i` has its `(i + 1) * 8` bytes inside one
region the pool obtained from the system allocator, and shares no byte with
another block on a free list, with a block held by a caller, or with the
unallocated pool; and a block that `allocate(n)`, `1 <= n <= 128`, returns in
that state has its `ROUND_UP(n)` bytes inside such a region and shares no
byte with a block that a caller already holds. -/
theorem C17_block_spans (sys : Sys) (s : AllocState) (g : Ledger) (hrun : Run sys s g) :
    ∃ lists : Nat → List Nat,
      (∀ i, i < 16 → chain s.link (s.free_list i) (lists i)) ∧
      (∀ i, i < 16 → ∀ a ∈ lists i,
        within a ((i + 1) * 8) g.owned ∧
        (∀ j, j < 16 → ∀ b ∈ lists j, (a, i) ≠ (b, j) →
          apart a ((i + 1) * 8) b ((j + 1) * 8)) ∧
        (∀ x ∈ g.held, apart a ((i + 1) * 8) x.1 ((x.2 + 1) * 8)) ∧
        (s.start_free < s.end_free →
          apart a ((i + 1) * 8) s.start_free (s.end_free - s.start_free))) ∧
      (∀ fuel n p s1, 1 ≤ n → n ≤ 128 → allocate sys fuel n s = Outcome.ret p s1 →
        fresh_growth n s s1 g →
        within p (ROUND_UP n) (obtained s s1 ++ g.owned) ∧
        ∀ x ∈ g.held, apart p (ROUND_UP n) x.1 ((x.2 + 1) * 8)) := by
  have hsep := run_separated sys s g hrun
  obtain ⟨_, lists, hch, _, _, _, _, _, hin, hap⟩ := hsep
  refine ⟨lists, hch, ?_, ?_⟩
  · intro i hi a ha
    have hfree : Layout.present ⟨lists, g.held, s.start_free, s.end_free⟩ (Piece.free a i) :=
      ⟨hi, ha⟩
    refine ⟨hin _ hfree, ?_, ?_, ?_⟩
    · intro j hj b hb hne
      exact hap (Piece.free a i) (Piece.free b j) hfree ⟨hj, hb⟩
        (fun e => hne (by cases e; rfl))
    · intro x hx
      exact hap (Piece.free a i) (Piece.held x.1 x.2) hfree hx (by simp)
    · intro hlt
      exact hap (Piece.free a i) Piece.pool hfree hlt (by simp)
  · intro fuel n p s1 h1 h2 hcall hfresh
    have h := allocate_small_separated sys fuel n p s s1 g h1 h2
      (run_separated sys s g hrun) hcall (hfresh h1 h2)
    obtain ⟨_, lists1, _, _, _, hnd, _, _, hin1, hap1⟩ := h
    obtain ⟨_, hru⟩ := small_class n h1 h2
    have hheld : Layout.present
        ⟨lists1, (p, FREELIST_INDEX n) :: g.held, s1.start_free, s1.end_free⟩
        (Piece.held p (FREELIST_INDEX n)) := List.mem_cons_self _ _
    rw [hru]
    refine ⟨hin1 _ hheld, ?_⟩
    intro x hx
    have hnot := (List.nodup_cons.1 hnd).1
    refine hap1 (Piece.held p (FREELIST_INDEX n)) (Piece.held x.1 x.2) hheld
      (List.mem_cons_of_mem _ hx) (fun e => hnot ?_)
    have hinj := Piece.held.inj e
    have hx2 : x = (p, FREELIST_INDEX n) := Prod.ext hinj.1.symm hinj.2.symm
    rw [← hx2]
    exact hx

set_option smartUnfolding false in
/-- C17 in the state after `allocate(8)` from the initial state, which returned
4096: the pool owns the 320 bytes at 4096, and the 19 blocks of free list 0
and the block that a further `allocate` returns lie inside them. -/
theorem C17_block_spans_witness :
    Run fresh_sys state_after_8 ledger_after_8 ∧
    ∃ lists : Nat → List Nat,
      (∀ i, i < 16 → chain state_after_8.link (state_after_8.free_list i) (lists i)) ∧
      (∀ i, i < 16 → ∀ a ∈ lists i,
        within a ((i + 1) * 8) ledger_after_8.owned ∧
        (∀ j, j < 16 → ∀ b ∈ lists j, (a, i) ≠ (b, j) →
          apart a ((i + 1) * 8) b ((j + 1) * 8)) ∧
        (∀ x ∈ ledger_after_8.held, apart a ((i + 1) * 8) x.1 ((x.2 + 1) * 8)) ∧
        (state_after_8.start_free < state_after_8.end_free →
          apart a ((i + 1) * 8) state_after_8.start_free
            (state_after_8.end_free - state_after_8.start_free))) ∧
      (∀ fuel n p s1, 1 ≤ n → n ≤ 128 →
        allocate fresh_sys fuel n state_after_8 = Outcome.ret p s1 →
        fresh_growth n state_after_8 s1 ledger_after_8 →
        within p (ROUND_UP n) (obtained state_after_8 s1 ++ ledger_after_8.owned) ∧
        ∀ x ∈ ledger_after_8.held, apart p (ROUND_UP n) x.1 ((x.2 + 1) * 8)) :=
  have hrun : Run fresh_sys state_after_8 ledger_after_8 :=
    Run.allocate_returns 1 8 4096 state0 state_after_8 ⟨[], []⟩ (Run.start _) (by rfl)
      (fun _ _ _ _ r1 hr1 => absurd hr1 (List.not_mem_nil r1))
  ⟨hrun, C17_block_spans fresh_sys state_after_8 ledger_after_8 hrun⟩

/-- C23: when `chunk_alloc(s, c)`, `c >= 1`, finds fewer than `s` bytes in the
pool, with `H` the value of `heap_size` before the call and
`G = 2 * s * c + ROUND_UP(floor(H / 16))` a `size_t` value: however the call
ends, its first new call into the environment is `malloc(G)`; and when that
request is answered with a non-null `b`, the call returns `b` with count `c`
after that one request, `heap_size` is `H + G` (reduced modulo `2 ^ 64`, so
`H + G` itself when that is a `size_t` value), and the pool is
`[b + s * c, b + G)`.  From the initial state `allocate(8)` requests 320 bytes
and leaves `heap_size = 320` and the 160 bytes `[b + 160, b + 320)` in the
pool. -/
theorem C23_growth_target (sys : Sys) (fuel s c : Nat) (st : AllocState)
    (hc : 1 ≤ c) (hle : st.start_free ≤ st.end_free)
    (hneed : st.end_free - st.start_free < s)
    (hfit : 2 * (s * c) + ROUND_UP (st.heap_size / 16) < 18446744073709551616) :
    (∀ s1, (chunk_alloc sys fuel s c st).final = some s1 →
      ∃ rest, s1.trace = st.trace ++
        Event.malloc (2 * (s * c) + ROUND_UP (st.heap_size / 16))
          (sys (sys_calls st.trace) (2 * (s * c) + ROUND_UP (st.heap_size / 16))) :: rest) ∧
    (∀ b, sys (sys_calls st.trace) (2 * (s * c) + ROUND_UP (st.heap_size / 16)) = b → b ≠ 0 →
      ∃ s1, chunk_alloc sys (fuel + 1) s c st = Outcome.ret (b, c) s1 ∧
        s1.trace = st.trace ++
          [Event.malloc (2 * (s * c) + ROUND_UP (st.heap_size / 16)) b] ∧
        s1.heap_size =
          wrap (st.heap_size + (2 * (s * c) + ROUND_UP (st.heap_size / 16))) ∧
        (st.heap_size + (2 * (s * c) + ROUND_UP (st.heap_size / 16)) < 18446744073709551616 →
          s1.heap_size = st.heap_size + (2 * (s * c) + ROUND_UP (st.heap_size / 16))) ∧
        s1.start_free = b + s * c ∧
        s1.end_free = b + (2 * (s * c) + ROUND_UP (st.heap_size / 16))) ∧
    (∀ link0, sys 0 320 ≠ 0 →
      ∃ s1, allocate sys 1 8 (initial link0) = Outcome.ret (sys 0 320) s1 ∧
        s1.trace = [Event.malloc 320 (sys 0 320)] ∧ s1.heap_size = 320 ∧
        s1.start_free = sys 0 320 + 160 ∧ s1.end_free = sys 0 320 + 320 ∧
        s1.end_free - s1.start_free = 160) := by
  refine ⟨?_, ?_, ?_⟩
  · intro s1 h
    exact chunk_alloc_request sys fuel s c st s1 hc hle hneed hfit h
  · intro b hb hb0
    obtain ⟨s1, k0, k1, k2, k3, k4⟩ :=
      chunk_alloc_growth_exact sys fuel s c b st hc hle hneed hfit hb hb0
    refine ⟨s1, k0, k1, k2, ?_, k3, k4⟩
    intro hsum
    rw [k2, wrap_of_lt hsum]
  · intro link0 hb0
    obtain ⟨s1, k0, k1, k2, k3, k4⟩ := allocate_8_initial sys link0 hb0
    refine ⟨s1, k0, k1, k2, k3, k4, ?_⟩
    rw [k3, k4]
    omega

set_option smartUnfolding false in
/-- C23 for `chunk_alloc(8, 20)` in the initial state with a system allocator
that answers 4096: the request is for 320 bytes. -/
theorem C23_growth_target_witness :
    (∀ s1, (chunk_alloc fresh_sys 0 8 20 state0).final = some s1 →
      ∃ rest, s1.trace = state0.trace ++
        Event.malloc (2 * (8 * 20) + ROUND_UP (state0.heap_size / 16))
          (fresh_sys (sys_calls state0.trace)
            (2 * (8 * 20) + ROUND_UP (state0.heap_size / 16))) :: rest) ∧
    (∀ b, fresh_sys (sys_calls state0.trace)
        (2 * (8 * 20) + ROUND_UP (state0.heap_size / 16)) = b → b ≠ 0 →
      ∃ s1, chunk_alloc fresh_sys (0 + 1) 8 20 state0 = Outcome.ret (b, 20) s1 ∧
        s1.trace = state0.trace ++
          [Event.malloc (2 * (8 * 20) + ROUND_UP (state0.heap_size / 16)) b] ∧
        s1.heap_size =
          wrap (state0.heap_size + (2 * (8 * 20) + ROUND_UP (state0.heap_size / 16))) ∧
        (state0.heap_size + (2 * (8 * 20) + ROUND_UP (state0.heap_size / 16)) <
            18446744073709551616 →
          s1.heap_size =
            state0.heap_size + (2 * (8 * 20) + ROUND_UP (state0.heap_size / 16))) ∧
        s1.start_free = b + 8 * 20 ∧
        s1.end_free = b + (2 * (8 * 20) + ROUND_UP (state0.heap_size / 16))) ∧
    (∀ link0, fresh_sys 0 320 ≠ 0 →
      ∃ s1, allocate fresh_sys 1 8 (initial link0) = Outcome.ret (fresh_sys 0 320) s1 ∧
        s1.trace = [Event.malloc 320 (fresh_sys 0 320)] ∧ s1.heap_size = 320 ∧
        s1.start_free = fresh_sys 0 320 + 160 ∧ s1.end_free = fresh_sys 0 320 + 320 ∧
        s1.end_free - s1.start_free = 160) :=
  C23_growth_target fresh_sys 0 8 20 state0 (by decide) (by decide) (by decide) (by decide)

/-- C24: when `chunk_alloc(s, c)`, `s` a multiple of 8 and `c >= 1` an `int`,
finds fewer than `s` bytes in a well-formed pool, the system allocator fails
the growth request, and `i` is the smallest block size `>= s` whose free list
is not empty, with head `h`: the call returns `h` with count
`min(c, floor(i / s))`; the head of that list becomes the link of `h` and the
other lists stay as the donation of the pool remainder left them; the pool is
`[h + count * s, h + i)`; `heap_size` is unchanged; and the call record gains
the one failed request and no call of the handler. -/
theorem C24_take_block (sys : Sys) (fuel s c i : Nat) (st : AllocState)
    (hs8 : s % 8 = 0) (hs1 : 1 ≤ s) (hc : 1 ≤ c) (hcc : c < 2147483648)
    (hpool : pool_ok st) (hneed : st.end_free - st.start_free < s)
    (hfail : sys (sys_calls st.trace) (growth_target s c st) = 0)
    (hi : s ≤ i) (hi2 : i ≤ 128) (hi8 : i % 8 = 0)
    (hne : st.free_list (FREELIST_INDEX i) ≠ 0)
    (hmin : ∀ j, s ≤ j → j < i → j % 8 = 0 → st.free_list (FREELIST_INDEX j) = 0) :
    ∃ s1, chunk_alloc sys (fuel + 1) s c st =
        Outcome.ret (st.free_list (FREELIST_INDEX i), min c (i / s)) s1 ∧
      s1.free_list (FREELIST_INDEX i) =
        (donate_remainder st).link (st.free_list (FREELIST_INDEX i)) ∧
      ((st.end_free = st.start_free ∨ st.free_list (FREELIST_INDEX i) ≠ st.start_free) →
        s1.free_list (FREELIST_INDEX i) = st.link (st.free_list (FREELIST_INDEX i))) ∧
      (∀ j, j ≠ FREELIST_INDEX i → s1.free_list j = (donate_remainder st).free_list j) ∧
      s1.start_free = st.free_list (FREELIST_INDEX i) + min c (i / s) * s ∧
      s1.end_free = st.free_list (FREELIST_INDEX i) + i ∧
      s1.start_free ≤ s1.end_free ∧
      s1.heap_size = st.heap_size ∧
      s1.trace = st.trace ++ [Event.malloc (growth_target s c st) 0] ∧
      handler_calls s1.trace = handler_calls st.trace := by
  obtain ⟨s1, k0, k1, k2, _, k4, k5, k6, k7⟩ :=
    chunk_alloc_take_exact sys fuel s c i st hs8 hs1 hc hcc hpool hneed hfail hi hi2 hi8 hne hmin
  refine ⟨s1, k0, k1, ?_, k2, k4, k5, ?_, k6, k7, ?_⟩
  · intro h
    rw [k1]
    exact donate_remainder_link st _ h
  · rw [k4, k5]
    have h1 : min c (i / s) * s ≤ i / s * s := Nat.mul_le_mul_right s (Nat.min_le_right _ _)
    have h2 : i / s * s ≤ i := Nat.div_mul_le_self i s
    omega
  · rw [k7]
    simp [handler_calls, List.filter_append, Event.isHandler]

set_option smartUnfolding false in
/-- C24 after `allocate(16); allocate(128); allocate(64)` from the initial
state, with an empty pool and the 16-byte block 4112 at the head of the
smallest non-empty free list: when the system allocator fails,
`chunk_alloc(8, 20)` returns 4112 with count 2. -/
theorem C24_take_block_witness :
    ∃ s1, chunk_alloc (fails_then 2 4096) (0 + 1) 8 20 state_pool_0 =
        Outcome.ret (state_pool_0.free_list (FREELIST_INDEX 16), min 20 (16 / 8)) s1 ∧
      s1.free_list (FREELIST_INDEX 16) =
        (donate_remainder state_pool_0).link (state_pool_0.free_list (FREELIST_INDEX 16)) ∧
      ((state_pool_0.end_free = state_pool_0.start_free ∨
          state_pool_0.free_list (FREELIST_INDEX 16) ≠ state_pool_0.start_free) →
        s1.free_list (FREELIST_INDEX 16) =
          state_pool_0.link (state_pool_0.free_list (FREELIST_INDEX 16))) ∧
      (∀ j, j ≠ FREELIST_INDEX 16 →
        s1.free_list j = (donate_remainder state_pool_0).free_list j) ∧
      s1.start_free = state_pool_0.free_list (FREELIST_INDEX 16) + min 20 (16 / 8) * 8 ∧
      s1.end_free = state_pool_0.free_list (FREELIST_INDEX 16) + 16 ∧
      s1.start_free ≤ s1.end_free ∧
      s1.heap_size = state_pool_0.heap_size ∧
      s1.trace = state_pool_0.trace ++ [Event.malloc (growth_target 8 20 state_pool_0) 0] ∧
      handler_calls s1.trace = handler_calls state_pool_0.trace :=
  C24_take_block (fails_then 2 4096) 0 8 20 16 state_pool_0 (by decide) (by decide)
    (by decide) (by decide) (by unfold pool_ok; decide) (by decide) (by decide) (by decide)
    (by decide) (by decide) (by decide)
    (fun j h1 h2 h3 => by
      have e : j = 8 := by omega
      subst e
      decide)

/-- C25: for `chunk_alloc(s, c)`, any `s` and `c`, with a pool of at least
`s * c` bytes, the call returns the old pool start with count `c`, the pool
start is advanced by exactly `s * c`, and the pool end, `heap_size`, the free
lists, the link words and the call record are unchanged, whatever the fuel. -/
theorem C25_sufficient_pool (sys : Sys) (fuel s c : Nat) (st : AllocState)
    (hle : st.start_free ≤ st.end_free)
    (hsz : st.end_free - st.start_free < 18446744073709551616)
    (hpool : s * c ≤ st.end_free - st.start_free) :
    ∃ s1, chunk_alloc sys fuel s c st = Outcome.ret (st.start_free, c) s1 ∧
      s1.start_free = st.start_free + s * c ∧ s1.end_free = st.end_free ∧
      s1.heap_size = st.heap_size ∧ s1.free_list = st.free_list ∧ s1.link = st.link ∧
      s1.trace = st.trace := by
  have hw : wrap (s * c) = s * c := wrap_of_lt (by omega)
  have hbl := ptr_diff_of_le hle hsz
  refine ⟨_, chunk_alloc_sufficient sys fuel s c st (by rw [hw, hbl]; exact hpool), ?_, rfl, rfl,
    rfl, rfl, rfl⟩
  simp only [hw]

set_option smartUnfolding false in
/-- C25 in the state after `allocate(16)` from the initial state, whose pool
holds 320 bytes: `chunk_alloc(8, 20)` takes 160 of them. -/
theorem C25_sufficient_pool_witness :
    ∃ s1, chunk_alloc fresh_sys 0 8 20 ((allocate fresh_sys 1 16 state0).finalD state0) =
        Outcome.ret (((allocate fresh_sys 1 16 state0).finalD state0).start_free, 20) s1 ∧
      s1.start_free = ((allocate fresh_sys 1 16 state0).finalD state0).start_free + 8 * 20 ∧
      s1.end_free = ((allocate fresh_sys 1 16 state0).finalD state0).end_free ∧
      s1.heap_size = ((allocate fresh_sys 1 16 state0).finalD state0).heap_size ∧
      s1.free_list = ((allocate fresh_sys 1 16 state0).finalD state0).free_list ∧
      s1.link = ((allocate fresh_sys 1 16 state0).finalD state0).link ∧
      s1.trace = ((allocate fresh_sys 1 16 state0).finalD state0).trace :=
  C25_sufficient_pool fresh_sys 0 8 20 ((allocate fresh_sys 1 16 state0).finalD state0)
    (by decide) (by decide) (by decide)

/-- C26: for `chunk_alloc(s, c)` with a pool of `r` bytes, `s <= r < s * c`,
the call sets the count to `floor(r / s)`, returns the old pool start and
advances the pool start by exactly `s * floor(r / s)`, so that `r mod s`
bytes, fewer than `s`, remain; the pool end, `heap_size`, the free lists, the
link words and the call record are unchanged, whatever the fuel. -/
theorem C26_some_blocks (sys : Sys) (fuel s c : Nat) (st : AllocState)
    (hle : st.start_free ≤ st.end_free)
    (hsz : st.end_free - st.start_free < 18446744073709551616)
    (hfit : s * c < 18446744073709551616)
    (hlo : s ≤ st.end_free - st.start_free) (hhi : st.end_free - st.start_free < s * c) :
    ∃ s1, chunk_alloc sys fuel s c st =
        Outcome.ret (st.start_free, (st.end_free - st.start_free) / s) s1 ∧
      s1.start_free = st.start_free + s * ((st.end_free - st.start_free) / s) ∧
      s1.end_free = st.end_free ∧
      s1.end_free - s1.start_free = (st.end_free - st.start_free) % s ∧
      s1.end_free - s1.start_free < s ∧
      1 ≤ (st.end_free - st.start_free) / s ∧ (st.end_free - st.start_free) / s < c ∧
      s1.heap_size = st.heap_size ∧ s1.free_list = st.free_list ∧ s1.link = st.link ∧
      s1.trace = st.trace :=
  chunk_alloc_some_exact sys fuel s c st hle hsz hfit hlo hhi

set_option smartUnfolding false in
/-- C26 in the state after `allocate(8)` from the initial state, whose pool
holds 160 bytes: `chunk_alloc(48, 20)` gets 3 blocks and leaves 16 bytes. -/
theorem C26_some_blocks_witness :
    ∃ s1, chunk_alloc fresh_sys 0 48 20 state_after_8 =
        Outcome.ret (state_after_8.start_free,
          (state_after_8.end_free - state_after_8.start_free) / 48) s1 ∧
      s1.start_free = state_after_8.start_free +
        48 * ((state_after_8.end_free - state_after_8.start_free) / 48) ∧
      s1.end_free = state_after_8.end_free ∧
      s1.end_free - s1.start_free = (state_after_8.end_free - state_after_8.start_free) % 48 ∧
      s1.end_free - s1.start_free < 48 ∧
      1 ≤ (state_after_8.end_free - state_after_8.start_free) / 48 ∧
      (state_after_8.end_free - state_after_8.start_free) / 48 < 20 ∧
      s1.heap_size = state_after_8.heap_size ∧ s1.free_list = state_after_8.free_list ∧
      s1.link = state_after_8.link ∧ s1.trace = state_after_8.trace :=
  C26_some_blocks fresh_sys 0 48 20 state_after_8 (by decide) (by decide) (by decide)
    (by decide) (by decide)

/-- C27: for `1 <= n <= 128` and `s = ROUND_UP(n)`, when the free list of
`class(n)` is empty and the pool holds `r` bytes with `s <= r < 2s`,
`allocate(n)` returns the old pool start and advances the pool start by `s`;
every free list, that of `class(n)` included, which stays empty, the pool end,
`heap_size`, the link words and the call record are unchanged. -/
theorem C27_single_block (sys : Sys) (fuel n : Nat) (st : AllocState)
    (h1 : 1 ≤ n) (h2 : n ≤ 128) (hempty : st.free_list (FREELIST_INDEX n) = 0)
    (hle : st.start_free ≤ st.end_free)
    (hlo : ROUND_UP n ≤ st.end_free - st.start_free)
    (hhi : st.end_free - st.start_free < 2 * ROUND_UP n) :
    ∃ s1, allocate sys fuel n st = Outcome.ret st.start_free s1 ∧
      s1.start_free = st.start_free + ROUND_UP n ∧ s1.end_free = st.end_free ∧
      s1.free_list = st.free_list ∧ s1.free_list (FREELIST_INDEX n) = 0 ∧
      s1.heap_size = st.heap_size ∧ s1.link = st.link ∧ s1.trace = st.trace := by
  obtain ⟨_, _, r3, r4, _, _⟩ := ROUND_UP_small h1 h2
  have hone : (st.end_free - st.start_free) / ROUND_UP n = 1 := by
    apply Nat.div_eq_of_lt_le
    · omega
    · omega
  obtain ⟨sc, hcall, k1, k2, _, _, _, _, k7, k8, k9, k10⟩ :=
    chunk_alloc_some_exact sys fuel (ROUND_UP n) 20 st hle (by omega) (by omega) hlo (by omega)
  rw [hone] at hcall k1
  refine ⟨sc, ?_, by rw [k1]; omega, k2, k8, by rw [k8]; exact hempty, k7, k9, k10⟩
  rw [allocate_small_eq sys fuel n st h1 h2, if_pos hempty]
  exact refill_single sys fuel (ROUND_UP n) st.start_free st sc hcall

set_option smartUnfolding false in
/-- C27 after `allocate(8); allocate(128)` from the initial state, which leaves
32 bytes in the pool at 4384: `allocate(20)` returns 4384 and leaves 8 bytes. -/
theorem C27_single_block_witness :
    ∃ s1, allocate fresh_sys 0 20 state_pool_32 = Outcome.ret state_pool_32.start_free s1 ∧
      s1.start_free = state_pool_32.start_free + ROUND_UP 20 ∧
      s1.end_free = state_pool_32.end_free ∧
      s1.free_list = state_pool_32.free_list ∧ s1.free_list (FREELIST_INDEX 20) = 0 ∧
      s1.heap_size = state_pool_32.heap_size ∧ s1.link = state_pool_32.link ∧
      s1.trace = state_pool_32.trace :=
  C27_single_block fresh_sys 0 20 state_pool_32 (by decide) (by decide) (by decide)
    (by decide) (by decide) (by decide)

/-- C28: whenever `chunk_alloc(s, c)` returns in a state with a well-formed
pool, for `s` a multiple of 8 in 8..128 and `c >= 1` an `int`, on whatever
path: the final count `c1` satisfies `1 <= c1 <= c`; the new pool start is
`result + s * c1` and is not beyond the pool end; and there is a state `t`,
the state of the call itself or the state in which it calls itself, whose
pool `[t.start_free, t.end_free)` starts at the result, contains
`[result, result + s * c1)`, and has the end that the pool has afterwards. -/
theorem C28_count_and_region (sys : Sys) (fuel s c b c1 : Nat) (st s1 : AllocState)
    (hpool : pool_ok st) (hs8 : s % 8 = 0) (hs1 : 8 ≤ s) (hs2 : s ≤ 128) (hc : 1 ≤ c)
    (hcc : c < 2147483648)
    (h : chunk_alloc sys fuel s c st = Outcome.ret (b, c1) s1) :
    1 ≤ c1 ∧ c1 ≤ c ∧ s1.start_free = b + s * c1 ∧ s1.start_free ≤ s1.end_free ∧
      ∃ t, (t = st ∨ chunk_alloc sys fuel s c st = chunk_alloc_retry sys fuel s c t) ∧
        t.start_free ≤ t.end_free ∧ b = t.start_free ∧ b + s * c1 ≤ t.end_free ∧
        s1.end_free = t.end_free := by
  have hscu : s * c ≤ 128 * 2147483648 := Nat.mul_le_mul hs2 (by omega)
  have hkey : ∀ (k : Nat) (t : AllocState), pool_ok t →
      (wrap (s * c) ≤ ptr_diff t.end_free t.start_free ∨
        s ≤ ptr_diff t.end_free t.start_free) →
      chunk_alloc sys k s c t = Outcome.ret (b, c1) s1 →
      1 ≤ c1 ∧ c1 ≤ c ∧ s1.start_free = b + s * c1 ∧ s1.start_free ≤ s1.end_free ∧
        t.start_free ≤ t.end_free ∧ b = t.start_free ∧ b + s * c1 ≤ t.end_free ∧
        s1.end_free = t.end_free := by
    intro k t ht hd hk
    obtain ⟨k1, k2, k3, k4, k5, k6, _⟩ := chunk_alloc_carve_general sys k s c b c1 t s1
      ht.1 ht.2.2.1 (by omega) hc (by omega) hd hk
    exact ⟨k2, k3, k5, by rw [k5, k6]; exact k4, ht.1, k1, k4, k6⟩
  by_cases hd : wrap (s * c) ≤ ptr_diff st.end_free st.start_free ∨
      s ≤ ptr_diff st.end_free st.start_free
  · obtain ⟨k1, k2, k3, k4, k5, k6, k7, k8⟩ := hkey fuel st hpool hd h
    exact ⟨k1, k2, k3, k4, st, Or.inl rfl, k5, k6, k7, k8⟩
  · rcases chunk_alloc_cases_int sys fuel s c st hpool hs8 hs2 hcc hd with
      ⟨t, e, ht, _, hdir⟩ | ⟨t, e, _⟩ | ⟨e, _⟩
    · have hd1 := retry_target_direct hdir
      have h2 := h
      rw [e] at h2
      cases fuel with
      | zero => simp [chunk_alloc_retry] at h2
      | succ k =>
        simp only [chunk_alloc_retry] at h2
        obtain ⟨k1, k2, k3, k4, k5, k6, k7, k8⟩ := hkey k t ht hd1 h2
        exact ⟨k1, k2, k3, k4, t, Or.inr e, k5, k6, k7, k8⟩
    · rw [e] at h
      cases h
    · rw [e] at h
      cases h

set_option smartUnfolding false in
/-- C28 for `chunk_alloc(8, 20)` in the initial state with a system allocator
that answers 4096: the call grows the pool, calls itself, and returns 4096
with count 20. -/
theorem C28_count_and_region_witness :
    1 ≤ 20 ∧ 20 ≤ 20 ∧
      ((chunk_alloc fresh_sys 1 8 20 state0).finalD state0).start_free = 4096 + 8 * 20 ∧
      ((chunk_alloc fresh_sys 1 8 20 state0).finalD state0).start_free ≤
        ((chunk_alloc fresh_sys 1 8 20 state0).finalD state0).end_free ∧
      ∃ t, (t = state0 ∨
          chunk_alloc fresh_sys 1 8 20 state0 = chunk_alloc_retry fresh_sys 1 8 20 t) ∧
        t.start_free ≤ t.end_free ∧ 4096 = t.start_free ∧ 4096 + 8 * 20 ≤ t.end_free ∧
        ((chunk_alloc fresh_sys 1 8 20 state0).finalD state0).end_free = t.end_free :=
  C28_count_and_region fresh_sys 1 8 20 4096 20 state0
    ((chunk_alloc fresh_sys 1 8 20 state0).finalD state0)
    (by unfold pool_ok; decide) (by decide) (by decide) (by decide) (by decide) (by decide)
    (by rfl)

/-- C29: in every reachable state, for `chunk_alloc(s, c)` with `s` a multiple
of 8 up to 128 and `c <= 20`.  (1) When the pool holds at least `s`
bytes the call returns without calling itself, whatever the fuel.
(2) Otherwise it calls itself at most once: either it calls itself in a state
`t` that comes from a successful growth and lands in the sufficient-pool case,
or from taking a free-list block and lands in the sufficient- or partial-pool
case, and in `t` the call returns without calling itself; or it throws; or
the handler loop of the first tier has not ended within the fuel.  (3) With
fuel for one self-call the call runs out of fuel only when that loop does.
(4) When the call ends within the fuel, it gives the same result for every
larger fuel. -/
theorem C29_one_self_call (sys : Sys) (fuel s c : Nat) (st : AllocState)
    (hr : Reachable sys st) (hs8 : s % 8 = 0) (hs2 : s ≤ 128) (hc20 : c ≤ 20) :
    ((wrap (s * c) ≤ ptr_diff st.end_free st.start_free ∨
        s ≤ ptr_diff st.end_free st.start_free) →
      ∃ r s1, ∀ f, chunk_alloc sys f s c st = Outcome.ret r s1) ∧
    (¬ (wrap (s * c) ≤ ptr_diff st.end_free st.start_free ∨
        s ≤ ptr_diff st.end_free st.start_free) →
      (∃ t, chunk_alloc sys fuel s c st = chunk_alloc_retry sys fuel s c t ∧
        ((∃ q t0, q ≠ 0 ∧ t = install_pool q (growth_target s c st) t0 ∧
            wrap (s * c) ≤ ptr_diff t.end_free t.start_free) ∨
          (∃ i, (after_malloc sys s c st).start_free = 0 ∧
            t = take_block i (after_malloc sys s c st) ∧
            s ≤ ptr_diff t.end_free t.start_free)) ∧
        ∃ r s1, ∀ f, chunk_alloc sys f s c t = Outcome.ret r s1) ∨
      (∃ t, chunk_alloc sys fuel s c st = Outcome.bad_alloc t) ∨
      (chunk_alloc sys fuel s c st = Outcome.out_of_fuel ∧
        __malloc_alloc_template.allocate sys fuel (growth_target s c st)
          { after_malloc sys s c st with end_free := 0 } = Outcome.out_of_fuel)) ∧
    (1 ≤ fuel → chunk_alloc sys fuel s c st = Outcome.out_of_fuel →
      __malloc_alloc_template.allocate sys fuel (growth_target s c st)
        { after_malloc sys s c st with end_free := 0 } = Outcome.out_of_fuel) ∧
    (∀ fuel1, 1 ≤ fuel → fuel ≤ fuel1 →
      chunk_alloc sys fuel s c st ≠ Outcome.out_of_fuel →
      chunk_alloc sys fuel1 s c st = chunk_alloc sys fuel s c st) := by
  have hpool := reachable_pool_ok sys st hr
  have hcc : c < 2147483648 := by omega
  refine ⟨?_, ?_, ?_, ?_⟩
  · intro hd
    exact chunk_alloc_direct_any_fuel sys s c st hd
  · intro hd
    rcases chunk_alloc_cases_int sys fuel s c st hpool hs8 hs2 hcc hd with
      ⟨t, e, _, _, hdir⟩ | ⟨t, e, _⟩ | ⟨e, _, hcall⟩
    · exact Or.inl ⟨t, e, hdir,
        chunk_alloc_direct_any_fuel sys s c t (retry_target_direct hdir)⟩
    · exact Or.inr (Or.inl ⟨t, e⟩)
    · exact Or.inr (Or.inr ⟨e, hcall⟩)
  · intro hf hoof
    by_cases hd : wrap (s * c) ≤ ptr_diff st.end_free st.start_free ∨
        s ≤ ptr_diff st.end_free st.start_free
    · obtain ⟨r, s1, h⟩ := chunk_alloc_direct_any_fuel sys s c st hd
      rw [h] at hoof
      cases hoof
    · rcases chunk_alloc_cases_int sys fuel s c st hpool hs8 hs2 hcc hd with
        ⟨t, e, _, _, hdir⟩ | ⟨t, e, _⟩ | ⟨_, _, hcall⟩
      · rw [e] at hoof
        exact absurd hoof
          (chunk_alloc_retry_fuel sys s c fuel fuel t hf hf (retry_target_direct hdir)).2
      · rw [e] at hoof
        cases hoof
      · exact hcall
  · intro fuel1 hf hle hne
    exact chunk_alloc_fuel_mono sys fuel fuel1 s c st hpool.2.2.2.2.1 hs2 hcc hf hle hne

set_option smartUnfolding false in
/-- C29 for `chunk_alloc(8, 20)` in the initial state, where the call has to
grow the pool. -/
theorem C29_one_self_call_witness :
    ((wrap (8 * 20) ≤ ptr_diff state0.end_free state0.start_free ∨
        8 ≤ ptr_diff state0.end_free state0.start_free) →
      ∃ r s1, ∀ f, chunk_alloc fresh_sys f 8 20 state0 = Outcome.ret r s1) ∧
    (¬ (wrap (8 * 20) ≤ ptr_diff state0.end_free state0.start_free ∨
        8 ≤ ptr_diff state0.end_free state0.start_free) →
      (∃ t, chunk_alloc fresh_sys 1 8 20 state0 =
          chunk_alloc_retry fresh_sys 1 8 20 t ∧
        ((∃ q t0, q ≠ 0 ∧ t = install_pool q (growth_target 8 20 state0) t0 ∧
            wrap (8 * 20) ≤ ptr_diff t.end_free t.start_free) ∨
          (∃ i, (after_malloc fresh_sys 8 20 state0).start_free = 0 ∧
            t = take_block i (after_malloc fresh_sys 8 20 state0) ∧
            8 ≤ ptr_diff t.end_free t.start_free)) ∧
        ∃ r s1, ∀ f, chunk_alloc fresh_sys f 8 20 t = Outcome.ret r s1) ∨
      (∃ t, chunk_alloc fresh_sys 1 8 20 state0 = Outcome.bad_alloc t) ∨
      (chunk_alloc fresh_sys 1 8 20 state0 = Outcome.out_of_fuel ∧
        __malloc_alloc_template.allocate fresh_sys 1 (growth_target 8 20 state0)
          { after_malloc fresh_sys 8 20 state0 with end_free := 0 } =
            Outcome.out_of_fuel)) ∧
    (1 ≤ 1 → chunk_alloc fresh_sys 1 8 20 state0 = Outcome.out_of_fuel →
      __malloc_alloc_template.allocate fresh_sys 1 (growth_target 8 20 state0)
        { after_malloc fresh_sys 8 20 state0 with end_free := 0 } =
          Outcome.out_of_fuel) ∧
    (∀ fuel1, 1 ≤ 1 → 1 ≤ fuel1 →
      chunk_alloc fresh_sys 1 8 20 state0 ≠ Outcome.out_of_fuel →
      chunk_alloc fresh_sys fuel1 8 20 state0 =
        chunk_alloc fresh_sys 1 8 20 state0) :=
  C29_one_self_call fresh_sys 1 8 20 state0
    (Reachable.start _) (by decide) (by decide) (by decide)

/-- C30: in every state reached from the initial state by calls of the public
functions, calls that throw included, the pool start is not beyond the pool
end, the bytes left in the pool (as the code computes them) and `heap_size`
are multiples of 8; and so every free-list index the code computes for a
small request `n` lies in `[0, 16)`: that of `n`, that of `ROUND_UP(n)`, those
of the block sizes that `chunk_alloc` scans, and that of a pool remainder that
`chunk_alloc` donates, whose size is the block size of its free list. -/
theorem C30_pool_invariant (sys : Sys) (st : AllocState) (hr : Reachable sys st) :
    st.start_free ≤ st.end_free ∧
    ptr_diff st.end_free st.start_free = st.end_free - st.start_free ∧
    (st.end_free - st.start_free) % 8 = 0 ∧ st.heap_size % 8 = 0 ∧
    (∀ n, 1 ≤ n → n ≤ 128 →
      FREELIST_INDEX n < 16 ∧ FREELIST_INDEX (ROUND_UP n) < 16 ∧
      (∀ i, ROUND_UP n ≤ i → i ≤ 128 → FREELIST_INDEX i < 16) ∧
      (0 < ptr_diff st.end_free st.start_free →
        ptr_diff st.end_free st.start_free < ROUND_UP n →
        FREELIST_INDEX (ptr_diff st.end_free st.start_free) < 16 ∧
        (FREELIST_INDEX (ptr_diff st.end_free st.start_free) + 1) * 8 =
          ptr_diff st.end_free st.start_free)) := by
  have hpool := reachable_pool_ok sys st hr
  have hbl := pool_ok_bytes_left hpool
  obtain ⟨o1, o2, o3, o4, o5, o6⟩ := hpool
  refine ⟨o1, hbl, o2, o4, ?_⟩
  intro n h1 h2
  obtain ⟨r1, r2, r3, r4, r5, r6⟩ := ROUND_UP_small h1 h2
  have hidx : ∀ i, 1 ≤ i → i ≤ 128 → FREELIST_INDEX i < 16 := by
    intro i hi hi2
    rw [FREELIST_INDEX_eq hi (by omega)]
    omega
  refine ⟨hidx n h1 h2, hidx _ (by omega) r3, fun i hi hi2 => hidx i (by omega) hi2, ?_⟩
  intro hpos hlt
  rw [hbl] at hpos hlt ⊢
  rw [FREELIST_INDEX_eq (by omega) (by omega)]
  omega

set_option smartUnfolding false in
/-- C30 in the state after `allocate(8); allocate(128)` from the initial state,
whose pool holds 32 bytes. -/
theorem C30_pool_invariant_witness :
    state_pool_32.start_free ≤ state_pool_32.end_free ∧
    ptr_diff state_pool_32.end_free state_pool_32.start_free =
      state_pool_32.end_free - state_pool_32.start_free ∧
    (state_pool_32.end_free - state_pool_32.start_free) % 8 = 0 ∧
    state_pool_32.heap_size % 8 = 0 ∧
    (∀ n, 1 ≤ n → n ≤ 128 →
      FREELIST_INDEX n < 16 ∧ FREELIST_INDEX (ROUND_UP n) < 16 ∧
      (∀ i, ROUND_UP n ≤ i → i ≤ 128 → FREELIST_INDEX i < 16) ∧
      (0 < ptr_diff state_pool_32.end_free state_pool_32.start_free →
        ptr_diff state_pool_32.end_free state_pool_32.start_free < ROUND_UP n →
        FREELIST_INDEX (ptr_diff state_pool_32.end_free state_pool_32.start_free) < 16 ∧
        (FREELIST_INDEX (ptr_diff state_pool_32.end_free state_pool_32.start_free) + 1) * 8 =
          ptr_diff state_pool_32.end_free state_pool_32.start_free)) :=
  C30_pool_invariant fresh_sys state_pool_32
    (Reachable.allocate 1 128 state_after_8 state_pool_32
      (Reachable.allocate 1 8 state0 state_after_8 (Reachable.start _) (by rfl)) (by rfl))

/-- C31: in every state reached by calls of the public functions that respect
the precondition of `deallocate`, the system allocator having handed the pool
regions that do not overlap: each of the 16 free lists reads as a finite list
of blocks that ends with the null link and holds no block twice; no block is
held twice; and any two different blocks on the free lists, a block on a free
list and a held block, any two different held blocks, and the unallocated
pool and any block, have no byte in common.  So a block that `allocate(n)`,
`1 <= n <= 128`, returns in that state is not one a caller holds and has no
byte in common with a block that a caller holds. -/
theorem C31_pairwise_disjoint (sys : Sys) (s : AllocState) (g : Ledger)
    (hrun : Run sys s g) :
    ∃ lists : Nat → List Nat,
      (∀ i, i < 16 → chain s.link (s.free_list i) (lists i) ∧ (lists i).Nodup) ∧
      g.held.Nodup ∧
      (∀ i, i < 16 → ∀ a ∈ lists i, ∀ j, j < 16 → ∀ b ∈ lists j, (a, i) ≠ (b, j) →
        apart a ((i + 1) * 8) b ((j + 1) * 8)) ∧
      (∀ i, i < 16 → ∀ a ∈ lists i, ∀ x ∈ g.held,
        apart a ((i + 1) * 8) x.1 ((x.2 + 1) * 8)) ∧
      (∀ x ∈ g.held, ∀ y ∈ g.held, x ≠ y →
        apart x.1 ((x.2 + 1) * 8) y.1 ((y.2 + 1) * 8)) ∧
      (s.start_free < s.end_free →
        (∀ i, i < 16 → ∀ a ∈ lists i,
          apart a ((i + 1) * 8) s.start_free (s.end_free - s.start_free)) ∧
        (∀ x ∈ g.held,
          apart x.1 ((x.2 + 1) * 8) s.start_free (s.end_free - s.start_free))) ∧
      (∀ fuel n p s1, 1 ≤ n → n ≤ 128 → allocate sys fuel n s = Outcome.ret p s1 →
        fresh_growth n s s1 g →
        (p, FREELIST_INDEX n) ∉ g.held ∧
        ∀ x ∈ g.held, apart p (ROUND_UP n) x.1 ((x.2 + 1) * 8)) := by
  have hsep := run_separated sys s g hrun
  obtain ⟨_, lists, hch, hnd, _, hhn, _, _, _, hap⟩ := hsep
  have hfree : ∀ i, i < 16 → ∀ a ∈ lists i,
      Layout.present ⟨lists, g.held, s.start_free, s.end_free⟩ (Piece.free a i) :=
    fun i hi a ha => ⟨hi, ha⟩
  refine ⟨lists, fun i hi => ⟨hch i hi, hnd i hi⟩, hhn, ?_, ?_, ?_, ?_, ?_⟩
  · intro i hi a ha j hj b hb hne
    exact hap (Piece.free a i) (Piece.free b j) (hfree i hi a ha) (hfree j hj b hb)
      (fun e => hne (by cases e; rfl))
  · intro i hi a ha x hx
    exact hap (Piece.free a i) (Piece.held x.1 x.2) (hfree i hi a ha) hx (by simp)
  · intro x hx y hy hne
    refine hap (Piece.held x.1 x.2) (Piece.held y.1 y.2) hx hy (fun e => hne ?_)
    have hinj := Piece.held.inj e
    exact Prod.ext hinj.1 hinj.2
  · intro hlt
    refine ⟨?_, ?_⟩
    · intro i hi a ha
      exact hap (Piece.free a i) Piece.pool (hfree i hi a ha) hlt (by simp)
    · intro x hx
      exact hap (Piece.held x.1 x.2) Piece.pool hx hlt (by simp)
  · intro fuel n p s1 h1 h2 hcall hfresh
    have h := allocate_small_separated sys fuel n p s s1 g h1 h2
      (run_separated sys s g hrun) hcall (hfresh h1 h2)
    obtain ⟨_, lists1, _, _, _, hnd1, _, _, _, hap1⟩ := h
    obtain ⟨_, hru⟩ := small_class n h1 h2
    have hheld : Layout.present
        ⟨lists1, (p, FREELIST_INDEX n) :: g.held, s1.start_free, s1.end_free⟩
        (Piece.held p (FREELIST_INDEX n)) := List.mem_cons_self _ _
    have hnot := (List.nodup_cons.1 hnd1).1
    rw [hru]
    refine ⟨hnot, ?_⟩
    intro x hx
    refine hap1 (Piece.held p (FREELIST_INDEX n)) (Piece.held x.1 x.2) hheld
      (List.mem_cons_of_mem _ hx) (fun e => hnot ?_)
    have hinj := Piece.held.inj e
    have hx2 : x = (p, FREELIST_INDEX n) := Prod.ext hinj.1.symm hinj.2.symm
    rw [← hx2]
    exact hx

set_option smartUnfolding false in
/-- C31 in the state after `allocate(8); allocate(8)` from the initial state:
the callers hold the blocks 4096 and 4104, free list 0 holds the 18 blocks
from 4112 on, and the pool is `[4256, 4416)`. -/
theorem C31_pairwise_disjoint_witness :
    Run fresh_sys state_two_held ledger_two_held ∧
    ∃ lists : Nat → List Nat,
      (∀ i, i < 16 →
        chain state_two_held.link (state_two_held.free_list i) (lists i) ∧
          (lists i).Nodup) ∧
      ledger_two_held.held.Nodup ∧
      (∀ i, i < 16 → ∀ a ∈ lists i, ∀ j, j < 16 → ∀ b ∈ lists j, (a, i) ≠ (b, j) →
        apart a ((i + 1) * 8) b ((j + 1) * 8)) ∧
      (∀ i, i < 16 → ∀ a ∈ lists i, ∀ x ∈ ledger_two_held.held,
        apart a ((i + 1) * 8) x.1 ((x.2 + 1) * 8)) ∧
      (∀ x ∈ ledger_two_held.held, ∀ y ∈ ledger_two_held.held, x ≠ y →
        apart x.1 ((x.2 + 1) * 8) y.1 ((y.2 + 1) * 8)) ∧
      (state_two_held.start_free < state_two_held.end_free →
        (∀ i, i < 16 → ∀ a ∈ lists i,
          apart a ((i + 1) * 8) state_two_held.start_free
            (state_two_held.end_free - state_two_held.start_free)) ∧
        (∀ x ∈ ledger_two_held.held,
          apart x.1 ((x.2 + 1) * 8) state_two_held.start_free
            (state_two_held.end_free - state_two_held.start_free))) ∧
      (∀ fuel n p s1, 1 ≤ n → n ≤ 128 →
        allocate fresh_sys fuel n state_two_held = Outcome.ret p s1 →
        fresh_growth n state_two_held s1 ledger_two_held →
        (p, FREELIST_INDEX n) ∉ ledger_two_held.held ∧
        ∀ x ∈ ledger_two_held.held, apart p (ROUND_UP n) x.1 ((x.2 + 1) * 8)) :=
  have hrun : Run fresh_sys state_two_held ledger_two_held :=
    Run.allocate_returns 0 8 4104 state_after_8 state_two_held ⟨[(4096, 0)], [(4096, 320)]⟩
      (Run.allocate_returns 1 8 4096 state0 state_after_8 ⟨[], []⟩ (Run.start _) (by rfl)
        (fun _ _ _ _ r1 hr1 => absurd hr1 (List.not_mem_nil r1)))
      (by rfl) (fun _ _ r hr => absurd hr (List.not_mem_nil r))
  ⟨hrun, C31_pairwise_disjoint fresh_sys state_two_held ledger_two_held hrun⟩

/-- C32: in every state reached by calls of the public functions that respect
the precondition of `deallocate`, the system allocator having handed the pool
regions that do not overlap, the 16 free lists read as lists of blocks such
that the bytes left in the pool, plus `(i + 1) * 8` for every block on free
list `i`, plus `ROUND_UP(n)` for every block held by a caller, are exactly the
bytes of the regions obtained from the system allocator, and `heap_size` is
the `size_t` value of that number; when the regions obtained lie in the 64-bit
address space, `heap_size` is that number itself, the sum of the three. The
free-list head that `refill` overwrites after `chunk_alloc` has returned is
null whenever `allocate` found it null. A call of `allocate` that returns does
not lower `heap_size`, one that ends with `bad_alloc` leaves it as it was, as
does `deallocate`. -/
theorem C32_byte_conservation (sys : Sys) (s : AllocState) (g : Ledger) (hrun : Run sys s g) :
    ∃ lists : Nat → List Nat,
      (∀ i, i < 16 → chain s.link (s.free_list i) (lists i)) ∧
      (∀ x ∈ g.held, ∀ n, 1 ≤ n → n ≤ 128 → x.2 = FREELIST_INDEX n →
        (x.2 + 1) * 8 = ROUND_UP n) ∧
      ptr_diff s.end_free s.start_free = s.end_free - s.start_free ∧
      ptr_diff s.end_free s.start_free + free_bytes lists 16 + held_bytes g.held =
        region_bytes g.owned ∧
      s.heap_size = wrap (region_bytes g.owned) ∧
      ((∀ r ∈ g.owned, r.1 + r.2 ≤ 18446744073709551616) →
        s.heap_size =
          ptr_diff s.end_free s.start_free + free_bytes lists 16 + held_bytes g.held) ∧
      (∀ fuel n chunk nobjs sc, 1 ≤ n → n ≤ 128 → s.free_list (FREELIST_INDEX n) = 0 →
        chunk_alloc sys fuel (ROUND_UP n) 20 s = Outcome.ret (chunk, nobjs) sc →
        sc.free_list (FREELIST_INDEX (ROUND_UP n)) = 0) ∧
      (∀ fuel n p s1, allocate sys fuel n s = Outcome.ret p s1 → fresh_growth n s s1 g →
        (∀ r ∈ (g.after_allocate n p s s1).owned, r.1 + r.2 ≤ 18446744073709551616) →
        s.heap_size ≤ s1.heap_size) ∧
      (∀ fuel n s1, allocate sys fuel n s = Outcome.bad_alloc s1 →
        s1.heap_size = s.heap_size) ∧
      (∀ p n, (deallocate p n s).heap_size = s.heap_size) := by
  have hcon := run_conserved sys s g hrun
  obtain ⟨hp, hheap, hdis, lists, hw, hbytes⟩ := hcon
  have hbl := pool_ok_bytes_left hp
  simp only [Layout.bytes] at hbytes
  refine ⟨lists, hw.1, ?_, hbl, by rw [hbl]; exact hbytes, hheap, ?_, ?_, ?_, ?_, ?_⟩
  · intro x _ n h1 h2 e
    rw [e, (small_class n h1 h2).2]
  · intro hfit
    rw [hbl, hbytes]
    exact conserved_heap_exact s g (run_conserved sys s g hrun) hfit
  · intro fuel n chunk nobjs sc h1 h2 hz hca
    obtain ⟨r1, _, r3, r4, _, r6⟩ := ROUND_UP_small h1 h2
    rw [← r6] at hz
    exact chunk_alloc_keeps_empty_head sys fuel (ROUND_UP n) chunk nobjs s sc hp r1 r3 hz hca
  · intro fuel n p s1 hcall hfresh hfit
    have hcon1 := allocate_returns_conserved sys fuel n p s s1 g
      (run_conserved sys s g hrun) hcall hfresh
    obtain ⟨m1, m2⟩ := after_allocate_owned g n p s s1
    rw [conserved_heap_exact s1 _ hcon1 hfit,
      conserved_heap_exact s g (run_conserved sys s g hrun) (fun r hr => hfit r (m2 r hr))]
    exact m1
  · intro fuel n s1 hcall
    by_cases h0 : n = 0
    · subst h0
      simp [allocate] at hcall
    by_cases hbig : n > 128
    · rw [allocate_large_eq sys fuel n s hbig] at hcall
      exact (first_tier_allocate_frame sys fuel n s s1 (by rw [hcall]; rfl)).1.2.2.2
    · exact (allocate_throws_state sys fuel n s s1 hp (by omega) (by omega)
        hcall).2.2.2.2.1
  · intro p n
    exact deallocate_heap_size p n s

set_option smartUnfolding false in
/-- C32 in the state after `allocate(8); allocate(8)` from the initial state:
`heap_size` is 320, the pool holds 160 bytes, the callers hold two blocks of
8 bytes, and the 18 blocks of free list 0 make up the other 144 bytes. -/
theorem C32_byte_conservation_witness :
    state_two_held.heap_size = 320 ∧
    ptr_diff state_two_held.end_free state_two_held.start_free = 160 ∧
    held_bytes ledger_two_held.held = 16 ∧
    ∃ lists : Nat → List Nat,
      (∀ i, i < 16 → chain state_two_held.link (state_two_held.free_list i) (lists i)) ∧
      free_bytes lists 16 = 144 ∧
      state_two_held.heap_size =
        ptr_diff state_two_held.end_free state_two_held.start_free + free_bytes lists 16 +
          held_bytes ledger_two_held.held := by
  have hrun : Run fresh_sys state_two_held ledger_two_held :=
    Run.allocate_returns 0 8 4104 state_after_8 state_two_held ⟨[(4096, 0)], [(4096, 320)]⟩
      (Run.allocate_returns 1 8 4096 state0 state_after_8 ⟨[], []⟩ (Run.start _) (by rfl)
        (fun _ _ _ _ r1 hr1 => absurd hr1 (List.not_mem_nil r1)))
      (by rfl) (fun _ _ r hr => absurd hr (List.not_mem_nil r))
  obtain ⟨lists, k1, _, _, _, _, k6, _⟩ :=
    C32_byte_conservation fresh_sys state_two_held ledger_two_held hrun
  have e1 : state_two_held.heap_size = 320 := by decide
  have e2 : ptr_diff state_two_held.end_free state_two_held.start_free = 160 := by decide
  have e3 : held_bytes ledger_two_held.held = 16 := by decide
  have k := k6 (by decide)
  refine ⟨e1, e2, e3, lists, k1, ?_, k⟩
  rw [e1, e2, e3] at k
  omega

/-- C34: when `allocate(n)`, `1 <= n <= 128`, ends with `bad_alloc` in a
reachable state, it leaves the pool empty with `start_free = end_free = null`
and `heap_size` as it was; every free list of block size `ROUND_UP(n)..128`
is unchanged and empty; the free-list bank and the link words are unchanged
when the pool was empty, and otherwise the only change is that the former
pool remainder, a block of the size of its free list and smaller than
`ROUND_UP(n)`, is now the head of that list, linked to the former head. The
state left is reachable and satisfies the pool invariant, and a later request
`allocate(m)` whose list is empty succeeds as soon as the system allocator
answers the one request made for it, and succeeds without any request to the
system when its list is not empty. -/
theorem C34_state_after_bad_alloc (sys : Sys) (fuel n : Nat) (s s1 : AllocState)
    (hr : Reachable sys s) (h1 : 1 ≤ n) (h2 : n ≤ 128)
    (h : allocate sys fuel n s = Outcome.bad_alloc s1) :
    s1.start_free = 0 ∧ s1.end_free = 0 ∧ s1.heap_size = s.heap_size ∧
    (∀ j, ROUND_UP n ≤ j → j ≤ 128 →
      s1.free_list (FREELIST_INDEX j) = s.free_list (FREELIST_INDEX j) ∧
      s.free_list (FREELIST_INDEX j) = 0) ∧
    (ptr_diff s.end_free s.start_free = 0 →
      s1.free_list = s.free_list ∧ s1.link = s.link) ∧
    (0 < ptr_diff s.end_free s.start_free →
      ptr_diff s.end_free s.start_free < ROUND_UP n ∧
      (FREELIST_INDEX (ptr_diff s.end_free s.start_free) + 1) * 8 =
        ptr_diff s.end_free s.start_free ∧
      s1.free_list =
        store s.free_list (FREELIST_INDEX (ptr_diff s.end_free s.start_free)) s.start_free ∧
      s1.free_list (FREELIST_INDEX (ptr_diff s.end_free s.start_free)) = s.start_free ∧
      s1.link = store s.link s.start_free
        (s.free_list (FREELIST_INDEX (ptr_diff s.end_free s.start_free)))) ∧
    pool_ok s1 ∧ Reachable sys s1 ∧
    (∀ fuel2 m, 1 ≤ m →
      sys (sys_calls s1.trace)
        (if 128 < m then m else growth_target (ROUND_UP m) 20 s1) ≠ 0 →
      ∃ p s2, allocate sys (fuel2 + 1) m s1 = Outcome.ret p s2 ∧ p ≠ 0) ∧
    (∀ fuel2 m, 1 ≤ m → m ≤ 128 → s1.free_list (FREELIST_INDEX m) ≠ 0 →
      ∃ s2, allocate sys fuel2 m s1 = Outcome.ret (s1.free_list (FREELIST_INDEX m)) s2 ∧
        s2.trace = s1.trace) := by
  have hs := reachable_pool_ok sys s hr
  have hr1 : Reachable sys s1 := Reachable.allocate fuel n s s1 hr (by rw [h]; rfl)
  have hs1 := reachable_pool_ok sys s1 hr1
  obtain ⟨_, hlow, a1, a2, a3, a4, a5, a6, _⟩ :=
    allocate_throws_state sys fuel n s s1 hs h1 h2 h
  obtain ⟨d0, dpos⟩ := donate_remainder_bank s
  obtain ⟨r1, _, r3, r4, _, _⟩ := ROUND_UP_small h1 h2
  have hbl := pool_ok_bytes_left hs
  refine ⟨a1, a2, a3, ?_, ?_, ?_, hs1, hr1, ?_, ?_⟩
  · intro j hj hj2
    obtain ⟨z, z1⟩ := a6 j hj hj2
    exact ⟨by rw [z, z1], z⟩
  · intro h0
    obtain ⟨e1, e2⟩ := d0 h0
    exact ⟨by rw [a4, e1], by rw [a5, e2]⟩
  · intro hpos
    obtain ⟨e1, e2⟩ := dpos hpos
    have hidx : (FREELIST_INDEX (ptr_diff s.end_free s.start_free) + 1) * 8 =
        ptr_diff s.end_free s.start_free := by
      obtain ⟨_, o2, _⟩ := hs
      rw [hbl] at hpos hlow ⊢
      rw [FREELIST_INDEX_eq (by omega) (by omega)]
      omega
    refine ⟨Nat.lt_of_not_le hlow, hidx, by rw [a4, e1], ?_, by rw [a5, e2]⟩
    rw [a4, e1]
    exact store_same _ _ _
  · intro fuel2 m hm hsys
    exact allocate_answered sys fuel2 m s1 hs1 hm hsys
  · intro fuel2 m hm hm2 hne
    rw [allocate_small_eq sys fuel2 m s1 hm hm2, if_neg hne]
    exact ⟨_, rfl, rfl⟩

set_option smartUnfolding false in
/-- C34 for `allocate(64)` in the state after `allocate(8); allocate(128)`,
whose pool holds 32 bytes, the system allocator failing from its second
request on: the 32 bytes at 4384 become the head of free list 3. -/
theorem C34_state_after_bad_alloc_witness :
    ∃ s1, allocate answers_once 0 64 state_pool_32 = Outcome.bad_alloc s1 ∧
      s1.start_free = 0 ∧ s1.end_free = 0 ∧ s1.heap_size = state_pool_32.heap_size ∧
      s1.free_list 3 = 4384 ∧ state_pool_32.start_free = 4384 ∧
      (∀ j, ROUND_UP 64 ≤ j → j ≤ 128 →
        s1.free_list (FREELIST_INDEX j) = state_pool_32.free_list (FREELIST_INDEX j) ∧
        state_pool_32.free_list (FREELIST_INDEX j) = 0) ∧
      pool_ok s1 :=
  ⟨_, rfl, by
    have k := C34_state_after_bad_alloc answers_once 0 64 state_pool_32 _
      (Reachable.allocate 1 128 state_after_8 state_pool_32
        (Reachable.allocate 1 8 state0 state_after_8 (Reachable.start _) (by rfl)) (by rfl))
      (by decide) (by decide) rfl
    exact ⟨k.1, k.2.1, k.2.2.1, by rfl, by rfl, k.2.2.2.1, k.2.2.2.2.2.2.1⟩⟩

/-- C19: for every valid vector with elements `xs` and every `k < size`,
`erase(begin() + k)` (with fuel for the `size - 1 - k` rounds of its loop)
returns the iterator at index `k` and leaves the elements `xs` without the
`k`-th, the others in their order, the size one smaller and the capacity
unchanged. -/
theorem C19_erase {T : Type} (fuel k : Nat) (v : vector T) (hv : v.valid) (hk : k < v.size)
    (hfuel : v.size - 1 - k ≤ fuel) :
    ∃ v1, vector.erase fuel (v.begin + k) v = some (v1.begin + k, v1) ∧
      v1.elements = v.elements.eraseIdx k ∧ v1.size = v.size - 1 ∧
      v1.capacity = v.capacity := by
  obtain ⟨h1, h2, h3, h4⟩ := hv
  have hsz : v._finish = v._start + v.size := by unfold vector.size; omega
  obtain ⟨m, e, m1, m2⟩ := vector.erase_shift_spec v._finish (v.size - 1 - k) fuel
    (v._start + k) v.mem (by omega) hfuel
  have hloop : (if v.begin + k + 1 ≠ v._finish then
      vector.erase_shift v._finish fuel (v.begin + k) v.mem else some v.mem) = some m := by
    unfold vector.begin
    by_cases hc : v._start + k + 1 ≠ v._finish
    · rw [if_pos hc]; exact e
    · rw [if_neg hc]
      unfold vector.erase_shift at e
      rw [if_neg hc] at e
      exact e
  have hres : ∃ r : vector T, vector.erase fuel (v.begin + k) v = some (v._start + k, r) ∧
      r._start = v._start ∧ r._finish = v._finish - 1 ∧
      r._end_of_storage = v._end_of_storage ∧ r.mem = m := by
    unfold vector.erase
    rw [hloop]
    exact ⟨_, rfl, rfl, rfl, rfl, rfl⟩
  obtain ⟨r, er, r1, r2, r3, r4⟩ := hres
  have hsize : r.size = v.size - 1 := by
    unfold vector.size at *; rw [r1, r2]; omega
  refine ⟨r, ?_, ?_, hsize, ?_⟩
  · rw [er]; unfold vector.begin; rw [r1]
  · apply List.ext_getElem?
    intro i
    rw [vector.elements_getElem?, List.getElem?_eraseIdx, hsize, r1, r4]
    by_cases hin : i < v.size - 1
    · rw [if_pos hin]
      by_cases hlt : i < k
      · rw [if_pos hlt, vector.elements_getElem?, if_pos (by omega), m2 _ (by omega)]
      · rw [if_neg hlt, vector.elements_getElem?, if_pos (by omega), m1 _ (by omega)]
        congr 2
    · rw [if_neg hin]
      by_cases hlt : i < k
      · omega
      · rw [if_neg hlt, vector.elements_getElem?, if_neg (by omega)]
  · unfold vector.capacity; rw [r1, r3]

/-- C19 on the test of main.cpp: `erase(begin() + 2)` on `[1, 10, 2, 3]` gives
`[1, 10, 3]`. -/
theorem C19_erase_witness :
    ((vector.erase 1 (vec_1_10_2_3.begin + 2) vec_1_10_2_3).map
      (fun r => r.2.elements)) = some [1, 10, 3] ∧
    ∃ v1, vector.erase 1 (vec_1_10_2_3.begin + 2) vec_1_10_2_3 = some (v1.begin + 2, v1) ∧
      v1.elements = vec_1_10_2_3.elements.eraseIdx 2 ∧ v1.size = vec_1_10_2_3.size - 1 ∧
      v1.capacity = vec_1_10_2_3.capacity :=
  ⟨by decide,
    C19_erase 1 2 vec_1_10_2_3 ⟨by decide, by decide, by decide, by decide⟩
      (by decide) (by decide)⟩

/-- C21: for a vector whose pointers are in order and whose capacity `c` can be
doubled in `size_t`, with an allocator that answers the request made when the
vector is full: `push_back(x)` and `insert(pos, x)` return, increase the size
by one, and leave the capacity `1` when `size = c = 0`, `2 * c` when
`size = c > 0`, and `c` when `size < c`.  Hence four single-element
insertions, each a `push_back` or an `insert` at any index, into a
default-constructed vector whose allocator does not throw leave `size = 4`
and `capacity = 4`. -/
theorem C21_capacity_growth {T : Type} [type_traits T] (alloc : Alloc T)
    (elem_bytes pos : Nat) (x : Ref T) (v : vector T)
    (hord : v._start ≤ v._finish ∧ v._finish ≤ v._end_of_storage)
    (hcap : 2 * v.capacity < 18446744073709551616)
    (hans : v._finish = v._end_of_storage →
      ∃ p, alloc.allocate (allocate_calls v.calls)
        (wrap ((if v.capacity = 0 then 1 else 2 * v.capacity) * elem_bytes)) = some p) :
    (∃ v1, vector.push_back alloc elem_bytes x v = Thrown.ok () v1 ∧ v1.size = v.size + 1 ∧
      v1.capacity =
        (if v.size = v.capacity then (if v.capacity = 0 then 1 else 2 * v.capacity)
          else v.capacity)) ∧
    (∃ q v1, vector.insert alloc elem_bytes pos x v = Thrown.ok q v1 ∧
      v1.size = v.size + 1 ∧
      v1.capacity =
        (if v.size = v.capacity then (if v.capacity = 0 then 1 else 2 * v.capacity)
          else v.capacity)) ∧
    ((∀ i b, alloc.allocate i b ≠ none) →
      ∀ (mem : Nat → T) (k1 k2 k3 k4 : Option Nat) (x1 x2 x3 x4 : Ref T),
        ∃ v1 v2 v3 v4,
          vector.single_insertion alloc elem_bytes k1 x1 (vector.empty mem) = Thrown.ok () v1 ∧
          vector.single_insertion alloc elem_bytes k2 x2 v1 = Thrown.ok () v2 ∧
          vector.single_insertion alloc elem_bytes k3 x3 v2 = Thrown.ok () v3 ∧
          vector.single_insertion alloc elem_bytes k4 x4 v3 = Thrown.ok () v4 ∧
          v4.size = 4 ∧ v4.capacity = 4) := by
  refine ⟨?_, ?_, ?_⟩
  · obtain ⟨v1, e, k1, k2, _⟩ := vector.push_back_capacity alloc elem_bytes x v hord hcap hans
    exact ⟨v1, e, k1, k2⟩
  · obtain ⟨q, v1, e, k1, k2, _⟩ :=
      vector.insert_capacity alloc elem_bytes pos x v hord hcap hans
    exact ⟨q, v1, e, k1, k2⟩
  · intro hno mem k1 k2 k3 k4 x1 x2 x3 x4
    have h0s : (vector.empty mem).size = 0 := rfl
    have h0c : (vector.empty mem).capacity = 0 := rfl
    obtain ⟨v1, e1, s1, c1, o1⟩ := vector.single_insertion_capacity alloc elem_bytes k1 x1
      (vector.empty mem) ⟨le_refl _, le_refl _⟩ (by rw [h0c]; norm_num) hno
    simp only [h0s, h0c, if_true, Nat.zero_add] at s1 c1
    obtain ⟨v2, e2, s2, c2, o2⟩ := vector.single_insertion_capacity alloc elem_bytes k2 x2
      v1 o1 (by rw [c1]; norm_num) hno
    simp only [s1, c1, if_true] at s2 c2
    norm_num at s2 c2
    obtain ⟨v3, e3, s3, c3, o3⟩ := vector.single_insertion_capacity alloc elem_bytes k3 x3
      v2 o2 (by rw [c2]; norm_num) hno
    simp only [s2, c2, if_true] at s3 c3
    norm_num at s3 c3
    obtain ⟨v4, e4, s4, c4, _⟩ := vector.single_insertion_capacity alloc elem_bytes k4 x4
      v3 o3 (by rw [c3]; norm_num) hno
    simp only [s3, c3] at s4 c4
    norm_num at s4 c4
    exact ⟨v1, v2, v3, v4, e1, e2, e3, e4, s4, c4⟩

/-- C21 on the test of main.cpp: the vector `[1, 2, 3]` has capacity 4, so a
further `push_back` or `insert` leaves the capacity 4. -/
theorem C21_capacity_growth_witness :
    (∃ v1, vector.push_back fresh_alloc 4 (Ref.object 10) vec_1_2_3 = Thrown.ok () v1 ∧
      v1.size = vec_1_2_3.size + 1 ∧
      v1.capacity =
        (if vec_1_2_3.size = vec_1_2_3.capacity then
          (if vec_1_2_3.capacity = 0 then 1 else 2 * vec_1_2_3.capacity)
          else vec_1_2_3.capacity)) ∧
    (∃ q v1, vector.insert fresh_alloc 4 (vec_1_2_3.begin + 1) (Ref.object 10) vec_1_2_3 =
        Thrown.ok q v1 ∧
      v1.size = vec_1_2_3.size + 1 ∧
      v1.capacity =
        (if vec_1_2_3.size = vec_1_2_3.capacity then
          (if vec_1_2_3.capacity = 0 then 1 else 2 * vec_1_2_3.capacity)
          else vec_1_2_3.capacity)) ∧
    ((∀ i b, fresh_alloc.allocate i b ≠ none) →
      ∀ (mem : Nat → Int) (k1 k2 k3 k4 : Option Nat) (x1 x2 x3 x4 : Ref Int),
        ∃ v1 v2 v3 v4,
          vector.single_insertion fresh_alloc 4 k1 x1 (vector.empty mem) = Thrown.ok () v1 ∧
          vector.single_insertion fresh_alloc 4 k2 x2 v1 = Thrown.ok () v2 ∧
          vector.single_insertion fresh_alloc 4 k3 x3 v2 = Thrown.ok () v3 ∧
          vector.single_insertion fresh_alloc 4 k4 x4 v3 = Thrown.ok () v4 ∧
          v4.size = 4 ∧ v4.capacity = 4) :=
  C21_capacity_growth fresh_alloc 4 (vec_1_2_3.begin + 1) (Ref.object 10) vec_1_2_3
    (by decide) (by decide) (fun _ => ⟨_, rfl⟩)

/-- C33, what the code does: the destructor and `_reallocate` hand the old
buffer to `deallocate` with the byte count `size() * sizeof(T)` of the
elements in it, not with the `capacity() * sizeof(T)` it was allocated with,
and make no call of `deallocate` at all when the vector holds no element.
For every vector, the destructor adds to the record of allocator calls the
one call `deallocate(_start, size() * sizeof(T))` when `_start != _finish`
and nothing otherwise; and a call `_reallocate(n)` with `n > capacity()` that
returns has added `allocate(n * sizeof(T))`, answered with the new `_start`,
followed by the same one call or nothing. -/
theorem C33_deallocate_passes_size {T : Type} [type_traits T] (alloc : Alloc T)
    (elem_bytes n : Nat) (v v1 : vector T) (hn : v.capacity < n)
    (h : vector._reallocate alloc elem_bytes n v = Thrown.ok () v1) :
    (vector.destructor alloc elem_bytes v).calls =
      v.calls ++ (if v._start ≠ v._finish then
        [AllocCall.deallocate v._start (wrap (v.size * elem_bytes))] else []) ∧
    v1.calls =
      v.calls ++ AllocCall.allocate (wrap (n * elem_bytes)) v1._start ::
        (if v._start ≠ v._finish then
          [AllocCall.deallocate v._start (wrap (v.size * elem_bytes))] else []) ∧
    v1.capacity = n := by
  refine ⟨?_, ?_⟩
  · unfold vector.destructor vector._destroy_and_deallocate vector.size
    split <;> simp
  · unfold vector._reallocate at h
    rw [if_neg (by omega)] at h
    unfold vector.allocate at h
    cases ha : alloc.allocate (allocate_calls v.calls) (wrap (n * elem_bytes)) with
    | none => simp [ha] at h
    | some p =>
      simp only [ha, Thrown.ok.injEq, true_and] at h
      subst h
      unfold vector._destroy_and_deallocate vector.capacity vector.size
      split <;> simp

/-- C33 on the test of main.cpp: the vector `[1, 10, 3]` left by
`erase(begin() + 2)` sits in the buffer that `allocate(16)` answered with slot
3000, and its destructor gives that buffer back with `deallocate(3000, 12)`;
after `clear()` the destructor makes no call and the buffer is never given
back; and `reserve(10)` on `[1, 10, 3]` gives it back with 12 bytes as well. -/
theorem C33_deallocate_passes_size_witness :
    vec_1_10_3.capacity = 4 ∧ vec_1_10_3.size = 3 ∧
    (vector.destructor fresh_alloc 4 vec_1_10_3).calls =
      [AllocCall.allocate 4 1000, AllocCall.allocate 8 2000, AllocCall.deallocate 1000 4,
        AllocCall.allocate 16 3000, AllocCall.deallocate 2000 8,
        AllocCall.deallocate 3000 12] ∧
    (vector.destructor fresh_alloc 4 (vector.clear vec_1_10_3)).calls =
      [AllocCall.allocate 4 1000, AllocCall.allocate 8 2000, AllocCall.deallocate 1000 4,
        AllocCall.allocate 16 3000, AllocCall.deallocate 2000 8] ∧
    (vector.reserve fresh_alloc 4 10 vec_1_10_3).after.calls =
      [AllocCall.allocate 4 1000, AllocCall.allocate 8 2000, AllocCall.deallocate 1000 4,
        AllocCall.allocate 16 3000, AllocCall.deallocate 2000 8,
        AllocCall.allocate 40 4000, AllocCall.deallocate 3000 12] ∧
    ((vector.destructor fresh_alloc 4 vec_1_10_3).calls =
      vec_1_10_3.calls ++ (if vec_1_10_3._start ≠ vec_1_10_3._finish then
        [AllocCall.deallocate vec_1_10_3._start (wrap (vec_1_10_3.size * 4))] else []) ∧
    (vector._reallocate fresh_alloc 4 10 vec_1_10_3).after.calls =
      vec_1_10_3.calls ++ AllocCall.allocate (wrap (10 * 4))
          (vector._reallocate fresh_alloc 4 10 vec_1_10_3).after._start ::
        (if vec_1_10_3._start ≠ vec_1_10_3._finish then
          [AllocCall.deallocate vec_1_10_3._start (wrap (vec_1_10_3.size * 4))] else []) ∧
    (vector._reallocate fresh_alloc 4 10 vec_1_10_3).after.capacity = 10) :=
  ⟨by decide, by decide, by decide, by decide, by decide,
    C33_deallocate_passes_size fresh_alloc 4 10 vec_1_10_3
      (vector._reallocate fresh_alloc 4 10 vec_1_10_3).after (by decide) (by rfl)⟩

end lzstl
